import Mathlib

/-!
# Taylor UUCP `uucico`: greeting line framer and handshake

A shallow embedding of the greeting-phase code of `uucico.c`
(`fsend_uucp_cmd`, `zget_uucp_cmd`, `fdo_call`, `fconn_call`,
`faccept_call`) together with theorems about it.

Conventions of the embedding.

* A character is a `Nat`; a C string is the `List Nat` of its characters
  before the terminating NUL.
* A heap buffer is a `List (Option Nat)`; `none` is a byte that was never
  written.  The null pointer is the empty buffer.
* `breceive_char` and `isysdep_time` belong to the environment.  The
  successive results of `breceive_char` are a `List Int` (a byte `0..255`,
  `-1` for a timeout, `-2` for an error; an exhausted list reads as a
  timeout), the successive readings of the clock are a function
  `Nat → Int` of the number of readings made so far.
-/

namespace Uucico

/-! ## Characters and C library functions -/

/-- The DLE character, written `'\020'` in the source. -/
def DLE : Nat := 0x10

/-- Carriage return, `'\r'`. -/
def CR : Nat := 13

/-- Line feed, `'\n'`. -/
def LF : Nat := 10

/-- The `isprint` of `<ctype.h>` in the "C" locale (the program never
changes the locale): the characters from space to tilde. -/
def isprint (c : Nat) : Bool := decide (0x20 ≤ c) && decide (c ≤ 0x7e)

/-- The `isspace` of `<ctype.h>` in the "C" locale: space, `\t`, `\n`,
`\v`, `\f`, `\r`. -/
def isspace (c : Nat) : Bool := decide (c = 0x20) || (decide (9 ≤ c) && decide (c ≤ 13))

/-- Modelled from the spec: the macro `BUCHAR` of `uucp.h` (a header that
is not part of the sources at hand), which reads a character as an
unsigned byte. -/
def BUCHAR (b : Nat) : Nat := b &&& 0xff

/-- The characters of a string literal. -/
def chars (s : String) : List Nat := s.toList.map Char.toNat

/-- What `strlen` and friends see of a character array: the characters
before the first NUL. -/
def strz (z : List Nat) : List Nat := z.takeWhile (fun c => c != 0)

/-- The C string held in a buffer: the bytes before the first NUL.  Reading
an unwritten byte, or running off the end of the buffer, has no defined
result. -/
def cstr : List (Option Nat) → Option (List Nat)
  | [] => none
  | none :: _ => none
  | some c :: rest => if c = 0 then some [] else (cstr rest).map (fun z => c :: z)

/-- A fresh buffer of `n` bytes, as returned by `zbufalc`. -/
def zbufalc (n : Nat) : List (Option Nat) := List.replicate n none

/-- The library `memcpy (dst, src, n)`: defined only when both buffers hold
at least `n` bytes. -/
def memcpy (dst src : List (Option Nat)) (n : Nat) : Option (List (Option Nat)) :=
  if n ≤ src.length ∧ n ≤ dst.length then some (src.take n ++ dst.drop n) else none

/-- What `zbufcpy (z)` leaves in the buffer `zfreed` that was given to
`ubuffree` just before it.  The two functions belong to `lib/buffer.c`, which
is not part of the sources at hand: a freed buffer is kept on a list, bytes
and all, and `zbufalc` hands out the buffer freed last, so that the string
and its NUL are copied over the first bytes of that buffer.  A buffer that
is too small is enlarged with `xrealloc`, which may move it; a pointer into
the old buffer then points nowhere, and there is no result. -/
def zbufcpy_reuse (zfreed : List (Option Nat)) (z : List Nat) : Option (List (Option Nat)) :=
  memcpy zfreed ((z ++ [0]).map some) (z.length + 1)

/-! ## The type `int` -/

/-- The number of bits of an `int`. -/
def INT_BITS : Nat := 32

/-- The constant `INT_MAX`. -/
def INT_MAX : Int := 2 ^ (INT_BITS - 1) - 1

/-- The constant `INT_MIN`. -/
def INT_MIN : Int := -(2 ^ (INT_BITS - 1))

/-- A mathematical integer as the `int` with the same low bits; this is
what the result of a signed operation that overflows is taken to be, and
what a conversion to `int` gives. -/
def to_int (i : Int) : Int :=
  let m : Int := 2 ^ INT_BITS
  let r := i % m
  if r ≥ 2 ^ (INT_BITS - 1) then r - m else r

/-- The bits of an `int`, as a number below `2 ^ INT_BITS`. -/
def int_bits (i : Int) : Nat := (i % 2 ^ INT_BITS).toNat

/-! ## The line framer -/

/-- The bytes `fsend_uucp_cmd (qconn, z)` hands to `fconn_write`:
`cwrite = strlen (z) + 2` bytes, a DLE followed by the string and its
terminating NUL. -/
def fsend_uucp_cmd_bytes (z : List Nat) : List Nat := DLE :: (strz z ++ [0])

/-- The constant `CTIMEOUT`, in seconds. -/
def CTIMEOUT : Int := 120

/-- The constant `CSHORTTIMEOUT`, in seconds. -/
def CSHORTTIMEOUT : Int := 10

/-- The constant `CINCREMENT`, in bytes. -/
def CINCREMENT : Nat := 100

/-- The largest `size_t`.  `cgot = -1` stores this value; the width is that
of a 32 bit machine, and nothing below depends on it beyond `0 < SIZE_MAX`. -/
def SIZE_MAX : Nat := 2 ^ 32 - 1

/-- The local variables `zalc`, `calc` (here `calc_`) and `cgot` of
`zget_uucp_cmd`.  Both counters are `size_t`, hence never negative. -/
structure Framer where
  zalc : List (Option Nat)
  calc_ : Nat
  cgot : Nat
deriving DecidableEq, Repr

/-- How one pass through the body of the `while` loop ends. -/
inductive Step where
  | cont (st : Framer)
  | ret (zalc : List (Option Nat))
  | memfault
deriving DecidableEq, Repr

/-- The parity stripping at the head of the loop body:
`if (! isprint (BUCHAR (b))) b &= 0x7f;`. -/
def strip_parity (b : Nat) : Nat := if !isprint (BUCHAR b) then b &&& 0x7f else b

/-- The block `if (cgot >= calc) { ... }`: grow the buffer by `CINCREMENT`
and copy the `cgot` bytes collected so far. -/
def zget_grow (st : Framer) : Option Framer :=
  if st.cgot ≥ st.calc_ then
    let calc1 := st.calc_ + CINCREMENT
    match memcpy (zbufalc calc1) st.zalc st.cgot with
    | none => none
    | some znew => some { st with zalc := znew, calc_ := calc1 }
  else some st

/-- The loop body of `zget_uucp_cmd` after parity stripping, for a
character `b` (already known not to be negative). -/
def zget_body (st : Framer) (b : Nat) : Step :=
  if st.cgot < 0 then
    if b ≠ DLE then Step.cont st else Step.cont { st with cgot := 0 }
  else if b = DLE then Step.cont { st with cgot := 0 }
  else
    let b := if b = CR ∨ b = LF then 0 else b
    match zget_grow st with
    | none => Step.memfault
    | some st1 =>
      if st1.cgot < st1.zalc.length then
        let zalc := st1.zalc.set st1.cgot (some b)
        if b = 0 then Step.ret zalc
        else Step.cont { st1 with zalc := zalc, cgot := st1.cgot + 1 }
      else Step.memfault

/-- One pass through the loop body for a received byte. -/
def zget_step (st : Framer) (b : Nat) : Step := zget_body st (strip_parity b)

/-- What `zget_uucp_cmd` returns: a buffer, the null pointer (`timedout`
tells a timeout from an I/O error), or no defined result because a library
call was used outside its contract. -/
inductive GetResult where
  | line (zalc : List (Option Nat))
  | null (timedout : Bool)
  | memfault
deriving DecidableEq, Repr

/-- The outcome of a call of `zget_uucp_cmd`: its result, the number of
clock readings made when it returns, the input it has not read, and the
timeouts it passed to `breceive_char`, oldest first. -/
structure GetOut where
  res : GetResult
  ticks : Nat
  rest : List Int
  waits : List Int
deriving DecidableEq, Repr

/-- Record one more call of `breceive_char` in front of an outcome. -/
def GetOut.waited (w : Int) (r : GetOut) : GetOut := { r with waits := w :: r.waits }

/-- The `while` loop of `zget_uucp_cmd`. -/
def zget_loop (clock : Nat → Int) (iendtime : Int) : List Int → Nat → Framer → GetOut
  | [], tick, _ =>
    if iendtime - clock tick > 0 then
      ⟨GetResult.null true, tick + 1, [], [iendtime - clock tick]⟩
    else ⟨GetResult.null true, tick + 1, [], []⟩
  | b :: rest, tick, st =>
    if iendtime - clock tick > 0 then
      if b < 0 then
        ⟨GetResult.null (decide (b = -1)), tick + 1, rest, [iendtime - clock tick]⟩
      else
        match zget_step st b.toNat with
        | Step.cont st1 =>
          (zget_loop clock iendtime rest (tick + 1) st1).waited (iendtime - clock tick)
        | Step.ret zalc => ⟨GetResult.line zalc, tick + 1, rest, [iendtime - clock tick]⟩
        | Step.memfault => ⟨GetResult.memfault, tick + 1, rest, [iendtime - clock tick]⟩
    else ⟨GetResult.null true, tick + 1, b :: rest, []⟩

/-- The function `zget_uucp_cmd (qconn, frequired)`, started when `tick`
clock readings have been made. -/
def zget_uucp_cmd (clock : Nat → Int) (tick : Nat) (frequired : Bool) (input : List Int) :
    GetOut :=
  let iendtime := clock tick + (if frequired then CTIMEOUT else CSHORTTIMEOUT)
  zget_loop clock iendtime input (tick + 1) ⟨[], 0, SIZE_MAX⟩

/-- The string a caller of `zget_uucp_cmd` reads from the returned pointer,
if there is one. -/
def GetOut.zstr (r : GetOut) : Option (List Nat) :=
  match r.res with
  | GetResult.line zalc => cstr zalc
  | _ => none

/-- A byte stream as the successive results of `breceive_char`. -/
def recv (bytes : List Nat) : List Int := bytes.map Int.ofNat


/-- Record several calls of `breceive_char` in front of an outcome. -/
def GetOut.waitedAll (ws : List Int) (r : GetOut) : GetOut := { r with waits := ws ++ r.waits }

/-- The buffer is as large as `calc` says and `cgot` lies within it. -/
def Framer.ok (st : Framer) : Prop := st.zalc.length = st.calc_ ∧ st.cgot ≤ st.calc_

/-- A character that is stored in the line: none of DLE, NUL, CR, LF. -/
def plain (c : Nat) : Prop := c ≠ DLE ∧ c ≠ 0 ∧ c ≠ CR ∧ c ≠ LF

instance (c : Nat) : Decidable (plain c) := by unfold plain; infer_instance

/-- A character that closes the line: NUL, CR or LF. -/
def closing (c : Nat) : Prop := c = 0 ∨ c = CR ∨ c = LF

instance (c : Nat) : Decidable (closing c) := by unfold closing; infer_instance

/-! ## C strings -/

/-- The character `z[i]` of a C string, for `i` up to its length (the
terminating NUL is at `i = strlen z`). -/
def cidx (z : List Nat) (i : Nat) : Nat := z.getD i 0

/-- The library `strcmp`; only the sign of a non-zero result means
anything. -/
def strcmp : List Nat → List Nat → Int
  | [], [] => 0
  | [], _ :: _ => -1
  | _ :: _, [] => 1
  | a :: as, b :: bs => if a = b then strcmp as bs else if a < b then -1 else 1

/-- The library `strncmp (a, b, n)`. -/
def strncmp : List Nat → List Nat → Nat → Int
  | _, _, 0 => 0
  | [], [], _ + 1 => 0
  | [], _ :: _, _ + 1 => -1
  | _ :: _, [], _ + 1 => 1
  | a :: as, b :: bs, n + 1 => if a = b then strncmp as bs n else if a < b then -1 else 1

/-- The library `strchr (z, c)`: the index of the first `c` in `z`, the
terminator counting as part of the string. -/
def strchr (z : List Nat) (c : Nat) : Option Nat :=
  if c = 0 then some z.length else if c ∈ z then some (z.indexOf c) else none

/-- Whether `strstr (hay, needle)` finds the needle. -/
def strstr_found : List Nat → List Nat → Bool
  | [], needle => needle.isEmpty
  | h :: hay, needle => needle.isPrefixOf (h :: hay) || strstr_found hay needle

/-- The decimal digits `printf` writes for a non-negative `%ld`. -/
def decimal (n : Nat) : List Nat := (Nat.toDigits 10 n).map Char.toNat

/-! ## Configuration and status records -/

/-- The outcome of a `uuconf` lookup: `UUCONF_SUCCESS` with a value,
`UUCONF_NOT_FOUND`, or any other code. -/
inductive Lookup (α : Type) where
  | success (a : α)
  | not_found
  | error
deriving DecidableEq, Repr

/-- The `enum tstatus_type` of a call status. -/
inductive tstatus_type where
  | STATUS_COMPLETE
  | STATUS_PORT_FAILED
  | STATUS_DIAL_FAILED
  | STATUS_LOGIN_FAILED
  | STATUS_HANDSHAKE_FAILED
  | STATUS_FAILED
  | STATUS_TALKING
  | STATUS_WRONG_TIME
deriving DecidableEq, Repr

/-- The `struct sstatus`. -/
structure sstatus where
  ttype : tstatus_type := tstatus_type.STATUS_COMPLETE
  cretries : Int := 0
  ilast : Int := 0
  cwait : Int := 0
deriving DecidableEq, Repr

/-- Modelled from the spec: the reliability flag `specified`, the bit
`UUCONF_RELIABLE_SPECIFIED` of `uuconf.h`, a header that is not part of the
sources at hand.  The four flags are distinct bits of one mask. -/
def UUCONF_RELIABLE_SPECIFIED : Nat := 1

/-- Modelled from the spec: the reliability flag `eight_bit`, the bit
`UUCONF_RELIABLE_EIGHT` of `uuconf.h`. -/
def UUCONF_RELIABLE_EIGHT : Nat := 2

/-- Modelled from the spec: the reliability flag `reliable`, the bit
`UUCONF_RELIABLE_RELIABLE` of `uuconf.h`. -/
def UUCONF_RELIABLE_RELIABLE : Nat := 4

/-- Modelled from the spec: the reliability flag `end_to_end`, the bit
`UUCONF_RELIABLE_ENDTOEND` of `uuconf.h`. -/
def UUCONF_RELIABLE_ENDTOEND : Nat := 8

/-- The macro `TCP_PROTO`. -/
def TCP_PROTO : Nat :=
  UUCONF_RELIABLE_ENDTOEND ||| UUCONF_RELIABLE_RELIABLE ||| UUCONF_RELIABLE_EIGHT

/-- The fields of `struct sprotocol` the handshake reads: the protocol
character, the reliability it needs, and whether it has a parameter command
table. -/
structure sprotocol where
  bname : Nat
  ireliable : Nat
  qcmds : Bool := true
deriving DecidableEq, Repr

/-- The table `asProtocols`. -/
def asProtocols : List sprotocol :=
  [ { bname := 't'.toNat, ireliable := TCP_PROTO },
    { bname := 'e'.toNat, ireliable := TCP_PROTO },
    { bname := 'g'.toNat, ireliable := UUCONF_RELIABLE_EIGHT },
    { bname := 'f'.toNat, ireliable := UUCONF_RELIABLE_RELIABLE } ]

/-- The macro `CPROTOCOLS`. -/
def CPROTOCOLS : Nat := asProtocols.length

/-- The fields of `struct uuconf_dialer` the handshake reads. -/
structure uuconf_dialer where
  uuconf_zname : List Nat := []
  uuconf_ireliable : Nat := 0
  uuconf_qproto_params : Bool := false
deriving DecidableEq, Repr

/-- The port types of `uuconf.h`. -/
inductive uuconf_porttype where
  | UUCONF_PORTTYPE_UNKNOWN
  | UUCONF_PORTTYPE_STDIN
  | UUCONF_PORTTYPE_MODEM
  | UUCONF_PORTTYPE_DIRECT
  | UUCONF_PORTTYPE_TCP
  | UUCONF_PORTTYPE_TLI
deriving DecidableEq, Repr

/-- The fields of `struct uuconf_port` the handshake reads.  For a modem
port, `uuconf_pzdialer` is the list of dialer names and `uuconf_qdialer` the
dialer given in place. -/
structure uuconf_port where
  uuconf_zname : List Nat := []
  uuconf_ttype : uuconf_porttype := uuconf_porttype.UUCONF_PORTTYPE_UNKNOWN
  uuconf_zprotocols : Option (List Nat) := none
  uuconf_ireliable : Nat := 0
  uuconf_qproto_params : Bool := false
  uuconf_pzdialer : Option (List (List Nat)) := none
  uuconf_qdialer : Option uuconf_dialer := none
deriving DecidableEq, Repr

/-- The fields of one `struct uuconf_system` (one alternate) the handshake
reads.  The chain `uuconf_qalternate` is modelled by keeping the alternates
of a system in a list, in order. -/
structure uuconf_system where
  uuconf_zname : List Nat := []
  uuconf_pzalias : Option (List (List Nat)) := none
  uuconf_zalternate : Option (List Nat) := none
  uuconf_fcall : Bool := true
  uuconf_fcalled : Bool := true
  uuconf_zcalled_login : Option (List Nat) := none
  uuconf_fcallback : Bool := false
  uuconf_fsequence : Bool := false
  uuconf_zprotocols : Option (List Nat) := none
  uuconf_qproto_params : Bool := false
  uuconf_zlocalname : Option (List Nat) := none
  uuconf_qport : Option uuconf_port := none
  /-- Whether `uuconf_qtimegrade` is set, that is, not `NULL`. -/
  uuconf_qtimegrade : Bool := true
  uuconf_zdebug : Option (List Nat) := none
  uuconf_zmax_remote_debug : Option (List Nat) := none
deriving DecidableEq, Repr

/-! ## The environment and the observable trace -/

/-- What a call does that can be observed from outside. -/
inductive Event where
  /-- A call of `fconn_write` with these bytes, and whether it succeeded. -/
  | write (bytes : List Nat) (ok : Bool)
  /-- A call of `fsysdep_set_status` for the named system. -/
  | set_status (zname : List Nat) (s : sstatus)
  /-- A call of `ulog` with this format, at a level other than debugging. -/
  | ulog (fmt : String)
  /-- A call of `fsysdep_lock_system` and its result. -/
  | lock_system (zname : List Nat) (ok : Bool)
  /-- A call of `zsysdep_spool_commands` with a grade and a number of commands. -/
  | spool_commands (zname : List Nat) (bgrade : Nat) (ccmds : Nat)
  /-- A call of `fconn_lock` on a port and its result. -/
  | conn_lock (zname : List Nat) (ok : Bool)
  /-- A call of `fconn_unlock`. -/
  | conn_unlock
  /-- A call of `fconn_open` and its result. -/
  | conn_open (ok : Bool)
  /-- A call of `fconn_dial` and its result. -/
  | conn_dial (ok : Bool)
  /-- A call of `fconn_close`, with the success flag passed to it. -/
  | conn_close (fsuccess : Bool)
  /-- The selected protocol was started through its `pfstart` hook. -/
  | proto_start (bname : Nat) (fmaster : Bool) (ok : Bool)
  /-- A call of `floop` and its result. -/
  | floop (ok : Bool)
  /-- A call of `fsysdep_unlock_system`. -/
  | unlock_system (zname : List Nat)
  /-- A call of `usysdep_detach`. -/
  | detach
  /-- A call of `fsysdep_run` for `uuxqt`, with the system given after `-s`, and its result. -/
  | uuxqt (zsystem : Option (List Nat)) (ok : Bool)
deriving DecidableEq, Repr

/-- The functions the handshake calls but does not define: the system
dependent layer, the `uuconf` library, the chat script and the transfer
loop.  Each field is what the function of that name answers; a function
called repeatedly is indexed by the number of earlier calls. -/
structure Env where
  /-- The answer of `isysdep_time`, by the number of readings made before. -/
  clock : Nat → Int := fun _ => 0
  /-- The answer of `fconn_write`, by the number of writes made before. -/
  fconn_write : Nat → Bool := fun _ => true
  /-- The answer of `fsysdep_set_status`, by the number of status writes made before. -/
  fsysdep_set_status : Nat → Bool := fun _ => true
  /-- The answer of `fchat` for the login chat of a call out. -/
  fchat : Bool := true
  /-- The answer of `fchat` for the called chat of a call in. -/
  fchat_called : Bool := true
  /-- The answer of `ftimespan_match` on the call-timegrade spans: the value stored in
  `ival` when a span matches now. -/
  ftimespan_match_calltimegrade : Option Int := none
  /-- The answer of `uuconf_localname`. -/
  uuconf_localname : Lookup (List Nat) := Lookup.not_found
  /-- The answer of `zsysdep_localname`. -/
  zsysdep_localname : Option (List Nat) := none
  /-- The answer of `isysdep_get_sequence`. -/
  isysdep_get_sequence : Int := 0
  /-- The `pfstart` hook of the protocol with this character. -/
  pfstart : Nat → Bool := fun _ => true
  /-- The answer of `floop`. -/
  floop : Bool := true
  /-- Whether the program was built with `DEBUG > 1` and runs with
  `DEBUG_HANDSHAKE` switched on. -/
  fdebug_handshake : Bool := false
  /-- The macro `CRETRY_WAIT` of `policy.h`, a header that is not part of the
  sources at hand: the wait in seconds after a number of failed calls. -/
  CRETRY_WAIT : Int → Int := fun c => to_int (c * 10 * 60)
  /-- The answer of `fconn_init` on a port. -/
  fconn_init : uuconf_port → Bool := fun _ => true
  /-- The answer of `fconn_lock` on a port. -/
  fconn_lock : uuconf_port → Bool := fun _ => true
  /-- The ports of the configuration that `uuconf_find_port` finds matching,
  in order. -/
  matching_ports : List uuconf_port := []
  /-- Whether `uuconf_find_port` ends with an error code of its own instead
  of `UUCONF_NOT_FOUND`. -/
  find_port_error : Bool := false
  /-- The answer of `fconn_open`. -/
  fconn_open : Bool := true
  /-- The answer of `fconn_dial`: `none` when dialing fails, else the dialer found, if any. -/
  fconn_dial : Option (Option uuconf_dialer) := some none
  /-- The answer of `zsysdep_port_name`: the name, and the flag it stores in `ftcp_port`. -/
  zsysdep_port_name : Option (List Nat) × Bool := (none, false)
  /-- The answer of `uuconf_find_port` by name, without a callback. -/
  uuconf_find_port_named : List Nat → Lookup uuconf_port := fun _ => Lookup.not_found
  /-- The answer of `uuconf_dialer_info`. -/
  uuconf_dialer_info : List Nat → Lookup uuconf_dialer := fun _ => Lookup.not_found
  /-- The answer of `uuconf_login_localname`. -/
  uuconf_login_localname : List Nat → Lookup (List Nat) := fun _ => Lookup.not_found
  /-- The answer of `uuconf_system_info`: the alternates of the named system, in order. -/
  uuconf_system_info : List Nat → Lookup (List uuconf_system) := fun _ => Lookup.not_found
  /-- The answer of `funknown_system`: the alternates to use for an unknown system, if
  unknown systems are admitted. -/
  funknown_system : List Nat → Option (List uuconf_system) := fun _ => none
  /-- What the local variable `ssys` holds when nothing has been stored in it. -/
  ssys_uninitialized : List uuconf_system := []
  /-- The answer of `uuconf_validate`. -/
  uuconf_validate : uuconf_system → List Nat → Lookup Unit := fun _ _ => Lookup.not_found
  /-- The answer of `fsysdep_lock_system`. -/
  fsysdep_lock_system : List Nat → Bool := fun _ => true
  /-- The value read from a buffer byte that was never written. -/
  junk : Nat := 0
  /-- The answer of `fsysdep_get_status` for the named system: the stored status, or nothing
  when the call fails. -/
  fsysdep_get_status : List Nat → Option sstatus := fun _ => some {}
  /-- The answer of `FGOT_SIGNAL ()` in the loop of `fcall`, by the number of alternates
  looked at before. -/
  FGOT_SIGNAL : Nat → Bool := fun _ => false
  /-- The answer of `ftimespan_match` on the time grades of an alternate: the value stored
  in `cretry` when a span matches now. -/
  ftimespan_match_timegrade : uuconf_system → Option Int := fun _ => some 0
  /-- The answer of `fqueue` for an alternate: nothing when it fails, else the value stored
  in `fany`. -/
  fqueue : uuconf_system → Option Bool := fun _ => some true
  /-- The answers of `rand ()`, by the number of calls made before. -/
  rand : Nat → Nat := fun _ => 0
  /-- The answer of `fsysdep_run` when `main` starts `uuxqt`. -/
  fsysdep_run : Bool := true
  /-- Whether `afSignal[INDEXSIG_SIGTERM]` is set when `main` gets to starting `uuxqt`. -/
  SIGTERM : Bool := false
  /-- The macro `DEBUG` of `policy.h`, a header that is not part of the sources at hand:
  the code between `#if DEBUG > 1` and `#endif` is compiled when it is 2 or more. -/
  DEBUG : Nat := 2
  /-- The answer of `idebug_parse`, a function of `lib/debug.c` that is not part of the
  sources at hand: the bits of the debugging types a string names. -/
  idebug_parse : List Nat → Nat := fun _ => 0
  /-- What the call `zbufcpy (z)` leaves in the buffer given to `ubuffree` just before it
  (nothing when a pointer into that buffer is left pointing nowhere); the two functions
  belong to `lib/buffer.c`, which is not part of the sources at hand, and the default is
  what a list of freed buffers that hands out the one freed last makes of it. -/
  zbufcpy_freed : List (Option Nat) → List Nat → Option (List (Option Nat)) := zbufcpy_reuse

/-- The state of the outside world during a call: the results
`breceive_char` has yet to deliver, the number of clock readings, writes and
status writes made, the trace of events so far, and whether the program has
left defined behaviour. -/
structure World where
  input : List Int := []
  ticks : Nat := 0
  nwrite : Nat := 0
  nstat : Nat := 0
  trace : List Event := []
  undefined : Bool := false
deriving DecidableEq, Repr

/-- A call of `ulog` at a level other than debugging. -/
def World.ulog (w : World) (fmt : String) : World :=
  { w with trace := w.trace ++ [Event.ulog fmt] }

/-- Append an event to the trace. -/
def World.emit (w : World) (e : Event) : World := { w with trace := w.trace ++ [e] }

/-- A call of `isysdep_time`. -/
def World.isysdep_time (env : Env) (w : World) : Int × World :=
  (env.clock w.ticks, { w with ticks := w.ticks + 1 })

/-- The function `fsend_uucp_cmd (qconn, z)`: one `fconn_write` of the
framed string, whose result it returns. -/
def World.fsend_uucp_cmd (env : Env) (w : World) (z : List Nat) : Bool × World :=
  (env.fconn_write w.nwrite,
    { w with nwrite := w.nwrite + 1,
             trace := w.trace ++ [Event.write (fsend_uucp_cmd_bytes z) (env.fconn_write w.nwrite)] })

/-- A call of `fsysdep_set_status (qsys, qstat)`. -/
def World.fsysdep_set_status (env : Env) (w : World) (qsys : uuconf_system) (s : sstatus) :
    Bool × World :=
  (env.fsysdep_set_status w.nstat,
    { w with nstat := w.nstat + 1,
             trace := w.trace ++ [Event.set_status qsys.uuconf_zname s] })

/-- What a caller of `zget_uucp_cmd` gets: the buffer with the string in
it, the null pointer, or nothing defined. -/
inductive Got where
  | line (zalc : List (Option Nat)) (zstr : List Nat)
  | null
  | undefined
deriving DecidableEq, Repr

/-- A call of `zget_uucp_cmd (qconn, frequired)` on the connection,
including the `Timeout` message it logs. -/
def World.zget_uucp_cmd (env : Env) (w : World) (frequired : Bool) : Got × World :=
  let r := Uucico.zget_uucp_cmd env.clock w.ticks frequired w.input
  let w1 : World := { w with input := r.rest, ticks := r.ticks }
  match r.res with
  | GetResult.line zalc =>
    match cstr zalc with
    | some z => (Got.line zalc z, w1)
    | none => (Got.undefined, { w1 with undefined := true })
  | GetResult.null timedout =>
    (Got.null, if timedout && frequired then w1.ulog "Timeout" else w1)
  | GetResult.memfault => (Got.undefined, { w1 with undefined := true })

/-- The byte `zalc[i]` of a buffer returned by `zget_uucp_cmd`; a byte that
was never written reads as whatever the environment left there. -/
def buf_byte (env : Env) (zalc : List (Option Nat)) (i : Nat) : Nat :=
  match zalc.getD i none with
  | some c => c
  | none => env.junk

/-! ## The caller: `fdo_call` and `fconn_call` -/

/-- What `fdo_call` reads and writes through its pointer arguments: the
status record `*qstat`, `*pterr`, `*pfcalled`, the fields of `*qdaemon` it
sets, and the outside world.  `faulted` is set when `zget_uucp_cmd` has left
defined behaviour while reading a line of the handshake: the program does
not go on from there, and neither does `fconn_call`. -/
structure CallSt where
  qstat : sstatus := {}
  pterr : tstatus_type := tstatus_type.STATUS_LOGIN_FAILED
  pfcalled : Bool := false
  zlocalname : Option (List Nat) := none
  fnew : Bool := false
  qproto : Option sprotocol := none
  w : World := {}
  faulted : Bool := false
deriving DecidableEq, Repr

/-- The loop over `qsys->uuconf_pzalias` in `fdo_call`: the value of `icmp`
when the loop is left. -/
def fdo_call_alias_loop (zheresys : List Nat) (clen : Nat) : List (List Nat) → Int → Int
  | [], icmp => icmp
  | pz :: rest, _ =>
    let icmp := if clen = 7 then strncmp zheresys pz 7 else strcmp zheresys pz
    if icmp = 0 then icmp else fdo_call_alias_loop zheresys clen rest icmp

/-- The block of `fdo_call` under `if (zstr[5] == '=')`: the final value of
`icmp` for the name `zheresys = zstr + 6`.  The call goes on exactly when it
is 0. -/
def fdo_call_icmp (qsys : uuconf_system) (zheresys : List Nat) : Int :=
  let clen := zheresys.length
  let icmp :=
    if clen = 7 then strncmp zheresys qsys.uuconf_zname 7
    else strcmp zheresys qsys.uuconf_zname
  if icmp ≠ 0 then
    match qsys.uuconf_pzalias with
    | some pz => fdo_call_alias_loop zheresys clen pz icmp
    | none => icmp
  else icmp

/-- The string `fdo_call` builds with `sprintf` to introduce itself. -/
def fdo_call_zsend (zlocalname : List Nat) (fsequence : Bool) (iseq : Int) (bgrade : Nat) :
    List Nat :=
  if !fsequence then
    if bgrade = 0 then chars "S" ++ zlocalname ++ chars " -N"
    else
      chars "S" ++ zlocalname ++ chars " -p" ++ [bgrade] ++ chars " -vgrade=" ++ [bgrade]
        ++ chars " -N"
  else
    if bgrade = 0 then chars "S" ++ zlocalname ++ chars " -Q" ++ decimal iseq.toNat ++ chars " -N"
    else
      chars "S" ++ zlocalname ++ chars " -Q" ++ decimal iseq.toNat ++ chars " -p" ++ [bgrade]
        ++ chars " -vgrade=" ++ [bgrade] ++ chars " -N"

/-- The search `for (i = 0; i < CPROTOCOLS; i++) if (asProtocols[i].bname
== c) break;`, giving `asProtocols[i]` when `i < CPROTOCOLS`. -/
def find_protocol (c : Nat) : Option sprotocol := asProtocols.find? (fun p => p.bname == c)

/-- The loop of `fdo_call` over an explicit protocol list `zproto`, against
the advertised characters `zstr + 1`. -/
def fdo_call_choose_listed (zadvertised : List Nat) : List Nat → Option sprotocol
  | [] => none
  | c :: zproto =>
    if (strchr zadvertised c).isSome then
      match find_protocol c with
      | some p => some p
      | none => fdo_call_choose_listed zadvertised zproto
    else fdo_call_choose_listed zadvertised zproto

/-- The reliability `ir` both sides work out from the port and the dialer
when no protocol list is configured. -/
def handshake_ir (qport : Option uuconf_port) (qdialer : Option uuconf_dialer) : Nat :=
  let ir0 : Nat :=
    match qport with
    | some p =>
      if p.uuconf_ireliable &&& UUCONF_RELIABLE_SPECIFIED ≠ 0 then p.uuconf_ireliable else 0
    | none => 0
  let ir1 : Nat :=
    match qdialer with
    | some d =>
      if d.uuconf_ireliable &&& UUCONF_RELIABLE_SPECIFIED ≠ 0 then
        if ir0 ≠ 0 then ir0 &&& d.uuconf_ireliable else d.uuconf_ireliable
      else ir0
    | none => ir0
  if ir1 = 0 then
    UUCONF_RELIABLE_RELIABLE ||| UUCONF_RELIABLE_EIGHT ||| UUCONF_RELIABLE_SPECIFIED
  else ir1

/-- The loop of `fdo_call` over the built-in protocols when no list is
configured. -/
def fdo_call_choose_builtin (ir : Nat) (zadvertised : List Nat) : List sprotocol → Option sprotocol
  | [] => none
  | p :: rest =>
    if p.ireliable &&& ir ≠ p.ireliable then fdo_call_choose_builtin ir zadvertised rest
    else if (strchr zadvertised p.bname).isSome then some p
    else fdo_call_choose_builtin ir zadvertised rest

/-- The protocol `fdo_call` decides on for the advertisement `zstr + 1`, if
any (`i < CPROTOCOLS`). -/
def fdo_call_choose (qsys : uuconf_system) (qport : Option uuconf_port)
    (qdialer : Option uuconf_dialer) (zadvertised : List Nat) : Option sprotocol :=
  match qsys.uuconf_zprotocols with
  | some zproto => fdo_call_choose_listed zadvertised zproto
  | none =>
    match qport.bind (fun p => p.uuconf_zprotocols) with
    | some zproto => fdo_call_choose_listed zadvertised zproto
    | none => fdo_call_choose_builtin (handshake_ir qport qdialer) zadvertised asProtocols

/-- The end of `fdo_call`: the transfer loop, the hangup strings and the
final status. -/
def fdo_call_hangup (env : Env) (qsys : uuconf_system) (st : CallSt) : Bool × CallSt :=
  let fret := env.floop
  let w0 := st.w.emit (Event.floop fret)
  let s1 := w0.fsend_uucp_cmd env (chars "OOOOOO")
  let s2 := if s1.1 then s1.2.fsend_uucp_cmd env (chars "OOOOOO") else (false, s1.2)
  let w3 :=
    if s1.1 && s2.1 && fret && env.fdebug_handshake then (s2.2.zget_uucp_cmd env false).2
    else s2.2
  let t := w3.isysdep_time env
  let w4 := t.2.ulog "Call complete (%ld seconds)"
  if fret then
    let qstat : sstatus :=
      { st.qstat with ttype := tstatus_type.STATUS_COMPLETE, ilast := t.1 }
    (fret, { st with pterr := tstatus_type.STATUS_FAILED, qstat := qstat,
                     w := (w4.fsysdep_set_status env qsys qstat).2 })
  else (fret, { st with pterr := tstatus_type.STATUS_FAILED, w := w4 })

/-- The part of `fdo_call` that starts the selected protocol `p`.  The
protocol parameter commands change only the tunables of the protocol, which
are not part of the state. -/
def fdo_call_start (env : Env) (qsys : uuconf_system) (p : sprotocol) (st : CallSt) :
    Bool × CallSt :=
  let ok := env.pfstart p.bname
  let w1 := st.w.emit (Event.proto_start p.bname true ok)
  if !ok then (false, { st with w := w1 })
  else fdo_call_hangup env qsys { st with w := w1.ulog "Handshake successful" }

/-- The part of `fdo_call` that reads the `P` line, decides on a protocol
and sends the `U` line. -/
def fdo_call_protocol (env : Env) (qsys : uuconf_system) (qport : Option uuconf_port)
    (qdialer : Option uuconf_dialer) (st : CallSt) : Bool × CallSt :=
  let g := st.w.zget_uucp_cmd env true
  match g.1 with
  | Got.null => (false, { st with w := g.2 })
  | Got.undefined => (false, { st with w := g.2, faulted := true })
  | Got.line _ zstr =>
    if cidx zstr 0 ≠ 'P'.toNat then
      (false, { st with w := g.2.ulog "Bad protocol handshake (%s)" })
    else
      match fdo_call_choose qsys qport qdialer (zstr.drop 1) with
      | none =>
        let s := g.2.fsend_uucp_cmd env (chars "UN")
        (false, { st with w := s.2.ulog "No mutually supported protocols" })
      | some p =>
        let s := g.2.fsend_uucp_cmd env ['U'.toNat, p.bname]
        if !s.1 then (false, { st with qproto := some p, w := s.2 })
        else fdo_call_start env qsys p { st with qproto := some p, w := s.2 }

/-- The part of `fdo_call` that reads the answer to the `S` line. -/
def fdo_call_response (env : Env) (qsys : uuconf_system) (qport : Option uuconf_port)
    (qdialer : Option uuconf_dialer) (st : CallSt) : Bool × CallSt :=
  let g := st.w.zget_uucp_cmd env true
  match g.1 with
  | Got.null => (false, { st with w := g.2 })
  | Got.undefined => (false, { st with w := g.2, faulted := true })
  | Got.line _ zstr =>
    if cidx zstr 0 ≠ 'R'.toNat then
      (false, { st with w := g.2.ulog "Bad reponse to handshake string (%s)" })
    else if strcmp (zstr.drop 1) (chars "OKN") = 0 then
      fdo_call_protocol env qsys qport qdialer { st with fnew := true, w := g.2 }
    else if strcmp (zstr.drop 1) (chars "OK") = 0 then
      fdo_call_protocol env qsys qport qdialer { st with fnew := false, w := g.2 }
    else if strcmp (zstr.drop 1) (chars "CB") = 0 then
      let w1 := g.2.ulog "Remote system will call back"
      let qstat : sstatus := { st.qstat with ttype := tstatus_type.STATUS_COMPLETE }
      (true, { st with qstat := qstat, w := (w1.fsysdep_set_status env qsys qstat).2 })
    else (false, { st with w := g.2.ulog "Handshake failed (%s)" })

/-- The grade `bgrade` that `fdo_call` asks of the other system: `'\0'`
when `ftimespan_match` finds no call-timegrade span, else `(char) ival`. -/
def fdo_call_bgrade (env : Env) : Nat :=
  match env.ftimespan_match_calltimegrade with
  | none => 0
  | some ival => (ival % 256).toNat

/-- The name `fdo_call` stores in `qdaemon->zlocalname`: that of the system
entry, else that of `uuconf_localname`, else that of `zsysdep_localname`. -/
def fdo_call_localname (env : Env) (qsys : uuconf_system) : Lookup (List Nat) :=
  match qsys.uuconf_zlocalname with
  | some z => Lookup.success z
  | none =>
    match env.uuconf_localname with
    | Lookup.success z => Lookup.success z
    | Lookup.not_found =>
      match env.zsysdep_localname with
      | some z => Lookup.success z
      | none => Lookup.not_found
    | Lookup.error => Lookup.error

/-- The part of `fdo_call` that works out the grade, the local name and the
sequence number and sends the `S` line. -/
def fdo_call_ident (env : Env) (qsys : uuconf_system) (qport : Option uuconf_port)
    (qdialer : Option uuconf_dialer) (st : CallSt) : Bool × CallSt :=
  match fdo_call_localname env qsys with
  | Lookup.not_found => (false, st)
  | Lookup.error => (false, { st with w := st.w.ulog "ulog_uuconf" })
  | Lookup.success zlocalname =>
    let st1 := { st with zlocalname := some zlocalname }
    let iseq := env.isysdep_get_sequence
    if qsys.uuconf_fsequence && decide (iseq < 0) then (false, st1)
    else
      let s := st1.w.fsend_uucp_cmd env
        (fdo_call_zsend zlocalname qsys.uuconf_fsequence iseq (fdo_call_bgrade env))
      if !s.1 then (false, { st1 with w := s.2 })
      else fdo_call_response env qsys qport qdialer { st1 with w := s.2 }

/-- The part of `fdo_call` that reads and checks the `Shere` line. -/
def fdo_call_shere (env : Env) (qsys : uuconf_system) (qport : Option uuconf_port)
    (qdialer : Option uuconf_dialer) (st : CallSt) : Bool × CallSt :=
  let g := st.w.zget_uucp_cmd env true
  match g.1 with
  | Got.null => (false, { st with w := g.2 })
  | Got.undefined => (false, { st with w := g.2, faulted := true })
  | Got.line _ zstr =>
    if strncmp zstr (chars "Shere") 5 ≠ 0 then
      (false, { st with w := g.2.ulog "Bad initialization string" })
    else if cidx zstr 5 = '='.toNat then
      if fdo_call_icmp qsys (zstr.drop 6) ≠ 0 then
        (false, { st with w := g.2.ulog "Called wrong system (%s)" })
      else fdo_call_ident env qsys qport qdialer { st with w := g.2 }
    else fdo_call_ident env qsys qport qdialer { st with w := g.2 }

/-- The function `fdo_call (qdaemon, qstat, qdialer, pfcalled, pterr)`, for
the system `qsys = qdaemon->qsys` on a connection whose port is `qport`.
It returns its result and what it has stored through its arguments. -/
def fdo_call (env : Env) (qsys : uuconf_system) (qport : Option uuconf_port)
    (qdialer : Option uuconf_dialer) (st : CallSt) : Bool × CallSt :=
  let st0 := { st with pterr := tstatus_type.STATUS_LOGIN_FAILED }
  if !env.fchat then (false, st0)
  else
    let t := st0.w.isysdep_time env
    let qstat : sstatus :=
      { ttype := tstatus_type.STATUS_TALKING, ilast := t.1, cretries := 0, cwait := 0 }
    let s := t.2.fsysdep_set_status env qsys qstat
    if !s.1 then (false, { st0 with qstat := qstat, w := s.2 })
    else
      let w1 := s.2.ulog "Login successful"
      let t2 := w1.isysdep_time env
      fdo_call_shere env qsys qport qdialer
        { st0 with qstat := qstat, pfcalled := true,
                   pterr := tstatus_type.STATUS_HANDSHAKE_FAILED, w := t2.2 }

/-- The callback `iuport_lock` that `uuconf_find_port` runs on a matching
port: whether it answers `UUCONF_SUCCESS`. -/
def iuport_lock (env : Env) (qport : uuconf_port) (w : World) : Bool × World :=
  if !env.fconn_init qport then (false, w)
  else if !env.fconn_lock qport then (false, w.emit (Event.conn_lock qport.uuconf_zname false))
  else (true, w.emit (Event.conn_lock qport.uuconf_zname true))

/-- Modelled from the spec: `uuconf_find_port` with the callback
`iuport_lock`, a library function that is not part of the sources at hand.
It walks the matching ports in order; a port the callback refuses makes the
walk go on to the next match. -/
def uuconf_find_port_walk (env : Env) : List uuconf_port → World → Option uuconf_port × World
  | [], w => (none, w)
  | p :: rest, w =>
    let r := iuport_lock env p w
    if r.1 then (some p, r.2) else uuconf_find_port_walk env rest r.2

/-- The state in which `fconn_call` calls `fdo_call`, once the port is
open and the system dialed: `*pfcalled` is `FALSE` and nothing else is set. -/
def fconn_call_dialed (qsys : uuconf_system) (qstat : sstatus) (w : World) : CallSt :=
  { qstat := qstat,
    w := (((w.emit (Event.conn_open true)).ulog
        (if qsys.uuconf_zalternate.isNone then "Calling system %s (port %s)"
         else "Calling system %s (alternate %s, port %s)")).emit (Event.conn_dial true)) }

/-- The second half of `fconn_call`, once the port `qport` of the
connection is locked: open, dial, call, close, and the status update after
a failure.  The counter `qstat->cretries` and the wait `qstat->cwait` are
`int`, like `cretry`.  When `fdo_call` has left defined behaviour nothing
more is done. -/
def fconn_call_open (env : Env) (qsys : uuconf_system) (qport : uuconf_port) (qstat : sstatus)
    (cretry : Int) (w : World) : Bool × CallSt :=
  let r : Bool × CallSt :=
    if !env.fconn_open then
      (false, { qstat := qstat, pterr := tstatus_type.STATUS_PORT_FAILED,
                w := w.emit (Event.conn_open false) })
    else
      let r1 : Bool × CallSt :=
        match env.fconn_dial with
        | none =>
          (false, { qstat := qstat, pterr := tstatus_type.STATUS_DIAL_FAILED,
                    w := ((w.emit (Event.conn_open true)).ulog
                      (if qsys.uuconf_zalternate.isNone then "Calling system %s (port %s)"
                       else "Calling system %s (alternate %s, port %s)")).emit
                        (Event.conn_dial false) })
        | some qdialer =>
          fdo_call env qsys (some qport) qdialer (fconn_call_dialed qsys qstat w)
      if r1.2.faulted then r1
      else (r1.1, { r1.2 with w := r1.2.w.emit (Event.conn_close r1.1) })
  if r.2.faulted then r
  else
    let r2 : Bool × CallSt :=
      if !r.1 then
        let t := r.2.w.isysdep_time env
        let cretries := to_int (r.2.qstat.cretries + 1)
        let qstat1 : sstatus :=
          { ttype := r.2.pterr, cretries := cretries, ilast := t.1,
            cwait := if cretry = 0 then env.CRETRY_WAIT cretries else to_int (cretry * 60) }
        (r.1, { r.2 with qstat := qstat1, w := (t.2.fsysdep_set_status env qsys qstat1).2 })
      else r
    (r2.1, { r2.2 with w := r2.2.w.emit Event.conn_unlock })

/-- The function `fconn_call (qdaemon, qport, qstat, cretry, pfcalled)` for
the system `qsys = qdaemon->qsys`. -/
def fconn_call (env : Env) (qsys : uuconf_system) (qport : Option uuconf_port) (qstat : sstatus)
    (cretry : Int) (w : World) : Bool × CallSt :=
  let qport0 : Option uuconf_port :=
    match qport with
    | some p => some p
    | none => qsys.uuconf_qport
  match qport0 with
  | some p =>
    if !env.fconn_init p then (false, { qstat := qstat, w := w })
    else if !env.fconn_lock p then
      (false, { qstat := qstat,
                w := (w.emit (Event.conn_lock p.uuconf_zname false)).ulog
                  "%s: Port already locked" })
    else fconn_call_open env qsys p qstat cretry (w.emit (Event.conn_lock p.uuconf_zname true))
  | none =>
    let r := uuconf_find_port_walk env env.matching_ports w
    match r.1 with
    | some p => fconn_call_open env qsys p qstat cretry r.2
    | none =>
      if env.find_port_error then (false, { qstat := qstat, w := r.2.ulog "ulog_uuconf" })
      else if env.matching_ports.isEmpty then
        (false, { qstat := qstat, w := r.2.ulog "No matching ports" })
      else (false, { qstat := qstat, w := r.2.ulog "All matching ports in use" })

/-! ## Notions taken from the specification -/

/-- The name comparison as the specification words it: a received name `r`
matches a candidate `c` when `r` has exactly seven characters and they are
the first seven of `c`, or when `r` has another length and equals `c`. -/
def spec_name_matches (r c : List Nat) : Prop :=
  (r.length = 7 ∧ c.take 7 = r) ∨ (r.length ≠ 7 ∧ r = c)

instance (r c : List Nat) : Decidable (spec_name_matches r c) := by
  unfold spec_name_matches; infer_instance

/-- The candidates a received name is compared with: the name of the system
and its aliases. -/
def spec_name_candidates (qsys : uuconf_system) : List (List Nat) :=
  qsys.uuconf_zname :: qsys.uuconf_pzalias.getD []

/-- The world after a call of `zget_uucp_cmd` that logs nothing: the input
and the clock have moved on by what the framer has read. -/
def World.after_get (env : Env) (w : World) (frequired : Bool) : World :=
  { w with input := (Uucico.zget_uucp_cmd env.clock w.ticks frequired w.input).rest,
           ticks := (Uucico.zget_uucp_cmd env.clock w.ticks frequired w.input).ticks }

/-- Whether an event is a call of `fconn_write`. -/
def Event.is_write : Event → Bool
  | Event.write _ _ => true
  | _ => false

/-- The caller's identity line as the specification words it: `S`, the
local name, ` -Q` and the sequence number when sequence numbers are in use,
` -p` and ` -vgrade=` with the grade when a call-time grade is in force, and
` -N` last. -/
def spec_identity_line (L : List Nat) (fsequence : Bool) (q : Nat) (g : Option Nat) : List Nat :=
  chars "S" ++ L ++ (if fsequence then chars " -Q" ++ decimal q else []) ++
    (match g with
     | some c => chars " -p" ++ [c] ++ chars " -vgrade=" ++ [c]
     | none => []) ++
    chars " -N"

/-- The state in which `fdo_call` starts reading the `Shere` line, when the
login chat and the first status write have succeeded. -/
def fdo_call_talking (env : Env) (st : CallSt) (qsys : uuconf_system) : CallSt :=
  { st with
    pterr := tstatus_type.STATUS_HANDSHAKE_FAILED
    pfcalled := true
    qstat := { ttype := tstatus_type.STATUS_TALKING, ilast := env.clock st.w.ticks,
               cretries := 0, cwait := 0 }
    w := { st.w with
           ticks := st.w.ticks + 2
           nstat := st.w.nstat + 1
           trace := st.w.trace ++
             [Event.set_status qsys.uuconf_zname
                { ttype := tstatus_type.STATUS_TALKING, ilast := env.clock st.w.ticks,
                  cretries := 0, cwait := 0 },
              Event.ulog "Login successful"] } }

/-! ## The answerer: `faccept_call` -/

/-- The number of bits of a `long`. -/
def LONG_BITS : Nat := 32

/-- The constant `LONG_MAX`. -/
def LONG_MAX : Int := 2 ^ (LONG_BITS - 1) - 1

/-- The constant `LONG_MIN`. -/
def LONG_MIN : Int := -(2 ^ (LONG_BITS - 1))

/-- A mathematical integer as the `long` with the same low bits; this is
what the result of a signed operation that overflows is taken to be. -/
def to_long (i : Int) : Int :=
  let m : Int := 2 ^ LONG_BITS
  let r := i % m
  if r ≥ 2 ^ (LONG_BITS - 1) then r - m else r

/-- The value of a character as a digit, if it is a digit or a letter. -/
def digit_value (c : Nat) : Option Nat :=
  if '0'.toNat ≤ c ∧ c ≤ '9'.toNat then some (c - '0'.toNat)
  else if 'a'.toNat ≤ c ∧ c ≤ 'z'.toNat then some (c - 'a'.toNat + 10)
  else if 'A'.toNat ≤ c ∧ c ≤ 'Z'.toNat then some (c - 'A'.toNat + 10)
  else none

/-- The digits in `base` at the head of a string, as a number. -/
def strtol_digits (base : Nat) : List Nat → Nat → Nat
  | [], acc => acc
  | c :: z, acc =>
    match digit_value c with
    | some d => if d < base then strtol_digits base z (acc * base + d) else acc
    | none => acc

/-- The number `strtol` reads after the white space and the sign: for base
0 an optional `0x` or `0` prefix selects base 16 or 8, then come the digits. -/
def strtol_magnitude (z2 : List Nat) (base : Nat) : Nat :=
  let hex := decide (base = 0) && decide (z2.head? = some '0'.toNat) &&
    (decide ((z2.drop 1).head? = some 'x'.toNat) || decide ((z2.drop 1).head? = some 'X'.toNat))
  if hex then strtol_digits 16 (z2.drop 2) 0
  else if base = 0 ∧ z2.head? = some '0'.toNat then strtol_digits 8 z2 0
  else strtol_digits 10 z2 0

/-- The library `strtol (z, NULL, base)` for `base` 0 or 10: leading white
space, an optional sign, then the number; a value out of range becomes
`LONG_MAX` or `LONG_MIN`. -/
def strtol (z : List Nat) (base : Nat) : Int :=
  let z1 := z.dropWhile (fun c => isspace (BUCHAR c))
  let neg := decide (z1.head? = some '-'.toNat)
  let z2 := if z1.head? = some '-'.toNat ∨ z1.head? = some '+'.toNat then z1.drop 1 else z1
  let n : Nat := strtol_magnitude z2 base
  if neg then max LONG_MIN (-(n : Int)) else min LONG_MAX (n : Int)

/-- Modelled from the spec: the macro `UUCONF_GRADE_LEGAL` of `uuconf.h`, a
header that is not part of the sources at hand; a grade is legal when it is
one of `0-9`, `A-Z`, `a-z`. -/
def UUCONF_GRADE_LEGAL (b : Nat) : Bool :=
  (decide ('0'.toNat ≤ b) && decide (b ≤ '9'.toNat)) ||
  (decide ('A'.toNat ≤ b) && decide (b ≤ 'Z'.toNat)) ||
  (decide ('a'.toNat ≤ b) && decide (b ≤ 'z'.toNat))

/-- Modelled from the spec: the macro `UUCONF_GRADE_LOW` of `uuconf.h`, the
lowest grade in the order `0 < ... < 9 < A < ... < Z < a < ... < z`. -/
def UUCONF_GRADE_LOW : Nat := 'z'.toNat

/-- Modelled from the spec: the macro `UUCONF_GRADE_HIGH` of `uuconf.h`, the
highest grade. -/
def UUCONF_GRADE_HIGH : Nat := '0'.toNat

/-- What `faccept_call` keeps in its local variables and in `sdaem`, the
bits of the global `iDebug`, and the outside world. -/
structure AcceptSt where
  zlocalname : Option (List Nat) := none
  qsys : Option uuconf_system := none
  pzsystem : Option (List Nat) := none
  qproto : Option sprotocol := none
  fnew : Bool := false
  bgrade : Nat := UUCONF_GRADE_LOW
  cmax_receive : Int := -1
  frestart : Bool := false
  sstat : sstatus := {}
  w : World := {}
  iDebug : Nat := 0
deriving DecidableEq, Repr

/-- The pointer `zspace` of `faccept_call` when it is not null: the buffer
`zstr` of the caller's line, as it stands once `*zspace = '\0'` has cut the
line at its first space, and the index `i` of that space. -/
structure LinePtr where
  zstr : List (Option Nat) := []
  i : Nat := 0
deriving DecidableEq, Repr

/-- What stands at `zspace + 1` when the option loop of `faccept_call`
reads it.  By then `faccept_call` has called `ubuffree (zstr)` and `*pzsystem
= zbufcpy (qsys->uuconf_zname)`, for a call with `pzsystem` not null as
`main` makes it, so the loop reads the buffer the line was in as those two
calls have left it.  There is no defined result when the pointer is left
pointing nowhere or the bytes up to a NUL are not all written. -/
def faccept_call_zspace (env : Env) (qsys : uuconf_system) (zspace : LinePtr) :
    Option (List Nat) :=
  match env.zbufcpy_freed zspace.zstr qsys.uuconf_zname with
  | none => none
  | some zstr => cstr (zstr.drop (zspace.i + 1))

/-- The ever repeated failure exit of `faccept_call` once the status file
is in use: `sstat.ttype = STATUS_FAILED`, write the status, return
`FALSE`. -/
def AcceptSt.fail (env : Env) (qsys : uuconf_system) (st : AcceptSt) : Bool × AcceptSt :=
  let sstat : sstatus := { st.sstat with ttype := tstatus_type.STATUS_FAILED }
  (false, { st with sstat := sstat, w := (st.w.fsysdep_set_status env qsys sstat).2 })

/-- The same exit where the source also refreshes `sstat.ilast`. -/
def AcceptSt.fail_now (env : Env) (qsys : uuconf_system) (st : AcceptSt) : Bool × AcceptSt :=
  let t := st.w.isysdep_time env
  let sstat : sstatus := { st.sstat with ttype := tstatus_type.STATUS_FAILED, ilast := t.1 }
  (false, { st with sstat := sstat, w := (t.2.fsysdep_set_status env qsys sstat).2 })

/-- The loop of `faccept_call` over the alternates of the calling system:
the alternate at which the loop breaks (`qsys`, `none` when it runs off the
end) and the final `qany`. -/
def faccept_call_alternates (zlogin : List Nat) :
    List uuconf_system → Option uuconf_system → Option uuconf_system × Option uuconf_system
  | [], qany => (none, qany)
  | q :: rest, qany =>
    if !q.uuconf_fcalled then faccept_call_alternates zlogin rest qany
    else if q.uuconf_zcalled_login = none ∨
        strcmp (q.uuconf_zcalled_login.getD []) (chars "ANY") = 0 then
      faccept_call_alternates zlogin rest (if qany ≠ none then some q else qany)
    else if strcmp (q.uuconf_zcalled_login.getD []) zlogin = 0 then (some q, qany)
    else faccept_call_alternates zlogin rest qany

/-- How the `switch` on one argument of the caller ends. -/
inductive ArgResult where
  | next (frecognized : Bool) (st : AcceptSt)
  | rejected (st : AcceptSt)
deriving DecidableEq, Repr

/-- The value of `iwant` in the block of `case 'x'` when the test on
`iDebug` is reached, for the number `iarg` read after `-x`: its bits. -/
def faccept_call_iwant (env : Env) (qsys : uuconf_system) (iarg : Int) (fnew : Bool) : Nat :=
  let iwant : Nat := if !fnew then 2 ^ iarg.toNat - 1 else int_bits iarg
  match qsys.uuconf_zmax_remote_debug with
  | some z => iwant &&& env.idebug_parse z
  | none => iwant

/-- The block of `case 'x'` in the option loop of `faccept_call`, compiled
when `DEBUG > 1`, for the number `iarg` that `strtol (zspace + 2, NULL, 10)`
reads.  The shift `1 << iwant` has a defined value only for `iwant` from 0
to 30. -/
def faccept_call_debug (env : Env) (qsys : uuconf_system) (iarg : Int) (st : AcceptSt) :
    AcceptSt :=
  if env.DEBUG ≤ 1 then st
  else if !st.fnew && (decide (to_int iarg < 0) || decide (to_int iarg > 30)) then
    { st with w := { st.w with undefined := true } }
  else if st.iDebug ||| faccept_call_iwant env qsys (to_int iarg) st.fnew ≠ st.iDebug then
    { st with iDebug := st.iDebug ||| faccept_call_iwant env qsys (to_int iarg) st.fnew,
              w := st.w.ulog "Setting debugging mode to 0%o" }
  else st

/-- The treatment of the argument that starts at `zspace` in the option
loop of `faccept_call`. -/
def faccept_call_arg (env : Env) (qsys : uuconf_system) (zspace : List Nat) (st : AcceptSt) :
    ArgResult :=
  if cidx zspace 0 = '-'.toNat then
    if cidx zspace 1 = 'x'.toNat then
      ArgResult.next true (faccept_call_debug env qsys (strtol (zspace.drop 2) 10) st)
    else if cidx zspace 1 = 'Q'.toNat then
      if !qsys.uuconf_fsequence then ArgResult.next true st
      else if strtol (zspace.drop 2) 10 ≠ env.isysdep_get_sequence then
        let s := st.w.fsend_uucp_cmd env (chars "RBADSEQ")
        let r := AcceptSt.fail env qsys { st with w := s.2.ulog "Out of sequence call rejected" }
        ArgResult.rejected r.2
      else ArgResult.next true st
    else if cidx zspace 1 = 'p'.toNat then
      if UUCONF_GRADE_LEGAL (cidx zspace 2) then
        ArgResult.next true { st with bgrade := cidx zspace 2 }
      else ArgResult.next true st
    else if cidx zspace 1 = 'v'.toNat then
      if strncmp (zspace.drop 1) (chars "vgrade=") 7 = 0 then
        if UUCONF_GRADE_LEGAL (cidx zspace 8) then
          ArgResult.next true { st with bgrade := cidx zspace 8 }
        else ArgResult.next true st
      else ArgResult.next false st
    else if cidx zspace 1 = 'N'.toNat then ArgResult.next true { st with fnew := true }
    else if cidx zspace 1 = 'U'.toNat then
      if strtol (zspace.drop 2) 0 > 0 then
        ArgResult.next true { st with cmax_receive := to_long (strtol (zspace.drop 2) 0 * 512) }
      else ArgResult.next true st
    else if cidx zspace 1 = 'R'.toNat then ArgResult.next true { st with frestart := true }
    else ArgResult.next false st
  else ArgResult.next false st

/-- The loop `while (*zspace != '\0')` of `faccept_call` over the arguments
of the caller.  `fuel` bounds the number of passes; the result is `none`
only when it is used up.  Otherwise it is whether the call goes on, with the
state reached. -/
def faccept_call_args (env : Env) (qsys : uuconf_system) :
    Nat → List Nat → AcceptSt → Option (Bool × AcceptSt)
  | 0, _, _ => none
  | fuel + 1, zspace, st =>
    if zspace = [] then some (true, st)
    else
      match faccept_call_arg env qsys zspace st with
      | ArgResult.rejected st1 => some (false, st1)
      | ArgResult.next frecognized st1 =>
        let znext := zspace.dropWhile (fun c => !isspace (BUCHAR c))
        let st2 :=
          if !frecognized then { st1 with w := st1.w.ulog "Unrecognized argument %s" } else st1
        faccept_call_args env qsys fuel (znext.dropWhile (fun c => isspace (BUCHAR c))) st2

/-- The line of protocols `faccept_call` sends after `ROK`. -/
def faccept_call_zsend (qsys : uuconf_system) (qport : Option uuconf_port)
    (qdialer : Option uuconf_dialer) (ftcp_port : Bool) : List Nat :=
  match qsys.uuconf_zprotocols with
  | some zprotos => chars "P" ++ zprotos
  | none =>
    match qport.bind (fun p => p.uuconf_zprotocols) with
    | some zprotos => chars "P" ++ zprotos
    | none =>
      let ir : Nat :=
        if ftcp_port then
          UUCONF_RELIABLE_SPECIFIED ||| UUCONF_RELIABLE_ENDTOEND ||| UUCONF_RELIABLE_RELIABLE
            ||| UUCONF_RELIABLE_EIGHT
        else handshake_ir qport qdialer
      'P'.toNat ::
        (asProtocols.filter (fun p => p.ireliable &&& ir == p.ireliable)).map (fun p => p.bname)

/-- The end of `faccept_call`: the transfer loop, the hangup strings and
the final status. -/
def faccept_call_hangup (env : Env) (qsys : uuconf_system) (st : AcceptSt) : Bool × AcceptSt :=
  let fret := env.floop
  let w0 := st.w.emit (Event.floop fret)
  let s1 := w0.fsend_uucp_cmd env (chars "OOOOOOO")
  let s2 := if s1.1 then s1.2.fsend_uucp_cmd env (chars "OOOOOOO") else (false, s1.2)
  let w3 :=
    if s1.1 && s2.1 && fret && env.fdebug_handshake then (s2.2.zget_uucp_cmd env false).2
    else s2.2
  let t := w3.isysdep_time env
  let w4 := t.2.ulog "Call complete (%ld seconds)"
  let sstat : sstatus :=
    { st.sstat with
      ttype := if fret then tstatus_type.STATUS_COMPLETE else tstatus_type.STATUS_FAILED,
      ilast := t.1 }
  (fret, { st with sstat := sstat, w := (w4.fsysdep_set_status env qsys sstat).2 })

/-- The part of `faccept_call` after the protocol is known: the called
chat, the protocol parameters (tunables of the protocol, not part of the
state) and the start of the protocol. -/
def faccept_call_start (env : Env) (qsys : uuconf_system) (p : sprotocol) (st : AcceptSt) :
    Bool × AcceptSt :=
  if !env.fchat_called then AcceptSt.fail_now env qsys st
  else
    let ok := env.pfstart p.bname
    let w1 := st.w.emit (Event.proto_start p.bname false ok)
    if !ok then AcceptSt.fail_now env qsys { st with w := w1 }
    else
      faccept_call_hangup env qsys
        { st with w := w1.ulog (if st.bgrade = UUCONF_GRADE_LOW then "Handshake successful"
                                else "Handshake successful (grade %c)") }

/-- The part of `faccept_call` after the `ROK` or `ROKN` reply: it sends
the protocol list and reads the choice of the caller. -/
def faccept_call_advertise (env : Env) (qsys : uuconf_system) (qport : Option uuconf_port)
    (qdialer : Option uuconf_dialer) (ftcp_port : Bool) (st : AcceptSt) : Bool × AcceptSt :=
  let s1 := st.w.fsend_uucp_cmd env (faccept_call_zsend qsys qport qdialer ftcp_port)
  if !s1.1 then AcceptSt.fail env qsys { st with w := s1.2 }
  else
    let g := s1.2.zget_uucp_cmd env true
    match g.1 with
    | Got.null => AcceptSt.fail env qsys { st with w := g.2 }
    | Got.undefined => (false, { st with w := g.2 })
    | Got.line zalc _ =>
      if buf_byte env zalc 0 ≠ 'U'.toNat ∨ buf_byte env zalc 2 ≠ 0 then
        AcceptSt.fail env qsys { st with w := g.2.ulog "Bad protocol response string" }
      else if buf_byte env zalc 1 = 'N'.toNat then
        AcceptSt.fail env qsys { st with w := g.2.ulog "No supported protocol" }
      else
        match find_protocol (buf_byte env zalc 1) with
        | none => AcceptSt.fail env qsys { st with w := g.2.ulog "No supported protocol" }
        | some p => faccept_call_start env qsys p { st with qproto := some p, w := g.2 }

/-- The part of `faccept_call` that answers `ROK` or `ROKN` once the
arguments of the caller are accepted. -/
def faccept_call_protocol (env : Env) (qsys : uuconf_system) (qport : Option uuconf_port)
    (qdialer : Option uuconf_dialer) (ftcp_port : Bool) (st : AcceptSt) : Bool × AcceptSt :=
  let s := st.w.fsend_uucp_cmd env (if st.fnew then chars "ROKN" else chars "ROK")
  if !s.1 then AcceptSt.fail env qsys { st with w := s.2 }
  else faccept_call_advertise env qsys qport qdialer ftcp_port { st with w := s.2 }

/-- The part of `faccept_call` that checks the arguments of the caller,
from `if (zspace == NULL)` on; `zspace` is what stands after the place of the
first space of the caller's line when the loop reads it, if the line had a
space. -/
def faccept_call_options (env : Env) (qsys : uuconf_system) (qport : Option uuconf_port)
    (qdialer : Option uuconf_dialer) (ftcp_port : Bool) (zspace : Option (List Nat))
    (st : AcceptSt) : Bool × AcceptSt :=
  match zspace with
  | none =>
    if qsys.uuconf_fsequence then
      let s := st.w.fsend_uucp_cmd env (chars "RBADSEQ")
      AcceptSt.fail env qsys { st with w := s.2.ulog "No sequence number (call rejected)" }
    else faccept_call_protocol env qsys qport qdialer ftcp_port st
  | some z =>
    let z1 := z.dropWhile (fun c => isspace (BUCHAR c))
    match faccept_call_args env qsys (z1.length + 1) z1 st with
    | none => (false, { st with w := { st.w with undefined := true } })
    | some (false, st2) => (false, st2)
    | some (true, st2) => faccept_call_protocol env qsys qport qdialer ftcp_port st2

/-- The part of `faccept_call` from `ubuffree (zstr)` on, for the selected
alternate `qsys`: the copy of the name of the system, the debugging types
of the system (compiled when `DEBUG > 1`), the call-back reply, the lock,
the first status and the arguments of the caller, which are read through
`zspace` from the buffer that was freed. -/
def faccept_call_known (env : Env) (qsys : uuconf_system) (qport : Option uuconf_port)
    (qdialer : Option uuconf_dialer) (ftcp_port : Bool) (zspace : Option LinePtr)
    (st : AcceptSt) : Bool × AcceptSt :=
  let st0 :=
    { st with qsys := some qsys, pzsystem := some qsys.uuconf_zname,
              iDebug :=
                match qsys.uuconf_zdebug with
                | some z => if env.DEBUG ≤ 1 then st.iDebug else st.iDebug ||| env.idebug_parse z
                | none => st.iDebug }
  if qsys.uuconf_fcallback then
    let s := st0.w.fsend_uucp_cmd env (chars "RCB")
    let w1 := s.2.ulog "Will call back"
    (true, { st0 with w := w1.emit (Event.spool_commands qsys.uuconf_zname UUCONF_GRADE_HIGH 0) })
  else if !env.fsysdep_lock_system qsys.uuconf_zname then
    let w1 := st0.w.emit (Event.lock_system qsys.uuconf_zname false)
    let s := w1.fsend_uucp_cmd env (chars "RLCK")
    (false, { st0 with w := s.2.ulog "System already locked" })
  else
    let w1 := st0.w.emit (Event.lock_system qsys.uuconf_zname true)
    let t := w1.isysdep_time env
    let sstat : sstatus :=
      { ttype := tstatus_type.STATUS_TALKING, cretries := 0, ilast := t.1, cwait := 0 }
    let st1 := { st0 with sstat := sstat, frestart := false,
                          w := (t.2.fsysdep_set_status env qsys sstat).2 }
    match zspace with
    | none => faccept_call_options env qsys qport qdialer ftcp_port none st1
    | some p =>
      match faccept_call_zspace env qsys p with
      | none => (false, { st1 with w := { st1.w with undefined := true } })
      | some z => faccept_call_options env qsys qport qdialer ftcp_port (some z) st1

/-- The part of `faccept_call` that picks the alternate by login name, from
`qany = NULL` on; `ssys` holds the alternates of the calling system. -/
def faccept_call_login (env : Env) (zlogin : List Nat) (qport : Option uuconf_port)
    (qdialer : Option uuconf_dialer) (ftcp_port : Bool) (zspace : Option LinePtr)
    (ssys : List uuconf_system) (st : AcceptSt) : Bool × AcceptSt :=
  let alt := faccept_call_alternates zlogin ssys none
  let validated : Lookup (Option uuconf_system) :=
    match alt.1, alt.2 with
    | none, some qany =>
      match env.uuconf_validate qany zlogin with
      | Lookup.success _ => Lookup.success (some qany)
      | Lookup.not_found => Lookup.success none
      | Lookup.error => Lookup.error
    | qsys, _ => Lookup.success qsys
  match validated with
  | Lookup.error => (false, { st with w := st.w.ulog "ulog_uuconf" })
  | Lookup.not_found => (false, st)
  | Lookup.success none =>
    let s := st.w.fsend_uucp_cmd env (chars "RLOGIN")
    (false, { st with w := s.2.ulog "System %s used wrong login name %s" })
  | Lookup.success (some qsys) =>
    faccept_call_known env qsys qport qdialer ftcp_port zspace st

/-- The part of `faccept_call` that reads the caller's `S` line and looks
the system up. -/
def faccept_call_system (env : Env) (zlogin : List Nat) (qport : Option uuconf_port)
    (qdialer : Option uuconf_dialer) (ftcp_port : Bool) (st : AcceptSt) : Bool × AcceptSt :=
  let g := st.w.zget_uucp_cmd env true
  match g.1 with
  | Got.null => (false, { st with w := g.2 })
  | Got.undefined => (false, { st with w := g.2 })
  | Got.line zalc zstr =>
    if cidx zstr 0 ≠ 'S'.toNat then (false, { st with w := g.2.ulog "Bad introduction string" })
    else
      let zspace : Option LinePtr :=
        (strchr zstr ' '.toNat).map (fun i => { zstr := zalc.set i (some 0), i := i })
      let zname : List Nat :=
        match strchr zstr ' '.toNat with
        | some i => (zstr.take i).drop 1
        | none => zstr.drop 1
      match env.uuconf_system_info zname with
      | Lookup.success ssys =>
        faccept_call_login env zlogin qport qdialer ftcp_port zspace ssys { st with w := g.2 }
      | Lookup.not_found =>
        match env.funknown_system zname with
        | some ssys =>
          faccept_call_login env zlogin qport qdialer ftcp_port zspace ssys { st with w := g.2 }
        | none =>
          let s := g.2.fsend_uucp_cmd env (chars "RYou are unknown to me")
          let w1 := s.2.ulog "Call from unknown system %s"
          faccept_call_login env zlogin qport qdialer ftcp_port zspace env.ssys_uninitialized
            { st with w := w1 }
      | Lookup.error => (false, { st with w := g.2.ulog "ulog_uuconf" })

/-- The function `faccept_call (puuconf, zlogin, qconn, pzsystem)`, where
`conn_qport` is `qconn->qport`, for a call with `pzsystem` not null, as
`main` makes it. -/
def faccept_call (env : Env) (zlogin : List Nat) (conn_qport : Option uuconf_port) (w : World) :
    Bool × AcceptSt :=
  let w0 := w.ulog "Incoming call (login %s port %s)"
  let t := w0.isysdep_time env
  let port : Lookup (Option uuconf_port × Bool) :=
    match conn_qport with
    | some p => Lookup.success (some p, false)
    | none =>
      match env.zsysdep_port_name.1 with
      | none => Lookup.success (none, env.zsysdep_port_name.2)
      | some zport =>
        match env.uuconf_find_port_named zport with
        | Lookup.not_found => Lookup.success (none, env.zsysdep_port_name.2)
        | Lookup.error => Lookup.error
        | Lookup.success p => Lookup.success (some p, env.zsysdep_port_name.2)
  match port with
  | Lookup.error => (false, { w := t.2.ulog "ulog_uuconf" })
  | Lookup.not_found => (false, { w := t.2 })
  | Lookup.success (qport, ftcp0) =>
    let qdialer : Option uuconf_dialer :=
      match qport with
      | some p =>
        if p.uuconf_ttype = uuconf_porttype.UUCONF_PORTTYPE_MODEM then
          match p.uuconf_pzdialer with
          | some pz =>
            match env.uuconf_dialer_info (pz.headD []) with
            | Lookup.success d => some d
            | _ => none
          | none => p.uuconf_qdialer
        else none
      | none => none
    let ftcp_port : Bool :=
      match qport with
      | some p =>
        if p.uuconf_ttype = uuconf_porttype.UUCONF_PORTTYPE_MODEM then ftcp0
        else if p.uuconf_ttype = uuconf_porttype.UUCONF_PORTTYPE_TCP then true
        else ftcp0
      | none => ftcp0
    let zloc : Lookup (List Nat) :=
      match env.uuconf_login_localname zlogin with
      | Lookup.success z => Lookup.success z
      | Lookup.not_found =>
        match env.zsysdep_localname with
        | some z => Lookup.success z
        | none => Lookup.not_found
      | Lookup.error => Lookup.error
    match zloc with
    | Lookup.not_found => (false, { w := t.2 })
    | Lookup.error => (false, { w := t.2.ulog "ulog_uuconf" })
    | Lookup.success zlocalname =>
      let st : AcceptSt := { zlocalname := some zlocalname, w := t.2 }
      let s := st.w.fsend_uucp_cmd env (chars "Shere=" ++ zlocalname)
      if !s.1 then (false, { st with w := s.2 })
      else faccept_call_system env zlogin qport qdialer ftcp_port { st with w := s.2 }

/-! ## Example configurations -/

/-- The results `breceive_char` delivers when the peer sends these lines,
each framed by `fsend_uucp_cmd`. -/
def recv_lines (lines : List (List Nat)) : List Int :=
  recv (lines.map fsend_uucp_cmd_bytes).flatten

/-- An answerer named `bravo` that knows the system `foo`, which logs in as
`ufoo` and must present the sequence number 7. -/
def example_sequence_answerer : Env :=
  { zsysdep_localname := some (chars "bravo"),
    uuconf_system_info := fun n =>
      if n = chars "foo" then
        Lookup.success
          [{ uuconf_zname := chars "foo", uuconf_zcalled_login := some (chars "ufoo"),
             uuconf_fsequence := true }]
      else Lookup.not_found,
    isysdep_get_sequence := 7 }

/-! ## The options of the caller: notions used to state the properties -/

/-- The strings handed to `fconn_write` so far, in order. -/
def World.writes (w : World) : List (List Nat) :=
  w.trace.filterMap (fun e =>
    match e with
    | Event.write bytes _ => some bytes
    | _ => none)

/-- Whether an event is a call of `ulog`. -/
def Event.is_ulog : Event → Bool
  | Event.ulog _ => true
  | _ => false

/-- White space as the option loop of `faccept_call` tests it, `isspace
(BUCHAR (c))`. -/
def opt_space (c : Nat) : Bool := isspace (BUCHAR c)

/-- The tokens of an option string as the specification words them: the
pieces between white space, in order.  A character that is not white space
opens a token when it is the last character or white space follows, and
otherwise goes in front of the first token of the rest. -/
def spec_tokens : List Nat → List (List Nat)
  | [] => []
  | c :: z =>
    if opt_space c then spec_tokens z
    else if (z.head?.map opt_space).getD true then [c] :: spec_tokens z
    else
      match spec_tokens z with
      | t :: ts => (c :: t) :: ts
      | [] => [[c]]

/-- The recognised options as the specification lists them: a token that
begins with `-x`, `-Q`, `-p`, `-vgrade=`, `-N`, `-U` or `-R`. -/
def spec_recognised (t : List Nat) : Bool :=
  [chars "-x", chars "-Q", chars "-p", chars "-vgrade=", chars "-N", chars "-U",
    chars "-R"].any (fun p => p.isPrefixOf t)

/-- The grade a token asks for, as the specification words it: the
character after `-p` or after `-vgrade=` when it is one of `0-9`, `A-Z`,
`a-z`. -/
def spec_token_grade (t : List Nat) : Option Nat :=
  if (chars "-p").isPrefixOf t then
    if UUCONF_GRADE_LEGAL (cidx t 2) then some (cidx t 2) else none
  else if (chars "-vgrade=").isPrefixOf t then
    if UUCONF_GRADE_LEGAL (cidx t 8) then some (cidx t 8) else none
  else none

/-- The grade floor the specification gives for a list of tokens: the
grade of the last token that asks for a legal one, else `dflt`. -/
def spec_grade (ts : List (List Nat)) (dflt : Nat) : Nat :=
  ((ts.filterMap spec_token_grade).getLast?).getD dflt

/-- A token that is `-Q`, `-U` or `-x` with nothing after it. -/
def spec_bare_number (t : List Nat) : Prop :=
  t = chars "-Q" ∨ t = chars "-U" ∨ t = chars "-x"

instance (t : List Nat) : Decidable (spec_bare_number t) := by
  unfold spec_bare_number; infer_instance

/-- The relation `Inserted ts ts1`: the token list `ts1` is `ts` with
unrecognised tokens inserted, none of them directly after a token that is
exactly `-Q`, `-U` or `-x`. -/
inductive Inserted : List (List Nat) → List (List Nat) → Prop
  | nil : Inserted [] []
  | keep (t : List Nat) (ts ts1 : List (List Nat)) :
      Inserted ts ts1 → (spec_bare_number t → ts1.head? = ts.head?) →
      Inserted (t :: ts) (t :: ts1)
  | ins (u : List Nat) (ts ts1 : List (List Nat)) :
      spec_recognised u = false → Inserted ts ts1 → Inserted ts (u :: ts1)

/-- A world without its log messages. -/
def World.core (w : World) : World :=
  { w with trace := w.trace.filter (fun e => !e.is_ulog) }

/-- The outcome of the option parsing: whether the call goes on, and the
whole state reached but for the log messages. -/
def spec_outcome (r : Bool × AcceptSt) : Bool × AcceptSt :=
  (r.1, { r.2 with w := r.2.w.core })

/-- The alternate the specification selects by login: it is marked called
and its called login is a specific name, neither unset nor `ANY`, equal to
the login offered. -/
def spec_login_match (zlogin : List Nat) (q : uuconf_system) : Bool :=
  q.uuconf_fcalled && decide (q.uuconf_zcalled_login = some zlogin) &&
    decide (zlogin ≠ chars "ANY")

/-- An alternate the specification falls back to: it is marked called and
its called login is unset or `ANY`. -/
def spec_any_alternate (q : uuconf_system) : Bool :=
  q.uuconf_fcalled &&
    (decide (q.uuconf_zcalled_login = none) || decide (q.uuconf_zcalled_login = some (chars "ANY")))

/-! ## States reached on the way -/

/-- The text the option loop has before it at the token `t`, up to what it
looks at: the token, and for a token of two characters also the token after
it, which `strtol (zspace + 2)` reaches across the white space. -/
def arg_view (t next : List Nat) : List Nat :=
  if t.length = 2 then t ++ ' '.toNat :: next else t

/-- What an argument that is not rejected does to the session: `-p` and
`-vgrade=` with a legal grade set the grade, `-N` sets `fnew`, `-U` with a
number `n > 0` sets `cmax_receive` to the `long` product `n * 512`, `-R`
sets `frestart`. -/
def arg_effect (t : List Nat) (n : Int) (st : AcceptSt) : AcceptSt :=
  { st with
    bgrade := (spec_token_grade t).getD st.bgrade
    fnew := st.fnew || (chars "-N").isPrefixOf t
    cmax_receive :=
      if (chars "-U").isPrefixOf t = true ∧ n > 0 then to_long (n * 512) else st.cmax_receive
    frestart := st.frestart || (chars "-R").isPrefixOf t }

/-- What an argument that begins with `-x` does to the debugging types,
for the number `n` read after it. -/
def arg_debug (env : Env) (qsys : uuconf_system) (t : List Nat) (n : Int) (st : AcceptSt) :
    AcceptSt :=
  if (chars "-x").isPrefixOf t then faccept_call_debug env qsys n st else st

/-- The state in which the option loop goes on after the token `t` that
`next` follows, when it does not reject it. -/
def arg_pass (env : Env) (qsys : uuconf_system) (t next : List Nat) (st : AcceptSt) :
    AcceptSt :=
  let st1 := arg_effect t (strtol ((arg_view t next).drop 2) 0)
    (arg_debug env qsys t (strtol ((arg_view t next).drop 2) 10) st)
  if !spec_recognised t then { st1 with w := st1.w.ulog "Unrecognized argument %s" } else st1

/-- Two states of the answerer that differ at most in the log messages of
the trace. -/
def AcceptSt.same_but_log (st st1 : AcceptSt) : Prop :=
  ∃ tr, st1 = { st with w := { st.w with trace := tr } } ∧
    tr.filter (fun e => !e.is_ulog) = st.w.trace.filter (fun e => !e.is_ulog)

/-- What may follow a token in the option string: nothing, or white space. -/
def Rest (r : List Nat) : Prop := ∀ c, r.head? = some c → opt_space c = true

/-- A token: a piece of the option string that is not empty and holds no
white space. -/
def Token (t : List Nat) : Prop := t ≠ [] ∧ ∀ c ∈ t, opt_space c = false

/-- The option loop of `faccept_call` taken token by token. -/
def args_tokens (env : Env) (qsys : uuconf_system) :
    List (List Nat) → AcceptSt → Bool × AcceptSt
  | [], st => (true, st)
  | t :: ts, st =>
    match faccept_call_arg env qsys (arg_view t (ts.headD [])) st with
    | ArgResult.rejected st1 => (false, st1)
    | ArgResult.next frecognized st1 =>
      args_tokens env qsys ts
        (if !frecognized then { st1 with w := st1.w.ulog "Unrecognized argument %s" } else st1)

/-- The state in which `faccept_call` leaves the option loop at a wrong
sequence number: `RBADSEQ` sent, the rejection logged, the status written
with kind failed. -/
def faccept_call_badseq (env : Env) (qsys : uuconf_system) (st : AcceptSt) : AcceptSt :=
  let s := st.w.fsend_uucp_cmd env (chars "RBADSEQ")
  (AcceptSt.fail env qsys { st with w := s.2.ulog "Out of sequence call rejected" }).2

/-- The state in which `faccept_call` starts on the arguments of the
caller, when the system is not called back and its lock is obtained. -/
def faccept_call_talking (env : Env) (qsys : uuconf_system) (st : AcceptSt) : AcceptSt :=
  { st with
    qsys := some qsys
    pzsystem := some qsys.uuconf_zname
    iDebug :=
      match qsys.uuconf_zdebug with
      | some z => if env.DEBUG ≤ 1 then st.iDebug else st.iDebug ||| env.idebug_parse z
      | none => st.iDebug
    sstat := { ttype := tstatus_type.STATUS_TALKING, cretries := 0,
               ilast := env.clock st.w.ticks, cwait := 0 }
    frestart := false
    w := { st.w with
           ticks := st.w.ticks + 1
           nstat := st.w.nstat + 1
           trace := st.w.trace ++
             [Event.lock_system qsys.uuconf_zname true,
              Event.set_status qsys.uuconf_zname
                { ttype := tstatus_type.STATUS_TALKING, cretries := 0,
                  ilast := env.clock st.w.ticks, cwait := 0 }] } }

/-- The state in which `fdo_call` starts reading the answer to its `S`
line, when the `Shere` line was accepted and the `S` line with the local
name `L` written. -/
def fdo_call_identified (env : Env) (st : CallSt) (qsys : uuconf_system) (L : List Nat) :
    CallSt :=
  { fdo_call_talking env st qsys with
    zlocalname := some L
    w := (((fdo_call_talking env st qsys).w.after_get env true).fsend_uucp_cmd env
      (fdo_call_zsend L qsys.uuconf_fsequence env.isysdep_get_sequence
        (fdo_call_bgrade env))).2 }

/-! ## More example configurations -/

/-- An answerer named `bravo` that knows no system and admits no unknown
one; the memory of `ssys` it has not filled reads as one alternate that is
not marked called. -/
def example_unknown_answerer : Env :=
  { zsysdep_localname := some (chars "bravo"),
    ssys_uninitialized := [{ uuconf_fcalled := false }] }

/-- An answerer named `bravo` that knows the system `foo` with one
alternate, open to any login that `uuconf_validate` accepts; it accepts the
login `ufoo`. -/
def example_any_answerer : Env :=
  { zsysdep_localname := some (chars "bravo"),
    uuconf_system_info := fun n =>
      if n = chars "foo" then Lookup.success [{ uuconf_zname := chars "foo" }]
      else Lookup.not_found,
    uuconf_validate := fun _ z => if z = chars "ufoo" then Lookup.success () else Lookup.not_found }

/-- An answerer named `bravo` that knows the system `foo`, which logs in as
`ufoo` and needs no sequence number. -/
def example_plain_answerer : Env :=
  { zsysdep_localname := some (chars "bravo"),
    uuconf_system_info := fun n =>
      if n = chars "foo" then
        Lookup.success [{ uuconf_zname := chars "foo", uuconf_zcalled_login := some (chars "ufoo") }]
      else Lookup.not_found }

/-! ## The caller: `fcall` -/

/-- What the loop of `fcall` over the alternates carries from one pass to
the next: the status record `sstat`, the flags `fbadtime` and `fnevertime`,
and the outside world. -/
structure FcallSt where
  sstat : sstatus := {}
  fbadtime : Bool := true
  fnevertime : Bool := true
  w : World := {}
deriving DecidableEq, Repr

/-- The loop `for (qsys = qorigsys; qsys != NULL; qsys =
qsys->uuconf_qalternate)` of `fcall`, with the number `k` of alternates
looked at before.  The result is `some b` when the loop is left through
`return b`, and `none` when it runs off the end of the alternates.
`zlocked` is the name of the global `sLocked_system`. -/
def fcall_alternates (env : Env) (qport : Option uuconf_port) (fifwork fdetach : Bool)
    (zlocked : List Nat) : List uuconf_system → Nat → FcallSt → Option Bool × FcallSt
  | [], _, st => (none, st)
  | qsys :: rest, k, st =>
    if env.FGOT_SIGNAL k then (some false, st)
    else if !qsys.uuconf_fcall || !qsys.uuconf_qtimegrade then
      fcall_alternates env qport fifwork fdetach zlocked rest (k + 1) st
    else
      let st1 := { st with fnevertime := false }
      match env.ftimespan_match_timegrade qsys with
      | none => fcall_alternates env qport fifwork fdetach zlocked rest (k + 1) st1
      | some cretry =>
        match env.fqueue qsys with
        | none => (some false, st1)
        | some fany =>
          if fifwork && !fany then
            fcall_alternates env qport fifwork fdetach zlocked rest (k + 1) st1
          else
            let r := fconn_call env qsys qport st1.sstat cretry st1.w
            let st2 : FcallSt :=
              { st1 with fbadtime := false, sstat := r.2.qstat, w := r.2.w }
            if r.1 then (some true, st2)
            else if r.2.pfcalled then (some false, st2)
            else if fdetach then
              let w1 := (st2.w.emit (Event.unlock_system zlocked)).emit Event.detach
              let ok := env.fsysdep_lock_system zlocked
              let w2 := w1.emit (Event.lock_system zlocked ok)
              if !ok then (some false, { st2 with w := w2 })
              else
                fcall_alternates env qport fifwork fdetach zlocked rest (k + 1)
                  { st2 with w := w2 }
            else fcall_alternates env qport fifwork fdetach zlocked rest (k + 1) st2

/-- The test `sstat.ilast + sstat.cwait > isysdep_time ((long *) NULL)` of
`fcall`, with the sum taken as a `long`. -/
def fcall_retry_time_not_reached (sstat : sstatus) (now : Int) : Bool :=
  decide (to_long (sstat.ilast + sstat.cwait) > now)

/-- The retry test at the head of `fcall`: whether the attempt is refused,
and the world after the clock reading it makes when `fforce` is not set and
the status is not complete. -/
def fcall_gate (env : Env) (fforce : Bool) (sstat : sstatus) (w : World) : Bool × World :=
  if !fforce then
    if sstat.ttype ≠ tstatus_type.STATUS_COMPLETE then
      let t := w.isysdep_time env
      (fcall_retry_time_not_reached sstat t.1, t.2)
    else (false, w)
  else (false, w)

/-- The part of `fcall` after the retry test: the loop over the alternates
and the message and status for a wrong time to call. -/
def fcall_attempt (env : Env) (qorigsys : uuconf_system) (qalternates : List uuconf_system)
    (qport : Option uuconf_port) (fifwork fdetach ftimewarn : Bool) (zlocked : List Nat)
    (sstat : sstatus) (w : World) : Bool × World :=
  let r := fcall_alternates env qport fifwork fdetach zlocked (qorigsys :: qalternates) 0
    { sstat := sstat, w := w }
  match r.1 with
  | some b => (b, r.2.w)
  | none =>
    if r.2.fbadtime && ftimewarn then
      let w1 := r.2.w.ulog "Wrong time to call"
      if !r.2.fnevertime then
        let t := w1.isysdep_time env
        let sstat1 : sstatus :=
          { r.2.sstat with ttype := tstatus_type.STATUS_WRONG_TIME, ilast := t.1, cwait := 0 }
        (false, (t.2.fsysdep_set_status env qorigsys sstat1).2)
      else (false, w1)
    else (false, r.2.w)

/-- The function `fcall (puuconf, qorigsys, qport, fifwork, fforce,
fdetach, ftimewarn)`, built without `CMAXRETRIES`; `qalternates` are the
alternates that follow `qorigsys` in its chain. -/
def fcall (env : Env) (qorigsys : uuconf_system) (qalternates : List uuconf_system)
    (qport : Option uuconf_port) (fifwork fforce fdetach ftimewarn : Bool)
    (zlocked : List Nat) (w : World) : Bool × World :=
  match env.fsysdep_get_status qorigsys.uuconf_zname with
  | none => (false, w)
  | some sstat =>
    let gate := fcall_gate env fforce sstat w
    if gate.1 then (false, gate.2.ulog "Retry time not reached")
    else
      fcall_attempt env qorigsys qalternates qport fifwork fdetach ftimewarn zlocked sstat gate.2

/-- The retry gate as the specification words it: refuse unless `force`,
when the kind of the status is not complete and `now` is before the time of
the last attempt plus the wait. -/
def spec_retry_refused (fforce : Bool) (sstat : sstatus) (now : Int) : Prop :=
  fforce = false ∧ sstat.ttype ≠ tstatus_type.STATUS_COMPLETE ∧ now < sstat.ilast + sstat.cwait

instance (fforce : Bool) (sstat : sstatus) (now : Int) :
    Decidable (spec_retry_refused fforce sstat now) := by
  unfold spec_retry_refused; infer_instance

/-- The status records handed to `fsysdep_set_status` so far, in order. -/
def World.statuses (w : World) : List sstatus :=
  w.trace.filterMap (fun e =>
    match e with
    | Event.set_status _ s => some s
    | _ => none)

/-- Whether an event is the start of a protocol. -/
def Event.is_proto_start : Event → Bool
  | Event.proto_start _ _ _ => true
  | _ => false

/-! ## The random order of the systems in `main` -/

/-- The loop `for (i = c - 1; i > 0; i--)` of `main` that shuffles the
array `pznames`, entered with `i` and after `k` calls of `rand`.  The result
is the array and the indices used on it, in order; there is none when an
index is outside the array. -/
def shuffle_loop (env : Env) :
    Nat → Nat → List (Option (List Nat)) → List Nat →
      Option (List (Option (List Nat)) × List Nat)
  | 0, _, pznames, used => some (pznames, used)
  | i + 1, k, pznames, used =>
    let iuse := env.rand k % (i + 1 + 1)
    match pznames.get? (i + 1), pznames.get? iuse with
    | some zhold, some zuse =>
      shuffle_loop env i (k + 1) ((pznames.set (i + 1) zuse).set iuse zhold)
        (used ++ [i + 1, iuse, i + 1, iuse])
    | _, _ => none

/-- The part of `main` that counts the names in `pznames`, an array that
ends with a null entry, and shuffles them.  The `int` `c - 1` is below 1
when there is no name, and the loop is not entered then.  The call of
`srand` with the time only fixes which values `rand` gives; they are the
values of `env.rand`. -/
def main_shuffle (env : Env) (pznames : List (Option (List Nat))) :
    Option (List (Option (List Nat)) × List Nat) :=
  let c := (pznames.takeWhile (fun z => z.isSome)).length
  shuffle_loop env (c - 1) 0 pznames []

/-- The names the loop `for (pz = pznames; *pz != NULL; pz++)` of `main`
visits, in order. -/
def main_visits (pznames : List (Option (List Nat))) : List (List Nat) :=
  (pznames.takeWhile (fun z => z.isSome)).filterMap id

/-! ## Protocol negotiation: notions of the specification -/

/-- A required-reliability mask `m` is a subset of the reliability `r`. -/
def spec_mask_subset (m r : Nat) : Bool := m &&& r == m

/-- The reliability a port or a dialer has to say: its flags when it is
there and they are marked `specified`. -/
def spec_specified (ireliable : Option Nat) : Option Nat :=
  match ireliable with
  | some m => if m &&& UUCONF_RELIABLE_SPECIFIED ≠ 0 then some m else none
  | none => none

/-- The `effective_reliability` of the specification: all four flags for a
TCP port, else the intersection of port and dialer when both are marked
specified, else whichever is marked specified, else `reliable`, `eight_bit`
and `specified`. -/
def spec_effective_reliability (ftcp : Bool) (port dialer : Option Nat) : Nat :=
  if ftcp then
    UUCONF_RELIABLE_ENDTOEND ||| UUCONF_RELIABLE_RELIABLE ||| UUCONF_RELIABLE_EIGHT |||
      UUCONF_RELIABLE_SPECIFIED
  else
    match spec_specified port, spec_specified dialer with
    | some p, some d => p &&& d
    | some p, none => p
    | none, some d => d
    | none, none =>
      UUCONF_RELIABLE_RELIABLE ||| UUCONF_RELIABLE_EIGHT ||| UUCONF_RELIABLE_SPECIFIED

/-- The advertisement of the specification: `P`, then the explicit list of
the peer if set, else that of the port if set, else the built-in ids in the
order of declaration whose mask is a subset of the effective reliability. -/
def spec_advertisement (zsys zport : Option (List Nat)) (er : Nat) : List Nat :=
  'P'.toNat ::
    (match zsys with
     | some l => l
     | none =>
       match zport with
       | some l => l
       | none =>
         (asProtocols.filter (fun p => spec_mask_subset p.ireliable er)).map (fun p => p.bname))

/-- Whether a character is the id of a built-in protocol. -/
def spec_builtin (c : Nat) : Bool := asProtocols.any (fun p => p.bname == c)

/-- The choice of the specification from a preference list: the first id
in the list, in order, that occurs in the advertisement and is a built-in
protocol. -/
def spec_choice_listed (prefs A : List Nat) : Option Nat :=
  prefs.find? (fun c => decide (c ∈ A) && spec_builtin c)

/-- The choice of the specification in the built-in order: the first
protocol in the order of declaration whose mask is a subset of the
effective reliability and whose id occurs in the advertisement. -/
def spec_choice_builtin (er : Nat) (A : List Nat) : Option sprotocol :=
  asProtocols.find? (fun p => spec_mask_subset p.ireliable er && decide (p.bname ∈ A))

/-- The preference list a caller has: that of the peer, else that of the
port. -/
def spec_preferences (qsys : uuconf_system) (qport : Option uuconf_port) : Option (List Nat) :=
  match qsys.uuconf_zprotocols with
  | some l => some l
  | none => qport.bind (fun p => p.uuconf_zprotocols)

/-- The state in which `fdo_call` reads the `P` line, when the answer to
its `S` line was `ROK` (`fnew` false) or `ROKN` (`fnew` true). -/
def fdo_call_accepted (env : Env) (st : CallSt) (qsys : uuconf_system) (L : List Nat)
    (fnew : Bool) : CallSt :=
  { fdo_call_identified env st qsys L with
    fnew := fnew
    w := (fdo_call_identified env st qsys L).w.after_get env true }

/-! ## Example configurations for the negotiation -/

/-- A caller named `foo`. -/
def example_caller : Env := { zsysdep_localname := some (chars "foo") }

/-- A port that says nothing about its reliability. -/
def example_plain_port : uuconf_port := { uuconf_zname := chars "port" }

/-- A port marked end-to-end, reliable, eight-bit and specified, as a TCP
port is. -/
def example_tcp_port : uuconf_port :=
  { uuconf_zname := chars "tcp", uuconf_ttype := uuconf_porttype.UUCONF_PORTTYPE_TCP,
    uuconf_ireliable :=
      UUCONF_RELIABLE_ENDTOEND ||| UUCONF_RELIABLE_RELIABLE ||| UUCONF_RELIABLE_EIGHT |||
        UUCONF_RELIABLE_SPECIFIED }

/-! ## The caller: `main` for a named system -/

/-- The global `fLocked_system`, read off the trace: it is set after a
`fsysdep_lock_system` that succeeds and cleared at each
`fsysdep_unlock_system`. -/
def World.fLocked_system (w : World) : Bool :=
  w.trace.foldl (fun b e =>
    match e with
    | Event.lock_system _ ok => b || ok
    | Event.unlock_system _ => false
    | _ => b) false

/-- The path of `main` in master mode for a system named with `-s` or `-S`
and without `-w`, from the point where `uuconf_system_info` has found the
system `qorigsys` with the alternates `qalternates`: the detach, the lock of
the system, `fcall`, the unlock, and the start of `uuxqt` unless `-q` was
given or a `SIGTERM` came.  The result is the argument `fret` of
`usysdep_exit`.  The bookkeeping of the log files is not part of the state. -/
def main_system (env : Env) (zsystem : List Nat) (qorigsys : uuconf_system)
    (qalternates : List uuconf_system) (qport : Option uuconf_port)
    (fforce fdetach ftimewarn fuuxqt : Bool) (w : World) : Bool × World :=
  let fstdin : Bool :=
    match qport with
    | none => false
    | some p => decide (p.uuconf_ttype = uuconf_porttype.UUCONF_PORTTYPE_STDIN)
  let w0 := if fdetach && !fstdin then w.emit Event.detach else w
  let r : Bool × World :=
    if !env.fsysdep_lock_system qorigsys.uuconf_zname then
      (false, (w0.emit (Event.lock_system qorigsys.uuconf_zname false)).ulog
        "System already locked")
    else
      let c := fcall env qorigsys qalternates qport false fforce fdetach ftimewarn
        qorigsys.uuconf_zname (w0.emit (Event.lock_system qorigsys.uuconf_zname true))
      if c.2.fLocked_system then (c.1, c.2.emit (Event.unlock_system qorigsys.uuconf_zname))
      else c
  let fuuxqt1 := if env.SIGTERM then false else fuuxqt
  if fuuxqt1 then
    let w2 := if fdetach then r.2.emit Event.detach else r.2
    (env.fsysdep_run, w2.emit (Event.uuxqt (some zsystem) env.fsysdep_run))
  else r

/-! ## The loop of `fcall`: notions of the specification -/

/-- An alternate that can be called and has a time restriction: `fcall`
looks at it (`uuconf_fcall` is set and `uuconf_qtimegrade` is not null). -/
def spec_callable (q : uuconf_system) : Bool := q.uuconf_fcall && q.uuconf_qtimegrade

/-- An alternate whose time restriction rejects a call now. -/
def spec_time_rejected (env : Env) (q : uuconf_system) : Bool :=
  (env.ftimespan_match_timegrade q).isNone

/-- An alternate whose time restriction allows the call, but that is
skipped because a call is wanted only if there is work and the spool has
none for it. -/
def spec_no_work (env : Env) (fifwork : Bool) (q : uuconf_system) : Bool :=
  (env.ftimespan_match_timegrade q).isSome && fifwork && decide (env.fqueue q = some false)

/-- An alternate over which the loop of `fcall` passes without calling:
it cannot be called, or its time restriction rejects the call, or it is
skipped for want of work. -/
def spec_passed_over (env : Env) (fifwork : Bool) (q : uuconf_system) : Bool :=
  !spec_callable q || spec_time_rejected env q || spec_no_work env fifwork q

/-- The results of the calls of `floop` so far, in order. -/
def World.floops (w : World) : List Bool :=
  w.trace.filterMap (fun e =>
    match e with
    | Event.floop ok => some ok
    | _ => none)

/-! ## The reader of typed lines -/

/-- One pass through the body of the loop of `zget_typed_line` for a
character `b` that was received: the buffer grows when it is full, CR and LF
become NUL, the character is stored, and a NUL ends the line. -/
def zget_typed_body (st : Framer) (b : Nat) : Step :=
  match zget_grow st with
  | none => Step.memfault
  | some st1 =>
    let b := if b = CR ∨ b = LF then 0 else b
    if st1.cgot < st1.zalc.length then
      let zalc := st1.zalc.set st1.cgot (some b)
      if b = 0 then Step.ret zalc
      else Step.cont { st1 with zalc := zalc, cgot := st1.cgot + 1 }
    else Step.memfault

/-- What `zget_typed_line` returns: a buffer, the null pointer, or no
defined result. -/
inductive TypedResult where
  | line (zalc : List (Option Nat))
  | null
  | memfault
deriving DecidableEq, Repr

/-- The loop `while (TRUE)` of `zget_typed_line`, after `k` calls of
`breceive_char`; `signal` is the answer of `FGOT_SIGNAL ()` by the number of
earlier calls.  The result is what is returned and the input not read; there
is none when the input ends before the function returns (it goes on
waiting). -/
def zget_typed_loop (signal : Nat → Bool) :
    List Int → Nat → Framer → Option (TypedResult × List Int)
  | [], _, _ => none
  | b :: rest, k, st =>
    if b = -2 ∨ signal k = true then some (TypedResult.null, rest)
    else if b = -1 then zget_typed_loop signal rest (k + 1) st
    else
      match zget_typed_body st b.toNat with
      | Step.cont st1 => zget_typed_loop signal rest (k + 1) st1
      | Step.ret zalc => some (TypedResult.line zalc, rest)
      | Step.memfault => some (TypedResult.memfault, rest)

/-- The function `zget_typed_line (qconn)`. -/
def zget_typed_line (signal : Nat → Bool) (input : List Int) :
    Option (TypedResult × List Int) :=
  zget_typed_loop signal input 0 ⟨[], 0, 0⟩

/-- The string a caller of `zget_typed_line` reads from the returned
pointer, if there is one. -/
def typed_zstr (r : Option (TypedResult × List Int)) : Option (List Nat) :=
  match r with
  | some (TypedResult.line zalc, _) => cstr zalc
  | _ => none

/-- A byte stream as the successive results of `breceive_char`, with
`gaps k` timeouts before the byte number `k`. -/
def recv_slowly (gaps : Nat → Nat) : Nat → List Nat → List Int
  | _, [] => []
  | k, b :: bs => List.replicate (gaps k) (-1) ++ Int.ofNat b :: recv_slowly gaps (k + 1) bs

/-! ## The option loop of `faccept_call`: cursor and reads -/

/-- The cursor `zspace` at the end of a pass of the option loop: `znext`
is moved over the argument, then over the white space after it. -/
def faccept_call_cursor_next (zspace : List Nat) : List Nat :=
  (zspace.dropWhile (fun c => !isspace (BUCHAR c))).dropWhile (fun c => isspace (BUCHAR c))

/-- The cursors `zspace` at which the passes of the option loop start, for
a loop that is not left by a rejection; `fuel` bounds their number. -/
def faccept_call_cursors : Nat → List Nat → List (List Nat)
  | 0, _ => []
  | fuel + 1, zspace =>
    if zspace = [] then []
    else zspace :: faccept_call_cursors fuel (faccept_call_cursor_next zspace)

/-- The indices `i` for which one pass of the option loop reads
`zspace[i]` itself or hands `zspace + i` to `strtol` or `strncmp`: the
tests on `zspace[0]`, the `switch` on `zspace[1]`, the grade characters, the
start of the number (for `-x` with `DEBUG > 1`, and for `-Q` when the system
has sequence numbers), the walk of `znext` over the argument and the walk
over the white space after it. -/
def faccept_call_pass_reads (fsequence : Bool) (zspace : List Nat) : List Nat :=
  let sw : List Nat :=
    if cidx zspace 0 = '-'.toNat then
      1 ::
        (if cidx zspace 1 = 'x'.toNat then [2]
         else if cidx zspace 1 = 'Q'.toNat then (if fsequence then [2] else [])
         else if cidx zspace 1 = 'p'.toNat then [2]
         else if cidx zspace 1 = 'v'.toNat then
           1 :: (if strncmp (zspace.drop 1) (chars "vgrade=") 7 = 0 then [8] else [])
         else if cidx zspace 1 = 'U'.toNat then [2]
         else [])
    else []
  let n := (zspace.takeWhile (fun c => !isspace (BUCHAR c))).length
  let m := ((zspace.drop n).takeWhile (fun c => isspace (BUCHAR c))).length
  0 :: sw ++ List.range (n + 1) ++ (List.range (m + 1)).map (fun i => n + i)

/-! ## The argument array of `uux` -/

/-- The macro `ZSHELLSEPS` of `uux.c`. -/
def ZSHELLSEPS : List Nat := chars ";&*|<> \t"

/-- The macro `ZSHELLNONREDIRSEPS` of `uux.c`. -/
def ZSHELLNONREDIRSEPS : List Nat := chars ";&*| \t"

/-- The library `strcspn (z, reject)`. -/
def strcspn (z reject : List Nat) : Nat := (z.takeWhile (fun c => !reject.contains c)).length

/-- The library `strspn (z, accept)`. -/
def strspn (z accept : List Nat) : Nat := (z.takeWhile (fun c => accept.contains c)).length

/-- The tokens the successive calls `strtok (z, delims)`, `strtok (NULL,
delims)` return: the pieces of `z` between delimiters that are not empty. -/
def strtok_all (z delims : List Nat) : List (List Nat) :=
  (z.splitOnP (fun c => delims.contains c)).filter (fun t => !t.isEmpty)

/-- The variables `pzargs`, `calloc_args` and `cargs` of `main` in `uux.c`
while it splits the arguments.  `stores` lists, for every store
`pzargs[cargs] = ...` made, the index `cargs` and the number of slots
`calloc_args` the array has then; `overrun` says that one of them was
outside the array, after which the run has no defined meaning. -/
structure UuxArgs where
  pzargs : List (Option (List Nat)) := List.replicate 10 none
  calloc_args : Nat := 10
  cargs : Nat := 0
  stores : List (Nat × Nat) := []
  overrun : Bool := false
deriving DecidableEq, Repr

/-- The three statements `pzargs[cargs] = xmalloc (clen + 1); strncpy
(...); ++cargs;` for the piece `z`. -/
def UuxArgs.store (a : UuxArgs) (z : List Nat) : UuxArgs :=
  { a with
    pzargs := a.pzargs.set a.cargs (some z)
    cargs := a.cargs + 1
    stores := a.stores ++ [(a.cargs, a.calloc_args)]
    overrun := a.overrun || decide (a.pzargs.length ≤ a.cargs) }

/-- The loop `while (*zarg != '\0')` of `main` in `uux.c` over one token of
`strtok`; `fuel` bounds the number of passes, and the result is `none` only
when it is used up. -/
def uux_split_arg : Nat → List Nat → UuxArgs → Option UuxArgs
  | 0, _, _ => none
  | fuel + 1, zarg, a =>
    if zarg = [] then some a
    else
      let a1 : UuxArgs :=
        if a.cargs ≥ a.calloc_args + 1 then
          { a with calloc_args := a.calloc_args + 10,
                   pzargs := a.pzargs ++ List.replicate 10 none }
        else a
      let clen := strcspn zarg ZSHELLSEPS
      let a2 := if clen > 0 then a1.store (zarg.take clen) else a1
      let zarg2 := if clen > 0 then zarg.drop clen else zarg
      if zarg2 = [] then uux_split_arg fuel zarg2 a2
      else
        let clen2 := if strspn zarg2 ZSHELLNONREDIRSEPS = 0 then 1
          else strspn zarg2 ZSHELLNONREDIRSEPS
        uux_split_arg fuel (zarg2.drop clen2) (a2.store (zarg2.take clen2))

/-- The loop of `main` in `uux.c` over the tokens of `strtok`. -/
def uux_split_tokens : List (List Nat) → UuxArgs → Option UuxArgs
  | [], a => some a
  | zarg :: rest, a =>
    match uux_split_arg (zarg.length + 1) zarg a with
    | none => none
    | some a1 => uux_split_tokens rest a1

/-- The part of `main` in `uux.c` that splits the arguments `zargs` (what
follows the command) into the array `pzargs`, which starts with ten slots. -/
def uux_split (zargs : List Nat) : Option UuxArgs :=
  uux_split_tokens (strtok_all zargs (chars " \t")) {}


/-! ## What the stages of a session leave in the status file -/

/-- What a stage of `fdo_call` entered in the state `st` leaves behind when
it ends in `r`.  `*pfcalled` is as it was.  On success one status was
written, of kind complete, with the count and the wait as they were.  On
failure the status record is untouched and nothing was written; `*pterr`
is as it was and `floop` was not called, or `floop` was called and failed
and `*pterr` is `STATUS_FAILED`. -/
def CallSt.outcome (st : CallSt) (r : Bool × CallSt) : Prop :=
  r.2.pfcalled = st.pfcalled ∧
  if r.1 = true then
    r.2.w.statuses = st.w.statuses ++ [r.2.qstat] ∧
    r.2.qstat.ttype = tstatus_type.STATUS_COMPLETE ∧
    r.2.qstat.cretries = st.qstat.cretries ∧ r.2.qstat.cwait = st.qstat.cwait
  else
    r.2.qstat = st.qstat ∧ r.2.w.statuses = st.w.statuses ∧
    ((r.2.pterr = st.pterr ∧ r.2.w.floops = st.w.floops) ∨
     (r.2.pterr = tstatus_type.STATUS_FAILED ∧ r.2.w.floops = st.w.floops ++ [false]))

instance (st : CallSt) (r : Bool × CallSt) : Decidable (CallSt.outcome st r) := by
  unfold CallSt.outcome; infer_instance

/-- What a stage of `faccept_call` entered in the state `st` leaves behind
when it ends in `r`, unless it has left defined behaviour: one status was
written, of kind complete when the stage returns TRUE and failed when it
returns FALSE, with the count and the wait as they were. -/
def AcceptSt.outcome (st : AcceptSt) (r : Bool × AcceptSt) : Prop :=
  r.2.w.undefined = false →
    r.2.w.statuses = st.w.statuses ++ [r.2.sstat] ∧
    r.2.sstat.ttype =
      (if r.1 = true then tstatus_type.STATUS_COMPLETE else tstatus_type.STATUS_FAILED) ∧
    r.2.sstat.cretries = st.sstat.cretries ∧ r.2.sstat.cwait = st.sstat.cwait

instance (st : AcceptSt) (r : Bool × AcceptSt) : Decidable (AcceptSt.outcome st r) := by
  unfold AcceptSt.outcome; infer_instance

/-! ## An example of a system that calls under an alias -/

/-- The system `foobarbaz`, which logs in as `ufoo`, with or without
sequence numbers. -/
def example_alias_system (fsequence : Bool) : uuconf_system :=
  { uuconf_zname := chars "foobarbaz", uuconf_pzalias := some [chars "fb"],
    uuconf_zcalled_login := some (chars "ufoo"), uuconf_fsequence := fsequence }

/-- An answerer named `bravo` that knows the system `foobarbaz`, also under
its alias `fb`; the stored sequence number is 7. -/
def example_alias_answerer (fsequence : Bool) : Env :=
  { zsysdep_localname := some (chars "bravo"),
    uuconf_system_info := fun n =>
      if n = chars "foobarbaz" ∨ n = chars "fb" then
        Lookup.success [example_alias_system fsequence]
      else Lookup.not_found,
    isysdep_get_sequence := 7 }

/-- The buffer in which `zget_uucp_cmd` returns a line of fewer than
`CINCREMENT` characters: the line, its NUL, and the bytes of the buffer that
were never written. -/
def example_line (z : List Nat) : List (Option Nat) :=
  z.map some ++ some 0 :: List.replicate (CINCREMENT - z.length - 1) none

/-- The pointer `zspace` that `faccept_call` computes for a line in such a
buffer, when the line has a space. -/
def example_zspace (z : List Nat) : Option LinePtr :=
  (strchr z ' '.toNat).map (fun i => { zstr := (example_line z).set i (some 0), i := i })
/-! ## The type `int`: proofs -/

@[simp]
theorem to_int_one : to_int 1 = 1 := by decide

/-- An integer in the range of `int` is the `int` of itself. -/
theorem to_int_of_range (i : Int) (h1 : INT_MIN ≤ i) (h2 : i ≤ INT_MAX) : to_int i = i := by
  simp only [INT_MIN, INT_MAX, INT_BITS] at h1 h2
  norm_num at h1 h2
  simp only [to_int, INT_BITS]
  norm_num
  split <;> omega

@[simp]
theorem fconn_call_dialed_faulted (qsys : uuconf_system) (qstat : sstatus) (w : World) :
    (fconn_call_dialed qsys qstat w).faulted = false := rfl

@[simp]
theorem fdo_call_talking_faulted (env : Env) (st : CallSt) (qsys : uuconf_system) :
    (fdo_call_talking env st qsys).faulted = st.faulted := rfl


@[simp]
theorem fdo_call_identified_faulted (env : Env) (st : CallSt) (qsys : uuconf_system)
    (L : List Nat) : (fdo_call_identified env st qsys L).faulted = st.faulted := rfl

@[simp]
theorem fdo_call_accepted_faulted (env : Env) (st : CallSt) (qsys : uuconf_system)
    (L : List Nat) (fnew : Bool) :
    (fdo_call_accepted env st qsys L fnew).faulted = st.faulted := rfl
/-! ## The line framer: proofs -/

theorem cstr_stored (ys : List Nat) (tail : List (Option Nat)) (h : ∀ y ∈ ys, y ≠ 0) :
    cstr (ys.map some ++ some 0 :: tail) = some ys := by
  induction ys with
  | nil => simp [cstr]
  | cons y ys ih =>
    have hy : y ≠ 0 := h y (by simp)
    have ih1 := ih (fun z hz => h z (by simp [hz]))
    simp [cstr, hy, ih1]

theorem cstr_of_take (z : List (Option Nat)) (n : Nat) (ys : List Nat)
    (h : ∀ y ∈ ys, y ≠ 0) (hz : z.take n = ys.map some ++ [some 0]) :
    cstr z = some ys := by
  have h1 : z = z.take n ++ z.drop n := (List.take_append_drop n z).symm
  rw [h1, hz, List.append_assoc]
  exact cstr_stored ys _ h

theorem zget_grow_ok (st : Framer) (h : st.ok) :
    ∃ st1, zget_grow st = some st1 ∧ st1.zalc.length = st1.calc_ ∧ st1.cgot = st.cgot ∧
      st1.cgot < st1.calc_ ∧ st1.zalc.take st.cgot = st.zalc.take st.cgot := by
  obtain ⟨hl, hc⟩ := h
  unfold zget_grow
  by_cases hg : st.cgot ≥ st.calc_
  · have hle : st.cgot ≤ st.zalc.length := by omega
    have hle2 : st.cgot ≤ st.calc_ + CINCREMENT := by omega
    simp only [hg, if_true, memcpy, zbufalc, List.length_replicate, hle, hle2, and_self]
    refine ⟨_, rfl, ?_, rfl, ?_, ?_⟩
    · simp [List.length_take, CINCREMENT]; omega
    · simp [CINCREMENT]; omega
    · simp [List.take_append_eq_append_take, List.take_take]
      left; omega
  · simp only [hg, if_false]
    exact ⟨st, rfl, hl, rfl, by omega, rfl⟩

theorem zget_body_plain (st : Framer) (c : Nat) (h : st.ok) (hc : plain c) :
    ∃ st1, zget_body st c = Step.cont st1 ∧ st1.ok ∧ st1.cgot = st.cgot + 1 ∧
      st1.zalc.take (st.cgot + 1) = st.zalc.take st.cgot ++ [some c] := by
  obtain ⟨g, hg, hlen, hgot, hlt, htake⟩ := zget_grow_ok st h
  obtain ⟨h1, h2, h3, h4⟩ := hc
  have hlt2 : g.cgot < g.zalc.length := by omega
  refine ⟨{ g with zalc := g.zalc.set g.cgot (some c), cgot := g.cgot + 1 }, ?_, ?_, ?_, ?_⟩
  · simp [zget_body, h1, h2, h3, h4, hg, hlt2]
  · constructor
    · simp [hlen]
    · simp; omega
  · simp [hgot]
  · simp only
    rw [← hgot, List.take_succ, List.set_take, List.set_eq_of_length_le (by simp)]
    have hlt3 : st.cgot < g.zalc.length := by omega
    simp [hgot, htake, List.getElem?_set_self hlt3]

theorem zget_body_closing (st : Framer) (c : Nat) (h : st.ok) (hc : closing c) :
    ∃ z, zget_body st c = Step.ret z ∧
      z.take (st.cgot + 1) = st.zalc.take st.cgot ++ [some 0] := by
  obtain ⟨g, hg, hlen, hgot, hlt, htake⟩ := zget_grow_ok st h
  have hlt2 : g.cgot < g.zalc.length := by omega
  have hd : c ≠ DLE := by
    rcases hc with h0 | h0 | h0 <;> simp [h0, DLE, CR, LF]
  have hz : (if c = CR ∨ c = LF then 0 else c) = 0 := by
    rcases hc with h0 | h0 | h0 <;> simp [h0]
  refine ⟨g.zalc.set g.cgot (some 0), ?_, ?_⟩
  · simp [zget_body, hd, hg, hlt2, hz]
  · rw [← hgot, List.take_succ, List.set_take, List.set_eq_of_length_le (by simp)]
    have hlt3 : st.cgot < g.zalc.length := by omega
    simp [hgot, htake, List.getElem?_set_self hlt3]

theorem zget_body_dle (st : Framer) : zget_body st DLE = Step.cont { st with cgot := 0 } := by
  simp [zget_body]

theorem strip_parity_dle : strip_parity DLE = DLE := by decide

theorem zget_loop_cont (clock : Nat → Int) (iendtime : Int) (b : Nat) (rest : List Int)
    (tick : Nat) (st st1 : Framer) (hclk : clock tick < iendtime)
    (hs : zget_step st b = Step.cont st1) :
    zget_loop clock iendtime (Int.ofNat b :: rest) tick st =
      (zget_loop clock iendtime rest (tick + 1) st1).waited (iendtime - clock tick) := by
  have h1 : iendtime - clock tick > 0 := by omega
  have h2 : ¬ (Int.ofNat b < 0) := by simp
  have h3 : (Int.ofNat b).toNat = b := rfl
  rw [zget_loop]
  simp only [h1, if_true, h2, if_false, h3, hs]

theorem zget_loop_ret (clock : Nat → Int) (iendtime : Int) (b : Nat) (rest : List Int)
    (tick : Nat) (st : Framer) (z : List (Option Nat)) (hclk : clock tick < iendtime)
    (hs : zget_step st b = Step.ret z) :
    zget_loop clock iendtime (Int.ofNat b :: rest) tick st =
      ⟨GetResult.line z, tick + 1, rest, [iendtime - clock tick]⟩ := by
  have h1 : iendtime - clock tick > 0 := by omega
  have h2 : ¬ (Int.ofNat b < 0) := by simp
  have h3 : (Int.ofNat b).toNat = b := rfl
  rw [zget_loop]
  simp only [h1, if_true, h2, if_false, h3, hs]

/-- Bytes that are stored are appended to the line, one clock reading
each. -/
theorem zget_loop_plain (clock : Nat → Int) (iendtime : Int) (ys : List Nat) :
    ∀ (rest : List Int) (tick : Nat) (st : Framer), st.ok →
    (∀ k, tick ≤ k → k < tick + ys.length → clock k < iendtime) →
    (∀ y ∈ ys, plain (strip_parity y)) →
    ∃ st1 ws, st1.ok ∧ st1.cgot = st.cgot + ys.length ∧
      st1.zalc.take st1.cgot = st.zalc.take st.cgot ++ (ys.map strip_parity).map some ∧
      zget_loop clock iendtime (recv ys ++ rest) tick st =
        (zget_loop clock iendtime rest (tick + ys.length) st1).waitedAll ws := by
  induction ys with
  | nil =>
    intro rest tick st hok _ _
    exact ⟨st, [], hok, by simp, by simp, by simp [recv, GetOut.waitedAll]⟩
  | cons y ys ih =>
    intro rest tick st hok hclk hpl
    obtain ⟨s1, hb, hok1, hgot1, htake1⟩ :=
      zget_body_plain st (strip_parity y) hok (hpl y (by simp))
    obtain ⟨s2, ws, hok2, hgot2, htake2, hloop⟩ :=
      ih rest (tick + 1) s1 hok1
        (fun k h1 h2 => hclk k (by omega) (by simp only [List.length_cons]; omega))
        (fun z hz => hpl z (by simp [hz]))
    refine ⟨s2, (iendtime - clock tick) :: ws, hok2, ?_, ?_, ?_⟩
    · simp [hgot2, hgot1]; omega
    · rw [htake2, hgot1, htake1]; simp
    · have hstep : zget_step st y = Step.cont s1 := hb
      have := zget_loop_cont clock iendtime y (recv ys ++ rest) tick st s1
        (hclk tick (Nat.le_refl _) (by simp)) hstep
      simp only [recv, List.map_cons, List.cons_append] at this ⊢
      rw [this]
      simp only [recv] at hloop
      rw [hloop]
      simp [GetOut.waited, GetOut.waitedAll, Nat.add_assoc, Nat.add_comm 1]

/-- From a state whose buffer is sound and empty (`cgot = 0`), stored bytes
followed by a closing byte give the line of the stripped bytes, and nothing
after the closing byte is read. -/
theorem zget_loop_line (clock : Nat → Int) (iendtime : Int)
    (ys : List Nat) (t : Nat) (rest : List Int) (tick : Nat) (st : Framer) (hok : st.ok)
    (hclk : ∀ k, tick ≤ k → k < tick + (ys.length + 1) → clock k < iendtime)
    (h0 : st.cgot = 0) (hpl : ∀ y ∈ ys, plain (strip_parity y))
    (ht : closing (strip_parity t)) :
    (zget_loop clock iendtime (recv (ys ++ [t]) ++ rest) tick st).zstr =
        some (ys.map strip_parity) ∧
      (zget_loop clock iendtime (recv (ys ++ [t]) ++ rest) tick st).rest = rest := by
  obtain ⟨s1, ws, hok1, hgot1, htake1, hloop⟩ :=
    zget_loop_plain clock iendtime ys (Int.ofNat t :: rest) tick st hok
      (fun k h1 h2 => hclk k h1 (by omega)) hpl
  obtain ⟨z, hz, hztake⟩ := zget_body_closing s1 (strip_parity t) hok1 ht
  have hret := zget_loop_ret clock iendtime t rest (tick + ys.length) s1 z
    (hclk _ (by omega) (by omega)) hz
  have heq : recv (ys ++ [t]) ++ rest = recv ys ++ (Int.ofNat t :: rest) := by
    simp [recv]
  rw [heq, hloop, hret]
  constructor
  · simp only [GetOut.zstr, GetOut.waitedAll]
    apply cstr_of_take z (s1.cgot + 1)
    · intro y hy
      obtain ⟨x, hx, rfl⟩ := List.mem_map.mp hy
      exact (hpl x hx).2.1
    · rw [hztake, htake1, h0]; simp
  · simp [GetOut.waitedAll]

theorem strip_parity_seven_bit : ∀ b, b < 0x80 → strip_parity b = b := by decide

set_option maxRecDepth 100000 in
theorem strip_parity_lt : ∀ b, b < 256 → strip_parity b < 0x80 := by decide

set_option maxRecDepth 100000 in
theorem strip_parity_high : ∀ b, b < 256 → 0x80 ≤ b → strip_parity b = b &&& 0x7f := by decide

theorem map_strip_parity_seven_bit (ys : List Nat) (h : ∀ b ∈ ys, b < 0x80) :
    ys.map strip_parity = ys := by
  induction ys with
  | nil => rfl
  | cons y ys ih =>
    simp [strip_parity_seven_bit y (h y (by simp)), ih (fun b hb => h b (by simp [hb]))]

/-- A DLE (possibly with parity) followed by stored bytes and a closing
byte: whatever was collected before, the line is the stripped bytes after
the DLE. -/
theorem zget_loop_dle_line (clock : Nat → Int) (iendtime : Int)
    (d : Nat) (hd : strip_parity d = DLE)
    (ys : List Nat) (t : Nat) (rest : List Int) (tick : Nat) (st : Framer)
    (hclk : ∀ k, tick ≤ k → k < tick + (ys.length + 2) → clock k < iendtime)
    (hlen : st.zalc.length = st.calc_)
    (hpl : ∀ y ∈ ys, plain (strip_parity y)) (ht : closing (strip_parity t)) :
    (zget_loop clock iendtime (recv (d :: (ys ++ [t])) ++ rest) tick st).zstr =
        some (ys.map strip_parity) ∧
      (zget_loop clock iendtime (recv (d :: (ys ++ [t])) ++ rest) tick st).rest = rest := by
  have hstep : zget_step st d = Step.cont { st with cgot := 0 } := by
    simp [zget_step, hd, zget_body_dle]
  have hok : ({ st with cgot := 0 } : Framer).ok := ⟨hlen, Nat.zero_le _⟩
  have hc := zget_loop_cont clock iendtime d (recv (ys ++ [t]) ++ rest) tick st _
    (hclk tick (Nat.le_refl _) (by omega)) hstep
  have hl := zget_loop_line clock iendtime ys t rest (tick + 1) _ hok
    (fun k h1 h2 => hclk k (by omega) (by omega)) rfl hpl ht
  have heq : recv (d :: (ys ++ [t])) ++ rest = Int.ofNat d :: (recv (ys ++ [t]) ++ rest) := by
    simp [recv]
  rw [heq, hc]
  exact hl

/-- The same after an earlier DLE and bytes `xs` stored since. -/
theorem zget_loop_resync (clock : Nat → Int) (iendtime : Int)
    (d1 d2 : Nat) (hd1 : strip_parity d1 = DLE)
    (hd2 : strip_parity d2 = DLE) (xs ys : List Nat) (t : Nat) (rest : List Int) (tick : Nat)
    (st : Framer)
    (hclk : ∀ k, tick ≤ k → k < tick + (xs.length + ys.length + 3) → clock k < iendtime)
    (hlen : st.zalc.length = st.calc_)
    (hxs : ∀ x ∈ xs, plain (strip_parity x))
    (hpl : ∀ y ∈ ys, plain (strip_parity y)) (ht : closing (strip_parity t)) :
    (zget_loop clock iendtime (recv (d1 :: (xs ++ d2 :: (ys ++ [t]))) ++ rest) tick st).zstr =
        some (ys.map strip_parity) ∧
      (zget_loop clock iendtime (recv (d1 :: (xs ++ d2 :: (ys ++ [t]))) ++ rest) tick st).rest =
        rest := by
  have hstep : zget_step st d1 = Step.cont { st with cgot := 0 } := by
    simp [zget_step, hd1, zget_body_dle]
  have hok : ({ st with cgot := 0 } : Framer).ok := ⟨hlen, Nat.zero_le _⟩
  obtain ⟨s1, ws, hok1, _, _, hloop⟩ :=
    zget_loop_plain clock iendtime xs (recv (d2 :: (ys ++ [t])) ++ rest) (tick + 1) _ hok
      (fun k h1 h2 => hclk k (by omega) (by omega)) hxs
  have hc := zget_loop_cont clock iendtime d1
    (recv xs ++ (recv (d2 :: (ys ++ [t])) ++ rest)) tick st _
    (hclk tick (Nat.le_refl _) (by omega)) hstep
  have hl := zget_loop_dle_line clock iendtime d2 hd2 ys t rest (tick + 1 + xs.length) s1
    (fun k h1 h2 => hclk k (by omega) (by omega)) hok1.1 hpl ht
  have heq : recv (d1 :: (xs ++ d2 :: (ys ++ [t]))) ++ rest =
      Int.ofNat d1 :: (recv xs ++ (recv (d2 :: (ys ++ [t])) ++ rest)) := by
    simp [recv]
  rw [heq, hc, hloop]
  exact hl

theorem strz_of_no_nul (z : List Nat) (h : ∀ b ∈ z, b ≠ 0) : strz z = z := by
  unfold strz
  rw [List.takeWhile_eq_self_iff]
  intro b hb
  simp [h b hb]

theorem cstr_mem : ∀ (z : List (Option Nat)) (l : List Nat), cstr z = some l →
    ∀ c ∈ l, some c ∈ z := by
  intro z
  induction z with
  | nil => intro l h; simp [cstr] at h
  | cons a z ih =>
    intro l h c hc
    cases a with
    | none => simp [cstr] at h
    | some a =>
      by_cases ha : a = 0
      · simp [cstr, ha] at h
        subst h
        simp at hc
      · simp only [cstr, ha, if_false] at h
        cases hz : cstr z with
        | none => simp [hz] at h
        | some l1 =>
          simp [hz] at h
          subst h
          rcases List.mem_cons.mp hc with h1 | h1
          · simp [h1]
          · exact List.mem_cons_of_mem _ (ih l1 hz c h1)

theorem zget_grow_cells (st g : Framer) (h : zget_grow st = some g) :
    ∀ c, some c ∈ g.zalc → some c ∈ st.zalc := by
  intro c hc
  unfold zget_grow at h
  by_cases hg : st.cgot ≥ st.calc_
  · simp only [hg, if_true, memcpy] at h
    by_cases hm : st.cgot ≤ st.zalc.length ∧ st.cgot ≤ (zbufalc (st.calc_ + CINCREMENT)).length
    · simp only [hm, and_self, if_true] at h
      injection h with h
      subst h
      simp only [List.mem_append] at hc
      rcases hc with h1 | h1
      · exact List.mem_of_mem_take h1
      · have h2 := List.mem_of_mem_drop h1
        simp [zbufalc] at h2
    · simp [hm] at h
  · simp only [hg, if_false] at h
    injection h with h
    subst h
    exact hc

theorem zget_body_cells (st : Framer) (b : Nat) (hb : b < 0x80)
    (hz : ∀ c, some c ∈ st.zalc → c < 0x80) :
    (∀ s1, zget_body st b = Step.cont s1 → ∀ c, some c ∈ s1.zalc → c < 0x80) ∧
    (∀ z, zget_body st b = Step.ret z → ∀ c, some c ∈ z → c < 0x80) := by
  have hb1 : (if b = CR ∨ b = LF then 0 else b) < 0x80 := by
    split <;> omega
  have hset : ∀ (g : Framer), zget_grow st = some g → ∀ c,
      some c ∈ g.zalc.set g.cgot (some (if b = CR ∨ b = LF then 0 else b)) → c < 0x80 := by
    intro g hg c hc
    rcases List.mem_or_eq_of_mem_set hc with h1 | h1
    · exact hz c (zget_grow_cells st g hg c h1)
    · injection h1 with h1
      omega
  unfold zget_body
  by_cases hd : b = DLE
  · simp only [Nat.not_lt_zero, if_false, hd, if_true]
    constructor
    · intro s1 h c hc
      injection h with h
      subst h
      exact hz c hc
    · intro z h
      simp at h
  · simp only [Nat.not_lt_zero, if_false, hd]
    cases hg : zget_grow st with
    | none => simp
    | some g =>
      simp only
      by_cases hl : g.cgot < g.zalc.length
      · simp only [hl, if_true]
        by_cases h0 : (if b = CR ∨ b = LF then 0 else b) = 0
        · simp only [h0, if_true]
          constructor
          · intro s1 h
            simp at h
          · intro z h c hc
            injection h with h
            subst h
            have := hset g hg c (by rw [h0]; exact hc)
            exact this
        · simp only [h0, if_false]
          constructor
          · intro s1 h c hc
            injection h with h
            subst h
            exact hset g hg c hc
          · intro z h
            simp at h
      · simp [hl]

theorem zget_loop_cells (clock : Nat → Int) (iendtime : Int) (input : List Int) :
    ∀ (tick : Nat) (st : Framer), (∀ b ∈ input, b < 256) →
    (∀ c, some c ∈ st.zalc → c < 0x80) →
    ∀ z, (zget_loop clock iendtime input tick st).res = GetResult.line z →
    ∀ c, some c ∈ z → c < 0x80 := by
  induction input with
  | nil =>
    intro tick st _ _ z h
    unfold zget_loop at h
    split at h <;> simp at h
  | cons b rest ih =>
    intro tick st hin hz z h
    have hb : b < 256 := hin b (by simp)
    unfold zget_loop at h
    by_cases h1 : iendtime - clock tick > 0
    · simp only [h1, if_true] at h
      by_cases h2 : b < 0
      · simp [h2] at h
      · simp only [h2, if_false] at h
        have hlt : strip_parity b.toNat < 0x80 := strip_parity_lt _ (by omega)
        have hcells := zget_body_cells st (strip_parity b.toNat) hlt hz
        cases hs : zget_step st b.toNat with
        | cont s1 =>
          simp only [hs, GetOut.waited] at h
          exact ih (tick + 1) s1 (fun x hx => hin x (by simp [hx])) (hcells.1 s1 hs) z h
        | ret z1 =>
          simp only [hs] at h
          injection h with h
          subst h
          exact hcells.2 z1 hs
        | memfault => simp [hs] at h
    · simp [h1] at h

theorem zget_uucp_cmd_frame (clock : Nat → Int) (tick : Nat) (frequired : Bool)
    (d : Nat) (hd : strip_parity d = DLE) (ys : List Nat) (t : Nat) (rest : List Int)
    (hclk : ∀ k, tick < k → k ≤ tick + (ys.length + 2) →
      clock k < clock tick + (if frequired then CTIMEOUT else CSHORTTIMEOUT))
    (hpl : ∀ y ∈ ys, plain (strip_parity y)) (ht : closing (strip_parity t)) :
    (zget_uucp_cmd clock tick frequired (recv (d :: (ys ++ [t])) ++ rest)).zstr =
        some (ys.map strip_parity) ∧
      (zget_uucp_cmd clock tick frequired (recv (d :: (ys ++ [t])) ++ rest)).rest = rest :=
  zget_loop_dle_line clock _ d hd ys t rest (tick + 1) ⟨[], 0, SIZE_MAX⟩
    (fun k h1 h2 => hclk k (by omega) (by omega)) rfl hpl ht

theorem zget_uucp_cmd_resync (clock : Nat → Int) (tick : Nat) (frequired : Bool)
    (xs ys : List Nat) (t : Nat) (rest : List Int)
    (hclk : ∀ k, tick < k → k ≤ tick + (xs.length + ys.length + 3) →
      clock k < clock tick + (if frequired then CTIMEOUT else CSHORTTIMEOUT))
    (hxs : ∀ x ∈ xs, plain (strip_parity x))
    (hpl : ∀ y ∈ ys, plain (strip_parity y)) (ht : closing (strip_parity t)) :
    (zget_uucp_cmd clock tick frequired
        (recv (DLE :: (xs ++ DLE :: (ys ++ [t]))) ++ rest)).zstr = some (ys.map strip_parity) ∧
      (zget_uucp_cmd clock tick frequired
        (recv (DLE :: (xs ++ DLE :: (ys ++ [t]))) ++ rest)).rest = rest :=
  zget_loop_resync clock _ DLE DLE strip_parity_dle strip_parity_dle xs ys t rest (tick + 1)
    ⟨[], 0, SIZE_MAX⟩ (fun k h1 h2 => hclk k (by omega) (by omega)) rfl hxs hpl ht

theorem plain_of_seven_bit (ys : List Nat) (h7 : ∀ b ∈ ys, b < 0x80)
    (h : ∀ b ∈ ys, b ≠ DLE ∧ b ≠ 0 ∧ b ≠ CR ∧ b ≠ LF) :
    ∀ y ∈ ys, plain (strip_parity y) := by
  intro y hy
  rw [strip_parity_seven_bit y (h7 y hy)]
  exact h y hy

/-- C1. Framing round trip: for every string `P` of 7-bit bytes without NUL,
DLE, CR or LF, `fsend_uucp_cmd` writes DLE, the bytes of `P`, NUL, and
`zget_uucp_cmd` fed exactly these bytes returns exactly `P`, provided no
reading of the clock made while they are read has reached the deadline (no
timeout) and every receive delivers a byte (no I/O error). -/
theorem C1_framing_round_trip (clock : Nat → Int) (tick : Nat) (frequired : Bool)
    (P : List Nat)
    (hclk : ∀ k, tick < k → k ≤ tick + (P.length + 2) →
      clock k < clock tick + (if frequired then CTIMEOUT else CSHORTTIMEOUT))
    (h7 : ∀ b ∈ P, b < 0x80)
    (hP : ∀ b ∈ P, b ≠ DLE ∧ b ≠ 0 ∧ b ≠ CR ∧ b ≠ LF) :
    fsend_uucp_cmd_bytes P = DLE :: (P ++ [0]) ∧
      (zget_uucp_cmd clock tick frequired (recv (fsend_uucp_cmd_bytes P))).zstr = some P := by
  have hs : fsend_uucp_cmd_bytes P = DLE :: (P ++ [0]) := by
    simp [fsend_uucp_cmd_bytes, strz_of_no_nul P (fun b hb => (hP b hb).2.1)]
  refine ⟨hs, ?_⟩
  have h := (zget_uucp_cmd_frame clock tick frequired DLE strip_parity_dle P 0 [] hclk
    (plain_of_seven_bit P h7 hP) (by decide)).1
  rw [map_strip_parity_seven_bit P h7, List.append_nil] at h
  rw [hs]
  exact h

theorem C1_framing_round_trip_witness :
    fsend_uucp_cmd_bytes [0x53, 0x68, 0x65, 0x72, 0x65] = DLE :: ([0x53, 0x68, 0x65, 0x72, 0x65] ++ [0]) ∧
    (zget_uucp_cmd (fun _ => 0) 0 true
      (recv (fsend_uucp_cmd_bytes [0x53, 0x68, 0x65, 0x72, 0x65]))).zstr =
      some [0x53, 0x68, 0x65, 0x72, 0x65] :=
  C1_framing_round_trip (fun _ => 0) 0 true [0x53, 0x68, 0x65, 0x72, 0x65]
    (by intro k _ _; simp [CTIMEOUT]) (by decide) (by decide)

/-- Whatever byte other than a DLE comes first, the call leaves defined
behaviour: the branch that should skip it is guarded by `cgot < 0`, which
an unsigned `cgot` never satisfies. -/
theorem zget_uucp_cmd_first_byte_not_dle (clock : Nat → Int) (tick : Nat) (frequired : Bool)
    (b : Nat) (rest : List Int)
    (hclk : clock (tick + 1) < clock tick + (if frequired then CTIMEOUT else CSHORTTIMEOUT))
    (hb : strip_parity b ≠ DLE) :
    (zget_uucp_cmd clock tick frequired (Int.ofNat b :: rest)).res = GetResult.memfault := by
  have h1 : clock tick + (if frequired then CTIMEOUT else CSHORTTIMEOUT) - clock (tick + 1) > 0 := by
    omega
  have h2 : ¬ (Int.ofNat b < 0) := by simp
  have h3 : (Int.ofNat b).toNat = b := rfl
  have hs : zget_step ⟨[], 0, SIZE_MAX⟩ b = Step.memfault := by
    simp [zget_step, zget_body, hb, zget_grow, memcpy, zbufalc, SIZE_MAX]
  simp only [zget_uucp_cmd]
  rw [zget_loop]
  simp only [h1, if_true, h2, if_false, h3, hs]

/-- C2. Discard until DLE, evaluated at the stream `A`, DLE, `a`, NUL: the
byte before the DLE is not discarded.  With `cgot` a `size_t` the test
`cgot < 0` never holds, the byte reaches the growth block with
`cgot = SIZE_MAX`, and the `memcpy` of `cgot` bytes leaves the result of the
call undefined; the line `a` is not returned. -/
theorem C2_garbage_before_dle_not_discarded :
    (zget_uucp_cmd (fun _ => 0) 0 true (recv ([0x41] ++ DLE :: ([0x61] ++ [0])))).res =
        GetResult.memfault ∧
      (zget_uucp_cmd (fun _ => 0) 0 true (recv ([0x41] ++ DLE :: ([0x61] ++ [0])))).zstr ≠
        some [0x61] := by
  decide

/-- C3, as stated, fails: in the stream DLE, `A`, DLE, 0x81, NUL neither `X`
nor `Y` holds a DLE, NUL, CR or LF, yet the line returned is 0x01, not
`Y` = 0x81. -/
theorem C3_counterexample :
    (∀ b ∈ [0x41] ++ [0x81], b ≠ DLE ∧ b ≠ 0 ∧ b ≠ CR ∧ b ≠ LF) ∧
      (zget_uucp_cmd (fun _ => 0) 0 true
        (recv (DLE :: ([0x41] ++ DLE :: ([0x81] ++ [0]))))).zstr = some [0x01] ∧
      (zget_uucp_cmd (fun _ => 0) 0 true
        (recv (DLE :: ([0x41] ++ DLE :: ([0x81] ++ [0]))))).zstr ≠ some [0x81] := by
  decide

/-- C3, amended. DLE resynchronisation: for every received stream
DLE + X + DLE + Y + NUL in which no byte of X or Y is, or parity-strips to,
DLE, NUL, CR or LF, `zget_uucp_cmd` returns the bytes of Y with parity
stripped, and so exactly Y when Y is made of 7-bit bytes; nothing collected
before the last DLE survives. -/
theorem C3_dle_resynchronisation (clock : Nat → Int) (tick : Nat) (frequired : Bool)
    (X Y : List Nat)
    (hclk : ∀ k, tick < k → k ≤ tick + (X.length + Y.length + 3) →
      clock k < clock tick + (if frequired then CTIMEOUT else CSHORTTIMEOUT))
    (hX : ∀ b ∈ X, plain (strip_parity b)) (hY : ∀ b ∈ Y, plain (strip_parity b)) :
    (zget_uucp_cmd clock tick frequired (recv (DLE :: (X ++ DLE :: (Y ++ [0]))))).zstr =
        some (Y.map strip_parity) ∧
      ((∀ b ∈ Y, b < 0x80) →
        (zget_uucp_cmd clock tick frequired (recv (DLE :: (X ++ DLE :: (Y ++ [0]))))).zstr =
          some Y) := by
  have h := (zget_uucp_cmd_resync clock tick frequired X Y 0 [] hclk hX hY (by decide)).1
  rw [List.append_nil] at h
  refine ⟨h, fun h7 => ?_⟩
  rw [h, map_strip_parity_seven_bit Y h7]

theorem C3_dle_resynchronisation_witness :
    (zget_uucp_cmd (fun _ => 0) 0 true
      (recv (DLE :: ([0x41, 0x42, 0x43] ++ DLE :: ([0x52, 0x4f] ++ [0]))))).zstr =
      some [0x52, 0x4f] :=
  (C3_dle_resynchronisation (fun _ => 0) 0 true [0x41, 0x42, 0x43] [0x52, 0x4f]
    (by intro k _ _; simp [CTIMEOUT]) (by decide) (by decide)).2 (by decide)

/-- C4, as stated, fails: in the stream DLE, 0x81, CR the payload `P` = 0x81
holds no DLE, NUL, CR or LF, yet the line returned is 0x01, not `P`. -/
theorem C4_counterexample :
    (∀ b ∈ [0x81], b ≠ DLE ∧ b ≠ 0 ∧ b ≠ CR ∧ b ≠ LF) ∧
      (zget_uucp_cmd (fun _ => 0) 0 true (recv (DLE :: ([0x81] ++ [CR])))).zstr = some [0x01] ∧
      (zget_uucp_cmd (fun _ => 0) 0 true (recv (DLE :: ([0x81] ++ [CR])))).zstr ≠
        some [0x81] := by
  decide

/-- C4, amended. CR or LF closes the line: for every received stream
DLE + P + c + R with c CR or LF, no byte of P being or parity-stripping to
DLE, NUL, CR or LF, and R arbitrary, `zget_uucp_cmd` returns the bytes of P
with parity stripped, and so exactly P when P is made of 7-bit bytes; the
CR or LF is stored as the terminating NUL and no result of R is consumed. -/
theorem C4_cr_lf_closes_line (clock : Nat → Int) (tick : Nat) (frequired : Bool)
    (P : List Nat) (c : Nat) (R : List Int)
    (hclk : ∀ k, tick < k → k ≤ tick + (P.length + 2) →
      clock k < clock tick + (if frequired then CTIMEOUT else CSHORTTIMEOUT))
    (hc : c = CR ∨ c = LF) (hP : ∀ b ∈ P, plain (strip_parity b)) :
    (zget_uucp_cmd clock tick frequired (recv (DLE :: (P ++ [c])) ++ R)).zstr =
        some (P.map strip_parity) ∧
      ((∀ b ∈ P, b < 0x80) →
        (zget_uucp_cmd clock tick frequired (recv (DLE :: (P ++ [c])) ++ R)).zstr = some P) ∧
      (zget_uucp_cmd clock tick frequired (recv (DLE :: (P ++ [c])) ++ R)).rest = R := by
  have hcl : closing (strip_parity c) := by
    rcases hc with h | h <;> subst h <;> decide
  have h := zget_uucp_cmd_frame clock tick frequired DLE strip_parity_dle P c R hclk hP hcl
  refine ⟨h.1, fun h7 => ?_, h.2⟩
  rw [h.1, map_strip_parity_seven_bit P h7]

theorem C4_cr_lf_closes_line_witness :
    (zget_uucp_cmd (fun _ => 0) 0 true
        (recv (DLE :: ([0x52, 0x4f, 0x4b] ++ [LF])) ++ [0x41, -1])).zstr =
        some [0x52, 0x4f, 0x4b] ∧
      (zget_uucp_cmd (fun _ => 0) 0 true
        (recv (DLE :: ([0x52, 0x4f, 0x4b] ++ [LF])) ++ [0x41, -1])).rest = [0x41, -1] :=
  have h := C4_cr_lf_closes_line (fun _ => 0) 0 true [0x52, 0x4f, 0x4b] LF [0x41, -1]
    (by intro k _ _; simp [CTIMEOUT]) (Or.inr rfl) (by decide)
  ⟨h.2.1 (by decide), h.2.2⟩

/-- C5. Parity stripping in the line framer: a received byte that is not
printable goes through the loop body as `b & 0x7f`, a printable one
unchanged; so 0x90 acts as a DLE, 0x8D and 0x8A close the line as CR and LF
do, and no byte of a returned line is a non-printable value of 0x80 or
more. -/
theorem C5_parity_stripping :
    (∀ (st : Framer) (b : Nat), isprint (BUCHAR b) = false →
        zget_step st b = zget_body st (b &&& 0x7f)) ∧
    (∀ (st : Framer) (b : Nat), isprint (BUCHAR b) = true →
        zget_step st b = zget_body st b) ∧
    (∀ st : Framer, zget_step st 0x90 = Step.cont { st with cgot := 0 } ∧
        zget_step st 0x90 = zget_step st DLE) ∧
    (∀ st : Framer, st.ok →
        (∃ z, zget_step st 0x8D = Step.ret z ∧ zget_step st CR = Step.ret z) ∧
        (∃ z, zget_step st 0x8A = Step.ret z ∧ zget_step st LF = Step.ret z)) ∧
    (∀ (clock : Nat → Int) (tick : Nat) (frequired : Bool) (input : List Int) (z : List Nat),
        (∀ b ∈ input, b < 256) →
        (zget_uucp_cmd clock tick frequired input).zstr = some z →
        ∀ c ∈ z, ¬ (isprint c = false ∧ 0x80 ≤ c)) := by
  refine ⟨?_, ?_, ?_, ?_, ?_⟩
  · intro st b h
    simp [zget_step, strip_parity, h]
  · intro st b h
    simp [zget_step, strip_parity, h]
  · intro st
    have h1 : strip_parity 0x90 = DLE := by decide
    simp [zget_step, h1, strip_parity_dle, zget_body_dle]
  · intro st hok
    have h1 : strip_parity 0x8D = CR := by decide
    have h2 : strip_parity 0x8A = LF := by decide
    have h3 : strip_parity CR = CR := by decide
    have h4 : strip_parity LF = LF := by decide
    obtain ⟨z1, hz1, _⟩ := zget_body_closing st CR hok (Or.inr (Or.inl rfl))
    obtain ⟨z2, hz2, _⟩ := zget_body_closing st LF hok (Or.inr (Or.inr rfl))
    exact ⟨⟨z1, by simp [zget_step, h1, hz1], by simp [zget_step, h3, hz1]⟩,
      ⟨z2, by simp [zget_step, h2, hz2], by simp [zget_step, h4, hz2]⟩⟩
  · intro clock tick frequired input z hin hz c hc
    cases hr : (zget_uucp_cmd clock tick frequired input).res with
    | line buf =>
      simp only [GetOut.zstr, hr] at hz
      have hcell := zget_loop_cells clock _ input (tick + 1) ⟨[], 0, SIZE_MAX⟩ hin
        (by intro c h; simp at h) buf hr c (cstr_mem buf z hz c hc)
      omega
    | null _ => simp [GetOut.zstr, hr] at hz
    | memfault => simp [GetOut.zstr, hr] at hz

theorem C5_parity_stripping_witness :
    zget_step ⟨[], 0, 0⟩ 0x81 = zget_body ⟨[], 0, 0⟩ (0x81 &&& 0x7f) ∧
      (∃ z, zget_step ⟨[], 0, 0⟩ 0x8D = Step.ret z ∧ zget_step ⟨[], 0, 0⟩ CR = Step.ret z) ∧
      (∀ c ∈ [0x41, 0x01], ¬ (isprint c = false ∧ 0x80 ≤ c)) :=
  ⟨C5_parity_stripping.1 ⟨[], 0, 0⟩ 0x81 (by decide),
    (C5_parity_stripping.2.2.2.1 ⟨[], 0, 0⟩ ⟨rfl, Nat.le_refl 0⟩).1,
    C5_parity_stripping.2.2.2.2 (fun _ => 0) 0 true (recv [DLE, 0xC1, 0x81, 0x8A]) [0x41, 0x01]
      (by decide) (by decide)⟩

/-- C6, as stated, fails: 0x81 has the high bit set and 0x81 & 0x7f = 0x01 is
not printable, yet received inside a line it is stored as 0x01, not as
itself. -/
theorem C6_counterexample :
    0x80 ≤ 0x81 ∧ isprint (0x81 &&& 0x7f) = false ∧
      (zget_uucp_cmd (fun _ => 0) 0 true (recv (DLE :: ([0x81] ++ [0])))).zstr = some [0x01] ∧
      (zget_uucp_cmd (fun _ => 0) 0 true (recv (DLE :: ([0x81] ++ [0])))).zstr ≠
        some [0x81] := by
  decide

/-- C6, amended. For every byte b with the high bit set such that b & 0x7f is
not printable, when b is received inside a line `zget_uucp_cmd` clears its
high bit: if b & 0x7f is none of DLE, NUL, CR, LF the byte stored in the
returned line is b & 0x7f. -/
theorem C6_high_bit_cleared (clock : Nat → Int) (tick : Nat) (frequired : Bool)
    (X Y : List Nat) (b : Nat)
    (hclk : ∀ k, tick < k → k ≤ tick + (X.length + Y.length + 3) →
      clock k < clock tick + (if frequired then CTIMEOUT else CSHORTTIMEOUT))
    (hb : 0x80 ≤ b) (hb2 : b < 256) (_hnp : isprint (b &&& 0x7f) = false)
    (hpb : plain (b &&& 0x7f))
    (hX : ∀ x ∈ X, plain (strip_parity x)) (hY : ∀ y ∈ Y, plain (strip_parity y)) :
    (zget_uucp_cmd clock tick frequired (recv (DLE :: ((X ++ b :: Y) ++ [0])))).zstr =
      some (X.map strip_parity ++ (b &&& 0x7f) :: Y.map strip_parity) := by
  have hsb : strip_parity b = b &&& 0x7f := strip_parity_high b hb2 hb
  have hall : ∀ y ∈ X ++ b :: Y, plain (strip_parity y) := by
    intro y hy
    rcases List.mem_append.mp hy with h | h
    · exact hX y h
    · rcases List.mem_cons.mp h with h | h
      · rw [h, hsb]; exact hpb
      · exact hY y h
  have h := (zget_uucp_cmd_frame clock tick frequired DLE strip_parity_dle (X ++ b :: Y) 0 []
    (fun k h1 h2 => hclk k h1 (by simp only [List.length_append, List.length_cons] at h2 ⊢; omega))
    hall (by decide)).1
  rw [List.append_nil] at h
  rw [h]
  simp [hsb]

theorem C6_high_bit_cleared_witness :
    (zget_uucp_cmd (fun _ => 0) 0 true (recv (DLE :: (([0x41] ++ 0x81 :: [0x42]) ++ [0])))).zstr =
      some ([0x41].map strip_parity ++ (0x81 &&& 0x7f) :: [0x42].map strip_parity) :=
  C6_high_bit_cleared (fun _ => 0) 0 true [0x41] [0x42] 0x81 (by intro k _ _; simp [CTIMEOUT])
    (by decide) (by decide) (by decide) (by decide) (by decide) (by decide)

/-! ## The caller's handshake -/

theorem strcmp_eq_zero : ∀ (a b : List Nat), strcmp a b = 0 ↔ a = b := by
  intro a
  induction a with
  | nil => intro b; cases b <;> simp [strcmp]
  | cons x a ih =>
    intro b
    cases b with
    | nil => simp [strcmp]
    | cons y b =>
      by_cases hxy : x = y
      · simp [strcmp, hxy, ih b]
      · by_cases hlt : x < y <;> simp [strcmp, hxy, hlt]

theorem strncmp_eq_zero : ∀ (n : Nat) (a b : List Nat),
    strncmp a b n = 0 ↔ a.take n = b.take n := by
  intro n
  induction n with
  | zero => intro a b; simp [strncmp]
  | succ n ih =>
    intro a b
    cases a with
    | nil => cases b <;> simp [strncmp]
    | cons x a =>
      cases b with
      | nil => simp [strncmp]
      | cons y b =>
        by_cases hxy : x = y
        · simp [strncmp, hxy, ih a b]
        · by_cases hlt : x < y <;> simp [strncmp, hxy, hlt]

/-- The comparison `fdo_call` makes between the received name and one
candidate is the comparison of the specification. -/
theorem fdo_call_compare_iff (r c : List Nat) :
    (if r.length = 7 then strncmp r c 7 else strcmp r c) = 0 ↔ spec_name_matches r c := by
  unfold spec_name_matches
  by_cases h : r.length = 7
  · have hr : r.take 7 = r := List.take_of_length_le (by omega)
    rw [if_pos h, strncmp_eq_zero, hr]
    constructor
    · intro h1; exact Or.inl ⟨h, h1.symm⟩
    · rintro (⟨_, h2⟩ | ⟨h2, _⟩)
      · exact h2.symm
      · exact absurd h h2
  · rw [if_neg h, strcmp_eq_zero]
    constructor
    · intro h1; exact Or.inr ⟨h, h1⟩
    · rintro (⟨h2, _⟩ | ⟨_, h2⟩)
      · exact absurd h2 h
      · exact h2

theorem fdo_call_alias_loop_iff (r : List Nat) : ∀ (pz : List (List Nat)) (icmp : Int),
    icmp ≠ 0 →
    (fdo_call_alias_loop r r.length pz icmp = 0 ↔ ∃ c ∈ pz, spec_name_matches r c) := by
  intro pz
  induction pz with
  | nil => intro icmp h; simp [fdo_call_alias_loop, h]
  | cons c pz ih =>
    intro icmp _
    unfold fdo_call_alias_loop
    by_cases hc : (if r.length = 7 then strncmp r c 7 else strcmp r c) = 0
    · simp only [hc, if_true]
      simp only [true_iff]
      exact ⟨c, by simp, (fdo_call_compare_iff r c).mp hc⟩
    · simp only [hc, if_false]
      rw [ih _ hc]
      have hn : ¬ spec_name_matches r c := fun h => hc ((fdo_call_compare_iff r c).mpr h)
      constructor
      · rintro ⟨d, hd, hm⟩
        exact ⟨d, by simp [hd], hm⟩
      · rintro ⟨d, hd, hm⟩
        rcases List.mem_cons.mp hd with h1 | h1
        · subst h1; exact absurd hm hn
        · exact ⟨d, h1, hm⟩

/-- The check of `fdo_call` lets the name through exactly when some
candidate matches it. -/
theorem fdo_call_icmp_iff (qsys : uuconf_system) (r : List Nat) :
    fdo_call_icmp qsys r = 0 ↔ ∃ c ∈ spec_name_candidates qsys, spec_name_matches r c := by
  unfold fdo_call_icmp spec_name_candidates
  by_cases h0 : (if r.length = 7 then strncmp r qsys.uuconf_zname 7
      else strcmp r qsys.uuconf_zname) = 0
  · have hm := (fdo_call_compare_iff r qsys.uuconf_zname).mp h0
    simp only [h0, ne_eq, not_true_eq_false, if_false, true_iff]
    exact ⟨_, by simp, hm⟩
  · have hn : ¬ spec_name_matches r qsys.uuconf_zname :=
      fun h => h0 ((fdo_call_compare_iff r qsys.uuconf_zname).mpr h)
    simp only [ne_eq, h0, not_false_eq_true, if_true]
    cases hal : qsys.uuconf_pzalias with
    | none =>
      simp only [Option.getD_none, List.mem_singleton, exists_eq_left]
      constructor
      · intro h; exact absurd h h0
      · intro h; exact absurd h hn
    | some pz =>
      simp only [Option.getD_some]
      rw [fdo_call_alias_loop_iff r pz _ h0]
      constructor
      · rintro ⟨d, hd, hm⟩
        exact ⟨d, by simp [hd], hm⟩
      · rintro ⟨d, hd, hm⟩
        rcases List.mem_cons.mp hd with h1 | h1
        · subst h1; exact absurd hm hn
        · exact ⟨d, h1, hm⟩

/-- When the framer returns a line, the caller of `zget_uucp_cmd` gets it,
and the world moves on by what the framer has read. -/
theorem World.zget_uucp_cmd_line (env : Env) (w : World) (frequired : Bool) (z : List Nat)
    (h : (Uucico.zget_uucp_cmd env.clock w.ticks frequired w.input).zstr = some z) :
    ∃ zalc, w.zget_uucp_cmd env frequired = (Got.line zalc z, w.after_get env frequired) := by
  unfold World.zget_uucp_cmd World.after_get
  cases hr : (Uucico.zget_uucp_cmd env.clock w.ticks frequired w.input).res with
  | line zalc =>
    simp only [GetOut.zstr, hr] at h
    exact ⟨zalc, by simp only [hr, h]⟩
  | null t => simp [GetOut.zstr, hr] at h
  | memfault => simp [GetOut.zstr, hr] at h

theorem chars_Shere_eq : chars "Shere=" = [83, 104, 101, 114, 101, 61] := by decide

theorem chars_Shere : chars "Shere" = [83, 104, 101, 114, 101] := by decide

/-- What `fdo_call_shere` does with a line `Shere=r`. -/
theorem fdo_call_shere_named (env : Env) (qsys : uuconf_system) (qport : Option uuconf_port)
    (qdialer : Option uuconf_dialer) (st : CallSt) (r : List Nat)
    (hline : (zget_uucp_cmd env.clock st.w.ticks true st.w.input).zstr =
      some (chars "Shere=" ++ r)) :
    fdo_call_shere env qsys qport qdialer st =
      if fdo_call_icmp qsys r ≠ 0 then
        (false, { st with w := (st.w.after_get env true).ulog "Called wrong system (%s)" })
      else fdo_call_ident env qsys qport qdialer { st with w := st.w.after_get env true } := by
  obtain ⟨zalc, hz⟩ := World.zget_uucp_cmd_line env st.w true _ hline
  unfold fdo_call_shere
  simp only [hz, chars_Shere_eq, chars_Shere]
  simp [strncmp, cidx]

theorem fdo_call_logged_in (env : Env) (qsys : uuconf_system) (qport : Option uuconf_port)
    (qdialer : Option uuconf_dialer) (st : CallSt) (hchat : env.fchat = true)
    (hstat : env.fsysdep_set_status st.w.nstat = true) :
    fdo_call env qsys qport qdialer st =
      fdo_call_shere env qsys qport qdialer (fdo_call_talking env st qsys) := by
  unfold fdo_call fdo_call_talking
  simp [hchat, hstat, World.isysdep_time, World.fsysdep_set_status, World.ulog]

/-- C7. Seven-character name compatibility: when the caller receives
`Shere=r`, `fdo_call` goes on to send its own name if and only if some
candidate among the peer name and its aliases matches `r` (the first seven
characters of the candidate when `r` has seven, the whole candidate
otherwise), and otherwise stops with `Called wrong system`; with the aliases
`systemname` and `alt`, `Shere=systemn` is accepted. -/
theorem C7_seven_character_name (env : Env) (qsys : uuconf_system)
    (qport : Option uuconf_port) (qdialer : Option uuconf_dialer) (st : CallSt) (r : List Nat)
    (hline : (zget_uucp_cmd env.clock st.w.ticks true st.w.input).zstr =
      some (chars "Shere=" ++ r)) :
    ((∃ c ∈ spec_name_candidates qsys, spec_name_matches r c) →
      fdo_call_shere env qsys qport qdialer st =
        fdo_call_ident env qsys qport qdialer { st with w := st.w.after_get env true }) ∧
    (¬ (∃ c ∈ spec_name_candidates qsys, spec_name_matches r c) →
      fdo_call_shere env qsys qport qdialer st =
        (false, { st with w := (st.w.after_get env true).ulog "Called wrong system (%s)" })) ∧
    (fdo_call_icmp qsys r = 0 ↔ ∃ c ∈ spec_name_candidates qsys, spec_name_matches r c) ∧
    (∀ n : List Nat,
      fdo_call_icmp
        { uuconf_zname := n, uuconf_pzalias := some [chars "systemname", chars "alt"] }
        (chars "systemn") = 0) := by
  have h := fdo_call_shere_named env qsys qport qdialer st r hline
  refine ⟨?_, ?_, fdo_call_icmp_iff qsys r, ?_⟩
  · intro hm
    have h0 : fdo_call_icmp qsys r = 0 := (fdo_call_icmp_iff qsys r).mpr hm
    rw [h]
    simp [h0]
  · intro hm
    have h0 : fdo_call_icmp qsys r ≠ 0 := fun h1 => hm ((fdo_call_icmp_iff qsys r).mp h1)
    rw [h]
    simp [h0]
  · intro n
    rw [fdo_call_icmp_iff]
    exact ⟨chars "systemname", by simp [spec_name_candidates], by decide⟩

theorem C7_seven_character_name_witness :
    fdo_call_shere {} { uuconf_zname := chars "sys", uuconf_pzalias := some [chars "systemname", chars "alt"] }
        none none { w := { input := recv (fsend_uucp_cmd_bytes (chars "Shere=systemn")) } } =
      fdo_call_ident {} { uuconf_zname := chars "sys", uuconf_pzalias := some [chars "systemname", chars "alt"] }
        none none
        { w := World.after_get {}
            { input := recv (fsend_uucp_cmd_bytes (chars "Shere=systemn")) } true } :=
  (C7_seven_character_name {}
    { uuconf_zname := chars "sys", uuconf_pzalias := some [chars "systemname", chars "alt"] }
    none none { w := { input := recv (fsend_uucp_cmd_bytes (chars "Shere=systemn")) } }
    (chars "systemn") (by decide)).1 ⟨chars "systemname", by decide, by decide⟩

/-- What `fdo_call` does when the peer introduces itself under a name that
matches no candidate. -/
theorem fdo_call_wrong_system (env : Env) (qsys : uuconf_system) (qport : Option uuconf_port)
    (qdialer : Option uuconf_dialer) (st : CallSt) (r : List Nat) (hchat : env.fchat = true)
    (hstat : env.fsysdep_set_status st.w.nstat = true)
    (hline : (zget_uucp_cmd env.clock (st.w.ticks + 2) true st.w.input).zstr =
      some (chars "Shere=" ++ r))
    (hno : ¬ ∃ c ∈ spec_name_candidates qsys, spec_name_matches r c) :
    fdo_call env qsys qport qdialer st =
      (false, { fdo_call_talking env st qsys with
        w := ((fdo_call_talking env st qsys).w.after_get env true).ulog
          "Called wrong system (%s)" }) := by
  have h0 : fdo_call_icmp qsys r ≠ 0 := fun h1 => hno ((fdo_call_icmp_iff qsys r).mp h1)
  rw [fdo_call_logged_in env qsys qport qdialer st hchat hstat,
    fdo_call_shere_named env qsys qport qdialer (fdo_call_talking env st qsys) r hline]
  simp [h0]


/-- C8. Called wrong system: when `fconn_call` has obtained a port, opened it
and dialed, the login chat and the first status write succeed, and the peer
then sends `Shere=r` with `r` matching neither the peer name nor an alias,
`fdo_call` returns failure with `*pterr` set to handshake-failed, the caller
writes nothing to the connection (no `S` line, no `U` line), and the status
`fconn_call` records has kind handshake-failed. -/
theorem C8_called_wrong_system (env : Env) (qsys : uuconf_system) (qport : Option uuconf_port)
    (p : uuconf_port) (qdialer : Option uuconf_dialer) (qstat : sstatus) (cretry : Int)
    (w w0 : World) (r : List Nat)
    (hport : fconn_call env qsys qport qstat cretry w =
      fconn_call_open env qsys p qstat cretry w0)
    (hopen : env.fconn_open = true) (hdial : env.fconn_dial = some qdialer)
    (hchat : env.fchat = true) (hstat : env.fsysdep_set_status w0.nstat = true)
    (hline : (zget_uucp_cmd env.clock (w0.ticks + 2) true w0.input).zstr =
      some (chars "Shere=" ++ r))
    (hno : ¬ ∃ c ∈ spec_name_candidates qsys, spec_name_matches r c) :
    (fdo_call env qsys (some p) qdialer (fconn_call_dialed qsys qstat w0)).1 = false ∧
    (fdo_call env qsys (some p) qdialer (fconn_call_dialed qsys qstat w0)).2.pterr =
      tstatus_type.STATUS_HANDSHAKE_FAILED ∧
    (fconn_call env qsys qport qstat cretry w).1 = false ∧
    (fconn_call env qsys qport qstat cretry w).2.qstat.ttype =
      tstatus_type.STATUS_HANDSHAKE_FAILED ∧
    (fconn_call env qsys qport qstat cretry w).2.w.trace =
      w0.trace ++
        [Event.conn_open true,
         Event.ulog (if qsys.uuconf_zalternate.isNone then "Calling system %s (port %s)"
           else "Calling system %s (alternate %s, port %s)"),
         Event.conn_dial true,
         Event.set_status qsys.uuconf_zname
           { ttype := tstatus_type.STATUS_TALKING, cretries := 0,
             ilast := env.clock w0.ticks, cwait := 0 },
         Event.ulog "Login successful",
         Event.ulog "Called wrong system (%s)",
         Event.conn_close false,
         Event.set_status qsys.uuconf_zname
           { ttype := tstatus_type.STATUS_HANDSHAKE_FAILED, cretries := 1,
             ilast := env.clock (zget_uucp_cmd env.clock (w0.ticks + 2) true w0.input).ticks,
             cwait := if cretry = 0 then env.CRETRY_WAIT 1 else to_int (cretry * 60) },
         Event.conn_unlock] ∧
    (∀ e ∈ (fconn_call env qsys qport qstat cretry w).2.w.trace,
      e.is_write = true → e ∈ w0.trace) := by
  have hst : (fconn_call_dialed qsys qstat w0).w.nstat = w0.nstat := rfl
  have hdo := fdo_call_wrong_system env qsys (some p) qdialer (fconn_call_dialed qsys qstat w0) r
    hchat (by rw [hst]; exact hstat) hline hno
  have htr : (fconn_call env qsys qport qstat cretry w).2.w.trace =
      w0.trace ++
        [Event.conn_open true,
         Event.ulog (if qsys.uuconf_zalternate.isNone then "Calling system %s (port %s)"
           else "Calling system %s (alternate %s, port %s)"),
         Event.conn_dial true,
         Event.set_status qsys.uuconf_zname
           { ttype := tstatus_type.STATUS_TALKING, cretries := 0,
             ilast := env.clock w0.ticks, cwait := 0 },
         Event.ulog "Login successful",
         Event.ulog "Called wrong system (%s)",
         Event.conn_close false,
         Event.set_status qsys.uuconf_zname
           { ttype := tstatus_type.STATUS_HANDSHAKE_FAILED, cretries := 1,
             ilast := env.clock (zget_uucp_cmd env.clock (w0.ticks + 2) true w0.input).ticks,
             cwait := if cretry = 0 then env.CRETRY_WAIT 1 else to_int (cretry * 60) },
         Event.conn_unlock] := by
    rw [hport]
    unfold fconn_call_open
    simp only [hopen, hdial, hdo]
    simp [fdo_call_talking, fconn_call_dialed, World.after_get, World.ulog, World.emit,
      World.isysdep_time, World.fsysdep_set_status]
  refine ⟨by rw [hdo], by rw [hdo]; rfl, ?_, ?_, htr, ?_⟩
  · rw [hport]
    unfold fconn_call_open
    simp only [hopen, hdial, hdo]
    simp
  · rw [hport]
    unfold fconn_call_open
    simp only [hopen, hdial, hdo]
    simp [fdo_call_talking]
  · intro e he hw
    rw [htr] at he
    rcases List.mem_append.mp he with h1 | h1
    · exact h1
    · simp at h1
      rcases h1 with h | h | h | h | h | h | h | h | h <;> subst h <;> simp [Event.is_write] at hw

theorem C8_called_wrong_system_witness :
    (fconn_call {} { uuconf_zname := chars "bravo" } (some {}) {} 0
        { input := recv_lines [chars "Shere=charlie"] }).1 = false ∧
      (fconn_call {} { uuconf_zname := chars "bravo" } (some {}) {} 0
        { input := recv_lines [chars "Shere=charlie"] }).2.qstat.ttype =
        tstatus_type.STATUS_HANDSHAKE_FAILED ∧
      (∀ e ∈ (fconn_call {} { uuconf_zname := chars "bravo" } (some {}) {} 0
          { input := recv_lines [chars "Shere=charlie"] }).2.w.trace,
        e.is_write = true → e ∈ ([] : List Event)) :=
  have h := C8_called_wrong_system {} { uuconf_zname := chars "bravo" } (some {}) {} none {} 0
    { input := recv_lines [chars "Shere=charlie"] }
    (World.emit { input := recv_lines [chars "Shere=charlie"] } (Event.conn_lock [] true))
    (chars "charlie") (by rfl) (by rfl) (by rfl) (by rfl) (by rfl) (by decide) (by decide)
  ⟨h.2.2.1, h.2.2.2.1, fun e he hw => by
    have := h.2.2.2.2.2 e he hw
    simp [World.emit, Event.is_write] at this
    subst this
    simp [Event.is_write] at hw⟩

theorem fdo_call_bgrade_of_grade (env : Env) (g : Option Nat)
    (hg : env.ftimespan_match_calltimegrade = g.map Int.ofNat)
    (hgl : ∀ c, g = some c → UUCONF_GRADE_LEGAL c = true) :
    fdo_call_bgrade env = g.getD 0 ∧ (∀ c, g = some c → c ≠ 0) := by
  cases g with
  | none => simp [fdo_call_bgrade, hg]
  | some c =>
    have hl := hgl c rfl
    have hc : 48 ≤ c ∧ c ≤ 122 := by
      simp [UUCONF_GRADE_LEGAL] at hl
      omega
    constructor
    · simp only [fdo_call_bgrade, hg, Option.map_some', Option.getD_some]
      have : (Int.ofNat c % 256).toNat = c := by
        have h1 : Int.ofNat c % 256 = Int.ofNat c := Int.emod_eq_of_lt (by simp) (by simp; omega)
        rw [h1]; rfl
      exact this
    · intro d hd
      injection hd with hd
      omega

/-- The string `fdo_call` builds is the identity line of the specification. -/
theorem fdo_call_zsend_eq_spec (L : List Nat) (fsequence : Bool) (q : Nat) (g : Option Nat)
    (hg0 : ∀ c, g = some c → c ≠ 0) :
    fdo_call_zsend L fsequence (q : Int) (g.getD 0) = spec_identity_line L fsequence q g := by
  cases g with
  | none => cases fsequence <;> simp [fdo_call_zsend, spec_identity_line]
  | some c =>
    have hc : c ≠ 0 := hg0 c rfl
    cases fsequence <;> simp [fdo_call_zsend, spec_identity_line, hc]

/-- C9. Caller identity line: with local name `L`, sequence number `q` and
call-time grade `g` (none when no grade is in force), the string `fdo_call`
sends after a valid `Shere` is `S` + `L` + (` -Q` + decimal `q` exactly when
the peer requires sequence numbers) + (` -p` + `g` + ` -vgrade=` + `g`
exactly when a grade is in force) + ` -N`; it is handed to `fsend_uucp_cmd`
as the next write, and ` -N` ends it. -/
theorem C9_caller_identity_line (env : Env) (qsys : uuconf_system) (qport : Option uuconf_port)
    (qdialer : Option uuconf_dialer) (st : CallSt) (L : List Nat) (q : Nat) (g : Option Nat)
    (hL : fdo_call_localname env qsys = Lookup.success L)
    (hq : env.isysdep_get_sequence = (q : Int))
    (hg : env.ftimespan_match_calltimegrade = g.map Int.ofNat)
    (hgl : ∀ c, g = some c → UUCONF_GRADE_LEGAL c = true) :
    fdo_call_zsend L qsys.uuconf_fsequence env.isysdep_get_sequence (fdo_call_bgrade env) =
      spec_identity_line L qsys.uuconf_fsequence q g ∧
    fdo_call_ident env qsys qport qdialer st =
      (if env.fconn_write st.w.nwrite then
        fdo_call_response env qsys qport qdialer
          { st with zlocalname := some L,
                    w := (st.w.fsend_uucp_cmd env
                      (spec_identity_line L qsys.uuconf_fsequence q g)).2 }
       else
        (false, { st with zlocalname := some L,
                          w := (st.w.fsend_uucp_cmd env
                            (spec_identity_line L qsys.uuconf_fsequence q g)).2 })) ∧
    (st.w.fsend_uucp_cmd env (spec_identity_line L qsys.uuconf_fsequence q g)).2.trace =
      st.w.trace ++
        [Event.write (fsend_uucp_cmd_bytes (spec_identity_line L qsys.uuconf_fsequence q g))
          (env.fconn_write st.w.nwrite)] ∧
    chars " -N" <:+ spec_identity_line L qsys.uuconf_fsequence q g := by
  obtain ⟨hb, hg0⟩ := fdo_call_bgrade_of_grade env g hg hgl
  have hz : fdo_call_zsend L qsys.uuconf_fsequence env.isysdep_get_sequence
      (fdo_call_bgrade env) = spec_identity_line L qsys.uuconf_fsequence q g := by
    rw [hq, hb]
    exact fdo_call_zsend_eq_spec L qsys.uuconf_fsequence q g hg0
  refine ⟨hz, ?_, rfl, ?_⟩
  · unfold fdo_call_ident
    have hneg : ¬ ((q : Int) < 0) := by omega
    simp only [hL, hz]
    simp only [hq, hneg, decide_False, Bool.and_false]
    simp [World.fsend_uucp_cmd]
    by_cases hw : env.fconn_write st.w.nwrite = true <;> simp [hw]
  · unfold spec_identity_line
    exact List.suffix_append _ _

theorem C9_caller_identity_line_witness :
    fdo_call_zsend (chars "foo") true (7 : Int) 'A'.toNat = chars "Sfoo -Q7 -pA -vgrade=A -N" ∧
      (World.fsend_uucp_cmd
        { zsysdep_localname := some (chars "foo"), isysdep_get_sequence := (7 : Nat),
          ftimespan_match_calltimegrade := (some 'A'.toNat).map Int.ofNat }
        {} (chars "Sfoo -Q7 -pA -vgrade=A -N")).2.trace =
        [Event.write (DLE :: (chars "Sfoo -Q7 -pA -vgrade=A -N" ++ [0])) true] :=
  have h := C9_caller_identity_line
    { zsysdep_localname := some (chars "foo"), isysdep_get_sequence := (7 : Nat),
      ftimespan_match_calltimegrade := (some 'A'.toNat).map Int.ofNat }
    { uuconf_zname := chars "bravo", uuconf_fsequence := true } none none {} (chars "foo") 7
    (some 'A'.toNat) (by rfl) (by rfl) (by rfl) (by decide)
  ⟨by have h1 := h.1; simpa using h1.trans (by decide), by decide⟩

/-- C10. Missing `-Q`, evaluated at the caller line `Sfoo -N` for a system
that must present a sequence number: the answerer does not reply `RBADSEQ`;
it replies `ROKN`, goes on to advertise protocols and finishes the call with
status complete.  Only a line without any option is refused. -/
theorem C10_missing_Q_with_options_accepted :
    ((faccept_call example_sequence_answerer (chars "ufoo") none
        { input := recv_lines [chars "Sfoo -N", chars "Ug"] }).2.w.trace.filter
          Event.is_write).map (fun e => match e with
            | Event.write bytes _ => bytes
            | _ => []) =
      [fsend_uucp_cmd_bytes (chars "Shere=bravo"), fsend_uucp_cmd_bytes (chars "ROKN"),
       fsend_uucp_cmd_bytes (chars "Pgf"), fsend_uucp_cmd_bytes (chars "OOOOOOO"),
       fsend_uucp_cmd_bytes (chars "OOOOOOO")] ∧
    (faccept_call example_sequence_answerer (chars "ufoo") none
        { input := recv_lines [chars "Sfoo -N", chars "Ug"] }).1 = true ∧
    (faccept_call example_sequence_answerer (chars "ufoo") none
        { input := recv_lines [chars "Sfoo -N", chars "Ug"] }).2.sstat.ttype =
      tstatus_type.STATUS_COMPLETE ∧
    ((faccept_call example_sequence_answerer (chars "ufoo") none
        { input := recv_lines [chars "Sfoo"] }).2.w.trace.filter Event.is_write).map
          (fun e => match e with
            | Event.write bytes _ => bytes
            | _ => []) =
      [fsend_uucp_cmd_bytes (chars "Shere=bravo"), fsend_uucp_cmd_bytes (chars "RBADSEQ")] := by
  decide

/-! ## The answerer: the arguments of the caller, token by token -/

theorem opt_space_lt (c : Nat) (h : opt_space c = true) (hc : c < 256) :
    c = 32 ∨ (9 ≤ c ∧ c ≤ 13) := by
  have hb : BUCHAR c = c := by
    unfold BUCHAR
    exact Nat.and_pow_two_sub_one_of_lt_two_pow (n := 8) hc
  simp only [opt_space, hb, isspace, Bool.or_eq_true, Bool.and_eq_true, decide_eq_true_eq] at h
  exact h

theorem opt_space_ne (c d : Nat) (h : opt_space c = true) (hd : opt_space d = false) : c ≠ d := by
  intro hcd
  rw [hcd, hd] at h
  exact Bool.noConfusion h

theorem opt_space_illegal (c : Nat) (h : opt_space c = true) : UUCONF_GRADE_LEGAL c = false := by
  by_cases hc : c < 256
  · have h1 := opt_space_lt c h hc
    simp [UUCONF_GRADE_LEGAL]
    omega
  · simp [UUCONF_GRADE_LEGAL]
    omega

theorem opt_space_no_digit (c : Nat) (h : opt_space c = true) : digit_value c = none := by
  by_cases hc : c < 256
  · have h1 := opt_space_lt c h hc
    unfold digit_value
    rw [if_neg (by simp; omega), if_neg (by simp; omega), if_neg (by simp; omega)]
  · unfold digit_value
    rw [if_neg (by simp; omega), if_neg (by simp; omega), if_neg (by simp; omega)]

theorem Rest_nil : Rest [] := by intro c h; simp at h

theorem Rest_cons (c : Nat) (r : List Nat) (h : opt_space c = true) : Rest (c :: r) := by
  intro d hd
  simp at hd
  rw [← hd]; exact h

theorem Rest_head_ne (r : List Nat) (hr : Rest r) (d : Nat) (hd : opt_space d = false) :
    r.head? ≠ some d := by
  intro h
  have := hr d h
  rw [hd] at this
  exact Bool.noConfusion this

theorem Rest_cidx_zero (r : List Nat) (hr : Rest r) :
    cidx r 0 = 0 ∨ opt_space (cidx r 0) = true := by
  cases r with
  | nil => left; rfl
  | cons c r => right; exact hr c rfl

theorem strtol_digits_append (base : Nat) (r : List Nat) (hr : Rest r) :
    ∀ (d : List Nat) (acc : Nat),
      strtol_digits base (d ++ r) acc = strtol_digits base d acc := by
  intro d
  induction d with
  | nil =>
    intro acc
    cases r with
    | nil => rfl
    | cons c r =>
      have h := opt_space_no_digit c (hr c rfl)
      simp [strtol_digits, h]
  | cons x d ih =>
    intro acc
    simp only [List.cons_append, strtol_digits]
    cases digit_value x with
    | none => rfl
    | some v =>
      simp only []
      by_cases hv : v < base
      · simp only [hv, if_true]; exact ih _
      · simp only [hv, if_false]

theorem strtol_magnitude_append (base : Nat) (r : List Nat) (hr : Rest r) (u : List Nat) :
    strtol_magnitude (u ++ r) base = strtol_magnitude u base := by
  have h0 : r.head? ≠ some 48 := Rest_head_ne r hr _ (by decide)
  have hx : r.head? ≠ some 120 := Rest_head_ne r hr _ (by decide)
  have hX : r.head? ≠ some 88 := Rest_head_ne r hr _ (by decide)
  have hd := strtol_digits_append
  match u with
  | [] =>
    have e := hd 10 r hr [] 0
    simp only [List.nil_append] at e
    simp [strtol_magnitude, h0, e, strtol_digits]
  | [a] =>
    have e8 := hd 8 r hr [a] 0
    have e10 := hd 10 r hr [a] 0
    simp only [List.cons_append, List.nil_append] at e8 e10
    simp [strtol_magnitude, hx, hX, e8, e10]
  | a :: b :: u =>
    have e16 := hd 16 r hr u 0
    have e8 := hd 8 r hr (a :: b :: u) 0
    have e10 := hd 10 r hr (a :: b :: u) 0
    simp only [List.cons_append] at e8 e10
    simp [strtol_magnitude, e16, e8, e10]

theorem dropWhile_space_cons (a : Nat) (u : List Nat) (ha : opt_space a = false) :
    (a :: u).dropWhile (fun c => isspace (BUCHAR c)) = a :: u := by
  have : isspace (BUCHAR a) = false := ha
  simp [List.dropWhile, this]

/-- The number `strtol` reads from a piece that starts with something other
than white space is not changed by what follows the next white space. -/
theorem strtol_append (base : Nat) (r : List Nat) (hr : Rest r) (a : Nat) (u : List Nat)
    (ha : opt_space a = false) :
    strtol (a :: u ++ r) base = strtol (a :: u) base := by
  have e1 := dropWhile_space_cons a (u ++ r) ha
  have e2 := dropWhile_space_cons a u ha
  have m1 := strtol_magnitude_append base r hr u
  have m2 := strtol_magnitude_append base r hr (a :: u)
  simp only [List.cons_append] at m2 e1
  unfold strtol
  simp only [List.cons_append, e1, e2, List.head?_cons, List.drop_succ_cons, List.drop_zero]
  by_cases hs : (some a = some '-'.toNat ∨ some a = some '+'.toNat)
  · simp only [hs, if_true, m1]
  · simp only [hs, if_false, m2]

theorem strtol_dropWhile (base : Nat) (z : List Nat) :
    strtol (z.dropWhile (fun c => isspace (BUCHAR c))) base = strtol z base := by
  unfold strtol
  simp only [List.dropWhile_idempotent]

theorem spec_tokens_cons (c : Nat) (hc : opt_space c = false) : ∀ z : List Nat,
    spec_tokens (c :: z) =
      (c :: z.takeWhile (fun c => !isspace (BUCHAR c))) ::
        spec_tokens (z.dropWhile (fun c => !isspace (BUCHAR c))) := by
  intro z
  induction z generalizing c with
  | nil => simp [spec_tokens, hc]
  | cons d z ih =>
    by_cases hd : opt_space d = true
    · have hd1 : isspace (BUCHAR d) = true := hd
      simp [spec_tokens, hc, hd, hd1, List.takeWhile, List.dropWhile]
    · have hd0 : opt_space d = false := by simpa using hd
      have hd1 : isspace (BUCHAR d) = false := hd0
      have e := ih d hd0
      rw [spec_tokens]
      simp only [hc, Bool.false_eq_true, if_false, List.head?_cons, Option.map_some',
        Option.getD_some, hd0, e]
      simp [List.takeWhile, List.dropWhile, hd1]

theorem spec_tokens_dropWhile : ∀ z : List Nat,
    spec_tokens (z.dropWhile (fun c => isspace (BUCHAR c))) = spec_tokens z := by
  intro z
  induction z with
  | nil => rfl
  | cons c z ih =>
    by_cases hc : opt_space c = true
    · have hc1 : isspace (BUCHAR c) = true := hc
      simp [List.dropWhile, hc1, spec_tokens, hc, ih]
    · have hc0 : opt_space c = false := by simpa using hc
      have hc1 : isspace (BUCHAR c) = false := hc0
      simp [List.dropWhile, hc1]

theorem Rest_dropWhile (z : List Nat) : Rest (z.dropWhile (fun c => !isspace (BUCHAR c))) := by
  intro c hc
  have h := List.head?_dropWhile_not (fun c => !isspace (BUCHAR c)) z
  rw [hc] at h
  simpa [opt_space] using h

theorem Token_takeWhile (c : Nat) (hc : opt_space c = false) (z : List Nat) :
    Token (c :: z.takeWhile (fun c => !isspace (BUCHAR c))) := by
  refine ⟨by simp, ?_⟩
  intro d hd
  rcases List.mem_cons.mp hd with h | h
  · rw [h]; exact hc
  · have := List.mem_takeWhile_imp h
    simpa [opt_space] using this

theorem spec_tokens_Token_aux : ∀ (n : Nat) (z : List Nat), z.length ≤ n →
    ∀ t ∈ spec_tokens z, Token t := by
  intro n
  induction n with
  | zero =>
    intro z hz t ht
    have : z = [] := List.length_eq_zero.mp (by omega)
    subst this
    simp [spec_tokens] at ht
  | succ n ih =>
    intro z hz t ht
    cases z with
    | nil => simp [spec_tokens] at ht
    | cons c z =>
      simp only [List.length_cons] at hz
      by_cases hc : opt_space c = true
      · have e : spec_tokens (c :: z) = spec_tokens z := by simp [spec_tokens, hc]
        rw [e] at ht
        exact ih z (by omega) t ht
      · have hc0 : opt_space c = false := by simpa using hc
        rw [spec_tokens_cons c hc0 z] at ht
        rcases List.mem_cons.mp ht with h | h
        · rw [h]; exact Token_takeWhile c hc0 z
        · have hl : (z.dropWhile (fun c => !isspace (BUCHAR c))).length ≤ z.length :=
            (List.dropWhile_sublist _).length_le
          exact ih _ (by omega) t h

/-- Every token of an option string is a piece without white space that is
not empty. -/
theorem spec_tokens_Token (z : List Nat) : ∀ t ∈ spec_tokens z, Token t :=
  spec_tokens_Token_aux z.length z (Nat.le_refl _)

/-- The treatment of an argument depends on the text before the loop only
through the characters and numbers the `switch` looks at. -/
theorem faccept_call_arg_congr (env : Env) (qsys : uuconf_system) (zs zs1 : List Nat)
    (st : AcceptSt)
    (h0 : cidx zs 0 = cidx zs1 0) (h1 : cidx zs 1 = cidx zs1 1)
    (hQ : strtol (zs.drop 2) 10 = strtol (zs1.drop 2) 10)
    (hU : strtol (zs.drop 2) 0 = strtol (zs1.drop 2) 0)
    (h2 : (UUCONF_GRADE_LEGAL (cidx zs 2) = true ∨ UUCONF_GRADE_LEGAL (cidx zs1 2) = true) →
      cidx zs 2 = cidx zs1 2)
    (hv : strncmp (zs.drop 1) (chars "vgrade=") 7 = 0 ↔
      strncmp (zs1.drop 1) (chars "vgrade=") 7 = 0)
    (h8 : strncmp (zs.drop 1) (chars "vgrade=") 7 = 0 →
      (UUCONF_GRADE_LEGAL (cidx zs 8) = true ∨ UUCONF_GRADE_LEGAL (cidx zs1 8) = true) →
      cidx zs 8 = cidx zs1 8) :
    faccept_call_arg env qsys zs st = faccept_call_arg env qsys zs1 st := by
  have g2 : (if UUCONF_GRADE_LEGAL (cidx zs 2) = true then
        ArgResult.next true { st with bgrade := cidx zs 2 } else ArgResult.next true st) =
      (if UUCONF_GRADE_LEGAL (cidx zs1 2) = true then
        ArgResult.next true { st with bgrade := cidx zs1 2 } else ArgResult.next true st) := by
    by_cases ha : UUCONF_GRADE_LEGAL (cidx zs 2) = true
    · have e := h2 (Or.inl ha)
      rw [← e]
    · by_cases hb : UUCONF_GRADE_LEGAL (cidx zs1 2) = true
      · have e := h2 (Or.inr hb)
        rw [← e]
      · rw [if_neg ha, if_neg hb]
  have g8 : (if strncmp (zs.drop 1) (chars "vgrade=") 7 = 0 then
        (if UUCONF_GRADE_LEGAL (cidx zs 8) = true then
          ArgResult.next true { st with bgrade := cidx zs 8 } else ArgResult.next true st)
        else ArgResult.next false st) =
      (if strncmp (zs1.drop 1) (chars "vgrade=") 7 = 0 then
        (if UUCONF_GRADE_LEGAL (cidx zs1 8) = true then
          ArgResult.next true { st with bgrade := cidx zs1 8 } else ArgResult.next true st)
        else ArgResult.next false st) := by
    by_cases hp : strncmp (zs.drop 1) (chars "vgrade=") 7 = 0
    · have hp1 := hv.mp hp
      rw [if_pos hp, if_pos hp1]
      by_cases ha : UUCONF_GRADE_LEGAL (cidx zs 8) = true
      · have e := h8 hp (Or.inl ha)
        rw [← e]
      · by_cases hb : UUCONF_GRADE_LEGAL (cidx zs1 8) = true
        · have e := h8 hp (Or.inr hb)
          rw [← e]
        · rw [if_neg ha, if_neg hb]
    · have hp1 : ¬ strncmp (zs1.drop 1) (chars "vgrade=") 7 = 0 := fun h => hp (hv.mpr h)
      rw [if_neg hp, if_neg hp1]
  unfold faccept_call_arg
  rw [h0, h1, hQ, hU, g2, g8]

/-- An argument that is not one of the options of the `switch` is passed
over as not recognised. -/
theorem faccept_call_arg_other (env : Env) (qsys : uuconf_system) (zs : List Nat) (st : AcceptSt)
    (h : cidx zs 0 = '-'.toNat →
      cidx zs 1 ≠ 'x'.toNat ∧ cidx zs 1 ≠ 'Q'.toNat ∧ cidx zs 1 ≠ 'p'.toNat ∧
      (cidx zs 1 = 'v'.toNat → strncmp (zs.drop 1) (chars "vgrade=") 7 ≠ 0) ∧
      cidx zs 1 ≠ 'N'.toNat ∧ cidx zs 1 ≠ 'U'.toNat ∧ cidx zs 1 ≠ 'R'.toNat) :
    faccept_call_arg env qsys zs st = ArgResult.next false st := by
  unfold faccept_call_arg
  by_cases h0 : cidx zs 0 = '-'.toNat
  · obtain ⟨hx, hq, hp, hv, hn, hu, hr⟩ := h h0
    rw [if_pos h0, if_neg hx, if_neg hq, if_neg hp, if_neg hn, if_neg hu, if_neg hr]
    by_cases h1 : cidx zs 1 = 'v'.toNat
    · rw [if_pos h1, if_neg (hv h1)]
    · rw [if_neg h1]
  · rw [if_neg h0]

theorem strncmp_append_rest (r : List Nat) (hr : Rest r) : ∀ (n : Nat) (u v : List Nat),
    n ≤ v.length → (∀ c ∈ v, opt_space c = false) →
    (strncmp (u ++ r) v n = 0 ↔ strncmp u v n = 0) := by
  intro n
  induction n with
  | zero => intro u v _ _; simp [strncmp]
  | succ n ih =>
    intro u v hn hv
    cases v with
    | nil => simp at hn
    | cons y v =>
      have hy : opt_space y = false := hv y (by simp)
      have hv1 : ∀ c ∈ v, opt_space c = false := fun c hc => hv c (by simp [hc])
      cases u with
      | nil =>
        cases r with
        | nil => simp [strncmp]
        | cons s r =>
          have hs : s ≠ y := opt_space_ne s y (hr s rfl) hy
          by_cases hlt : s < y <;> simp [strncmp, hs, hlt]
      | cons x u =>
        by_cases hxy : x = y
        · simp only [List.cons_append, strncmp, hxy, if_true]
          exact ih u v (by simp at hn; omega) hv1
        · by_cases hlt : x < y <;> simp [strncmp, hxy, hlt]

theorem vgrade_chars : ∀ c ∈ chars "vgrade=", opt_space c = false := by decide

theorem Rest_illegal (r : List Nat) (hr : Rest r) : UUCONF_GRADE_LEGAL (cidx r 0) = false := by
  rcases Rest_cidx_zero r hr with h | h
  · rw [h]; rfl
  · exact opt_space_illegal _ h

/-- The number `strtol` reads from what follows a token is the number it
reads from the next token. -/
theorem strtol_next_token (base : Nat) (r : List Nat) :
    strtol r base = strtol (' '.toNat :: (spec_tokens r).headD []) base := by
  have e1 : strtol (' '.toNat :: (spec_tokens r).headD []) base =
      strtol ((spec_tokens r).headD []) base := by
    rw [← strtol_dropWhile base (' '.toNat :: (spec_tokens r).headD [])]
    have hs : isspace (BUCHAR ' '.toNat) = true := by decide
    rw [List.dropWhile_cons_of_pos (p := fun c => isspace (BUCHAR c)) (a := ' '.toNat) hs,
      strtol_dropWhile]
  rw [e1, ← strtol_dropWhile base r, ← spec_tokens_dropWhile r]
  cases hz : r.dropWhile (fun c => isspace (BUCHAR c)) with
  | nil => rfl
  | cons c z =>
    have hc : opt_space c = false := by
      have h := List.head?_dropWhile_not (fun c => isspace (BUCHAR c)) r
      rw [hz] at h
      simpa [opt_space] using h
    rw [spec_tokens_cons c hc z]
    simp only [List.headD_cons]
    have e2 : c :: z = (c :: z.takeWhile (fun c => !isspace (BUCHAR c))) ++
        z.dropWhile (fun c => !isspace (BUCHAR c)) := by
      simp [List.takeWhile_append_dropWhile]
    rw [e2]
    exact strtol_append base _ (Rest_dropWhile z) c _ hc

/-- At a token of one character the loop sees nothing it recognises. -/
theorem faccept_call_arg_one (env : Env) (qsys : uuconf_system) (a : Nat) (r : List Nat)
    (hr : Rest r) (st : AcceptSt) :
    faccept_call_arg env qsys (a :: r) st = faccept_call_arg env qsys [a] st := by
  have h0 : ∀ d, opt_space d = false → d ≠ 0 → cidx (a :: r) 1 ≠ d := by
    intro d hd hd0
    have e : cidx (a :: r) 1 = cidx r 0 := rfl
    rw [e]
    rcases Rest_cidx_zero r hr with h | h
    · rw [h]; exact fun h1 => hd0 h1.symm
    · exact opt_space_ne _ d h hd
  rw [faccept_call_arg_other env qsys (a :: r) st, faccept_call_arg_other env qsys [a] st]
  · intro _
    have e : cidx [a] 1 = 0 := rfl
    rw [e]
    refine ⟨by decide, by decide, by decide, ?_, by decide, by decide, by decide⟩
    intro h; exact absurd h (by decide)
  · intro _
    refine ⟨h0 _ (by decide) (by decide), h0 _ (by decide) (by decide),
      h0 _ (by decide) (by decide), ?_, h0 _ (by decide) (by decide),
      h0 _ (by decide) (by decide), h0 _ (by decide) (by decide)⟩
    intro h; exact absurd h (h0 _ (by decide) (by decide))

/-- At a token of two characters the loop sees the token and, through
`strtol`, the token after it. -/
theorem faccept_call_arg_two (env : Env) (qsys : uuconf_system) (a b : Nat) (r : List Nat)
    (hr : Rest r) (st : AcceptSt) :
    faccept_call_arg env qsys (a :: b :: r) st =
      faccept_call_arg env qsys (a :: b :: ' '.toNat :: (spec_tokens r).headD []) st := by
  have hsp : Rest (' '.toNat :: (spec_tokens r).headD []) := Rest_cons _ _ (by decide)
  have v1 := strncmp_append_rest r hr 7 [b] (chars "vgrade=") (by decide) vgrade_chars
  have v2 := strncmp_append_rest _ hsp 7 [b] (chars "vgrade=") (by decide) vgrade_chars
  have vb : strncmp [b] (chars "vgrade=") 7 ≠ 0 := by
    rw [Ne, strncmp_eq_zero]
    intro h
    have := congrArg List.length h
    simp [chars] at this
  apply faccept_call_arg_congr
  · rfl
  · rfl
  · exact strtol_next_token 10 r
  · exact strtol_next_token 0 r
  · intro h
    have e1 : UUCONF_GRADE_LEGAL (cidx (a :: b :: r) 2) = false := Rest_illegal r hr
    have e2 : UUCONF_GRADE_LEGAL
        (cidx (a :: b :: ' '.toNat :: (spec_tokens r).headD []) 2) = false := by
      have e : cidx (a :: b :: ' '.toNat :: (spec_tokens r).headD []) 2 = ' '.toNat := rfl
      rw [e]; decide
    rw [e1, e2] at h
    simp at h
  · exact v1.trans v2.symm
  · intro h
    exact absurd (v1.mp h) vb

/-- At a token of three characters or more the loop sees the token alone. -/
theorem faccept_call_arg_long (env : Env) (qsys : uuconf_system) (a b c : Nat) (t r : List Nat)
    (hc : opt_space c = false) (hr : Rest r) (st : AcceptSt) :
    faccept_call_arg env qsys (a :: b :: c :: t ++ r) st =
      faccept_call_arg env qsys (a :: b :: c :: t) st := by
  have v1 := strncmp_append_rest r hr 7 (b :: c :: t) (chars "vgrade=") (by decide) vgrade_chars
  apply faccept_call_arg_congr
  · rfl
  · rfl
  · exact strtol_append 10 r hr c t hc
  · exact strtol_append 0 r hr c t hc
  · intro _; rfl
  · exact v1
  · intro hp hl
    have hp1 := (strncmp_eq_zero 7 _ _).mp (v1.mp hp)
    have hlen : 7 ≤ (b :: c :: t).length := by
      have := congrArg List.length hp1
      simp [chars] at this
      simp
      omega
    simp only [List.length_cons] at hlen
    by_cases h9 : 6 ≤ t.length
    · have e : cidx (a :: b :: c :: t ++ r) 8 = cidx (a :: b :: c :: t) 8 := by
        simp only [cidx, List.cons_append, List.getD_cons_succ]
        exact List.getD_append _ _ _ _ (by omega)
      exact e
    · have ht : t.length = 5 := by omega
      have e1 : cidx (a :: b :: c :: t ++ r) 8 = cidx r 0 := by
        simp only [cidx, List.cons_append, List.getD_cons_succ]
        rw [List.getD_append_right _ _ _ _ (by omega), ht]
      have e2 : cidx (a :: b :: c :: t) 8 = 0 := by
        simp only [cidx, List.getD_cons_succ]
        exact List.getD_eq_default _ _ (by omega)
      rw [e1, e2, Rest_illegal r hr] at hl
      simp [UUCONF_GRADE_LEGAL] at hl

/-- What the loop does at a token depends on the token alone, but for a
token of two characters, where the token after it counts too. -/
theorem faccept_call_arg_view (env : Env) (qsys : uuconf_system) (t r : List Nat)
    (ht : Token t) (hr : Rest r) (st : AcceptSt) :
    faccept_call_arg env qsys (t ++ r) st =
      faccept_call_arg env qsys (arg_view t ((spec_tokens r).headD [])) st := by
  obtain ⟨hne, hall⟩ := ht
  match t, hne, hall with
  | [a], _, _ =>
    have e : arg_view [a] ((spec_tokens r).headD []) = [a] := by simp [arg_view]
    rw [e]
    exact faccept_call_arg_one env qsys a r hr st
  | [a, b], _, _ =>
    have e : arg_view [a, b] ((spec_tokens r).headD []) =
        a :: b :: ' '.toNat :: (spec_tokens r).headD [] := by simp [arg_view]
    rw [e]
    exact faccept_call_arg_two env qsys a b r hr st
  | a :: b :: c :: t, _, hall =>
    have e : arg_view (a :: b :: c :: t) ((spec_tokens r).headD []) = a :: b :: c :: t := by
      simp [arg_view]
    rw [e]
    exact faccept_call_arg_long env qsys a b c t r (hall c (by simp)) hr st

/-- The option loop of `faccept_call` ends, and it treats the option string
token by token. -/
theorem faccept_call_args_tokens (env : Env) (qsys : uuconf_system) :
    ∀ (fuel : Nat) (z : List Nat) (st : AcceptSt), z.length < fuel →
      faccept_call_args env qsys fuel (z.dropWhile (fun c => isspace (BUCHAR c))) st =
        some (args_tokens env qsys (spec_tokens z) st) := by
  intro fuel
  induction fuel with
  | zero => intro z st h; omega
  | succ fuel ih =>
    intro z st hlen
    have hsub : (z.dropWhile (fun c => isspace (BUCHAR c))).length ≤ z.length :=
      (List.dropWhile_sublist _).length_le
    rw [← spec_tokens_dropWhile z]
    cases hz : z.dropWhile (fun c => isspace (BUCHAR c)) with
    | nil => simp [faccept_call_args, spec_tokens, args_tokens]
    | cons c z1 =>
      rw [hz] at hsub
      simp only [List.length_cons] at hsub
      have hc : opt_space c = false := by
        have h := List.head?_dropWhile_not (fun c => isspace (BUCHAR c)) z
        rw [hz] at h
        simpa [opt_space] using h
      have hc1 : (!isspace (BUCHAR c)) = true := by
        have : isspace (BUCHAR c) = false := hc
        simp [this]
      have hsplit : c :: z1 = (c :: z1.takeWhile (fun c => !isspace (BUCHAR c))) ++
          z1.dropWhile (fun c => !isspace (BUCHAR c)) := by
        simp [List.takeWhile_append_dropWhile]
      have hV : faccept_call_arg env qsys (c :: z1) st =
          faccept_call_arg env qsys
            (arg_view (c :: z1.takeWhile (fun c => !isspace (BUCHAR c)))
              ((spec_tokens (z1.dropWhile (fun c => !isspace (BUCHAR c)))).headD [])) st := by
        rw [← faccept_call_arg_view env qsys _ _ (Token_takeWhile c hc z1) (Rest_dropWhile z1) st,
          ← hsplit]
      have hnext : (c :: z1).dropWhile (fun c => !isspace (BUCHAR c)) =
          z1.dropWhile (fun c => !isspace (BUCHAR c)) :=
        List.dropWhile_cons_of_pos (p := fun c => !isspace (BUCHAR c)) (a := c) hc1
      have hl : (z1.dropWhile (fun c => !isspace (BUCHAR c))).length < fuel := by
        have : (z1.dropWhile (fun c => !isspace (BUCHAR c))).length ≤ z1.length :=
          (List.dropWhile_sublist _).length_le
        omega
      rw [spec_tokens_cons c hc z1, faccept_call_args, args_tokens]
      simp only [hV, hnext, List.cons_ne_nil, if_false]
      cases faccept_call_arg env qsys
          (arg_view (c :: z1.takeWhile (fun c => !isspace (BUCHAR c)))
            ((spec_tokens (z1.dropWhile (fun c => !isspace (BUCHAR c)))).headD [])) st with
      | rejected st1 => rfl
      | next frecognized st1 =>
        simp only []
        exact ih _ _ hl

theorem chars_x : chars "-x" = [45, 120] := by decide
theorem chars_Q : chars "-Q" = [45, 81] := by decide
theorem chars_p : chars "-p" = [45, 112] := by decide
theorem chars_N : chars "-N" = [45, 78] := by decide
theorem chars_U : chars "-U" = [45, 85] := by decide
theorem chars_R : chars "-R" = [45, 82] := by decide
theorem chars_vgrade : chars "vgrade=" = [118, 103, 114, 97, 100, 101, 61] := by decide
theorem chars_dash_vgrade : chars "-vgrade=" = 45 :: chars "vgrade=" := by decide

theorem vgrade_prefix (zs : List Nat) :
    (chars "vgrade=").isPrefixOf zs = true ↔ strncmp zs (chars "vgrade=") 7 = 0 := by
  rw [strncmp_eq_zero, List.isPrefixOf_iff_prefix, List.prefix_iff_eq_take]
  have h1 : (chars "vgrade=").length = 7 := by decide
  have h2 : (chars "vgrade=").take 7 = chars "vgrade=" := by decide
  rw [h1, h2]
  exact eq_comm

/-- The treatment of an argument, read off the option it begins with. -/
theorem faccept_call_arg_eq (env : Env) (qsys : uuconf_system) (zs : List Nat) (st : AcceptSt) :
    faccept_call_arg env qsys zs st =
      if (chars "-Q").isPrefixOf zs = true ∧ qsys.uuconf_fsequence = true ∧
          strtol (zs.drop 2) 10 ≠ env.isysdep_get_sequence then
        ArgResult.rejected (faccept_call_badseq env qsys st)
      else
        ArgResult.next (spec_recognised zs)
          (arg_effect zs (strtol (zs.drop 2) 0)
            (arg_debug env qsys zs (strtol (zs.drop 2) 10) st)) := by
  unfold arg_effect arg_debug
  have hv := vgrade_prefix (zs.drop 1)
  match zs with
  | [] =>
    simp [faccept_call_arg, cidx, spec_recognised, spec_token_grade, chars_x, chars_Q, chars_p,
      chars_N, chars_U, chars_R, chars_dash_vgrade, List.isPrefixOf]
  | [a] =>
    by_cases ha : a = 45
    · subst ha
      simp [faccept_call_arg, cidx, spec_recognised, spec_token_grade, chars_x, chars_Q, chars_p,
        chars_N, chars_U, chars_R, chars_dash_vgrade, List.isPrefixOf, chars_vgrade]
    · simp [faccept_call_arg, cidx, spec_recognised, spec_token_grade, chars_x, chars_Q, chars_p,
        chars_N, chars_U, chars_R, chars_dash_vgrade, List.isPrefixOf, ha, Ne.symm ha]
  | a :: b :: zs =>
    simp only [List.drop_succ_cons, List.drop_zero] at hv
    by_cases ha : a = 45
    · subst ha
      by_cases hx : b = 120
      · subst hx
        simp [faccept_call_arg, cidx, spec_recognised, spec_token_grade, chars_x, chars_Q,
          chars_p, chars_N, chars_U, chars_R, chars_dash_vgrade, List.isPrefixOf, chars_vgrade]
      by_cases hq : b = 81
      · subst hq
        by_cases hs : qsys.uuconf_fsequence = true
        · by_cases hn : strtol zs 10 = env.isysdep_get_sequence
          · simp [faccept_call_arg, cidx, spec_recognised, spec_token_grade, chars_x, chars_Q,
              chars_p, chars_N, chars_U, chars_R, chars_dash_vgrade, List.isPrefixOf,
              chars_vgrade, hs, hn]
          · simp [faccept_call_arg, cidx, spec_recognised, spec_token_grade, chars_x, chars_Q,
              chars_p, chars_N, chars_U, chars_R, chars_dash_vgrade, List.isPrefixOf,
              chars_vgrade, hs, hn, faccept_call_badseq]
        · simp [faccept_call_arg, cidx, spec_recognised, spec_token_grade, chars_x, chars_Q,
            chars_p, chars_N, chars_U, chars_R, chars_dash_vgrade, List.isPrefixOf,
            chars_vgrade, hs]
      by_cases hp : b = 112
      · subst hp
        by_cases hl : UUCONF_GRADE_LEGAL (zs[0]?.getD 0) = true
        · simp [faccept_call_arg, cidx, spec_recognised, spec_token_grade, chars_x, chars_Q,
            chars_p, chars_N, chars_U, chars_R, chars_dash_vgrade, List.isPrefixOf,
            chars_vgrade, hl]
        · simp [faccept_call_arg, cidx, spec_recognised, spec_token_grade, chars_x, chars_Q,
            chars_p, chars_N, chars_U, chars_R, chars_dash_vgrade, List.isPrefixOf,
            chars_vgrade, hl]
      by_cases hn : b = 78
      · subst hn
        simp [faccept_call_arg, cidx, spec_recognised, spec_token_grade, chars_x, chars_Q,
          chars_p, chars_N, chars_U, chars_R, chars_dash_vgrade, List.isPrefixOf, chars_vgrade]
      by_cases hu : b = 85
      · subst hu
        by_cases hpos : strtol zs 0 > 0
        · simp [faccept_call_arg, cidx, spec_recognised, spec_token_grade, chars_x, chars_Q,
            chars_p, chars_N, chars_U, chars_R, chars_dash_vgrade, List.isPrefixOf,
            chars_vgrade, hpos]
        · simp [faccept_call_arg, cidx, spec_recognised, spec_token_grade, chars_x, chars_Q,
            chars_p, chars_N, chars_U, chars_R, chars_dash_vgrade, List.isPrefixOf,
            chars_vgrade, hpos]
      by_cases hr : b = 82
      · subst hr
        simp [faccept_call_arg, cidx, spec_recognised, spec_token_grade, chars_x, chars_Q,
          chars_p, chars_N, chars_U, chars_R, chars_dash_vgrade, List.isPrefixOf, chars_vgrade]
      have bx : (120 == b) = false := by simpa using Ne.symm hx
      have bq : (81 == b) = false := by simpa using Ne.symm hq
      have bp : (112 == b) = false := by simpa using Ne.symm hp
      have bn : (78 == b) = false := by simpa using Ne.symm hn
      have bu : (85 == b) = false := by simpa using Ne.symm hu
      have br : (82 == b) = false := by simpa using Ne.symm hr
      by_cases hvv : strncmp (b :: zs) (chars "vgrade=") 7 = 0
      · have hpre := hv.mpr hvv
        have hb : b = 118 := by
          have h1 := (strncmp_eq_zero 7 _ _).mp hvv
          rw [chars_vgrade] at h1
          cases zs <;> simp at h1
          exact h1.1
        subst hb
        have hpre1 : [103, 114, 97, 100, 101, 61].isPrefixOf zs = true := by
          simpa [chars_vgrade] using hpre
        have hpre2 : [103, 114, 97, 100, 101, 61] <+: zs := List.isPrefixOf_iff_prefix.mp hpre1
        by_cases hl : UUCONF_GRADE_LEGAL (zs[6]?.getD 0) = true
        · simp [faccept_call_arg, cidx, spec_recognised, spec_token_grade, chars_x, chars_Q,
            chars_p, chars_N, chars_U, chars_R, chars_dash_vgrade, List.isPrefixOf,
            hl, hvv, hpre1, hpre2]
        · simp [faccept_call_arg, cidx, spec_recognised, spec_token_grade, chars_x, chars_Q,
            chars_p, chars_N, chars_U, chars_R, chars_dash_vgrade, List.isPrefixOf,
            hl, hvv, hpre1, hpre2]
      · have hpre : (chars "vgrade=").isPrefixOf (b :: zs) = false := by
          cases h : (chars "vgrade=").isPrefixOf (b :: zs)
          · rfl
          · exact absurd (hv.mp h) hvv
        have hpre1 : 118 = b → [103, 114, 97, 100, 101, 61].isPrefixOf zs = false := by
          intro hb
          subst hb
          simpa [chars_vgrade] using hpre
        have hpre2 : ¬ (118 = b ∧ [103, 114, 97, 100, 101, 61] <+: zs) := by
          rintro ⟨hb, h2⟩
          have := hpre1 hb
          rw [List.isPrefixOf_iff_prefix.mpr h2] at this
          exact Bool.noConfusion this
        simp [faccept_call_arg, cidx, spec_recognised, spec_token_grade, chars_x, chars_Q,
            chars_p, chars_N, chars_U, chars_R, chars_dash_vgrade, List.isPrefixOf,
            hvv, hpre2, hx, hq, hp, hn, hu, hr, bx, bq, bp, bn, bu, br]
        exact hpre1
    · have ba : (45 == a) = false := by simpa using Ne.symm ha
      simp [faccept_call_arg, cidx, spec_recognised, spec_token_grade, chars_x, chars_Q, chars_p,
        chars_N, chars_U, chars_R, chars_dash_vgrade, List.isPrefixOf, ha, ba]
/-! ## The option loop, one token at a time -/

theorem arg_view_long (t next : List Nat) (h : t.length ≠ 2) : arg_view t next = t := by
  simp [arg_view, h]

theorem arg_view_prefix (x y : Nat) (t next : List Nat) (ht : Token t) :
    [x, y].isPrefixOf (arg_view t next) = [x, y].isPrefixOf t := by
  by_cases h : t.length = 2
  · match t, h with
    | [a, b], _ => simp [arg_view, List.isPrefixOf]
  · rw [arg_view_long t next h]

theorem arg_view_recognised (t next : List Nat) (ht : Token t) :
    spec_recognised (arg_view t next) = spec_recognised t := by
  by_cases h : t.length = 2
  · match t, h with
    | [a, b], _ =>
      simp [arg_view, spec_recognised, List.isPrefixOf, chars_x, chars_Q, chars_p, chars_N,
        chars_U, chars_R, chars_dash_vgrade, chars_vgrade]
  · rw [arg_view_long t next h]

theorem arg_view_grade (t next : List Nat) (ht : Token t) :
    spec_token_grade (arg_view t next) = spec_token_grade t := by
  by_cases h : t.length = 2
  · match t, h with
    | [a, b], _ =>
      have e : UUCONF_GRADE_LEGAL 32 = false := by decide
      have e0 : UUCONF_GRADE_LEGAL 0 = false := by decide
      simp [arg_view, spec_token_grade, List.isPrefixOf, chars_p, chars_dash_vgrade,
        chars_vgrade, cidx, e, e0]
  · rw [arg_view_long t next h]

theorem World.writes_ulog (w : World) (s : String) : (w.ulog s).writes = w.writes := by
  simp [World.writes, World.ulog, List.filterMap_append]

theorem World.nwrite_ulog (w : World) (s : String) : (w.ulog s).nwrite = w.nwrite := rfl

/-- The block of `case 'x'` touches the debugging types, the log and the
mark of defined behaviour, and nothing else. -/
theorem faccept_call_debug_fields (env : Env) (qsys : uuconf_system) (n : Int)
    (st : AcceptSt) :
    (faccept_call_debug env qsys n st).w.writes = st.w.writes ∧
    (faccept_call_debug env qsys n st).w.nwrite = st.w.nwrite ∧
    (faccept_call_debug env qsys n st).sstat = st.sstat ∧
    (faccept_call_debug env qsys n st).bgrade = st.bgrade ∧
    (faccept_call_debug env qsys n st).fnew = st.fnew ∧
    (faccept_call_debug env qsys n st).cmax_receive = st.cmax_receive ∧
    (faccept_call_debug env qsys n st).frestart = st.frestart := by
  unfold faccept_call_debug
  split
  · exact ⟨rfl, rfl, rfl, rfl, rfl, rfl, rfl⟩
  · split
    · exact ⟨rfl, rfl, rfl, rfl, rfl, rfl, rfl⟩
    · split
      · exact ⟨World.writes_ulog _ _, rfl, rfl, rfl, rfl, rfl, rfl⟩
      · exact ⟨rfl, rfl, rfl, rfl, rfl, rfl, rfl⟩

theorem arg_debug_fields (env : Env) (qsys : uuconf_system) (t : List Nat) (n : Int)
    (st : AcceptSt) :
    (arg_debug env qsys t n st).w.writes = st.w.writes ∧
    (arg_debug env qsys t n st).w.nwrite = st.w.nwrite ∧
    (arg_debug env qsys t n st).sstat = st.sstat ∧
    (arg_debug env qsys t n st).bgrade = st.bgrade ∧
    (arg_debug env qsys t n st).fnew = st.fnew ∧
    (arg_debug env qsys t n st).cmax_receive = st.cmax_receive ∧
    (arg_debug env qsys t n st).frestart = st.frestart := by
  unfold arg_debug
  split
  · exact faccept_call_debug_fields env qsys n st
  · exact ⟨rfl, rfl, rfl, rfl, rfl, rfl, rfl⟩

/-- A token that does not begin with `-x` leaves the debugging types
alone. -/
theorem arg_debug_other (env : Env) (qsys : uuconf_system) (t : List Nat) (n : Int)
    (st : AcceptSt) (h : (chars "-x").isPrefixOf t = false) : arg_debug env qsys t n st = st := by
  simp [arg_debug, h]

/-- What passing a token does to the session, field by field. -/
theorem arg_pass_fields (env : Env) (qsys : uuconf_system) (t next : List Nat)
    (st : AcceptSt) :
    (arg_pass env qsys t next st).w.writes = st.w.writes ∧
    (arg_pass env qsys t next st).w.nwrite = st.w.nwrite ∧
    (arg_pass env qsys t next st).sstat = st.sstat ∧
    (arg_pass env qsys t next st).bgrade = (spec_token_grade t).getD st.bgrade ∧
    (arg_pass env qsys t next st).fnew = (st.fnew || (chars "-N").isPrefixOf t) := by
  obtain ⟨h1, h2, h3, h4, h5, _, _⟩ := arg_debug_fields env qsys t
    (strtol ((arg_view t next).drop 2) 10) st
  unfold arg_pass
  simp only []
  split
  · exact ⟨by simp [arg_effect, World.writes_ulog, h1], by simp [arg_effect, World.nwrite_ulog, h2],
      by simp [arg_effect, h3], by simp [arg_effect, h4], by simp [arg_effect, h5]⟩
  · exact ⟨by simp [arg_effect, h1], by simp [arg_effect, h2], by simp [arg_effect, h3],
      by simp [arg_effect, h4], by simp [arg_effect, h5]⟩

/-- What the loop does at the token `t` that `next` follows. -/
theorem faccept_call_arg_token (env : Env) (qsys : uuconf_system) (t next : List Nat)
    (st : AcceptSt) (ht : Token t) :
    faccept_call_arg env qsys (arg_view t next) st =
      if (chars "-Q").isPrefixOf t = true ∧ qsys.uuconf_fsequence = true ∧
          strtol ((arg_view t next).drop 2) 10 ≠ env.isysdep_get_sequence then
        ArgResult.rejected (faccept_call_badseq env qsys st)
      else
        ArgResult.next (spec_recognised t)
          (arg_effect t (strtol ((arg_view t next).drop 2) 0)
            (arg_debug env qsys t (strtol ((arg_view t next).drop 2) 10) st)) := by
  have eQ := arg_view_prefix 45 81 t next ht
  have eN := arg_view_prefix 45 78 t next ht
  have eU := arg_view_prefix 45 85 t next ht
  have eR := arg_view_prefix 45 82 t next ht
  have ex := arg_view_prefix 45 120 t next ht
  rw [faccept_call_arg_eq]
  unfold arg_effect arg_debug
  rw [arg_view_recognised t next ht, arg_view_grade t next ht, chars_Q, chars_N, chars_U,
    chars_R, chars_x, eQ, eN, eU, eR, ex]

theorem args_tokens_cons (env : Env) (qsys : uuconf_system) (t : List Nat)
    (ts : List (List Nat)) (st : AcceptSt) (ht : Token t) :
    args_tokens env qsys (t :: ts) st =
      if (chars "-Q").isPrefixOf t = true ∧ qsys.uuconf_fsequence = true ∧
          strtol ((arg_view t (ts.headD [])).drop 2) 10 ≠ env.isysdep_get_sequence then
        (false, faccept_call_badseq env qsys st)
      else args_tokens env qsys ts (arg_pass env qsys t (ts.headD []) st) := by
  rw [args_tokens, faccept_call_arg_token env qsys t _ st ht]
  by_cases h : (chars "-Q").isPrefixOf t = true ∧ qsys.uuconf_fsequence = true ∧
      strtol ((arg_view t (ts.headD [])).drop 2) 10 ≠ env.isysdep_get_sequence
  · rw [if_pos h, if_pos h]
  · rw [if_neg h, if_neg h]
    rfl

theorem spec_grade_cons (t : List Nat) (ts : List (List Nat)) (d : Nat) :
    spec_grade (t :: ts) d = spec_grade ts ((spec_token_grade t).getD d) := by
  unfold spec_grade
  cases h : spec_token_grade t with
  | none => simp [List.filterMap_cons, h]
  | some g =>
    simp only [List.filterMap_cons, h, Option.getD_some]
    cases h2 : List.filterMap spec_token_grade ts with
    | nil => simp
    | cons x xs =>
      rw [List.getLast?_cons_cons, List.getLast?_eq_getLast _ (List.cons_ne_nil x xs)]
      rfl

/-- The state in which the option loop is left when it accepts the
arguments: the grade is that of the last token asking for a legal one, `fnew`
is set exactly when a token begins with `-N`, and nothing was written. -/
theorem args_tokens_accepted (env : Env) (qsys : uuconf_system) :
    ∀ (ts : List (List Nat)) (st st2 : AcceptSt), (∀ t ∈ ts, Token t) →
      args_tokens env qsys ts st = (true, st2) →
      st2.bgrade = spec_grade ts st.bgrade ∧
      st2.fnew = (st.fnew || ts.any (fun t => (chars "-N").isPrefixOf t)) ∧
      st2.w.writes = st.w.writes ∧ st2.sstat = st.sstat ∧ st2.w.nwrite = st.w.nwrite := by
  intro ts
  induction ts with
  | nil =>
    intro st st2 _ h
    simp only [args_tokens, Prod.mk.injEq, true_and] at h
    subst h
    simp [spec_grade]
  | cons t ts ih =>
    intro st st2 htok h
    rw [args_tokens_cons env qsys t ts st (htok t (by simp))] at h
    by_cases hb : (chars "-Q").isPrefixOf t = true ∧ qsys.uuconf_fsequence = true ∧
        strtol ((arg_view t (ts.headD [])).drop 2) 10 ≠ env.isysdep_get_sequence
    · rw [if_pos hb] at h
      simp at h
    · rw [if_neg hb] at h
      obtain ⟨a1, a2, a3, a4, a5⟩ := ih _ st2 (fun u hu => htok u (by simp [hu])) h
      obtain ⟨p1, p2, p3, p4, p5⟩ := arg_pass_fields env qsys t (ts.headD []) st
      rw [spec_grade_cons]
      refine ⟨by rw [a1, p4], ?_, by rw [a3, p1], by rw [a4, p3], by rw [a5, p2]⟩
      rw [a2, p5, List.any_cons, Bool.or_assoc]

/-- The option loop either accepts the arguments or, for a system with
sequence numbers, leaves at a wrong one; until then it writes nothing and
leaves the status alone. -/
theorem args_tokens_cases (env : Env) (qsys : uuconf_system) :
    ∀ (ts : List (List Nat)) (st : AcceptSt), (∀ t ∈ ts, Token t) →
      ∃ st1 : AcceptSt, st1.w.writes = st.w.writes ∧ st1.sstat = st.sstat ∧
        st1.w.nwrite = st.w.nwrite ∧
        (args_tokens env qsys ts st = (true, st1) ∨
          (qsys.uuconf_fsequence = true ∧
            args_tokens env qsys ts st = (false, faccept_call_badseq env qsys st1))) := by
  intro ts
  induction ts with
  | nil => intro st _; exact ⟨st, rfl, rfl, rfl, Or.inl rfl⟩
  | cons t ts ih =>
    intro st htok
    rw [args_tokens_cons env qsys t ts st (htok t (by simp))]
    by_cases hb : (chars "-Q").isPrefixOf t = true ∧ qsys.uuconf_fsequence = true ∧
        strtol ((arg_view t (ts.headD [])).drop 2) 10 ≠ env.isysdep_get_sequence
    · rw [if_pos hb]
      exact ⟨st, rfl, rfl, rfl, Or.inr ⟨hb.2.1, rfl⟩⟩
    · rw [if_neg hb]
      obtain ⟨st1, h1, h2, h3, h4⟩ := ih (arg_pass env qsys t (ts.headD []) st)
        (fun u hu => htok u (by simp [hu]))
      obtain ⟨p1, p2, p3, _, _⟩ := arg_pass_fields env qsys t (ts.headD []) st
      exact ⟨st1, by rw [h1, p1], by rw [h2, p3], by rw [h3, p2], h4⟩

/-- For a system with sequence numbers, a token `-Q` with a number other
than the stored one makes the option loop leave with a rejection, at that
token or before. -/
theorem args_tokens_badseq (env : Env) (qsys : uuconf_system)
    (hseq : qsys.uuconf_fsequence = true) :
    ∀ (ts : List (List Nat)) (st : AcceptSt), (∀ t ∈ ts, Token t) →
      (∃ t ∈ ts, (chars "-Q").isPrefixOf t = true ∧ 3 ≤ t.length ∧
        strtol (t.drop 2) 10 ≠ env.isysdep_get_sequence) →
      ∃ st1 : AcceptSt, st1.w.writes = st.w.writes ∧ st1.sstat = st.sstat ∧
        st1.w.nwrite = st.w.nwrite ∧
        args_tokens env qsys ts st = (false, faccept_call_badseq env qsys st1) := by
  intro ts
  induction ts with
  | nil => intro st _ h; obtain ⟨t, ht, _⟩ := h; simp at ht
  | cons t0 ts ih =>
    intro st htok hbad
    rw [args_tokens_cons env qsys t0 ts st (htok t0 (by simp))]
    by_cases hb : (chars "-Q").isPrefixOf t0 = true ∧ qsys.uuconf_fsequence = true ∧
        strtol ((arg_view t0 (ts.headD [])).drop 2) 10 ≠ env.isysdep_get_sequence
    · rw [if_pos hb]
      exact ⟨st, rfl, rfl, rfl, rfl⟩
    · rw [if_neg hb]
      obtain ⟨t, ht, hq, hlen, hne⟩ := hbad
      have hin : t ∈ ts := by
        rcases List.mem_cons.mp ht with h | h
        · exfalso
          apply hb
          rw [← h, arg_view_long t _ (by omega)]
          exact ⟨hq, hseq, hne⟩
        · exact h
      obtain ⟨st1, h1, h2, h3, h4⟩ := ih (arg_pass env qsys t0 (ts.headD []) st)
        (fun u hu => htok u (by simp [hu])) ⟨t, hin, hq, hlen, hne⟩
      obtain ⟨p1, p2, p3, _, _⟩ := arg_pass_fields env qsys t0 (ts.headD []) st
      exact ⟨st1, by rw [h1, p1], by rw [h2, p3], by rw [h3, p2], h4⟩

/-- The option loop of `faccept_call`, with the fuel `faccept_call` gives
it, treats the tokens of the option string in order. -/
theorem faccept_call_args_eq (env : Env) (qsys : uuconf_system) (z : List Nat) (st : AcceptSt) :
    faccept_call_args env qsys ((z.dropWhile (fun c => isspace (BUCHAR c))).length + 1)
        (z.dropWhile (fun c => isspace (BUCHAR c))) st =
      some (args_tokens env qsys (spec_tokens z) st) := by
  have h := faccept_call_args_tokens env qsys
    ((z.dropWhile (fun c => isspace (BUCHAR c))).length + 1)
    (z.dropWhile (fun c => isspace (BUCHAR c))) st (Nat.lt_succ_self _)
  rw [List.dropWhile_idempotent, spec_tokens_dropWhile] at h
  exact h

theorem faccept_call_options_some (env : Env) (qsys : uuconf_system)
    (qport : Option uuconf_port) (qdialer : Option uuconf_dialer) (ftcp_port : Bool)
    (z : List Nat) (st : AcceptSt) :
    faccept_call_options env qsys qport qdialer ftcp_port (some z) st =
      if (args_tokens env qsys (spec_tokens z) st).1 then
        faccept_call_protocol env qsys qport qdialer ftcp_port
          (args_tokens env qsys (spec_tokens z) st).2
      else (false, (args_tokens env qsys (spec_tokens z) st).2) := by
  unfold faccept_call_options
  simp only [faccept_call_args_eq]
  rcases args_tokens env qsys (spec_tokens z) st with ⟨b, st2⟩
  cases b <;> rfl

/-- When the system is not called back and its lock is obtained,
`faccept_call` writes the talking status and turns to the arguments; here
for a line without a space. -/
theorem faccept_call_known_none (env : Env) (qsys : uuconf_system)
    (qport : Option uuconf_port) (qdialer : Option uuconf_dialer) (ftcp_port : Bool)
    (st : AcceptSt) (hcb : qsys.uuconf_fcallback = false)
    (hlock : env.fsysdep_lock_system qsys.uuconf_zname = true) :
    faccept_call_known env qsys qport qdialer ftcp_port none st =
      faccept_call_options env qsys qport qdialer ftcp_port none
        (faccept_call_talking env qsys st) := by
  unfold faccept_call_known faccept_call_talking
  simp [hcb, hlock, World.emit, World.isysdep_time, World.fsysdep_set_status]

/-- The same when the line has a space and the loop reads the text `z` from
the buffer the line was in. -/
theorem faccept_call_known_some (env : Env) (qsys : uuconf_system)
    (qport : Option uuconf_port) (qdialer : Option uuconf_dialer) (ftcp_port : Bool)
    (p : LinePtr) (z : List Nat) (st : AcceptSt) (hcb : qsys.uuconf_fcallback = false)
    (hlock : env.fsysdep_lock_system qsys.uuconf_zname = true)
    (hread : faccept_call_zspace env qsys p = some z) :
    faccept_call_known env qsys qport qdialer ftcp_port (some p) st =
      faccept_call_options env qsys qport qdialer ftcp_port (some z)
        (faccept_call_talking env qsys st) := by
  unfold faccept_call_known faccept_call_talking
  simp [hcb, hlock, hread, World.emit, World.isysdep_time, World.fsysdep_set_status]

/-- When nothing defined stands at `zspace`, the run leaves defined
behaviour after the talking status. -/
theorem faccept_call_known_unread (env : Env) (qsys : uuconf_system)
    (qport : Option uuconf_port) (qdialer : Option uuconf_dialer) (ftcp_port : Bool)
    (p : LinePtr) (st : AcceptSt) (hcb : qsys.uuconf_fcallback = false)
    (hlock : env.fsysdep_lock_system qsys.uuconf_zname = true)
    (hread : faccept_call_zspace env qsys p = none) :
    (faccept_call_known env qsys qport qdialer ftcp_port (some p) st).2.w.undefined = true := by
  unfold faccept_call_known
  simp [hcb, hlock, hread]

theorem faccept_call_badseq_writes (env : Env) (qsys : uuconf_system) (st : AcceptSt) :
    (faccept_call_badseq env qsys st).w.writes =
        st.w.writes ++ [fsend_uucp_cmd_bytes (chars "RBADSEQ")] ∧
    (faccept_call_badseq env qsys st).sstat =
      { st.sstat with ttype := tstatus_type.STATUS_FAILED } ∧
    (faccept_call_badseq env qsys st).w.trace =
      st.w.trace ++
        [Event.write (fsend_uucp_cmd_bytes (chars "RBADSEQ")) (env.fconn_write st.w.nwrite),
         Event.ulog "Out of sequence call rejected",
         Event.set_status qsys.uuconf_zname
           { st.sstat with ttype := tstatus_type.STATUS_FAILED }] := by
  simp [faccept_call_badseq, AcceptSt.fail, World.fsend_uucp_cmd, World.ulog,
    World.fsysdep_set_status, World.writes, List.filterMap_append]
/-! ## The answerer: sequence numbers -/

theorem faccept_call_talking_writes (env : Env) (qsys : uuconf_system) (st : AcceptSt) :
    (faccept_call_talking env qsys st).w.writes = st.w.writes := by
  simp [faccept_call_talking, World.writes, List.filterMap_append]

/-- When the option loop reads the options `z` at `zspace`: for a
selected alternate that is not called back and whose lock is obtained, if
it requires sequence numbers and `z` holds a token `-Q<d>` whose number, as
`strtol` reads the decimal text `d`, differs from the stored sequence
number, then `faccept_call` returns failure, the only string it writes from
there on is `RBADSEQ` (no `ROK`, `ROKN` or `P` line), and the last thing it
does is to write the status with kind failed; if the alternate requires no
sequence numbers, no argument is rejected and the option loop ends accepting
the call, whatever `-Q` tokens there are. -/
theorem faccept_call_mismatched_sequence (env : Env) (qsys : uuconf_system)
    (qport : Option uuconf_port) (qdialer : Option uuconf_dialer) (ftcp_port : Bool)
    (p : LinePtr) (z d : List Nat) (st : AcceptSt) (hcb : qsys.uuconf_fcallback = false)
    (hlock : env.fsysdep_lock_system qsys.uuconf_zname = true)
    (hread : faccept_call_zspace env qsys p = some z) :
    (qsys.uuconf_fsequence = true → chars "-Q" ++ d ∈ spec_tokens z → d ≠ [] →
      strtol d 10 ≠ env.isysdep_get_sequence →
      (faccept_call_known env qsys qport qdialer ftcp_port (some p) st).1 = false ∧
      (faccept_call_known env qsys qport qdialer ftcp_port (some p) st).2.w.writes =
        st.w.writes ++ [fsend_uucp_cmd_bytes (chars "RBADSEQ")] ∧
      (faccept_call_known env qsys qport qdialer ftcp_port (some p) st).2.sstat.ttype =
        tstatus_type.STATUS_FAILED ∧
      (faccept_call_known env qsys qport qdialer ftcp_port (some p) st).2.w.trace.getLast? =
        some (Event.set_status qsys.uuconf_zname
          (faccept_call_known env qsys qport qdialer ftcp_port (some p) st).2.sstat)) ∧
    (qsys.uuconf_fsequence = false →
      (∀ (zs : List Nat) (st0 : AcceptSt), ∃ frecognized st1,
        faccept_call_arg env qsys zs st0 = ArgResult.next frecognized st1) ∧
      ∃ st2 : AcceptSt,
        faccept_call_args env qsys ((z.dropWhile (fun c => isspace (BUCHAR c))).length + 1)
          (z.dropWhile (fun c => isspace (BUCHAR c))) (faccept_call_talking env qsys st) =
            some (true, st2) ∧
        st2.w.writes = st.w.writes ∧
        faccept_call_known env qsys qport qdialer ftcp_port (some p) st =
          faccept_call_protocol env qsys qport qdialer ftcp_port st2) := by
  have hk := faccept_call_known_some env qsys qport qdialer ftcp_port p z st hcb hlock hread
  have ho := faccept_call_options_some env qsys qport qdialer ftcp_port z
    (faccept_call_talking env qsys st)
  constructor
  · intro hseq hmem hd hne
    have hbad : ∃ t ∈ spec_tokens z, (chars "-Q").isPrefixOf t = true ∧ 3 ≤ t.length ∧
        strtol (t.drop 2) 10 ≠ env.isysdep_get_sequence := by
      refine ⟨chars "-Q" ++ d, hmem, ?_, ?_, ?_⟩
      · simp [chars_Q, List.isPrefixOf]
      · cases d with
        | nil => exact absurd rfl hd
        | cons c d => simp [chars_Q]
      · simpa [chars_Q] using hne
    obtain ⟨st1, h1, h2, _, h4⟩ := args_tokens_badseq env qsys hseq (spec_tokens z)
      (faccept_call_talking env qsys st) (spec_tokens_Token z) hbad
    obtain ⟨w1, w2, w3⟩ := faccept_call_badseq_writes env qsys st1
    rw [hk, ho, h4]
    simp only [Bool.false_eq_true, if_false]
    refine ⟨trivial, ?_, ?_, ?_⟩
    · rw [w1, h1, faccept_call_talking_writes]
    · rw [w2]
    · rw [w3, w2]; simp
  · intro hseq
    constructor
    · intro zs st0
      rw [faccept_call_arg_eq]
      simp [hseq]
    · obtain ⟨st1, h1, _, _, h4⟩ := args_tokens_cases env qsys (spec_tokens z)
        (faccept_call_talking env qsys st) (spec_tokens_Token z)
      rcases h4 with h4 | ⟨h5, _⟩
      · refine ⟨st1, ?_, ?_, ?_⟩
        · rw [faccept_call_args_eq, h4]
        · rw [h1, faccept_call_talking_writes]
        · rw [hk, ho, h4]; simp
      · rw [hseq] at h5
        exact Bool.noConfusion h5

/-- C11. The sequence number of the caller is read from a freed buffer,
evaluated at the caller line `Sfb -Q8` for the system `foobarbaz`, known
also as `fb`, whose stored sequence number is 7.  When the option loop gets
to it, the buffer of the line holds the name `foobarbaz` that `zbufcpy` has
copied into it, and what stands at `zspace + 1` is `arbaz`: the loop passes
over one argument it does not recognise, the number 8 is never compared,
and the call is accepted with `ROK` and ends with the status complete.  The
same call under the name `foobarbaz`, which leaves the options where they
were, is rejected with `RBADSEQ` and the status failed. -/
theorem C11_sequence_option_read_after_free :
    (zget_uucp_cmd (example_alias_answerer true).clock 0 true
        (recv_lines [chars "Sfb -Q8"])).res = GetResult.line (example_line (chars "Sfb -Q8")) ∧
    (example_zspace (chars "Sfb -Q8")).bind
        (faccept_call_zspace (example_alias_answerer true) (example_alias_system true)) =
      some (chars "arbaz") ∧
    strtol (chars "8") 10 ≠ (example_alias_answerer true).isysdep_get_sequence ∧
    (faccept_call (example_alias_answerer true) (chars "ufoo") none
        { input := recv_lines [chars "Sfb -Q8", chars "Ug"] }).1 = true ∧
    (faccept_call (example_alias_answerer true) (chars "ufoo") none
        { input := recv_lines [chars "Sfb -Q8", chars "Ug"] }).2.w.writes =
      [fsend_uucp_cmd_bytes (chars "Shere=bravo"), fsend_uucp_cmd_bytes (chars "ROK"),
       fsend_uucp_cmd_bytes (chars "Pgf"), fsend_uucp_cmd_bytes (chars "OOOOOOO"),
       fsend_uucp_cmd_bytes (chars "OOOOOOO")] ∧
    (faccept_call (example_alias_answerer true) (chars "ufoo") none
        { input := recv_lines [chars "Sfb -Q8", chars "Ug"] }).2.w.statuses.map
        (fun s => s.ttype) =
      [tstatus_type.STATUS_TALKING, tstatus_type.STATUS_COMPLETE] ∧
    (faccept_call (example_alias_answerer true) (chars "ufoo") none
        { input := recv_lines [chars "Sfoobarbaz -Q8", chars "Ug"] }).1 = false ∧
    (faccept_call (example_alias_answerer true) (chars "ufoo") none
        { input := recv_lines [chars "Sfoobarbaz -Q8", chars "Ug"] }).2.w.writes =
      [fsend_uucp_cmd_bytes (chars "Shere=bravo"), fsend_uucp_cmd_bytes (chars "RBADSEQ")] ∧
    (faccept_call (example_alias_answerer true) (chars "ufoo") none
        { input := recv_lines [chars "Sfoobarbaz -Q8", chars "Ug"] }).2.w.statuses.map
        (fun s => s.ttype) =
      [tstatus_type.STATUS_TALKING, tstatus_type.STATUS_FAILED] := by
  decide
/-! ## The answerer: who is calling -/

/-- C12. Unknown caller, evaluated at the caller line `Szzz` for an answerer
that knows no system `zzz` and admits no unknown system: after `RYou are
unknown to me` the function does not return.  It goes on to the loop over
the alternates with a `ssys` it has not filled, whatever that holds, and
where this holds one alternate that is not marked called it writes a second
reply, `RLOGIN`, before it returns failure. -/
theorem C12_unknown_caller_not_final :
    (faccept_call example_unknown_answerer (chars "ufoo") none
        { input := recv_lines [chars "Szzz"] }).2.w.writes =
      [fsend_uucp_cmd_bytes (chars "Shere=bravo"),
       fsend_uucp_cmd_bytes (chars "RYou are unknown to me"),
       fsend_uucp_cmd_bytes (chars "RLOGIN")] ∧
    (faccept_call example_unknown_answerer (chars "ufoo") none
        { input := recv_lines [chars "Szzz"] }).1 = false ∧
    (∀ ssys : List uuconf_system,
      faccept_call { zsysdep_localname := some (chars "bravo"), ssys_uninitialized := ssys }
          (chars "ufoo") none { input := recv_lines [chars "Szzz"] } =
        faccept_call_login
          { zsysdep_localname := some (chars "bravo"), ssys_uninitialized := ssys }
          (chars "ufoo") none none false none ssys
          { zlocalname := some (chars "bravo"),
            w := { input := [], ticks := 8, nwrite := 2,
                   trace :=
                     [Event.ulog "Incoming call (login %s port %s)",
                      Event.write (fsend_uucp_cmd_bytes (chars "Shere=bravo")) true,
                      Event.write (fsend_uucp_cmd_bytes (chars "RYou are unknown to me")) true,
                      Event.ulog "Call from unknown system %s"] } }) := by
  refine ⟨by decide, by decide, ?_⟩
  intro ssys
  rfl

theorem faccept_call_alternates_none (zlogin : List Nat) : ∀ ssys : List uuconf_system,
    faccept_call_alternates zlogin ssys none =
      (ssys.find? (spec_login_match zlogin), none) := by
  intro ssys
  induction ssys with
  | nil => rfl
  | cons q ssys ih =>
    unfold faccept_call_alternates
    by_cases hc : q.uuconf_fcalled = true
    · simp only [hc, Bool.not_true, Bool.false_eq_true, if_false]
      cases hl : q.uuconf_zcalled_login with
      | none =>
        simp only [true_or, if_true, ne_eq, not_true_eq_false, if_false]
        rw [ih]
        simp [List.find?, spec_login_match, hl]
      | some cl =>
        simp only [Option.getD_some, false_or, reduceCtorEq]
        by_cases hany : strcmp cl (chars "ANY") = 0
        · have e := (strcmp_eq_zero _ _).mp hany
          simp only [hany, if_true, ne_eq, not_true_eq_false, if_false]
          rw [ih]
          have : spec_login_match zlogin q = false := by
            simp only [spec_login_match, hl, hc, Bool.true_and, Option.some.injEq, e]
            by_cases hz : zlogin = chars "ANY"
            · simp [hz]
            · simp [hz, Ne.symm hz]
          simp [List.find?, this]
        · have e : cl ≠ chars "ANY" := fun h => hany ((strcmp_eq_zero _ _).mpr h)
          simp only [hany, if_false]
          by_cases hm : strcmp cl zlogin = 0
          · have e2 := (strcmp_eq_zero _ _).mp hm
            have : spec_login_match zlogin q = true := by
              simp [spec_login_match, hl, hc, e2]
              rw [← e2]; exact e
            simp [hm, List.find?, this]
          · have e2 : cl ≠ zlogin := fun h => hm ((strcmp_eq_zero _ _).mpr h)
            have : spec_login_match zlogin q = false := by
              simp [spec_login_match, hl, hc, e2]
            simp only [hm, if_false]
            rw [ih]
            simp [List.find?, this]
    · have hc0 : q.uuconf_fcalled = false := by simpa using hc
      simp only [hc0, Bool.not_false, if_true]
      rw [ih]
      simp [List.find?, spec_login_match, hc0]

/-- C13. The `ANY` login fallback, evaluated for a system `foo` whose one
alternate is marked called with no called login set, and a login `ufoo` that
`uuconf_validate` accepts for it: the answerer replies `RLOGIN` and returns
failure instead of selecting the alternate.  The loop over the alternates
never stores anything in `qany`, so `uuconf_validate` is never asked. -/
theorem C13_any_login_never_selected :
    (faccept_call example_any_answerer (chars "ufoo") none
        { input := recv_lines [chars "Sfoo -N", chars "Ug"] }).2.w.writes =
      [fsend_uucp_cmd_bytes (chars "Shere=bravo"), fsend_uucp_cmd_bytes (chars "RLOGIN")] ∧
    (faccept_call example_any_answerer (chars "ufoo") none
        { input := recv_lines [chars "Sfoo -N", chars "Ug"] }).1 = false ∧
    example_any_answerer.uuconf_validate { uuconf_zname := chars "foo" } (chars "ufoo") =
      Lookup.success () ∧
    spec_any_alternate { uuconf_zname := chars "foo" } = true ∧
    (∀ (zlogin : List Nat) (ssys : List uuconf_system),
      (faccept_call_alternates zlogin ssys none).2 = none) := by
  refine ⟨by decide, by decide, by decide, by decide, ?_⟩
  intro zlogin ssys
  rw [faccept_call_alternates_none]

/-- C14. Login match and `RLOGIN`: the loop over the alternates ends at the
first alternate, in order, that is marked called and whose called login is a
specific name (set, and not `ANY`) equal to the login offered; `faccept_call`
goes on with that alternate, and when there is none it writes `RLOGIN`, logs
the wrong login and returns failure, with no lock taken and no status
written. -/
theorem C14_login_match_and_RLOGIN (env : Env) (zlogin : List Nat)
    (qport : Option uuconf_port) (qdialer : Option uuconf_dialer) (ftcp_port : Bool)
    (zspace : Option LinePtr) (ssys : List uuconf_system) (st : AcceptSt) :
    (faccept_call_alternates zlogin ssys none).1 = ssys.find? (spec_login_match zlogin) ∧
    (∀ q, ssys.find? (spec_login_match zlogin) = some q →
      faccept_call_login env zlogin qport qdialer ftcp_port zspace ssys st =
        faccept_call_known env q qport qdialer ftcp_port zspace st) ∧
    (ssys.find? (spec_login_match zlogin) = none →
      (faccept_call_login env zlogin qport qdialer ftcp_port zspace ssys st).1 = false ∧
      (faccept_call_login env zlogin qport qdialer ftcp_port zspace ssys st).2.w.trace =
        st.w.trace ++
          [Event.write (fsend_uucp_cmd_bytes (chars "RLOGIN")) (env.fconn_write st.w.nwrite),
           Event.ulog "System %s used wrong login name %s"] ∧
      (faccept_call_login env zlogin qport qdialer ftcp_port zspace ssys st).2.sstat =
        st.sstat ∧
      (faccept_call_login env zlogin qport qdialer ftcp_port zspace ssys st).2.w.nstat =
        st.w.nstat) := by
  have h := faccept_call_alternates_none zlogin ssys
  refine ⟨by rw [h], ?_, ?_⟩
  · intro q hq
    unfold faccept_call_login
    simp only [h, hq]
  · intro hq
    unfold faccept_call_login
    simp only [h, hq]
    simp [World.fsend_uucp_cmd, World.ulog]

theorem C14_login_match_and_RLOGIN_witness :
    (faccept_call_login {} (chars "ufoo") none none false none
        [{ uuconf_zname := chars "foo", uuconf_zcalled_login := some (chars "other") },
         { uuconf_zname := chars "foo" }] {}).2.w.trace =
      [Event.write (fsend_uucp_cmd_bytes (chars "RLOGIN")) true,
       Event.ulog "System %s used wrong login name %s"] :=
  ((C14_login_match_and_RLOGIN {} (chars "ufoo") none none false none
    [{ uuconf_zname := chars "foo", uuconf_zcalled_login := some (chars "other") },
     { uuconf_zname := chars "foo" }] {}).2.2 (by decide)).2.1

/-- C15. Call-back on the answerer: when the selected alternate is marked
call-back, `faccept_call` writes `RCB`, logs it, queues zero commands for
the system on the spool at the highest grade and returns success; it writes
nothing else, takes no lock, writes no status and starts no protocol. -/
theorem C15_answerer_call_back (env : Env) (qsys : uuconf_system)
    (qport : Option uuconf_port) (qdialer : Option uuconf_dialer) (ftcp_port : Bool)
    (zspace : Option LinePtr) (st : AcceptSt) (hcb : qsys.uuconf_fcallback = true) :
    (faccept_call_known env qsys qport qdialer ftcp_port zspace st).1 = true ∧
    (faccept_call_known env qsys qport qdialer ftcp_port zspace st).2.w.trace =
      st.w.trace ++
        [Event.write (fsend_uucp_cmd_bytes (chars "RCB")) (env.fconn_write st.w.nwrite),
         Event.ulog "Will call back",
         Event.spool_commands qsys.uuconf_zname UUCONF_GRADE_HIGH 0] ∧
    (faccept_call_known env qsys qport qdialer ftcp_port zspace st).2.w.writes =
      st.w.writes ++ [fsend_uucp_cmd_bytes (chars "RCB")] ∧
    (faccept_call_known env qsys qport qdialer ftcp_port zspace st).2.sstat = st.sstat ∧
    (faccept_call_known env qsys qport qdialer ftcp_port zspace st).2.w.nstat = st.w.nstat ∧
    (faccept_call_known env qsys qport qdialer ftcp_port zspace st).2.qproto = st.qproto := by
  unfold faccept_call_known
  simp [hcb, World.fsend_uucp_cmd, World.ulog, World.emit, World.writes, List.filterMap_append]

theorem C15_answerer_call_back_witness :
    (faccept_call_known {} { uuconf_zname := chars "foo", uuconf_fcallback := true } none none
        false (example_zspace (chars "Sfoo -N")) {}).1 = true ∧
      (faccept_call_known {} { uuconf_zname := chars "foo", uuconf_fcallback := true } none none
        false (example_zspace (chars "Sfoo -N")) {}).2.w.trace =
        [Event.write (fsend_uucp_cmd_bytes (chars "RCB")) true, Event.ulog "Will call back",
         Event.spool_commands (chars "foo") UUCONF_GRADE_HIGH 0] :=
  have h := C15_answerer_call_back {} { uuconf_zname := chars "foo", uuconf_fcallback := true }
    none none false (example_zspace (chars "Sfoo -N")) {} (by rfl)
  ⟨h.1, h.2.1⟩
/-! ## The caller: the answer to the `S` line -/

/-- When the login succeeds, the `Shere` line names a candidate and the `S`
line is written, `fdo_call` turns to the answer of the other system. -/
theorem fdo_call_to_response (env : Env) (qsys : uuconf_system) (qport : Option uuconf_port)
    (qdialer : Option uuconf_dialer) (st : CallSt) (r L : List Nat)
    (hchat : env.fchat = true) (hstat : env.fsysdep_set_status st.w.nstat = true)
    (hline : (zget_uucp_cmd env.clock (st.w.ticks + 2) true st.w.input).zstr =
      some (chars "Shere=" ++ r))
    (hm : ∃ c ∈ spec_name_candidates qsys, spec_name_matches r c)
    (hL : fdo_call_localname env qsys = Lookup.success L)
    (hseq : ¬ (qsys.uuconf_fsequence = true ∧ env.isysdep_get_sequence < 0))
    (hw : env.fconn_write st.w.nwrite = true) :
    fdo_call env qsys qport qdialer st =
      fdo_call_response env qsys qport qdialer (fdo_call_identified env st qsys L) := by
  have h0 : fdo_call_icmp qsys r = 0 := (fdo_call_icmp_iff qsys r).mpr hm
  rw [fdo_call_logged_in env qsys qport qdialer st hchat hstat,
    fdo_call_shere_named env qsys qport qdialer (fdo_call_talking env st qsys) r hline]
  simp only [h0, ne_eq, not_true_eq_false, if_false]
  unfold fdo_call_ident fdo_call_identified
  simp only [hL]
  have hs : (qsys.uuconf_fsequence && decide (env.isysdep_get_sequence < 0)) = false := by
    cases hq : qsys.uuconf_fsequence
    · rfl
    · simp only [Bool.true_and, decide_eq_false_iff_not]
      intro h
      exact hseq ⟨hq, h⟩
  have hw1 : env.fconn_write ((fdo_call_talking env st qsys).w.after_get env true).nwrite = true :=
    hw
  simp [hs, World.fsend_uucp_cmd, hw1]

/-- What `fdo_call_response` does with the answer `RCB`. -/
theorem fdo_call_response_RCB (env : Env) (qsys : uuconf_system) (qport : Option uuconf_port)
    (qdialer : Option uuconf_dialer) (st : CallSt)
    (hline : (zget_uucp_cmd env.clock st.w.ticks true st.w.input).zstr = some (chars "RCB")) :
    fdo_call_response env qsys qport qdialer st =
      (true, { st with
        qstat := { st.qstat with ttype := tstatus_type.STATUS_COMPLETE }
        w := (((st.w.after_get env true).ulog "Remote system will call back").fsysdep_set_status
          env qsys { st.qstat with ttype := tstatus_type.STATUS_COMPLETE }).2 }) := by
  obtain ⟨zalc, hz⟩ := World.zget_uucp_cmd_line env st.w true _ hline
  unfold fdo_call_response
  simp only [hz]
  have e1 : cidx (chars "RCB") 0 = 'R'.toNat := by decide
  have e2 : strcmp ((chars "RCB").drop 1) (chars "OKN") ≠ 0 := by decide
  have e3 : strcmp ((chars "RCB").drop 1) (chars "OK") ≠ 0 := by decide
  have e4 : strcmp ((chars "RCB").drop 1) (chars "CB") = 0 := by decide
  simp only [e1, e2, e3, e4, ne_eq, not_true_eq_false, if_false, if_true]

/-- C16. Call-back on the caller: when `fconn_call` has obtained a port,
opened it and dialed, the login chat and the first status write succeed,
the peer names itself with a matching `Shere=` line, the `S` line is
written, and the answer to it is exactly `RCB`, then `fdo_call` logs the
call-back, writes the status with kind complete, retry count 0 and wait 0,
and returns success; the `S` line is the only thing it has written (no `U`
line, no hangup string), and `fconn_call` closes and unlocks the port
without the status update it makes after a failure. -/
theorem C16_caller_call_back (env : Env) (qsys : uuconf_system) (qport : Option uuconf_port)
    (p : uuconf_port) (qdialer : Option uuconf_dialer) (qstat : sstatus) (cretry : Int)
    (w w0 : World) (r L : List Nat)
    (hport : fconn_call env qsys qport qstat cretry w =
      fconn_call_open env qsys p qstat cretry w0)
    (hopen : env.fconn_open = true) (hdial : env.fconn_dial = some qdialer)
    (hchat : env.fchat = true) (hstat : env.fsysdep_set_status w0.nstat = true)
    (hline : (zget_uucp_cmd env.clock (w0.ticks + 2) true w0.input).zstr =
      some (chars "Shere=" ++ r))
    (hm : ∃ c ∈ spec_name_candidates qsys, spec_name_matches r c)
    (hL : fdo_call_localname env qsys = Lookup.success L)
    (hseq : ¬ (qsys.uuconf_fsequence = true ∧ env.isysdep_get_sequence < 0))
    (hw : env.fconn_write w0.nwrite = true)
    (hrcb : (zget_uucp_cmd env.clock
        (fdo_call_identified env (fconn_call_dialed qsys qstat w0) qsys L).w.ticks true
        (fdo_call_identified env (fconn_call_dialed qsys qstat w0) qsys L).w.input).zstr =
      some (chars "RCB")) :
    (fdo_call env qsys (some p) qdialer (fconn_call_dialed qsys qstat w0)).1 = true ∧
    (fdo_call env qsys (some p) qdialer (fconn_call_dialed qsys qstat w0)).2.qstat =
      { ttype := tstatus_type.STATUS_COMPLETE, cretries := 0, ilast := env.clock w0.ticks,
        cwait := 0 } ∧
    (fdo_call env qsys (some p) qdialer (fconn_call_dialed qsys qstat w0)).2.w.trace =
      (fconn_call_dialed qsys qstat w0).w.trace ++
        [Event.set_status qsys.uuconf_zname
           { ttype := tstatus_type.STATUS_TALKING, cretries := 0,
             ilast := env.clock w0.ticks, cwait := 0 },
         Event.ulog "Login successful",
         Event.write (fsend_uucp_cmd_bytes
           (fdo_call_zsend L qsys.uuconf_fsequence env.isysdep_get_sequence
             (fdo_call_bgrade env))) true,
         Event.ulog "Remote system will call back",
         Event.set_status qsys.uuconf_zname
           { ttype := tstatus_type.STATUS_COMPLETE, cretries := 0,
             ilast := env.clock w0.ticks, cwait := 0 }] ∧
    (fconn_call env qsys qport qstat cretry w).1 = true ∧
    (fconn_call env qsys qport qstat cretry w).2.qstat =
      { ttype := tstatus_type.STATUS_COMPLETE, cretries := 0, ilast := env.clock w0.ticks,
        cwait := 0 } ∧
    (fconn_call env qsys qport qstat cretry w).2.w.trace =
      (fdo_call env qsys (some p) qdialer (fconn_call_dialed qsys qstat w0)).2.w.trace ++
        [Event.conn_close true, Event.conn_unlock] := by
  have hst : (fconn_call_dialed qsys qstat w0).w.nstat = w0.nstat := rfl
  have hdo := fdo_call_to_response env qsys (some p) qdialer (fconn_call_dialed qsys qstat w0)
    r L hchat (by rw [hst]; exact hstat) hline hm hL hseq hw
  rw [fdo_call_response_RCB env qsys (some p) qdialer _ hrcb] at hdo
  have hfc : fconn_call env qsys qport qstat cretry w =
      fconn_call_open env qsys p qstat cretry w0 := hport
  refine ⟨by rw [hdo], ?_, ?_, ?_, ?_, ?_⟩
  · rw [hdo]
    simp [fdo_call_identified, fdo_call_talking, fconn_call_dialed, World.emit, World.ulog]
  · rw [hdo]
    simp [fdo_call_identified, fdo_call_talking, fconn_call_dialed, World.after_get,
      World.ulog, World.emit, World.fsend_uucp_cmd, World.fsysdep_set_status, hw]
  · rw [hfc]
    unfold fconn_call_open
    simp only [hopen, hdial, hdo]
    simp
  · rw [hfc]
    unfold fconn_call_open
    simp only [hopen, hdial, hdo]
    simp [fdo_call_identified, fdo_call_talking, fconn_call_dialed, World.emit, World.ulog]
  · rw [hfc]
    unfold fconn_call_open
    simp only [hopen, hdial, hdo]
    simp [World.emit]

theorem C16_caller_call_back_witness :
    (fconn_call { zsysdep_localname := some (chars "alpha") } { uuconf_zname := chars "bravo" }
        (some {}) {} 0 { input := recv_lines [chars "Shere=bravo", chars "RCB"] }).1 = true ∧
      (fconn_call { zsysdep_localname := some (chars "alpha") } { uuconf_zname := chars "bravo" }
        (some {}) {} 0
        { input := recv_lines [chars "Shere=bravo", chars "RCB"] }).2.qstat =
        { ttype := tstatus_type.STATUS_COMPLETE, cretries := 0, ilast := 0, cwait := 0 } :=
  have h := C16_caller_call_back { zsysdep_localname := some (chars "alpha") }
    { uuconf_zname := chars "bravo" } (some {}) {} none {} 0
    { input := recv_lines [chars "Shere=bravo", chars "RCB"] }
    (World.emit { input := recv_lines [chars "Shere=bravo", chars "RCB"] }
      (Event.conn_lock [] true))
    (chars "bravo") (chars "alpha") (by rfl) (by rfl) (by rfl) (by rfl) (by rfl) (by decide)
    ⟨chars "bravo", by decide, by decide⟩ (by rfl) (by decide) (by rfl) (by decide)
  ⟨h.2.2.2.1, h.2.2.2.2.1⟩
/-! ## The acceptance reply -/

theorem World.zget_uucp_cmd_trace (env : Env) (w : World) (frequired : Bool)
    (tr : List Event) (h : tr <+: w.trace) :
    tr <+: (w.zget_uucp_cmd env frequired).2.trace := by
  refine h.trans ?_
  unfold World.zget_uucp_cmd
  simp only []
  split
  · split
    · exact List.prefix_refl _
    · exact List.prefix_refl _
  · split
    · exact List.prefix_append _ _
    · exact List.prefix_refl _
  · exact List.prefix_refl _

theorem AcceptSt.fail_trace (env : Env) (qsys : uuconf_system) (st : AcceptSt)
    (tr : List Event) (h : tr <+: st.w.trace) :
    tr <+: (AcceptSt.fail env qsys st).2.w.trace :=
  h.trans (List.prefix_append _ _)

theorem AcceptSt.fail_now_trace (env : Env) (qsys : uuconf_system) (st : AcceptSt)
    (tr : List Event) (h : tr <+: st.w.trace) :
    tr <+: (AcceptSt.fail_now env qsys st).2.w.trace :=
  h.trans (List.prefix_append _ _)

theorem World.fsend_uucp_cmd_trace (env : Env) (w : World) (z : List Nat)
    (tr : List Event) (h : tr <+: w.trace) :
    tr <+: (w.fsend_uucp_cmd env z).2.trace :=
  h.trans (List.prefix_append _ _)

theorem faccept_call_hangup_trace (env : Env) (qsys : uuconf_system) (st : AcceptSt)
    (tr : List Event) (h : tr <+: st.w.trace) :
    tr <+: (faccept_call_hangup env qsys st).2.w.trace := by
  have h0 : tr <+: (st.w.emit (Event.floop env.floop)).trace := h.trans (List.prefix_append _ _)
  have h1 := World.fsend_uucp_cmd_trace env _ (chars "OOOOOOO") tr h0
  have h2 : tr <+:
      (if ((st.w.emit (Event.floop env.floop)).fsend_uucp_cmd env (chars "OOOOOOO")).1 = true then
        ((st.w.emit (Event.floop env.floop)).fsend_uucp_cmd env
          (chars "OOOOOOO")).2.fsend_uucp_cmd env (chars "OOOOOOO")
       else (false, ((st.w.emit (Event.floop env.floop)).fsend_uucp_cmd env
          (chars "OOOOOOO")).2)).2.trace := by
    by_cases hc : ((st.w.emit (Event.floop env.floop)).fsend_uucp_cmd env (chars "OOOOOOO")).1 = true
    · rw [if_pos hc]
      exact World.fsend_uucp_cmd_trace env _ _ tr h1
    · rw [if_neg hc]
      exact h1
  have h3 : ∀ s2 : Bool × World, tr <+: s2.2.trace → tr <+:
      (if (((st.w.emit (Event.floop env.floop)).fsend_uucp_cmd env (chars "OOOOOOO")).1 &&
          s2.1 && env.floop && env.fdebug_handshake) = true then
        (s2.2.zget_uucp_cmd env false).2
       else s2.2).trace := by
    intro s2 hs2
    split
    · exact World.zget_uucp_cmd_trace env _ false tr hs2
    · exact hs2
  exact (h3 _ h2).trans ((List.prefix_append _ _).trans (List.prefix_append _ _))

theorem faccept_call_start_trace (env : Env) (qsys : uuconf_system) (p : sprotocol)
    (st : AcceptSt) (tr : List Event) (h : tr <+: st.w.trace) :
    tr <+: (faccept_call_start env qsys p st).2.w.trace := by
  unfold faccept_call_start
  split
  · exact AcceptSt.fail_now_trace env qsys st tr h
  · simp only []
    split
    · apply AcceptSt.fail_now_trace
      exact h.trans (List.prefix_append _ _)
    · apply faccept_call_hangup_trace
      exact h.trans ((List.prefix_append _ _).trans (List.prefix_append _ _))

theorem faccept_call_advertise_trace (env : Env) (qsys : uuconf_system)
    (qport : Option uuconf_port) (qdialer : Option uuconf_dialer) (ftcp_port : Bool)
    (st : AcceptSt) (tr : List Event) (h : tr <+: st.w.trace) :
    tr <+: (faccept_call_advertise env qsys qport qdialer ftcp_port st).2.w.trace := by
  have h1 := World.fsend_uucp_cmd_trace env st.w
    (faccept_call_zsend qsys qport qdialer ftcp_port) tr h
  have h2 := World.zget_uucp_cmd_trace env
    (st.w.fsend_uucp_cmd env (faccept_call_zsend qsys qport qdialer ftcp_port)).2 true tr h1
  unfold faccept_call_advertise
  simp only []
  split
  · apply AcceptSt.fail_trace; exact h1
  · split
    · apply AcceptSt.fail_trace; exact h2
    · exact h2
    · split
      · apply AcceptSt.fail_trace; exact h2.trans (List.prefix_append _ _)
      · split
        · apply AcceptSt.fail_trace; exact h2.trans (List.prefix_append _ _)
        · split
          · apply AcceptSt.fail_trace; exact h2.trans (List.prefix_append _ _)
          · apply faccept_call_start_trace; exact h2

/-- The first thing `faccept_call` does once the arguments are accepted is
to write `ROKN` when `fnew` is set and `ROK` when it is not. -/
theorem faccept_call_protocol_reply (env : Env) (qsys : uuconf_system)
    (qport : Option uuconf_port) (qdialer : Option uuconf_dialer) (ftcp_port : Bool)
    (st : AcceptSt) :
    ∃ more, (faccept_call_protocol env qsys qport qdialer ftcp_port st).2.w.writes =
      st.w.writes ++
        fsend_uucp_cmd_bytes (if st.fnew then chars "ROKN" else chars "ROK") :: more := by
  have hp : (st.w.fsend_uucp_cmd env (if st.fnew then chars "ROKN" else chars "ROK")).2.trace <+:
      (faccept_call_protocol env qsys qport qdialer ftcp_port st).2.w.trace := by
    unfold faccept_call_protocol
    simp only []
    generalize (if st.fnew = true then chars "ROKN" else chars "ROK") = reply
    split
    · apply AcceptSt.fail_trace; exact List.prefix_refl _
    · apply faccept_call_advertise_trace; exact List.prefix_refl _
  obtain ⟨more, hm⟩ := hp
  refine ⟨World.writes { trace := more }, ?_⟩
  unfold World.writes
  rw [← hm]
  simp [World.fsend_uucp_cmd, List.filterMap_append]

theorem fdo_call_hangup_fnew (env : Env) (qsys : uuconf_system) (st : CallSt) :
    (fdo_call_hangup env qsys st).2.fnew = st.fnew := by
  unfold fdo_call_hangup
  simp only []
  split <;> rfl

theorem fdo_call_start_fnew (env : Env) (qsys : uuconf_system) (p : sprotocol) (st : CallSt) :
    (fdo_call_start env qsys p st).2.fnew = st.fnew := by
  unfold fdo_call_start
  simp only []
  split
  · rfl
  · rw [fdo_call_hangup_fnew]

theorem fdo_call_protocol_fnew (env : Env) (qsys : uuconf_system) (qport : Option uuconf_port)
    (qdialer : Option uuconf_dialer) (st : CallSt) :
    (fdo_call_protocol env qsys qport qdialer st).2.fnew = st.fnew := by
  unfold fdo_call_protocol
  simp only []
  split
  · rfl
  · rfl
  · split
    · rfl
    · split
      · rfl
      · split
        · rfl
        · rw [fdo_call_start_fnew]

/-- What `fdo_call_response` makes of the answer to the `S` line. -/
theorem fdo_call_response_line (env : Env) (qsys : uuconf_system) (qport : Option uuconf_port)
    (qdialer : Option uuconf_dialer) (st : CallSt) (y : List Nat)
    (hline : (zget_uucp_cmd env.clock st.w.ticks true st.w.input).zstr = some y) :
    (y = chars "ROKN" → (fdo_call_response env qsys qport qdialer st).2.fnew = true) ∧
    (y = chars "ROK" → (fdo_call_response env qsys qport qdialer st).2.fnew = false) ∧
    (y ≠ chars "ROKN" → y ≠ chars "ROK" → y ≠ chars "RCB" →
      (fdo_call_response env qsys qport qdialer st).1 = false ∧
      (fdo_call_response env qsys qport qdialer st).2.pterr = st.pterr ∧
      (fdo_call_response env qsys qport qdialer st).2.w.writes = st.w.writes) := by
  obtain ⟨zalc, hz⟩ := World.zget_uucp_cmd_line env st.w true _ hline
  refine ⟨?_, ?_, ?_⟩
  · intro hy
    subst hy
    unfold fdo_call_response
    simp only [hz]
    have e1 : cidx (chars "ROKN") 0 = 'R'.toNat := by decide
    have e2 : strcmp ((chars "ROKN").drop 1) (chars "OKN") = 0 := by decide
    simp only [e1, e2, ne_eq, not_true_eq_false, if_false, if_true]
    rw [fdo_call_protocol_fnew]
  · intro hy
    subst hy
    unfold fdo_call_response
    simp only [hz]
    have e1 : cidx (chars "ROK") 0 = 'R'.toNat := by decide
    have e2 : strcmp ((chars "ROK").drop 1) (chars "OKN") ≠ 0 := by decide
    have e3 : strcmp ((chars "ROK").drop 1) (chars "OK") = 0 := by decide
    simp only [e1, e2, e3, ne_eq, not_true_eq_false, if_false, if_true]
    rw [fdo_call_protocol_fnew]
  · intro h1 h2 h3
    unfold fdo_call_response
    simp only [hz]
    by_cases hr : cidx y 0 = 'R'.toNat
    · have hy : y = 'R'.toNat :: y.drop 1 := by
        cases y with
        | nil => simp [cidx] at hr
        | cons c y => simp [cidx] at hr; simp [hr]
      have n1 : strcmp (y.drop 1) (chars "OKN") ≠ 0 := by
        intro h
        apply h1
        rw [hy, (strcmp_eq_zero _ _).mp h]
        decide
      have n2 : strcmp (y.drop 1) (chars "OK") ≠ 0 := by
        intro h
        apply h2
        rw [hy, (strcmp_eq_zero _ _).mp h]
        decide
      have n3 : strcmp (y.drop 1) (chars "CB") ≠ 0 := by
        intro h
        apply h3
        rw [hy, (strcmp_eq_zero _ _).mp h]
        decide
      simp only [hr, n1, n2, n3, ne_eq, not_true_eq_false, if_false]
      simp [World.after_get, World.writes, World.ulog, List.filterMap_append]
    · simp only [ne_eq, hr, not_false_eq_true, if_true]
      simp [World.after_get, World.writes, World.ulog, List.filterMap_append]

/-- When the option loop reads the options `z`: once it has accepted
them, `fnew` is set exactly when one of the tokens begins with `-N`, and the
next string `faccept_call` writes is `ROKN` when one does and `ROK` when
none does (also when the line has no options at all); on the other side,
after a valid `Shere` line and its own `S` line, `fdo_call` ends with `fnew`
true when the answer is `ROKN` and false when it is `ROK`, and for any other
answer but `RCB`, starting with `R` or not, it returns failure with `*pterr`
handshake-failed and writes nothing more. -/
theorem faccept_call_ROK_versus_ROKN (env : Env) (qsys : uuconf_system) (qport : Option uuconf_port)
    (qdialer : Option uuconf_dialer) (ftcp_port : Bool) (z : List Nat) (st : AcceptSt)
    (cenv : Env) (csys : uuconf_system) (cport : Option uuconf_port)
    (cdialer : Option uuconf_dialer) (cst : CallSt) (r L y : List Nat)
    (hnew : st.fnew = false)
    (hchat : cenv.fchat = true) (hstat : cenv.fsysdep_set_status cst.w.nstat = true)
    (hline : (zget_uucp_cmd cenv.clock (cst.w.ticks + 2) true cst.w.input).zstr =
      some (chars "Shere=" ++ r))
    (hm : ∃ c ∈ spec_name_candidates csys, spec_name_matches r c)
    (hL : fdo_call_localname cenv csys = Lookup.success L)
    (hseq : ¬ (csys.uuconf_fsequence = true ∧ cenv.isysdep_get_sequence < 0))
    (hw : cenv.fconn_write cst.w.nwrite = true)
    (hans : (zget_uucp_cmd cenv.clock (fdo_call_identified cenv cst csys L).w.ticks true
        (fdo_call_identified cenv cst csys L).w.input).zstr = some y) :
    (∀ st2 : AcceptSt,
      faccept_call_args env qsys ((z.dropWhile (fun c => isspace (BUCHAR c))).length + 1)
        (z.dropWhile (fun c => isspace (BUCHAR c))) st = some (true, st2) →
      st2.fnew = (spec_tokens z).any (fun t => (chars "-N").isPrefixOf t) ∧
      ∃ more, (faccept_call_options env qsys qport qdialer ftcp_port (some z) st).2.w.writes =
        st.w.writes ++
          fsend_uucp_cmd_bytes
            (if (spec_tokens z).any (fun t => (chars "-N").isPrefixOf t) then chars "ROKN"
             else chars "ROK") :: more) ∧
    (qsys.uuconf_fsequence = false →
      ∃ more, (faccept_call_options env qsys qport qdialer ftcp_port none st).2.w.writes =
        st.w.writes ++ fsend_uucp_cmd_bytes (chars "ROK") :: more) ∧
    (y = chars "ROKN" → (fdo_call cenv csys cport cdialer cst).2.fnew = true) ∧
    (y = chars "ROK" → (fdo_call cenv csys cport cdialer cst).2.fnew = false) ∧
    (y ≠ chars "ROKN" → y ≠ chars "ROK" → y ≠ chars "RCB" →
      (fdo_call cenv csys cport cdialer cst).1 = false ∧
      (fdo_call cenv csys cport cdialer cst).2.pterr = tstatus_type.STATUS_HANDSHAKE_FAILED ∧
      (fdo_call cenv csys cport cdialer cst).2.w.writes =
        (fdo_call_identified cenv cst csys L).w.writes) := by
  have hdo := fdo_call_to_response cenv csys cport cdialer cst r L hchat hstat hline hm hL hseq hw
  obtain ⟨c1, c2, c3⟩ := fdo_call_response_line cenv csys cport cdialer
    (fdo_call_identified cenv cst csys L) y hans
  refine ⟨?_, ?_, ?_, ?_, ?_⟩
  · intro st2 hacc
    rw [faccept_call_args_eq] at hacc
    have hacc1 : args_tokens env qsys (spec_tokens z) st = (true, st2) := Option.some.inj hacc
    obtain ⟨_, a2, a3, _, _⟩ := args_tokens_accepted env qsys (spec_tokens z) st st2
      (spec_tokens_Token z) hacc1
    rw [hnew, Bool.false_or] at a2
    refine ⟨a2, ?_⟩
    obtain ⟨more, hmore⟩ := faccept_call_protocol_reply env qsys qport qdialer ftcp_port st2
    refine ⟨more, ?_⟩
    rw [faccept_call_options_some, hacc1]
    simp only [if_true]
    rw [hmore, a3, a2]
  · intro hs
    obtain ⟨more, hmore⟩ := faccept_call_protocol_reply env qsys qport qdialer ftcp_port st
    refine ⟨more, ?_⟩
    unfold faccept_call_options
    simp only [hs, Bool.false_eq_true, if_false]
    rw [hmore, hnew]
    simp
  · intro hy; rw [hdo]; exact c1 hy
  · intro hy; rw [hdo]; exact c2 hy
  · intro h1 h2 h3
    rw [hdo]
    obtain ⟨d1, d2, d3⟩ := c3 h1 h2 h3
    exact ⟨d1, by rw [d2]; rfl, d3⟩

/-- C17. The option `-N` is read from a freed buffer, evaluated at the
caller line `Sfb -N` for the system `foobarbaz`, known also as `fb`.  When
the option loop gets to it, the buffer of the line holds the name
`foobarbaz` that `zbufcpy` has copied into it, and what stands at
`zspace + 1` is `arbaz`: the token `-N` is never seen, the call is accepted
with `ROK` and `fnew` stays false, although the caller's options contain a
token beginning with `-N`.  The same call under the name `foobarbaz`, which
leaves the options where they were, is accepted with `ROKN` and sets
`fnew`. -/
theorem C17_new_option_read_after_free :
    (zget_uucp_cmd (example_alias_answerer false).clock 0 true
        (recv_lines [chars "Sfb -N"])).res = GetResult.line (example_line (chars "Sfb -N")) ∧
    (example_zspace (chars "Sfb -N")).bind
        (faccept_call_zspace (example_alias_answerer false) (example_alias_system false)) =
      some (chars "arbaz") ∧
    (spec_tokens (chars "-N")).any (fun t => (chars "-N").isPrefixOf t) = true ∧
    (faccept_call (example_alias_answerer false) (chars "ufoo") none
        { input := recv_lines [chars "Sfb -N", chars "Ug"] }).1 = true ∧
    (faccept_call (example_alias_answerer false) (chars "ufoo") none
        { input := recv_lines [chars "Sfb -N", chars "Ug"] }).2.w.writes =
      [fsend_uucp_cmd_bytes (chars "Shere=bravo"), fsend_uucp_cmd_bytes (chars "ROK"),
       fsend_uucp_cmd_bytes (chars "Pgf"), fsend_uucp_cmd_bytes (chars "OOOOOOO"),
       fsend_uucp_cmd_bytes (chars "OOOOOOO")] ∧
    (faccept_call (example_alias_answerer false) (chars "ufoo") none
        { input := recv_lines [chars "Sfb -N", chars "Ug"] }).2.fnew = false ∧
    (faccept_call (example_alias_answerer false) (chars "ufoo") none
        { input := recv_lines [chars "Sfoobarbaz -N", chars "Ug"] }).2.w.writes.take 2 =
      [fsend_uucp_cmd_bytes (chars "Shere=bravo"), fsend_uucp_cmd_bytes (chars "ROKN")] ∧
    (faccept_call (example_alias_answerer false) (chars "ufoo") none
        { input := recv_lines [chars "Sfoobarbaz -N", chars "Ug"] }).2.fnew = true := by
  decide
/-! ## The grade and the other options -/

theorem AcceptSt.fail_bgrade (env : Env) (qsys : uuconf_system) (st : AcceptSt) :
    (AcceptSt.fail env qsys st).2.bgrade = st.bgrade := rfl

theorem AcceptSt.fail_now_bgrade (env : Env) (qsys : uuconf_system) (st : AcceptSt) :
    (AcceptSt.fail_now env qsys st).2.bgrade = st.bgrade := rfl

theorem faccept_call_hangup_bgrade (env : Env) (qsys : uuconf_system) (st : AcceptSt) :
    (faccept_call_hangup env qsys st).2.bgrade = st.bgrade := rfl

theorem faccept_call_start_bgrade (env : Env) (qsys : uuconf_system) (p : sprotocol)
    (st : AcceptSt) : (faccept_call_start env qsys p st).2.bgrade = st.bgrade := by
  unfold faccept_call_start
  split
  · rfl
  · simp only []
    split
    · rfl
    · rfl

theorem faccept_call_advertise_bgrade (env : Env) (qsys : uuconf_system)
    (qport : Option uuconf_port) (qdialer : Option uuconf_dialer) (ftcp_port : Bool)
    (st : AcceptSt) :
    (faccept_call_advertise env qsys qport qdialer ftcp_port st).2.bgrade = st.bgrade := by
  unfold faccept_call_advertise
  simp only []
  split
  · rfl
  · split
    · rfl
    · rfl
    · split
      · rfl
      · split
        · rfl
        · split
          · rfl
          · rw [faccept_call_start_bgrade]

/-- The grade the option loop has set stays the grade of the session to the
end of `faccept_call`. -/
theorem faccept_call_protocol_bgrade (env : Env) (qsys : uuconf_system)
    (qport : Option uuconf_port) (qdialer : Option uuconf_dialer) (ftcp_port : Bool)
    (st : AcceptSt) :
    (faccept_call_protocol env qsys qport qdialer ftcp_port st).2.bgrade = st.bgrade := by
  unfold faccept_call_protocol
  simp only []
  generalize (if st.fnew = true then chars "ROKN" else chars "ROK") = reply
  split
  · rfl
  · rw [faccept_call_advertise_bgrade]

/-- A `-p` or `-vgrade=` token without a legal grade is taken as a
recognised argument that changes nothing. -/
theorem faccept_call_arg_no_grade (env : Env) (qsys : uuconf_system) (t r : List Nat)
    (st : AcceptSt) (ht : Token t) (hr : Rest r)
    (hp : (chars "-p").isPrefixOf t = true ∨ (chars "-vgrade=").isPrefixOf t = true)
    (hg : spec_token_grade t = none) :
    faccept_call_arg env qsys (t ++ r) st = ArgResult.next true st := by
  have hx : (chars "-x").isPrefixOf t = false := by
    rw [chars_x]
    rcases hp with hp | hp
    · rw [chars_p] at hp
      rcases t with _ | ⟨a, _ | ⟨b, t⟩⟩ <;> simp_all [List.isPrefixOf] <;> omega
    · rw [chars_dash_vgrade, chars_vgrade] at hp
      rcases t with _ | ⟨a, _ | ⟨b, t⟩⟩ <;> simp_all [List.isPrefixOf] <;> omega
  rw [faccept_call_arg_view env qsys t r ht hr st, faccept_call_arg_token env qsys t _ st ht,
    arg_debug_other env qsys t _ st hx]
  unfold arg_effect
  rw [hg]
  rcases hp with hp | hp
  · rw [chars_p] at hp
    rcases t with _ | ⟨a, _ | ⟨b, t⟩⟩
    · simp [List.isPrefixOf] at hp
    · simp [List.isPrefixOf] at hp
    · simp only [List.isPrefixOf, Bool.and_true, Bool.and_eq_true, beq_iff_eq] at hp
      obtain ⟨ha, hb⟩ := hp
      subst ha; subst hb
      simp [spec_recognised, chars_x, chars_Q, chars_p, chars_N, chars_U, chars_R,
        List.isPrefixOf]
  · rw [chars_dash_vgrade, chars_vgrade] at hp
    rcases t with _ | ⟨a, _ | ⟨b, t⟩⟩
    · simp [List.isPrefixOf] at hp
    · simp [List.isPrefixOf] at hp
    · simp only [List.isPrefixOf, Bool.and_eq_true, beq_iff_eq] at hp
      obtain ⟨ha, hb, hrest⟩ := hp
      subst ha; subst hb
      simp [spec_recognised, chars_x, chars_Q, chars_p, chars_N, chars_U, chars_R,
        chars_dash_vgrade, chars_vgrade, List.isPrefixOf, hrest]

/-- When the option loop reads the options `z`, for a session whose grade
is the default `UUCONF_GRADE_LOW` when the loop starts: the loop ends, and
when it accepts the options the grade is the character after `-p` or
`-vgrade=` in the last token that has a character of `0-9`, `A-Z`, `a-z`
there, and `UUCONF_GRADE_LOW` when no token has; the rest of `faccept_call`
leaves the grade alone; a `-p` or `-vgrade=` token with no such character is
a recognised argument that changes nothing and is not rejected. -/
theorem faccept_call_grade_options (env : Env) (qsys : uuconf_system)
    (qport : Option uuconf_port) (qdialer : Option uuconf_dialer) (ftcp_port : Bool)
    (z : List Nat) (st : AcceptSt) (hb : st.bgrade = UUCONF_GRADE_LOW) :
    (∃ r, faccept_call_args env qsys ((z.dropWhile (fun c => isspace (BUCHAR c))).length + 1)
        (z.dropWhile (fun c => isspace (BUCHAR c))) st = some r ∧
      (r.1 = true →
        r.2.bgrade = spec_grade (spec_tokens z) UUCONF_GRADE_LOW ∧
        (faccept_call_protocol env qsys qport qdialer ftcp_port r.2).2.bgrade =
          spec_grade (spec_tokens z) UUCONF_GRADE_LOW)) ∧
    ((spec_tokens z).filterMap spec_token_grade = [] →
      spec_grade (spec_tokens z) UUCONF_GRADE_LOW = UUCONF_GRADE_LOW) ∧
    (∀ g gs, (spec_tokens z).filterMap spec_token_grade = g :: gs →
      spec_grade (spec_tokens z) UUCONF_GRADE_LOW = (g :: gs).getLast (List.cons_ne_nil g gs)) ∧
    (∀ (t r : List Nat) (st0 : AcceptSt), Token t → Rest r →
      ((chars "-p").isPrefixOf t = true ∨ (chars "-vgrade=").isPrefixOf t = true) →
      spec_token_grade t = none →
      faccept_call_arg env qsys (t ++ r) st0 = ArgResult.next true st0) := by
  refine ⟨⟨args_tokens env qsys (spec_tokens z) st, faccept_call_args_eq env qsys z st, ?_⟩,
    ?_, ?_, ?_⟩
  · intro hacc
    have h1 : args_tokens env qsys (spec_tokens z) st =
        (true, (args_tokens env qsys (spec_tokens z) st).2) := by
      rw [← hacc]
    obtain ⟨a1, _⟩ := args_tokens_accepted env qsys (spec_tokens z) st _ (spec_tokens_Token z) h1
    rw [hb] at a1
    exact ⟨a1, by rw [faccept_call_protocol_bgrade, a1]⟩
  · intro h
    simp [spec_grade, h]
  · intro g gs h
    simp only [spec_grade, h]
    rw [List.getLast?_eq_getLast _ (List.cons_ne_nil g gs)]
    rfl
  · intro t r st0 ht hr hp hg
    exact faccept_call_arg_no_grade env qsys t r st0 ht hr hp hg

/-- C19. The grade option is read from a freed buffer, evaluated at the
caller line `Sfb -pA` for the system `foobarbaz`, known also as `fb`.  When
the option loop gets to it, the buffer of the line holds the name
`foobarbaz` that `zbufcpy` has copied into it, and what stands at
`zspace + 1` is `arbaz`: the token `-pA` is never seen, and the session ends
with the grade `UUCONF_GRADE_LOW`, the letter `z`, although the last grade
token of the caller's options carries the legal grade `A`.  The same call
under the name `foobarbaz`, which leaves the options where they were, ends
with the grade `A`. -/
theorem C19_grade_option_read_after_free :
    (zget_uucp_cmd (example_alias_answerer false).clock 0 true
        (recv_lines [chars "Sfb -pA"])).res = GetResult.line (example_line (chars "Sfb -pA")) ∧
    (example_zspace (chars "Sfb -pA")).bind
        (faccept_call_zspace (example_alias_answerer false) (example_alias_system false)) =
      some (chars "arbaz") ∧
    spec_grade (spec_tokens (chars "-pA")) UUCONF_GRADE_LOW = 'A'.toNat ∧
    (faccept_call (example_alias_answerer false) (chars "ufoo") none
        { input := recv_lines [chars "Sfb -pA", chars "Ug"] }).1 = true ∧
    (faccept_call (example_alias_answerer false) (chars "ufoo") none
        { input := recv_lines [chars "Sfb -pA", chars "Ug"] }).2.bgrade = 'z'.toNat ∧
    (faccept_call (example_alias_answerer false) (chars "ufoo") none
        { input := recv_lines [chars "Sfoobarbaz -pA", chars "Ug"] }).1 = true ∧
    (faccept_call (example_alias_answerer false) (chars "ufoo") none
        { input := recv_lines [chars "Sfoobarbaz -pA", chars "Ug"] }).2.bgrade = 'A'.toNat := by
  decide
/-! ## Arguments that are not recognised -/

theorem AcceptSt.same_but_log_refl (st : AcceptSt) : st.same_but_log st :=
  ⟨st.w.trace, rfl, rfl⟩

theorem AcceptSt.same_but_log_outcome (st st1 : AcceptSt) (b : Bool)
    (h : st.same_but_log st1) : spec_outcome (b, st) = spec_outcome (b, st1) := by
  obtain ⟨tr, rfl, htr⟩ := h
  simp [spec_outcome, World.core, htr]

theorem AcceptSt.same_but_log_effect (st st1 : AcceptSt) (t : List Nat) (n : Int)
    (h : st.same_but_log st1) : (arg_effect t n st).same_but_log (arg_effect t n st1) := by
  obtain ⟨tr, rfl, htr⟩ := h
  exact ⟨tr, rfl, htr⟩

theorem AcceptSt.same_but_log_ulog_right (st st1 : AcceptSt) (s : String)
    (h : st.same_but_log st1) : st.same_but_log { st1 with w := st1.w.ulog s } := by
  obtain ⟨tr, rfl, htr⟩ := h
  refine ⟨tr ++ [Event.ulog s], rfl, ?_⟩
  rw [List.filter_append, htr]
  exact List.append_nil _

theorem AcceptSt.same_but_log_ulog (st st1 : AcceptSt) (s : String)
    (h : st.same_but_log st1) :
    ({ st with w := st.w.ulog s } : AcceptSt).same_but_log { st1 with w := st1.w.ulog s } := by
  obtain ⟨tr, rfl, htr⟩ := h
  refine ⟨tr ++ [Event.ulog s], rfl, ?_⟩
  simp only [World.ulog]
  rw [List.filter_append, List.filter_append, htr]

theorem AcceptSt.same_but_log_badseq (env : Env) (qsys : uuconf_system) (st st1 : AcceptSt)
    (h : st.same_but_log st1) :
    (faccept_call_badseq env qsys st).same_but_log (faccept_call_badseq env qsys st1) := by
  obtain ⟨tr, rfl, htr⟩ := h
  refine ⟨((tr ++
    [Event.write (fsend_uucp_cmd_bytes (chars "RBADSEQ")) (env.fconn_write st.w.nwrite)]) ++
     [Event.ulog "Out of sequence call rejected"]) ++
     [Event.set_status qsys.uuconf_zname
       { st.sstat with ttype := tstatus_type.STATUS_FAILED }], rfl, ?_⟩
  simp only [faccept_call_badseq, AcceptSt.fail, World.fsend_uucp_cmd, World.ulog,
    World.fsysdep_set_status]
  simp only [List.filter_append, htr]

theorem spec_recognised_false (u : List Nat) (h : spec_recognised u = false) :
    (chars "-Q").isPrefixOf u = false ∧ (chars "-N").isPrefixOf u = false ∧
    (chars "-U").isPrefixOf u = false ∧ (chars "-R").isPrefixOf u = false ∧
    spec_token_grade u = none := by
  simp only [spec_recognised, List.any_cons, List.any_nil, Bool.or_false, Bool.or_eq_false_iff]
    at h
  obtain ⟨_, hq, hp, hv, hn, hu, hr⟩ := h
  refine ⟨hq, hn, hu, hr, ?_⟩
  simp [spec_token_grade, hp, hv]

theorem spec_recognised_false_debug (u : List Nat) (h : spec_recognised u = false) :
    (chars "-x").isPrefixOf u = false := by
  simp only [spec_recognised, List.any_cons, List.any_nil, Bool.or_false, Bool.or_eq_false_iff]
    at h
  exact h.1

/-- The block of `case 'x'` does the same in two states that differ in log
messages only. -/
theorem AcceptSt.same_but_log_debug (env : Env) (qsys : uuconf_system) (n : Int)
    (st st1 : AcceptSt) (h : st.same_but_log st1) :
    (faccept_call_debug env qsys n st).same_but_log (faccept_call_debug env qsys n st1) := by
  obtain ⟨tr, rfl, htr⟩ := h
  unfold faccept_call_debug
  dsimp only
  by_cases h1 : env.DEBUG ≤ 1
  · rw [if_pos h1, if_pos h1]
    exact ⟨tr, rfl, htr⟩
  · rw [if_neg h1, if_neg h1]
    by_cases h2 : (!st.fnew && (decide (to_int n < 0) || decide (to_int n > 30))) = true
    · rw [if_pos h2, if_pos h2]
      exact ⟨tr, rfl, htr⟩
    · rw [if_neg h2, if_neg h2]
      by_cases h3 : st.iDebug ||| faccept_call_iwant env qsys (to_int n) st.fnew ≠ st.iDebug
      · rw [if_pos h3, if_pos h3]
        refine ⟨tr ++ [Event.ulog "Setting debugging mode to 0%o"], rfl, ?_⟩
        simp only [World.ulog]
        rw [List.filter_append, List.filter_append, htr]
      · rw [if_neg h3, if_neg h3]
        exact ⟨tr, rfl, htr⟩

theorem AcceptSt.same_but_log_arg_debug (env : Env) (qsys : uuconf_system) (t : List Nat)
    (n : Int) (st st1 : AcceptSt) (h : st.same_but_log st1) :
    (arg_debug env qsys t n st).same_but_log (arg_debug env qsys t n st1) := by
  unfold arg_debug
  split
  · exact AcceptSt.same_but_log_debug env qsys n st st1 h
  · exact h

/-- Passing a token does the same in two states that differ in log messages
only. -/
theorem AcceptSt.same_but_log_pass (env : Env) (qsys : uuconf_system) (t next : List Nat)
    (st st1 : AcceptSt) (h : st.same_but_log st1) :
    (arg_pass env qsys t next st).same_but_log (arg_pass env qsys t next st1) := by
  have h1 := AcceptSt.same_but_log_effect _ _ t (strtol ((arg_view t next).drop 2) 0)
    (AcceptSt.same_but_log_arg_debug env qsys t (strtol ((arg_view t next).drop 2) 10) st st1 h)
  unfold arg_pass
  dsimp only
  split
  · exact AcceptSt.same_but_log_ulog _ _ _ h1
  · exact h1

/-- An argument that is not recognised is logged and passed over. -/
theorem args_tokens_unrecognised (env : Env) (qsys : uuconf_system) (u : List Nat)
    (ts : List (List Nat)) (st : AcceptSt) (hu : Token u) (h : spec_recognised u = false) :
    args_tokens env qsys (u :: ts) st =
      args_tokens env qsys ts { st with w := st.w.ulog "Unrecognized argument %s" } := by
  obtain ⟨hq, hn, hU, hr, hg⟩ := spec_recognised_false u h
  rw [args_tokens_cons env qsys u ts st hu]
  unfold arg_pass
  rw [arg_debug_other env qsys u _ st (spec_recognised_false_debug u h)]
  simp [hq, h, arg_effect, hn, hU, hr, hg]

/-- A token of two characters that is none of `-Q`, `-U`, `-x` begins with
none of them. -/
theorem not_bare_number (t : List Nat) (hl : t.length = 2) (hb : ¬ spec_bare_number t) :
    (chars "-Q").isPrefixOf t = false ∧ (chars "-U").isPrefixOf t = false ∧
    (chars "-x").isPrefixOf t = false := by
  rcases t with _ | ⟨a, _ | ⟨b, _ | ⟨c, t⟩⟩⟩
  · simp at hl
  · simp at hl
  · simp only [spec_bare_number, chars_Q, chars_U, chars_x, List.cons.injEq, and_true,
      not_or] at hb
    obtain ⟨b1, b2, b3⟩ := hb
    rw [chars_Q, chars_U, chars_x]
    simp only [List.isPrefixOf, Bool.and_true, Bool.and_eq_false_imp, beq_iff_eq,
      beq_eq_false_iff_ne]
    exact ⟨fun e1 e2 => b1 ⟨e1.symm, e2.symm⟩, fun e1 e2 => b2 ⟨e1.symm, e2.symm⟩,
      fun e1 e2 => b3 ⟨e1.symm, e2.symm⟩⟩
  · simp at hl

theorem arg_view_number (t : List Nat) (ts ts1 : List (List Nat)) (base : Nat)
    (hbare : spec_bare_number t → ts1.head? = ts.head?)
    (hp : (chars "-Q").isPrefixOf t = true ∨ (chars "-U").isPrefixOf t = true ∨
      (chars "-x").isPrefixOf t = true) :
    strtol ((arg_view t (ts1.headD [])).drop 2) base =
      strtol ((arg_view t (ts.headD [])).drop 2) base := by
  by_cases hl : t.length = 2
  · have hb : spec_bare_number t := by
      by_contra hb
      obtain ⟨n1, n2, n3⟩ := not_bare_number t hl hb
      rw [n1, n2, n3] at hp
      simp at hp
    have e : ts1.headD [] = ts.headD [] := by
      have := hbare hb
      cases ts1 <;> cases ts <;> simp_all
    rw [e]
  · rw [arg_view_long t _ hl, arg_view_long t _ hl]

/-- What passing a token does depends on the token after it only for a
token that is exactly `-Q`, `-U` or `-x`. -/
theorem arg_pass_next (env : Env) (qsys : uuconf_system) (t : List Nat)
    (ts ts1 : List (List Nat)) (st : AcceptSt)
    (hbare : spec_bare_number t → ts1.head? = ts.head?) :
    arg_pass env qsys t (ts1.headD []) st = arg_pass env qsys t (ts.headD []) st := by
  by_cases hx : (chars "-x").isPrefixOf t = true
  · have hU : (chars "-U").isPrefixOf t = false := by
      rw [chars_x] at hx; rw [chars_U]
      rcases t with _ | ⟨a, _ | ⟨b, t⟩⟩
      · rfl
      · simp [List.isPrefixOf]
      · simp only [List.isPrefixOf, Bool.and_true, Bool.and_eq_true, beq_iff_eq] at hx
        simp only [List.isPrefixOf, Bool.and_true, Bool.and_eq_false_imp, beq_iff_eq,
          beq_eq_false_iff_ne]
        intro _
        omega
    unfold arg_pass
    rw [arg_view_number t ts ts1 10 hbare (Or.inr (Or.inr hx))]
    simp [arg_effect, hU]
  · have hx0 : (chars "-x").isPrefixOf t = false := Bool.eq_false_iff.mpr hx
    unfold arg_pass
    rw [arg_debug_other env qsys t _ st hx0, arg_debug_other env qsys t _ st hx0]
    by_cases hU : (chars "-U").isPrefixOf t = true
    · rw [arg_view_number t ts ts1 0 hbare (Or.inr (Or.inl hU))]
    · have hU0 : (chars "-U").isPrefixOf t = false := Bool.eq_false_iff.mpr hU
      simp [arg_effect, hU0]

/-- The outcome of the option loop is not changed by unrecognised tokens
put between the tokens, as long as none comes directly after a bare `-Q`,
`-U` or `-x`. -/
theorem args_tokens_inserted (env : Env) (qsys : uuconf_system) :
    ∀ (ts ts1 : List (List Nat)), Inserted ts ts1 → (∀ t ∈ ts, Token t) →
      (∀ t ∈ ts1, Token t) → ∀ (st st1 : AcceptSt), st.same_but_log st1 →
      spec_outcome (args_tokens env qsys ts st) = spec_outcome (args_tokens env qsys ts1 st1) := by
  intro ts ts1 h
  induction h with
  | nil =>
    intro _ _ st st1 hs
    exact AcceptSt.same_but_log_outcome st st1 true hs
  | keep t ts ts1 _ hbare ih =>
    intro htok htok1 st st1 hs
    have ht : Token t := htok t (by simp)
    have ih1 := ih (fun u hu => htok u (by simp [hu])) (fun u hu => htok1 u (by simp [hu]))
    rw [args_tokens_cons env qsys t ts st ht, args_tokens_cons env qsys t ts1 st1 ht,
      arg_pass_next env qsys t ts ts1 st1 hbare]
    by_cases hq : (chars "-Q").isPrefixOf t = true
    · rw [arg_view_number t ts ts1 10 hbare (Or.inl hq)]
      by_cases hb : (chars "-Q").isPrefixOf t = true ∧ qsys.uuconf_fsequence = true ∧
          strtol ((arg_view t (ts.headD [])).drop 2) 10 ≠ env.isysdep_get_sequence
      · rw [if_pos hb, if_pos hb]
        exact AcceptSt.same_but_log_outcome _ _ false
          (AcceptSt.same_but_log_badseq env qsys st st1 hs)
      · rw [if_neg hb, if_neg hb]
        exact ih1 _ _ (AcceptSt.same_but_log_pass env qsys t _ st st1 hs)
    · have hq0 : (chars "-Q").isPrefixOf t = false := Bool.eq_false_iff.mpr hq
      simp only [hq0, Bool.false_eq_true, false_and, if_false]
      exact ih1 _ _ (AcceptSt.same_but_log_pass env qsys t _ st st1 hs)
  | ins u ts ts1 hu _ ih =>
    intro htok htok1 st st1 hs
    rw [args_tokens_unrecognised env qsys u ts1 st1 (htok1 u (by simp)) hu]
    exact ih htok (fun v hv => htok1 v (by simp [hv])) st _
      (AcceptSt.same_but_log_ulog_right st st1 _ hs)

theorem World.core_writes (w : World) : w.core.writes = w.writes := by
  unfold World.core World.writes
  simp only []
  rw [List.filterMap_filter]
  apply List.filterMap_congr
  intro e _
  cases e <;> rfl

theorem spec_outcome_fields (r r1 : Bool × AcceptSt) (h : spec_outcome r = spec_outcome r1) :
    r.1 = r1.1 ∧ r.2.bgrade = r1.2.bgrade ∧ r.2.fnew = r1.2.fnew ∧
    r.2.cmax_receive = r1.2.cmax_receive ∧ r.2.frestart = r1.2.frestart ∧
    r.2.sstat = r1.2.sstat ∧ r.2.w.writes = r1.2.w.writes := by
  have h1 := congrArg Prod.fst h
  have h2 := congrArg Prod.snd h
  simp only [spec_outcome] at h1 h2
  injection h2 with _ _ _ _ a5 a6 a7 a8 a9 a10
  have h3 := congrArg World.writes a10
  rw [World.core_writes, World.core_writes] at h3
  exact ⟨h1, a6, a5, a7, a8, a9, h3⟩

/-- C18, as stated, fails: `7` is not a recognised option, yet putting it
after a bare `-U` changes the maximum receive size from unlimited to 7
blocks, and putting it after a bare `-Q`, for a system whose stored sequence
number is 0, turns an accepted call into a rejected one; `strtol (zspace +
2)` skips the white space and reads the next token. -/
theorem C18_counterexample :
    spec_tokens (chars "-U") = [chars "-U"] ∧
    spec_tokens (chars "-U 7") = [chars "-U", chars "7"] ∧
    spec_recognised (chars "7") = false ∧
    (faccept_call_args {} {} 3 (chars "-U") {}).map (fun r => (r.1, r.2.cmax_receive)) =
      some (true, -1) ∧
    (faccept_call_args {} {} 5 (chars "-U 7") {}).map (fun r => (r.1, r.2.cmax_receive)) =
      some (true, 3584) ∧
    (faccept_call_args {} { uuconf_fsequence := true } 3 (chars "-Q") {}).map Prod.fst =
      some true ∧
    (faccept_call_args {} { uuconf_fsequence := true } 5 (chars "-Q 7") {}).map Prod.fst =
      some false := by
  decide

/-- C18, amended. Unrecognised options are not fatal, for the option
strings as the option loop reads them: when the loop reads `s` at the
pointer `p` and `s1` at the pointer `p1`, the tokens of `s1` being those of
`s` with tokens inserted that begin with none of `-x`, `-Q`, `-p`,
`-vgrade=`, `-N`, `-U`, `-R`, and no token inserted directly after a token
that is exactly `-Q`, `-U` or `-x`, the loop ends on both strings, from any
state, with the same outcome: both accepted or both rejected, the same
strings written, the same grade, `fnew`, maximum receive size, restart flag
and status, the states differing in log messages only; the reply line that
`faccept_call` writes next is the same for both; and an unrecognised token
by itself is passed over without rejection and without any change to the
session. -/
theorem C18_unrecognised_tokens_skipped (env : Env) (qsys : uuconf_system)
    (qport : Option uuconf_port) (qdialer : Option uuconf_dialer) (ftcp_port : Bool)
    (p p1 : LinePtr) (s s1 : List Nat) (st : AcceptSt)
    (hcb : qsys.uuconf_fcallback = false)
    (hlock : env.fsysdep_lock_system qsys.uuconf_zname = true)
    (hread : faccept_call_zspace env qsys p = some s)
    (hread1 : faccept_call_zspace env qsys p1 = some s1)
    (h : Inserted (spec_tokens s) (spec_tokens s1)) :
    (∀ st0 : AcceptSt, ∃ r r1,
      faccept_call_args env qsys ((s.dropWhile (fun c => isspace (BUCHAR c))).length + 1)
        (s.dropWhile (fun c => isspace (BUCHAR c))) st0 = some r ∧
      faccept_call_args env qsys ((s1.dropWhile (fun c => isspace (BUCHAR c))).length + 1)
        (s1.dropWhile (fun c => isspace (BUCHAR c))) st0 = some r1 ∧
      spec_outcome r = spec_outcome r1 ∧
      r.1 = r1.1 ∧ r.2.bgrade = r1.2.bgrade ∧ r.2.fnew = r1.2.fnew ∧
      r.2.cmax_receive = r1.2.cmax_receive ∧ r.2.frestart = r1.2.frestart ∧
      r.2.sstat = r1.2.sstat ∧ r.2.w.writes = r1.2.w.writes) ∧
    (∃ reply more more1,
      (faccept_call_known env qsys qport qdialer ftcp_port (some p) st).2.w.writes =
        st.w.writes ++ reply :: more ∧
      (faccept_call_known env qsys qport qdialer ftcp_port (some p1) st).2.w.writes =
        st.w.writes ++ reply :: more1) ∧
    (∀ (u r0 : List Nat) (st0 : AcceptSt), Token u → Rest r0 → spec_recognised u = false →
      faccept_call_arg env qsys (u ++ r0) st0 = ArgResult.next false st0) := by
  have hins : ∀ st0 : AcceptSt, spec_outcome (args_tokens env qsys (spec_tokens s) st0) =
      spec_outcome (args_tokens env qsys (spec_tokens s1) st0) := fun st0 =>
    args_tokens_inserted env qsys (spec_tokens s) (spec_tokens s1) h
      (spec_tokens_Token s) (spec_tokens_Token s1) st0 st0 (AcceptSt.same_but_log_refl st0)
  refine ⟨?_, ?_, ?_⟩
  · intro st0
    exact ⟨_, _, faccept_call_args_eq env qsys s st0, faccept_call_args_eq env qsys s1 st0,
      hins st0, spec_outcome_fields _ _ (hins st0)⟩
  · have hk := faccept_call_known_some env qsys qport qdialer ftcp_port p s st hcb hlock hread
    have hk1 := faccept_call_known_some env qsys qport qdialer ftcp_port p1 s1 st hcb hlock
      hread1
    obtain ⟨f1, _, f3, _, _, _, _⟩ := spec_outcome_fields _ _
      (hins (faccept_call_talking env qsys st))
    obtain ⟨a, a1, _, _, a4⟩ := args_tokens_cases env qsys (spec_tokens s)
      (faccept_call_talking env qsys st) (spec_tokens_Token s)
    obtain ⟨b, b1, _, _, b4⟩ := args_tokens_cases env qsys (spec_tokens s1)
      (faccept_call_talking env qsys st) (spec_tokens_Token s1)
    rw [faccept_call_talking_writes] at a1 b1
    rw [hk, hk1, faccept_call_options_some, faccept_call_options_some]
    rcases a4 with a4 | ⟨_, a4⟩ <;> rcases b4 with b4 | ⟨_, b4⟩
    · rw [a4, b4] at f3
      rw [a4, b4]
      simp only [if_true]
      obtain ⟨more, hm⟩ := faccept_call_protocol_reply env qsys qport qdialer ftcp_port a
      obtain ⟨more1, hm1⟩ := faccept_call_protocol_reply env qsys qport qdialer ftcp_port b
      refine ⟨fsend_uucp_cmd_bytes (if a.fnew = true then chars "ROKN" else chars "ROK"),
        more, more1, ?_, ?_⟩
      · rw [hm, a1]
      · rw [hm1, b1]
        have f3b : a.fnew = b.fnew := f3
        rw [f3b]
    · rw [a4, b4] at f1
      exact Bool.noConfusion f1
    · rw [a4, b4] at f1
      exact Bool.noConfusion f1
    · rw [a4, b4]
      simp only [Bool.false_eq_true, if_false]
      refine ⟨fsend_uucp_cmd_bytes (chars "RBADSEQ"), [], [], ?_, ?_⟩
      · rw [(faccept_call_badseq_writes env qsys a).1, a1]
      · rw [(faccept_call_badseq_writes env qsys b).1, b1]
  · intro u r0 st0 hu hr hn
    obtain ⟨hq, hN, hU, hR, hg⟩ := spec_recognised_false u hn
    rw [faccept_call_arg_view env qsys u r0 hu hr st0, faccept_call_arg_token env qsys u _ st0 hu,
      arg_debug_other env qsys u _ st0 (spec_recognised_false_debug u hn)]
    simp [hq, hn, arg_effect, hN, hU, hR, hg]

theorem C18_unrecognised_tokens_skipped_witness :
    (∃ r r1,
      faccept_call_args {} {} ((chars "-N -pA").length + 1) (chars "-N -pA") {} = some r ∧
      faccept_call_args {} {} ((chars "junk -N +x -pA more").length + 1)
        (chars "junk -N +x -pA more") {} = some r1 ∧
      spec_outcome r = spec_outcome r1) ∧
    ∃ reply more more1,
      (faccept_call_known example_plain_answerer { uuconf_zname := chars "foo" } none none false
        (example_zspace (chars "Sfoo -N -pA")) {}).2.w.writes =
          ([] : List (List Nat)) ++ reply :: more ∧
      (faccept_call_known example_plain_answerer { uuconf_zname := chars "foo" } none none false
        (example_zspace (chars "Sfoo junk -N +x -pA more")) {}).2.w.writes =
          ([] : List (List Nat)) ++ reply :: more1 := by
  have e1 : spec_tokens (chars "-N -pA") = [chars "-N", chars "-pA"] := by decide
  have e2 : spec_tokens (chars "junk -N +x -pA more") =
      [chars "junk", chars "-N", chars "+x", chars "-pA", chars "more"] := by decide
  have hi : Inserted (spec_tokens (chars "-N -pA")) (spec_tokens (chars "junk -N +x -pA more")) := by
    rw [e1, e2]
    exact Inserted.ins _ _ _ (by decide)
      (Inserted.keep _ _ _
        (Inserted.ins _ _ _ (by decide)
          (Inserted.keep _ _ _ (Inserted.ins _ _ _ (by decide) Inserted.nil)
            (fun hb => absurd hb (by decide))))
        (fun hb => absurd hb (by decide)))
  have hc := C18_unrecognised_tokens_skipped example_plain_answerer
    { uuconf_zname := chars "foo" } none none false
    { zstr := (example_line (chars "Sfoo -N -pA")).set 4 (some 0), i := 4 }
    { zstr := (example_line (chars "Sfoo junk -N +x -pA more")).set 4 (some 0), i := 4 }
    (chars "-N -pA") (chars "junk -N +x -pA more") {} (by rfl) (by rfl) (by decide) (by decide) hi
  obtain ⟨r, r1, h1, h2, h3, _⟩ := hc.1 {}
  exact ⟨⟨r, r1, h1, h2, h3⟩, hc.2.1⟩

/-- C20. The `-U` size ceiling, evaluated at the caller line `Sfoo
-U18014398509481984`: `strtol` gives a positive `c` (the number itself where
a `long` has 64 bits, `LONG_MAX` where it has 32, as here) and the product
`c * (long) 512` is beyond `LONG_MAX`; with the 32-bit `long` of this
embedding, wrapped around, the maximum receive size becomes -512 and the
call is accepted with it.  A product in range is stored as it is (`-U7`
gives 3584), and `-U0` and a line without `-U` leave -1. -/
theorem C20_size_ceiling_overflows :
    (faccept_call example_plain_answerer (chars "ufoo") none
        { input := recv_lines [chars "Sfoo -U18014398509481984", chars "Ug"] }).2.cmax_receive =
      -512 ∧
    (faccept_call example_plain_answerer (chars "ufoo") none
        { input := recv_lines [chars "Sfoo -U18014398509481984", chars "Ug"] }).1 = true ∧
    strtol (chars "18014398509481984") 0 = LONG_MAX ∧
    LONG_MAX < LONG_MAX * 512 ∧
    (18014398509481984 : Int) * 512 = 2 ^ 63 ∧
    (faccept_call example_plain_answerer (chars "ufoo") none
        { input := recv_lines [chars "Sfoo -U7", chars "Ug"] }).2.cmax_receive = 3584 ∧
    (faccept_call example_plain_answerer (chars "ufoo") none
        { input := recv_lines [chars "Sfoo -U0", chars "Ug"] }).2.cmax_receive = -1 ∧
    (faccept_call example_plain_answerer (chars "ufoo") none
        { input := recv_lines [chars "Sfoo -N", chars "Ug"] }).2.cmax_receive = -1 := by
  decide
/-! ## Protocol negotiation -/

theorem specified_ne_zero (p : Nat) (h : p &&& UUCONF_RELIABLE_SPECIFIED ≠ 0) : p ≠ 0 := by
  intro h0
  subst h0
  simp at h

theorem specified_and_ne_zero (p d : Nat) (hp : p &&& UUCONF_RELIABLE_SPECIFIED ≠ 0)
    (hd : d &&& UUCONF_RELIABLE_SPECIFIED ≠ 0) : p &&& d ≠ 0 := by
  have e : UUCONF_RELIABLE_SPECIFIED = 1 := rfl
  rw [e, Nat.and_one_is_mod] at hp hd
  intro h0
  have h1 : (p &&& d).testBit 0 = false := by rw [h0]; rfl
  rw [Nat.testBit_and, Nat.testBit_zero, Nat.testBit_zero] at h1
  have hp1 : p % 2 = 1 := by omega
  have hd1 : d % 2 = 1 := by omega
  simp [hp1, hd1] at h1

/-- The reliability both sides work out from the port and the dialer is
the effective reliability of the specification, without the case of a TCP
port. -/
theorem handshake_ir_eq (qport : Option uuconf_port) (qdialer : Option uuconf_dialer) :
    handshake_ir qport qdialer =
      spec_effective_reliability false (qport.map (fun p => p.uuconf_ireliable))
        (qdialer.map (fun d => d.uuconf_ireliable)) := by
  unfold handshake_ir spec_effective_reliability spec_specified
  cases qport with
  | none =>
    cases qdialer with
    | none => simp
    | some d =>
      by_cases hd : d.uuconf_ireliable &&& UUCONF_RELIABLE_SPECIFIED ≠ 0
      · simp [hd, specified_ne_zero _ hd]
      · simp [hd]
  | some p =>
    cases qdialer with
    | none =>
      by_cases hp : p.uuconf_ireliable &&& UUCONF_RELIABLE_SPECIFIED ≠ 0
      · simp [hp, specified_ne_zero _ hp]
      · simp [hp]
    | some d =>
      by_cases hp : p.uuconf_ireliable &&& UUCONF_RELIABLE_SPECIFIED ≠ 0
      · by_cases hd : d.uuconf_ireliable &&& UUCONF_RELIABLE_SPECIFIED ≠ 0
        · simp [hp, hd, specified_ne_zero _ hp, specified_and_ne_zero _ _ hp hd]
        · simp [hp, hd, specified_ne_zero _ hp]
      · by_cases hd : d.uuconf_ireliable &&& UUCONF_RELIABLE_SPECIFIED ≠ 0
        · simp [hp, hd, specified_ne_zero _ hd]
        · simp [hp, hd]

/-- The line `faccept_call` builds is the advertisement of the
specification. -/
theorem faccept_call_zsend_eq (qsys : uuconf_system) (qport : Option uuconf_port)
    (qdialer : Option uuconf_dialer) (ftcp_port : Bool) :
    faccept_call_zsend qsys qport qdialer ftcp_port =
      spec_advertisement qsys.uuconf_zprotocols (qport.bind (fun p => p.uuconf_zprotocols))
        (spec_effective_reliability ftcp_port (qport.map (fun p => p.uuconf_ireliable))
          (qdialer.map (fun d => d.uuconf_ireliable))) := by
  unfold faccept_call_zsend spec_advertisement
  cases h1 : qsys.uuconf_zprotocols with
  | some l => rfl
  | none =>
    cases h2 : qport.bind (fun p => p.uuconf_zprotocols) with
    | some l => rfl
    | none =>
      cases ftcp_port with
      | true => rfl
      | false =>
        simp only [Bool.false_eq_true, if_false, handshake_ir_eq]
        rfl

/-- The first thing `faccept_call` does after the `ROK` or `ROKN` reply is
to write the protocol line. -/
theorem faccept_call_advertise_line (env : Env) (qsys : uuconf_system)
    (qport : Option uuconf_port) (qdialer : Option uuconf_dialer) (ftcp_port : Bool)
    (st : AcceptSt) :
    ∃ more, (faccept_call_advertise env qsys qport qdialer ftcp_port st).2.w.writes =
      st.w.writes ++
        fsend_uucp_cmd_bytes (faccept_call_zsend qsys qport qdialer ftcp_port) :: more := by
  have hp : (st.w.fsend_uucp_cmd env (faccept_call_zsend qsys qport qdialer ftcp_port)).2.trace <+:
      (faccept_call_advertise env qsys qport qdialer ftcp_port st).2.w.trace := by
    have h2 := World.zget_uucp_cmd_trace env
      (st.w.fsend_uucp_cmd env (faccept_call_zsend qsys qport qdialer ftcp_port)).2 true _
      (List.prefix_refl _)
    unfold faccept_call_advertise
    simp only []
    split
    · apply AcceptSt.fail_trace; exact List.prefix_refl _
    · split
      · apply AcceptSt.fail_trace; exact h2
      · exact h2
      · split
        · apply AcceptSt.fail_trace; exact h2.trans (List.prefix_append _ _)
        · split
          · apply AcceptSt.fail_trace; exact h2.trans (List.prefix_append _ _)
          · split
            · apply AcceptSt.fail_trace; exact h2.trans (List.prefix_append _ _)
            · apply faccept_call_start_trace; exact h2
  obtain ⟨more, hm⟩ := hp
  refine ⟨World.writes { trace := more }, ?_⟩
  unfold World.writes
  rw [← hm]
  simp [World.fsend_uucp_cmd, List.filterMap_append]
/-! ## The choice of the caller -/

theorem asProtocols_bname_ne_zero : ∀ p ∈ asProtocols, p.bname ≠ 0 := by decide

theorem find_protocol_some (c : Nat) (p : sprotocol) (h : find_protocol c = some p) :
    p ∈ asProtocols ∧ p.bname = c ∧ c ≠ 0 := by
  unfold find_protocol at h
  have h1 := List.mem_of_find?_eq_some h
  have h2 := List.find?_some h
  have h3 : p.bname = c := by simpa using h2
  exact ⟨h1, h3, h3 ▸ asProtocols_bname_ne_zero p h1⟩

theorem spec_builtin_eq (c : Nat) : spec_builtin c = (find_protocol c).isSome := by
  unfold spec_builtin find_protocol
  rw [Bool.eq_iff_iff, List.any_eq_true, List.find?_isSome]

theorem strchr_isSome (A : List Nat) (c : Nat) (hc : c ≠ 0) :
    (strchr A c).isSome = decide (c ∈ A) := by
  unfold strchr
  by_cases h : c ∈ A <;> simp [hc, h]

/-- The loop of `fdo_call` over a preference list picks the protocol of the
first id in the list that was advertised and is built in. -/
theorem fdo_call_choose_listed_eq (A : List Nat) (prefs : List Nat) :
    fdo_call_choose_listed A prefs = (spec_choice_listed prefs A).bind find_protocol := by
  induction prefs with
  | nil => rfl
  | cons c rest ih =>
    unfold fdo_call_choose_listed spec_choice_listed
    rw [List.find?_cons, spec_builtin_eq]
    cases hf : find_protocol c with
    | none =>
      have e : (decide (c ∈ A) && (none : Option sprotocol).isSome) = false := by simp
      rw [e]
      simp only []
      rw [ih]
      unfold spec_choice_listed
      simp only [spec_builtin_eq]
      split <;> rfl
    | some p =>
      obtain ⟨_, _, hc⟩ := find_protocol_some c p hf
      rw [strchr_isSome A c hc]
      by_cases hA : c ∈ A
      · simp [hA, hf]
      · simp only [hA, decide_False, Bool.false_and, Bool.false_eq_true, if_false]
        rw [ih]
        unfold spec_choice_listed
        simp only [spec_builtin_eq]

/-- The loop of `fdo_call` over a table of protocols whose ids are not
zero picks the first one whose mask is a subset of `ir` and whose id was
advertised. -/
theorem fdo_call_choose_builtin_find (ir : Nat) (A : List Nat) (l : List sprotocol)
    (hl : ∀ p ∈ l, p.bname ≠ 0) :
    fdo_call_choose_builtin ir A l =
      l.find? (fun p => spec_mask_subset p.ireliable ir && decide (p.bname ∈ A)) := by
  induction l with
  | nil => rfl
  | cons p rest ih =>
    have ih1 := ih (fun q hq => hl q (List.mem_cons_of_mem _ hq))
    unfold fdo_call_choose_builtin
    rw [List.find?_cons, strchr_isSome A p.bname (hl p (List.mem_cons_self _ _))]
    unfold spec_mask_subset
    by_cases hm : p.ireliable &&& ir = p.ireliable
    · by_cases hA : p.bname ∈ A
      · simp [hm, hA]
      · simp [hm, hA, ih1, spec_mask_subset]
    · have e : (p.ireliable &&& ir == p.ireliable) = false := by simpa using hm
      simp [hm, e, ih1, spec_mask_subset]

theorem fdo_call_choose_builtin_eq (ir : Nat) (A : List Nat) :
    fdo_call_choose_builtin ir A asProtocols = spec_choice_builtin ir A :=
  fdo_call_choose_builtin_find ir A asProtocols asProtocols_bname_ne_zero

/-- The choice of `fdo_call`, in the words of the specification. -/
theorem fdo_call_choose_eq (qsys : uuconf_system) (qport : Option uuconf_port)
    (qdialer : Option uuconf_dialer) (A : List Nat) :
    fdo_call_choose qsys qport qdialer A =
      match spec_preferences qsys qport with
      | some prefs => (spec_choice_listed prefs A).bind find_protocol
      | none =>
        spec_choice_builtin
          (spec_effective_reliability false (qport.map (fun p => p.uuconf_ireliable))
            (qdialer.map (fun d => d.uuconf_ireliable))) A := by
  unfold fdo_call_choose spec_preferences
  cases h1 : qsys.uuconf_zprotocols with
  | some l => simp only []; rw [fdo_call_choose_listed_eq]
  | none =>
    simp only []
    cases h2 : qport.bind (fun p => p.uuconf_zprotocols) with
    | some l => simp only []; rw [fdo_call_choose_listed_eq]
    | none => simp only []; rw [fdo_call_choose_builtin_eq, handshake_ir_eq]

/-- What the choice of `fdo_call` is like: a built-in protocol whose id was
advertised. -/
theorem fdo_call_choose_some (qsys : uuconf_system) (qport : Option uuconf_port)
    (qdialer : Option uuconf_dialer) (A : List Nat) (p : sprotocol)
    (h : fdo_call_choose qsys qport qdialer A = some p) :
    p ∈ asProtocols ∧ p.bname ∈ A ∧ p.bname ≠ 'N'.toNat ∧
    (spec_preferences qsys qport = none →
      spec_mask_subset p.ireliable
        (spec_effective_reliability false (qport.map (fun p => p.uuconf_ireliable))
          (qdialer.map (fun d => d.uuconf_ireliable))) = true) := by
  have hN : ∀ q ∈ asProtocols, q.bname ≠ 'N'.toNat := by decide
  rw [fdo_call_choose_eq] at h
  cases hp : spec_preferences qsys qport with
  | some prefs =>
    rw [hp] at h
    simp only [] at h
    cases hc : spec_choice_listed prefs A with
    | none => rw [hc] at h; simp at h
    | some c =>
      rw [hc] at h
      obtain ⟨m, b, _⟩ := find_protocol_some c p h
      unfold spec_choice_listed at hc
      have hc1 := List.find?_some hc
      simp only [Bool.and_eq_true, decide_eq_true_eq] at hc1
      exact ⟨m, b ▸ hc1.1, hN p m, fun h0 => by simp at h0⟩
  | none =>
    rw [hp] at h
    simp only [] at h
    unfold spec_choice_builtin at h
    have m := List.mem_of_find?_eq_some h
    have hc1 := List.find?_some h
    simp only [Bool.and_eq_true, decide_eq_true_eq] at hc1
    exact ⟨m, hc1.2, hN p m, fun _ => hc1.1⟩
/-! ## What the stages write -/

theorem World.writes_fsend (env : Env) (w : World) (z : List Nat) :
    (w.fsend_uucp_cmd env z).2.writes = w.writes ++ [fsend_uucp_cmd_bytes z] := by
  simp [World.writes, World.fsend_uucp_cmd, List.filterMap_append]

theorem World.nwrite_fsend (env : Env) (w : World) (z : List Nat) :
    (w.fsend_uucp_cmd env z).2.nwrite = w.nwrite + 1 := rfl

theorem World.fst_fsend (env : Env) (w : World) (z : List Nat) :
    (w.fsend_uucp_cmd env z).1 = env.fconn_write w.nwrite := rfl

theorem World.writes_emit (w : World) (e : Event) (h : e.is_write = false) :
    (w.emit e).writes = w.writes := by
  cases e with
  | write b ok => simp [Event.is_write] at h
  | _ => simp [World.writes, World.emit, List.filterMap_append]

theorem World.nwrite_emit (w : World) (e : Event) : (w.emit e).nwrite = w.nwrite := rfl

theorem World.writes_time (env : Env) (w : World) : (w.isysdep_time env).2.writes = w.writes := rfl

theorem World.writes_set_status (env : Env) (w : World) (qsys : uuconf_system) (s : sstatus) :
    (w.fsysdep_set_status env qsys s).2.writes = w.writes := by
  simp [World.writes, World.fsysdep_set_status, List.filterMap_append]

theorem World.writes_zget (env : Env) (w : World) (frequired : Bool) :
    (w.zget_uucp_cmd env frequired).2.writes = w.writes := by
  unfold World.zget_uucp_cmd
  simp only []
  split
  · split <;> rfl
  · split
    · exact World.writes_ulog _ _
    · rfl
  · rfl

theorem World.writes_after_get (env : Env) (w : World) (frequired : Bool) :
    (w.after_get env frequired).writes = w.writes := rfl

theorem World.nwrite_after_get (env : Env) (w : World) (frequired : Bool) :
    (w.after_get env frequired).nwrite = w.nwrite := rfl

/-- The hangup strings of the caller: `OOOOOO` twice, the second only when
the first was written. -/
theorem fdo_call_hangup_writes (env : Env) (qsys : uuconf_system) (st : CallSt) :
    (fdo_call_hangup env qsys st).2.w.writes =
      st.w.writes ++
        (if env.fconn_write st.w.nwrite then
          [fsend_uucp_cmd_bytes (chars "OOOOOO"), fsend_uucp_cmd_bytes (chars "OOOOOO")]
         else [fsend_uucp_cmd_bytes (chars "OOOOOO")]) := by
  unfold fdo_call_hangup
  by_cases h1 : env.fconn_write st.w.nwrite = true <;> by_cases h2 : env.floop = true <;>
    by_cases h3 : env.fdebug_handshake = true <;>
    by_cases h4 : env.fconn_write (st.w.nwrite + 1) = true <;>
    simp [World.fst_fsend, World.writes_fsend, World.writes_emit, World.writes_time,
      World.writes_set_status, World.writes_zget, World.writes_ulog, World.nwrite_fsend,
      World.nwrite_emit, h1, h2, h3, h4, Event.is_write]

theorem fdo_call_hangup_qproto (env : Env) (qsys : uuconf_system) (st : CallSt) :
    (fdo_call_hangup env qsys st).2.qproto = st.qproto := by
  unfold fdo_call_hangup
  simp only []
  split <;> rfl

theorem fdo_call_start_qproto (env : Env) (qsys : uuconf_system) (p : sprotocol) (st : CallSt) :
    (fdo_call_start env qsys p st).2.qproto = st.qproto := by
  unfold fdo_call_start
  simp only []
  split
  · rfl
  · rw [fdo_call_hangup_qproto]

/-- Starting the protocol writes nothing but hangup strings. -/
theorem fdo_call_start_writes (env : Env) (qsys : uuconf_system) (p : sprotocol)
    (st : CallSt) :
    ∃ more, (fdo_call_start env qsys p st).2.w.writes = st.w.writes ++ more ∧
      ∀ x ∈ more, x = fsend_uucp_cmd_bytes (chars "OOOOOO") := by
  unfold fdo_call_start
  simp only []
  split
  · exact ⟨[], by simp [World.writes_emit, Event.is_write], by simp⟩
  · rw [fdo_call_hangup_writes]
    refine ⟨_, by
      simp only [World.writes_ulog, World.writes_emit, Event.is_write]
      rfl, ?_⟩
    intro x hx
    split at hx <;> simp at hx <;> exact hx

/-- What `fdo_call_protocol` does with a `P` line that advertises `A`. -/
theorem fdo_call_protocol_line (env : Env) (qsys : uuconf_system) (qport : Option uuconf_port)
    (qdialer : Option uuconf_dialer) (st : CallSt) (A : List Nat)
    (hline : (zget_uucp_cmd env.clock st.w.ticks true st.w.input).zstr =
      some ('P'.toNat :: A)) :
    fdo_call_protocol env qsys qport qdialer st =
      match fdo_call_choose qsys qport qdialer A with
      | none =>
        (false, { st with w := (((st.w.after_get env true).fsend_uucp_cmd env
          (chars "UN")).2).ulog "No mutually supported protocols" })
      | some p =>
        if !env.fconn_write st.w.nwrite then
          (false, { st with qproto := some p,
                            w := ((st.w.after_get env true).fsend_uucp_cmd env
                              ['U'.toNat, p.bname]).2 })
        else
          fdo_call_start env qsys p
            { st with qproto := some p,
                      w := ((st.w.after_get env true).fsend_uucp_cmd env
                        ['U'.toNat, p.bname]).2 } := by
  obtain ⟨zalc, hz⟩ := World.zget_uucp_cmd_line env st.w true _ hline
  unfold fdo_call_protocol
  simp only [hz]
  have e1 : cidx ('P'.toNat :: A) 0 = 'P'.toNat := rfl
  simp only [e1, ne_eq, not_true_eq_false, if_false, List.drop_succ_cons, List.drop_zero]
  rfl

/-- The strings `fdo_call_protocol` writes after a `P` line: `UN` and
nothing else when it finds no protocol, else `U` and the id of its choice,
followed by hangup strings at most. -/
theorem fdo_call_protocol_writes (env : Env) (qsys : uuconf_system)
    (qport : Option uuconf_port) (qdialer : Option uuconf_dialer) (st : CallSt) (A : List Nat)
    (hline : (zget_uucp_cmd env.clock st.w.ticks true st.w.input).zstr =
      some ('P'.toNat :: A)) :
    (fdo_call_choose qsys qport qdialer A = none →
      fdo_call_protocol env qsys qport qdialer st =
        (false, { st with w := (((st.w.after_get env true).fsend_uucp_cmd env
          (chars "UN")).2).ulog "No mutually supported protocols" }) ∧
      (fdo_call_protocol env qsys qport qdialer st).2.w.writes =
        st.w.writes ++ [fsend_uucp_cmd_bytes (chars "UN")]) ∧
    (∀ p, fdo_call_choose qsys qport qdialer A = some p →
      (fdo_call_protocol env qsys qport qdialer st).2.qproto = some p ∧
      ∃ more, (fdo_call_protocol env qsys qport qdialer st).2.w.writes =
          st.w.writes ++ fsend_uucp_cmd_bytes ['U'.toNat, p.bname] :: more ∧
        ∀ x ∈ more, x = fsend_uucp_cmd_bytes (chars "OOOOOO")) := by
  have h := fdo_call_protocol_line env qsys qport qdialer st A hline
  constructor
  · intro hc
    rw [hc] at h
    simp only [] at h
    refine ⟨h, ?_⟩
    rw [h]
    simp [World.writes_ulog, World.writes_fsend, World.writes_after_get]
  · intro p hc
    rw [hc] at h
    simp only [] at h
    rw [h]
    split
    · exact ⟨rfl, [], by simp [World.writes_fsend, World.writes_after_get], by simp⟩
    · rw [fdo_call_start_qproto]
      refine ⟨rfl, ?_⟩
      obtain ⟨more, hm, hall⟩ := fdo_call_start_writes env qsys p
        { st with qproto := some p,
                  w := ((st.w.after_get env true).fsend_uucp_cmd env ['U'.toNat, p.bname]).2 }
      refine ⟨more, ?_, hall⟩
      rw [hm]
      simp [World.writes_fsend, World.writes_after_get]
/-! ## The advertisement and the choice: the properties -/

/-- C21. Answerer advertisement: the line `faccept_call` builds is `P`
followed by the explicit list of the peer if set, else that of the port if
set, else the built-in ids in the order `t`, `e`, `g`, `f` whose mask is a
subset of the effective reliability (all four flags on a TCP port, else
port and dialer intersected when both are marked specified, else whichever
is marked specified, else reliable, eight-bit and specified); when the
reply `ROK` or `ROKN` is written, this line is the next thing written; with
no explicit list it is `Ptegf` on a TCP port and `Pgf` when neither port nor
dialer is marked specified. -/
theorem C21_answerer_advertisement (env : Env) (qsys : uuconf_system)
    (qport : Option uuconf_port) (qdialer : Option uuconf_dialer) (ftcp_port : Bool)
    (st : AcceptSt) :
    faccept_call_zsend qsys qport qdialer ftcp_port =
      spec_advertisement qsys.uuconf_zprotocols (qport.bind (fun p => p.uuconf_zprotocols))
        (spec_effective_reliability ftcp_port (qport.map (fun p => p.uuconf_ireliable))
          (qdialer.map (fun d => d.uuconf_ireliable))) ∧
    (env.fconn_write st.w.nwrite = true →
      ∃ more, (faccept_call_protocol env qsys qport qdialer ftcp_port st).2.w.writes =
        st.w.writes ++
          fsend_uucp_cmd_bytes (if st.fnew then chars "ROKN" else chars "ROK") ::
          fsend_uucp_cmd_bytes
            (spec_advertisement qsys.uuconf_zprotocols
              (qport.bind (fun p => p.uuconf_zprotocols))
              (spec_effective_reliability ftcp_port (qport.map (fun p => p.uuconf_ireliable))
                (qdialer.map (fun d => d.uuconf_ireliable)))) :: more) ∧
    (qsys.uuconf_zprotocols = none → qport.bind (fun p => p.uuconf_zprotocols) = none →
      faccept_call_zsend qsys qport qdialer true = chars "Ptegf" ∧
      (spec_specified (qport.map (fun p => p.uuconf_ireliable)) = none →
        spec_specified (qdialer.map (fun d => d.uuconf_ireliable)) = none →
        faccept_call_zsend qsys qport qdialer false = chars "Pgf")) := by
  refine ⟨faccept_call_zsend_eq qsys qport qdialer ftcp_port, ?_, ?_⟩
  · intro hw
    obtain ⟨more, hm⟩ := faccept_call_advertise_line env qsys qport qdialer ftcp_port
      { st with w := (st.w.fsend_uucp_cmd env (if st.fnew then chars "ROKN" else chars "ROK")).2 }
    refine ⟨more, ?_⟩
    have e : faccept_call_protocol env qsys qport qdialer ftcp_port st =
        faccept_call_advertise env qsys qport qdialer ftcp_port
          { st with
            w := (st.w.fsend_uucp_cmd env (if st.fnew then chars "ROKN" else chars "ROK")).2 } := by
      unfold faccept_call_protocol
      simp only [World.fst_fsend, hw, Bool.not_true, Bool.false_eq_true, if_false]
    rw [e, hm, World.writes_fsend, faccept_call_zsend_eq]
    simp
  · intro h1 h2
    constructor
    · have e : ∀ a b, spec_effective_reliability true a b = 15 := fun _ _ => rfl
      rw [faccept_call_zsend_eq, h1, h2, e]
      decide
    · intro h3 h4
      have e : spec_effective_reliability false (qport.map (fun p => p.uuconf_ireliable))
          (qdialer.map (fun d => d.uuconf_ireliable)) = 7 := by
        unfold spec_effective_reliability
        rw [h3, h4]
        rfl
      rw [faccept_call_zsend_eq, h1, h2, e]
      decide

/-- An instance of C21: an answerer without explicit lists, on a TCP port
and on a port that says nothing about its reliability. -/
theorem C21_answerer_advertisement_witness :
    faccept_call_zsend {} (some example_tcp_port) none true = chars "Ptegf" ∧
    faccept_call_zsend {} (some example_plain_port) none false = chars "Pgf" ∧
    ∃ more, (faccept_call_protocol {} {} (some example_plain_port) none false
        { fnew := true }).2.w.writes =
      [] ++ fsend_uucp_cmd_bytes (chars "ROKN") :: fsend_uucp_cmd_bytes (chars "Pgf") :: more :=
  ⟨((C21_answerer_advertisement {} {} (some example_tcp_port) none true {}).2.2 rfl rfl).1,
   ((C21_answerer_advertisement {} {} (some example_plain_port) none false {}).2.2 rfl rfl).2
      rfl rfl,
   (C21_answerer_advertisement {} {} (some example_plain_port) none false
      { fnew := true }).2.1 rfl⟩

/-- C22. Caller selection with an explicit preference list: when the peer,
else the port, configures a preference list and the `P` line advertises
`A`, `fdo_call` decides on the protocol of the first id in the list, in list
order, that occurs in `A` and is a built-in protocol; for that id it writes
`U` and the id next and records the protocol as selected; with the list
`ge` and the advertisement `te` the id is `e`. -/
theorem C22_explicit_preference_list (env : Env) (qsys : uuconf_system)
    (qport : Option uuconf_port) (qdialer : Option uuconf_dialer) (st : CallSt)
    (A prefs : List Nat)
    (hline : (zget_uucp_cmd env.clock st.w.ticks true st.w.input).zstr =
      some ('P'.toNat :: A))
    (hprefs : spec_preferences qsys qport = some prefs) :
    fdo_call_choose qsys qport qdialer A = (spec_choice_listed prefs A).bind find_protocol ∧
    (∀ c, spec_choice_listed prefs A = some c →
      (∃ p, find_protocol c = some p ∧ p.bname = c ∧
        (fdo_call_protocol env qsys qport qdialer st).2.qproto = some p) ∧
      ∃ more, (fdo_call_protocol env qsys qport qdialer st).2.w.writes =
          st.w.writes ++ fsend_uucp_cmd_bytes ['U'.toNat, c] :: more ∧
        ∀ x ∈ more, x = fsend_uucp_cmd_bytes (chars "OOOOOO")) ∧
    spec_choice_listed (chars "ge") (chars "te") = some 'e'.toNat := by
  have hch : fdo_call_choose qsys qport qdialer A =
      (spec_choice_listed prefs A).bind find_protocol := by
    rw [fdo_call_choose_eq, hprefs]
  refine ⟨hch, ?_, by decide⟩
  intro c hc
  have hb : spec_builtin c = true := by
    unfold spec_choice_listed at hc
    have h1 := List.find?_some hc
    simp only [Bool.and_eq_true] at h1
    exact h1.2
  rw [spec_builtin_eq, Option.isSome_iff_exists] at hb
  obtain ⟨p, hp⟩ := hb
  have hsome : fdo_call_choose qsys qport qdialer A = some p := by
    rw [hch, hc]
    exact hp
  obtain ⟨_, hpc, _⟩ := find_protocol_some c p hp
  obtain ⟨hq, more, hm, hall⟩ :=
    (fdo_call_protocol_writes env qsys qport qdialer st A hline).2 p hsome
  refine ⟨⟨p, hp, hpc, hq⟩, more, ?_, hall⟩
  rw [hm, hpc]

/-- An instance of C22: a caller whose peer lists `ge` reads `Pte`. -/
theorem C22_explicit_preference_list_witness :
    (zget_uucp_cmd (fun _ => 0) 0 true (recv_lines [chars "Pte"])).zstr =
      some ('P'.toNat :: chars "te") ∧
    fdo_call_choose { uuconf_zprotocols := some (chars "ge") } none none (chars "te") =
      (spec_choice_listed (chars "ge") (chars "te")).bind find_protocol :=
  ⟨by decide,
   (C22_explicit_preference_list {} { uuconf_zprotocols := some (chars "ge") } none none
      { w := { input := recv_lines [chars "Pte"] } } (chars "te") (chars "ge")
      (by decide) rfl).1⟩

/-- C23. Caller selection in built-in order: when neither the peer nor the
port configures a protocol list and the `P` line advertises `A`, `fdo_call`
decides on the first protocol in the order `t`, `e`, `g`, `f` whose mask is
a subset of the caller's effective reliability (port and dialer intersected
when both are marked specified, else whichever is, else reliable, eight-bit
and specified) and whose id occurs in `A`; for it, it writes `U` and the id
next and records the protocol as selected. -/
theorem C23_builtin_order (env : Env) (qsys : uuconf_system)
    (qport : Option uuconf_port) (qdialer : Option uuconf_dialer) (st : CallSt)
    (A : List Nat)
    (hline : (zget_uucp_cmd env.clock st.w.ticks true st.w.input).zstr =
      some ('P'.toNat :: A))
    (hprefs : spec_preferences qsys qport = none) :
    fdo_call_choose qsys qport qdialer A =
      spec_choice_builtin
        (spec_effective_reliability false (qport.map (fun p => p.uuconf_ireliable))
          (qdialer.map (fun d => d.uuconf_ireliable))) A ∧
    (∀ p, spec_choice_builtin
        (spec_effective_reliability false (qport.map (fun p => p.uuconf_ireliable))
          (qdialer.map (fun d => d.uuconf_ireliable))) A = some p →
      (fdo_call_protocol env qsys qport qdialer st).2.qproto = some p ∧
      ∃ more, (fdo_call_protocol env qsys qport qdialer st).2.w.writes =
          st.w.writes ++ fsend_uucp_cmd_bytes ['U'.toNat, p.bname] :: more ∧
        ∀ x ∈ more, x = fsend_uucp_cmd_bytes (chars "OOOOOO")) ∧
    asProtocols.map (fun p => p.bname) = chars "tegf" := by
  have hch : fdo_call_choose qsys qport qdialer A =
      spec_choice_builtin
        (spec_effective_reliability false (qport.map (fun p => p.uuconf_ireliable))
          (qdialer.map (fun d => d.uuconf_ireliable))) A := by
    rw [fdo_call_choose_eq, hprefs]
  refine ⟨hch, ?_, by decide⟩
  intro p hp
  exact (fdo_call_protocol_writes env qsys qport qdialer st A hline).2 p (hch.trans hp)

/-- An instance of C23: a caller on a port that says nothing about its
reliability reads `Ptegf` and decides on `g`. -/
theorem C23_builtin_order_witness :
    (zget_uucp_cmd (fun _ => 0) 0 true (recv_lines [chars "Ptegf"])).zstr =
      some ('P'.toNat :: chars "tegf") ∧
    fdo_call_choose {} (some example_plain_port) none (chars "tegf") =
      some { bname := 'g'.toNat, ireliable := UUCONF_RELIABLE_EIGHT } :=
  ⟨by decide,
   ((C23_builtin_order {} {} (some example_plain_port) none
      { w := { input := recv_lines [chars "Ptegf"] } } (chars "tegf") (by decide) rfl).1).trans
      (by decide)⟩
/-! ## The caller from the acceptance to the `U` line -/

/-- What `fdo_call_response` does with the answer `ROK` or `ROKN`. -/
theorem fdo_call_response_accepted (env : Env) (qsys : uuconf_system)
    (qport : Option uuconf_port) (qdialer : Option uuconf_dialer) (st : CallSt) (fnew : Bool)
    (hline : (zget_uucp_cmd env.clock st.w.ticks true st.w.input).zstr =
      some (if fnew then chars "ROKN" else chars "ROK")) :
    fdo_call_response env qsys qport qdialer st =
      fdo_call_protocol env qsys qport qdialer
        { st with fnew := fnew, w := st.w.after_get env true } := by
  obtain ⟨zalc, hz⟩ := World.zget_uucp_cmd_line env st.w true _ hline
  unfold fdo_call_response
  simp only [hz]
  cases fnew with
  | true =>
    have e1 : cidx (chars "ROKN") 0 = 'R'.toNat := by decide
    have e2 : strcmp ((chars "ROKN").drop 1) (chars "OKN") = 0 := by decide
    simp only [e1, e2, ne_eq, not_true_eq_false, if_false, if_true]
  | false =>
    have e1 : cidx (chars "ROK") 0 = 'R'.toNat := by decide
    have e2 : strcmp ((chars "ROK").drop 1) (chars "OKN") ≠ 0 := by decide
    have e3 : strcmp ((chars "ROK").drop 1) (chars "OK") = 0 := by decide
    simp only [e1, e2, e3, ne_eq, not_true_eq_false, if_false, if_true, Bool.false_eq_true]

/-- When the login succeeds, the `Shere` line names a candidate, the `S`
line is written and the answer is `ROK` or `ROKN`, `fdo_call` turns to the
`P` line. -/
theorem fdo_call_to_protocol (env : Env) (qsys : uuconf_system) (qport : Option uuconf_port)
    (qdialer : Option uuconf_dialer) (st : CallSt) (r L : List Nat) (fnew : Bool)
    (hchat : env.fchat = true) (hstat : env.fsysdep_set_status st.w.nstat = true)
    (hline : (zget_uucp_cmd env.clock (st.w.ticks + 2) true st.w.input).zstr =
      some (chars "Shere=" ++ r))
    (hm : ∃ c ∈ spec_name_candidates qsys, spec_name_matches r c)
    (hL : fdo_call_localname env qsys = Lookup.success L)
    (hseq : ¬ (qsys.uuconf_fsequence = true ∧ env.isysdep_get_sequence < 0))
    (hw : env.fconn_write st.w.nwrite = true)
    (hans : (zget_uucp_cmd env.clock (fdo_call_identified env st qsys L).w.ticks true
        (fdo_call_identified env st qsys L).w.input).zstr =
      some (if fnew then chars "ROKN" else chars "ROK")) :
    fdo_call env qsys qport qdialer st =
      fdo_call_protocol env qsys qport qdialer (fdo_call_accepted env st qsys L fnew) := by
  rw [fdo_call_to_response env qsys qport qdialer st r L hchat hstat hline hm hL hseq hw,
    fdo_call_response_accepted env qsys qport qdialer _ fnew hans]
  rfl

theorem fdo_call_accepted_writes (env : Env) (st : CallSt) (qsys : uuconf_system)
    (L : List Nat) (fnew : Bool) :
    (fdo_call_accepted env st qsys L fnew).w.writes =
      st.w.writes ++
        [fsend_uucp_cmd_bytes
          (fdo_call_zsend L qsys.uuconf_fsequence env.isysdep_get_sequence
            (fdo_call_bgrade env))] := by
  simp [fdo_call_accepted, fdo_call_identified, fdo_call_talking, World.writes,
    World.after_get, World.fsend_uucp_cmd, List.filterMap_append]

/-- What `fconn_call_open` makes of a call that `fdo_call` gives up: the
port is closed, the status is written with the kind `fdo_call` left in
`*pterr`, and the port is unlocked; this is for a call in which the framer
did not fault. -/
theorem fconn_call_open_failed (env : Env) (qsys : uuconf_system) (p : uuconf_port)
    (qdialer : Option uuconf_dialer) (qstat : sstatus) (cretry : Int) (w0 : World)
    (st1 : CallSt)
    (hopen : env.fconn_open = true) (hdial : env.fconn_dial = some qdialer)
    (hdo : fdo_call env qsys (some p) qdialer (fconn_call_dialed qsys qstat w0) =
      (false, st1))
    (hf : st1.faulted = false) :
    (fconn_call_open env qsys p qstat cretry w0).1 = false ∧
    (fconn_call_open env qsys p qstat cretry w0).2.qstat.ttype = st1.pterr ∧
    (fconn_call_open env qsys p qstat cretry w0).2.w.trace =
      st1.w.trace ++
        [Event.conn_close false,
         Event.set_status qsys.uuconf_zname (fconn_call_open env qsys p qstat cretry w0).2.qstat,
         Event.conn_unlock] ∧
    (fconn_call_open env qsys p qstat cretry w0).2.w.writes = st1.w.writes := by
  unfold fconn_call_open
  simp only [hopen, hdial, hdo, hf]
  simp [World.emit, World.isysdep_time, World.fsysdep_set_status, World.writes,
    List.filterMap_append]

/-- C24. Candidates of the caller: for every configuration and every
advertisement `A`, the line `fdo_call` writes in answer to the `P` line is
`UN` when it finds no protocol, and else `U` and an id that is not `N`, was
advertised and names a built-in protocol; when neither the peer nor the
port configures a list, the mask of the chosen protocol is moreover a
subset of the caller's effective reliability.  A protocol taken from an
explicit list is not checked against the reliability. -/
theorem C24_candidates_advertised_and_built_in (env : Env) (qsys : uuconf_system)
    (qport : Option uuconf_port) (qdialer : Option uuconf_dialer) (st : CallSt)
    (A : List Nat)
    (hline : (zget_uucp_cmd env.clock st.w.ticks true st.w.input).zstr =
      some ('P'.toNat :: A)) :
    ∃ c more,
      (fdo_call_protocol env qsys qport qdialer st).2.w.writes =
        st.w.writes ++ fsend_uucp_cmd_bytes ['U'.toNat, c] :: more ∧
      (∀ x ∈ more, x = fsend_uucp_cmd_bytes (chars "OOOOOO")) ∧
      ((c = 'N'.toNat ∧ fdo_call_choose qsys qport qdialer A = none) ∨
       (∃ p, fdo_call_choose qsys qport qdialer A = some p ∧ p.bname = c ∧ c ≠ 'N'.toNat ∧
          p ∈ asProtocols ∧ c ∈ A ∧
          (spec_preferences qsys qport = none →
            spec_mask_subset p.ireliable
              (spec_effective_reliability false (qport.map (fun p => p.uuconf_ireliable))
                (qdialer.map (fun d => d.uuconf_ireliable))) = true))) := by
  obtain ⟨hn, hs⟩ := fdo_call_protocol_writes env qsys qport qdialer st A hline
  cases hc : fdo_call_choose qsys qport qdialer A with
  | none =>
    refine ⟨'N'.toNat, [], (hn hc).2, by simp, Or.inl ⟨rfl, rfl⟩⟩
  | some p =>
    obtain ⟨_, more, hm, hall⟩ := hs p hc
    obtain ⟨h1, h2, h3, h4⟩ := fdo_call_choose_some qsys qport qdialer A p hc
    exact ⟨p.bname, more, hm, hall, Or.inr ⟨p, rfl, rfl, h3, h1, h2, h4⟩⟩

/-- An instance of C24: a caller on a port that says nothing about its
reliability answers `Pgf`. -/
theorem C24_candidates_advertised_and_built_in_witness :
    (zget_uucp_cmd (fun _ => 0) 0 true (recv_lines [chars "Pgf"])).zstr =
      some ('P'.toNat :: chars "gf") ∧
    ∃ c more,
      (fdo_call_protocol {} {} (some example_plain_port) none
          { w := { input := recv_lines [chars "Pgf"] } }).2.w.writes =
        [] ++ fsend_uucp_cmd_bytes ['U'.toNat, c] :: more ∧
      (∀ x ∈ more, x = fsend_uucp_cmd_bytes (chars "OOOOOO")) ∧
      ((c = 'N'.toNat ∧ fdo_call_choose {} (some example_plain_port) none (chars "gf") = none) ∨
       (∃ p, fdo_call_choose {} (some example_plain_port) none (chars "gf") = some p ∧
          p.bname = c ∧ c ≠ 'N'.toNat ∧ p ∈ asProtocols ∧ c ∈ chars "gf" ∧
          (spec_preferences {} (some example_plain_port) = none →
            spec_mask_subset p.ireliable
              (spec_effective_reliability false
                ((some example_plain_port).map (fun p => p.uuconf_ireliable))
                ((none : Option uuconf_dialer).map (fun d => d.uuconf_ireliable))) = true))) :=
  ⟨by decide,
   C24_candidates_advertised_and_built_in {} {} (some example_plain_port) none
      { w := { input := recv_lines [chars "Pgf"] } } (chars "gf") (by decide)⟩

/-- A counterexample to C24 as it was worded: a caller whose peer lists
`t`, on a port that says nothing about its reliability, reads `Pt` and
writes `Ut`, though the mask of `t` asks for an end-to-end connection, which
the effective reliability of the caller does not have. -/
theorem C24_counterexample :
    (fdo_call_protocol {} { uuconf_zprotocols := some (chars "t") } (some example_plain_port)
        none { w := { input := recv_lines [chars "Pt"] } }).2.w.writes =
      [fsend_uucp_cmd_bytes (chars "Ut"), fsend_uucp_cmd_bytes (chars "OOOOOO"),
       fsend_uucp_cmd_bytes (chars "OOOOOO")] ∧
    fdo_call_choose { uuconf_zprotocols := some (chars "t") } (some example_plain_port) none
      (chars "t") = some { bname := 't'.toNat, ireliable := TCP_PROTO } ∧
    spec_mask_subset TCP_PROTO
      (spec_effective_reliability false
        ((some example_plain_port).map (fun p => p.uuconf_ireliable))
        ((none : Option uuconf_dialer).map (fun d => d.uuconf_ireliable))) = false := by
  decide

/-- A counterexample to C25 as it was worded: the caller `foo` calls
`bravo` with no reliability information on port or dialer and reads
`Shere=bravo`, `ROKN`, `Pt`.  It writes `Sfoo -N` and then `UN`, not `Ut`,
the call fails, and the status written last has kind handshake-failed. -/
theorem C25_counterexample :
    (fconn_call example_caller { uuconf_zname := chars "bravo" } (some example_plain_port) {} 0
        { input := recv_lines [chars "Shere=bravo", chars "ROKN", chars "Pt"] }).1 = false ∧
    (fconn_call example_caller { uuconf_zname := chars "bravo" } (some example_plain_port) {} 0
        { input := recv_lines [chars "Shere=bravo", chars "ROKN", chars "Pt"] }).2.w.writes =
      [fsend_uucp_cmd_bytes (chars "Sfoo -N"), fsend_uucp_cmd_bytes (chars "UN")] ∧
    ((fconn_call example_caller { uuconf_zname := chars "bravo" } (some example_plain_port) {} 0
        { input := recv_lines [chars "Shere=bravo", chars "ROKN", chars "Pt"] }).2.w.statuses.map
        (fun s => s.ttype)) =
      [tstatus_type.STATUS_TALKING, tstatus_type.STATUS_HANDSHAKE_FAILED] := by
  decide

/-- C25. End-to-end scenario 1: the caller `foo` calls the peer `bravo`
(no sequence numbers, no call grade, no explicit protocol list) on a port
marked end-to-end, reliable, eight-bit and specified, and reads
`Shere=bravo`, `ROKN`, `Pt`.  It writes `Sfoo -N`, takes the answer as an
acceptance from a new peer, writes `Ut`, starts `t`, and with a transfer
loop that succeeds it writes the two hangup strings, returns success and
writes the status with kind complete last. -/
theorem C25_scenario_one :
    (fconn_call example_caller { uuconf_zname := chars "bravo" } (some example_tcp_port) {} 0
        { input := recv_lines [chars "Shere=bravo", chars "ROKN", chars "Pt"] }).1 = true ∧
    (fconn_call example_caller { uuconf_zname := chars "bravo" } (some example_tcp_port) {} 0
        { input := recv_lines [chars "Shere=bravo", chars "ROKN", chars "Pt"] }).2.w.writes =
      [fsend_uucp_cmd_bytes (chars "Sfoo -N"), fsend_uucp_cmd_bytes (chars "Ut"),
       fsend_uucp_cmd_bytes (chars "OOOOOO"), fsend_uucp_cmd_bytes (chars "OOOOOO")] ∧
    (fconn_call example_caller { uuconf_zname := chars "bravo" } (some example_tcp_port) {} 0
        { input := recv_lines [chars "Shere=bravo", chars "ROKN", chars "Pt"] }).2.fnew = true ∧
    (fconn_call example_caller { uuconf_zname := chars "bravo" } (some example_tcp_port) {} 0
        { input := recv_lines [chars "Shere=bravo", chars "ROKN", chars "Pt"] }).2.qproto =
      some { bname := 't'.toNat, ireliable := TCP_PROTO } ∧
    ((fconn_call example_caller { uuconf_zname := chars "bravo" } (some example_tcp_port) {} 0
        { input := recv_lines [chars "Shere=bravo", chars "ROKN", chars "Pt"] }).2.w.trace.filter
        (fun e => e.is_proto_start)) = [Event.proto_start 't'.toNat true true] ∧
    ((fconn_call example_caller { uuconf_zname := chars "bravo" } (some example_tcp_port) {} 0
        { input := recv_lines [chars "Shere=bravo", chars "ROKN", chars "Pt"] }).2.w.statuses.map
        (fun s => s.ttype)) =
      [tstatus_type.STATUS_TALKING, tstatus_type.STATUS_COMPLETE] := by
  decide
/-! ## No mutually supported protocol -/

theorem fsend_uucp_cmd_bytes_UN (b : Nat) (more : List (List Nat)) (hb : b ≠ 'N'.toNat)
    (hall : ∀ x ∈ more, x = fsend_uucp_cmd_bytes (chars "OOOOOO")) :
    fsend_uucp_cmd_bytes (chars "UN") ∉ fsend_uucp_cmd_bytes ['U'.toNat, b] :: more := by
  intro h
  rcases List.mem_cons.mp h with h1 | h1
  · have h2 : fsend_uucp_cmd_bytes (chars "UN") = [16, 85, 78, 0] := by decide
    rw [h2] at h1
    by_cases h0 : b = 0
    · subst h0
      revert h1
      decide
    · have h3 : fsend_uucp_cmd_bytes ['U'.toNat, b] = [16, 85, b, 0] := by
        show DLE :: (List.takeWhile (fun c => c != 0) [85, b] ++ [0]) = [16, 85, b, 0]
        rw [List.takeWhile_cons_of_pos (by decide), List.takeWhile_cons_of_pos (by simpa using h0)]
        rfl
      rw [h3] at h1
      simp at h1
      exact hb h1.symm
  · have h2 := hall _ h1
    revert h2
    decide

/-- C26. No mutual protocol on the caller: when `fconn_call` has a port,
opened it and dialed, the login and the lines up to the acceptance `ROK` or
`ROKN` went well and the `P` line advertises `A`, then, if `fdo_call` finds
no protocol for `A`, it writes `UN` and nothing after it, selects no
protocol, starts none (what it adds to the trace is the write and one log
message), returns failure with `*pterr` handshake-failed, and `fconn_call`
returns failure and writes the status with kind handshake-failed; and if it
does find a protocol, `UN` is not among the strings it writes from then on. -/
theorem C26_no_mutual_protocol (env : Env) (qsys : uuconf_system)
    (qport : Option uuconf_port) (p : uuconf_port) (qdialer : Option uuconf_dialer)
    (qstat : sstatus) (cretry : Int) (w w0 : World) (r L A : List Nat) (fnew : Bool)
    (hport : fconn_call env qsys qport qstat cretry w =
      fconn_call_open env qsys p qstat cretry w0)
    (hopen : env.fconn_open = true) (hdial : env.fconn_dial = some qdialer)
    (hchat : env.fchat = true) (hstat : env.fsysdep_set_status w0.nstat = true)
    (hline : (zget_uucp_cmd env.clock (w0.ticks + 2) true w0.input).zstr =
      some (chars "Shere=" ++ r))
    (hm : ∃ c ∈ spec_name_candidates qsys, spec_name_matches r c)
    (hL : fdo_call_localname env qsys = Lookup.success L)
    (hseq : ¬ (qsys.uuconf_fsequence = true ∧ env.isysdep_get_sequence < 0))
    (hw : env.fconn_write w0.nwrite = true)
    (hans : (zget_uucp_cmd env.clock
        (fdo_call_identified env (fconn_call_dialed qsys qstat w0) qsys L).w.ticks true
        (fdo_call_identified env (fconn_call_dialed qsys qstat w0) qsys L).w.input).zstr =
      some (if fnew then chars "ROKN" else chars "ROK"))
    (hP : (zget_uucp_cmd env.clock
        (fdo_call_accepted env (fconn_call_dialed qsys qstat w0) qsys L fnew).w.ticks true
        (fdo_call_accepted env (fconn_call_dialed qsys qstat w0) qsys L fnew).w.input).zstr =
      some ('P'.toNat :: A)) :
    (fdo_call_choose qsys (some p) qdialer A = none →
      (fdo_call env qsys (some p) qdialer (fconn_call_dialed qsys qstat w0)).1 = false ∧
      (fdo_call env qsys (some p) qdialer (fconn_call_dialed qsys qstat w0)).2.qproto = none ∧
      (fdo_call env qsys (some p) qdialer (fconn_call_dialed qsys qstat w0)).2.pterr =
        tstatus_type.STATUS_HANDSHAKE_FAILED ∧
      (fdo_call env qsys (some p) qdialer (fconn_call_dialed qsys qstat w0)).2.w.trace =
        (fdo_call_accepted env (fconn_call_dialed qsys qstat w0) qsys L fnew).w.trace ++
          [Event.write (fsend_uucp_cmd_bytes (chars "UN")) (env.fconn_write (w0.nwrite + 1)),
           Event.ulog "No mutually supported protocols"] ∧
      (fdo_call env qsys (some p) qdialer (fconn_call_dialed qsys qstat w0)).2.w.writes =
        w0.writes ++
          [fsend_uucp_cmd_bytes
            (fdo_call_zsend L qsys.uuconf_fsequence env.isysdep_get_sequence
              (fdo_call_bgrade env)),
           fsend_uucp_cmd_bytes (chars "UN")] ∧
      (fconn_call env qsys qport qstat cretry w).1 = false ∧
      (fconn_call env qsys qport qstat cretry w).2.qstat.ttype =
        tstatus_type.STATUS_HANDSHAKE_FAILED ∧
      (fconn_call env qsys qport qstat cretry w).2.w.trace =
        (fdo_call env qsys (some p) qdialer (fconn_call_dialed qsys qstat w0)).2.w.trace ++
          [Event.conn_close false,
           Event.set_status qsys.uuconf_zname (fconn_call env qsys qport qstat cretry w).2.qstat,
           Event.conn_unlock]) ∧
    (∀ q, fdo_call_choose qsys (some p) qdialer A = some q →
      ∃ more,
        (fdo_call env qsys (some p) qdialer (fconn_call_dialed qsys qstat w0)).2.w.writes =
          (fdo_call_accepted env (fconn_call_dialed qsys qstat w0) qsys L fnew).w.writes ++
            more ∧
        fsend_uucp_cmd_bytes (chars "UN") ∉ more) := by
  have hst : (fconn_call_dialed qsys qstat w0).w.nstat = w0.nstat := rfl
  have hdo := fdo_call_to_protocol env qsys (some p) qdialer (fconn_call_dialed qsys qstat w0)
    r L fnew hchat (by rw [hst]; exact hstat) hline hm hL hseq hw hans
  obtain ⟨hn, hs⟩ := fdo_call_protocol_writes env qsys (some p) qdialer
    (fdo_call_accepted env (fconn_call_dialed qsys qstat w0) qsys L fnew) A hP
  constructor
  · intro hc
    obtain ⟨he, hwr⟩ := hn hc
    have hdo1 := hdo.trans he
    obtain ⟨f1, f2, f3, _⟩ := fconn_call_open_failed env qsys p qdialer qstat cretry w0 _
      hopen hdial hdo1 rfl
    rw [hport]
    refine ⟨by rw [hdo1], by rw [hdo1]; rfl, by rw [hdo1]; rfl, ?_, ?_, f1, ?_, ?_⟩
    · rw [hdo1]
      simp [World.ulog, World.fsend_uucp_cmd, World.after_get]
      rfl
    · rw [hdo, hwr, fdo_call_accepted_writes]
      simp [fconn_call_dialed, World.writes_emit, World.writes_ulog, Event.is_write]
    · rw [f2]
      rfl
    · rw [f3, hdo1]
  · intro q hq
    obtain ⟨_, more, hm1, hall⟩ := hs q hq
    obtain ⟨_, _, hN, _⟩ := fdo_call_choose_some qsys (some p) qdialer A q hq
    exact ⟨_, by rw [hdo, hm1], fsend_uucp_cmd_bytes_UN q.bname more hN hall⟩

/-- An instance of C26: the caller `foo` on a port that says nothing about
its reliability reads `Shere=bravo`, `ROKN`, `Pt`. -/
theorem C26_no_mutual_protocol_witness :
    (fconn_call example_caller { uuconf_zname := chars "bravo" } (some example_plain_port) {} 0
        { input := recv_lines [chars "Shere=bravo", chars "ROKN", chars "Pt"] }).1 = false ∧
    (fconn_call example_caller { uuconf_zname := chars "bravo" } (some example_plain_port) {} 0
        { input := recv_lines [chars "Shere=bravo", chars "ROKN",
            chars "Pt"] }).2.qstat.ttype = tstatus_type.STATUS_HANDSHAKE_FAILED :=
  have h := (C26_no_mutual_protocol example_caller { uuconf_zname := chars "bravo" }
    (some example_plain_port) example_plain_port none {} 0
    { input := recv_lines [chars "Shere=bravo", chars "ROKN", chars "Pt"] }
    (World.emit { input := recv_lines [chars "Shere=bravo", chars "ROKN", chars "Pt"] }
      (Event.conn_lock (chars "port") true))
    (chars "bravo") (chars "foo") (chars "t") true
    (by rfl) (by rfl) (by rfl) (by rfl) (by rfl) (by decide)
    ⟨chars "bravo", by decide, by decide⟩ (by rfl) (by decide) (by rfl) (by decide)
    (by decide)).1 (by decide)
  ⟨h.2.2.2.2.2.1, h.2.2.2.2.2.2.1⟩
/-! ## The selection line on the answerer -/

/-- When the framer returns a line, the string the caller of
`zget_uucp_cmd` gets is the C string in the buffer it gets. -/
theorem World.zget_uucp_cmd_line_cstr (env : Env) (w : World) (frequired : Bool) (z : List Nat)
    (h : (Uucico.zget_uucp_cmd env.clock w.ticks frequired w.input).zstr = some z) :
    ∃ zalc, cstr zalc = some z ∧
      w.zget_uucp_cmd env frequired = (Got.line zalc z, w.after_get env frequired) := by
  unfold World.zget_uucp_cmd World.after_get
  cases hr : (Uucico.zget_uucp_cmd env.clock w.ticks frequired w.input).res with
  | line zalc =>
    simp only [GetOut.zstr, hr] at h
    exact ⟨zalc, h, by simp only [hr, h]⟩
  | null t => simp [GetOut.zstr, hr] at h
  | memfault => simp [GetOut.zstr, hr] at h

/-- The bytes of a buffer that holds the C string `z`: the characters of
`z`, none of them NUL, and a NUL after them. -/
theorem cstr_bytes (env : Env) :
    ∀ (zalc : List (Option Nat)) (z : List Nat), cstr zalc = some z →
      (∀ i, i < z.length → buf_byte env zalc i = z.getD i 0 ∧ z.getD i 0 ≠ 0) ∧
      buf_byte env zalc z.length = 0 := by
  intro zalc
  induction zalc with
  | nil => intro z h; simp [cstr] at h
  | cons a rest ih =>
    intro z h
    cases a with
    | none => simp [cstr] at h
    | some c =>
      unfold cstr at h
      by_cases hc : c = 0
      · simp only [hc, if_true, Option.some.injEq] at h
        subst h
        subst hc
        exact ⟨fun i hi => by simp at hi, rfl⟩
      · simp only [hc, if_false, Option.map_eq_some'] at h
        obtain ⟨z1, hz1, hz⟩ := h
        subst hz
        obtain ⟨i1, i2⟩ := ih z1 hz1
        constructor
        · intro i hi
          cases i with
          | zero => exact ⟨rfl, hc⟩
          | succ j =>
            have hj : j < z1.length := by simpa using hi
            have := i1 j hj
            simpa [buf_byte] using this
        · simpa [buf_byte] using i2

/-- Every way in which `faccept_call` gives up on the selection line ends
in the exit that writes the status with kind failed. -/
theorem AcceptSt.fail_outcome (env : Env) (qsys : uuconf_system) (st : AcceptSt) :
    (AcceptSt.fail env qsys st).1 = false ∧
    (AcceptSt.fail env qsys st).2.sstat.ttype = tstatus_type.STATUS_FAILED ∧
    ((AcceptSt.fail env qsys st).2.w.statuses.getLast?).map (fun s => s.ttype) =
      some tstatus_type.STATUS_FAILED ∧
    (AcceptSt.fail env qsys st).2.w.writes = st.w.writes := by
  refine ⟨rfl, rfl, ?_, ?_⟩
  · simp [AcceptSt.fail, World.fsysdep_set_status, World.statuses, List.filterMap_append]
  · simp [AcceptSt.fail, World.writes_set_status]

/-- What `faccept_call_advertise` does with a selection line `y` that is
not `U` followed by the id of a built-in protocol. -/
theorem faccept_call_advertise_refused (env : Env) (qsys : uuconf_system)
    (qport : Option uuconf_port) (qdialer : Option uuconf_dialer) (ftcp_port : Bool)
    (st : AcceptSt) (y : List Nat)
    (hw : env.fconn_write st.w.nwrite = true)
    (hline : (zget_uucp_cmd env.clock st.w.ticks true st.w.input).zstr = some y)
    (hy : ∀ c, spec_builtin c = true → y ≠ ['U'.toNat, c]) :
    ∃ st1 : AcceptSt,
      faccept_call_advertise env qsys qport qdialer ftcp_port st = AcceptSt.fail env qsys st1 ∧
      st1.w.writes =
        st.w.writes ++ [fsend_uucp_cmd_bytes (faccept_call_zsend qsys qport qdialer ftcp_port)] := by
  have hline1 : (zget_uucp_cmd env.clock
      (st.w.fsend_uucp_cmd env (faccept_call_zsend qsys qport qdialer ftcp_port)).2.ticks true
      (st.w.fsend_uucp_cmd env (faccept_call_zsend qsys qport qdialer ftcp_port)).2.input).zstr =
      some y := hline
  obtain ⟨zalc, hc, hz⟩ := World.zget_uucp_cmd_line_cstr env _ true y hline1
  obtain ⟨b1, b2⟩ := cstr_bytes env zalc y hc
  unfold faccept_call_advertise
  simp only [World.fst_fsend, hw, Bool.not_true, Bool.false_eq_true, if_false, hz]
  split
  · exact ⟨_, rfl, by simp [World.writes_ulog, World.writes_after_get, World.writes_fsend]⟩
  · split
    · exact ⟨_, rfl, by simp [World.writes_ulog, World.writes_after_get, World.writes_fsend]⟩
    · rename_i hbad hN
      cases hf : find_protocol (buf_byte env zalc 1) with
      | none =>
        exact ⟨_, rfl, by simp [World.writes_ulog, World.writes_after_get, World.writes_fsend]⟩
      | some p =>
        exfalso
        obtain ⟨_, _, h0⟩ := find_protocol_some _ p hf
        have hU : buf_byte env zalc 0 = 'U'.toNat := by
          by_contra hne
          exact hbad (Or.inl hne)
        have h2 : buf_byte env zalc 2 = 0 := by
          by_contra hne
          exact hbad (Or.inr hne)
        have hlen : y.length = 2 := by
          rcases Nat.lt_trichotomy y.length 2 with hlt | heq | hgt
          · rcases Nat.lt_or_ge y.length 1 with h00 | h01
            · have : y.length = 0 := by omega
              rw [this] at b2
              rw [b2] at hU
              exact absurd hU (by decide)
            · have : y.length = 1 := by omega
              rw [this] at b2
              exact absurd b2 h0
          · exact heq
          · have := b1 2 hgt
            rw [h2] at this
            exact absurd this.1.symm this.2
        have e0 := (b1 0 (by omega)).1
        have e1 := (b1 1 (by omega)).1
        apply hy (buf_byte env zalc 1)
        · rw [spec_builtin_eq, hf]; rfl
        · rcases y with _ | ⟨a, _ | ⟨b, _ | ⟨c, t⟩⟩⟩
          · simp at hlen
          · simp at hlen
          · simp at e0 e1
            rw [e1, ← e0, hU]
          · simp at hlen

/-- What `faccept_call_advertise` does when no selection line comes. -/
theorem faccept_call_advertise_no_line (env : Env) (qsys : uuconf_system)
    (qport : Option uuconf_port) (qdialer : Option uuconf_dialer) (ftcp_port : Bool)
    (st : AcceptSt)
    (hw : env.fconn_write st.w.nwrite = true)
    (hnull : ∃ t, (zget_uucp_cmd env.clock st.w.ticks true st.w.input).res = GetResult.null t) :
    ∃ st1 : AcceptSt,
      faccept_call_advertise env qsys qport qdialer ftcp_port st = AcceptSt.fail env qsys st1 ∧
      st1.w.writes =
        st.w.writes ++ [fsend_uucp_cmd_bytes (faccept_call_zsend qsys qport qdialer ftcp_port)] := by
  obtain ⟨t, ht⟩ := hnull
  have hg : ((st.w.fsend_uucp_cmd env
      (faccept_call_zsend qsys qport qdialer ftcp_port)).2.zget_uucp_cmd env true).1 = Got.null := by
    unfold World.zget_uucp_cmd
    have ht1 : (zget_uucp_cmd env.clock
      (st.w.fsend_uucp_cmd env (faccept_call_zsend qsys qport qdialer ftcp_port)).2.ticks true
      (st.w.fsend_uucp_cmd env (faccept_call_zsend qsys qport qdialer ftcp_port)).2.input).res =
      GetResult.null t := ht
    simp only [ht1]
  unfold faccept_call_advertise
  simp only [World.fst_fsend, hw, Bool.not_true, Bool.false_eq_true, if_false, hg]
  exact ⟨_, rfl, by simp [World.writes_zget, World.writes_fsend]⟩

/-- C27. Greeting failures on the answerer: once `faccept_call` has
written its `P` line, if the selection line does not come (time-out or
error), or is a line other than `U` followed by the id of a built-in
protocol (it does not start with `U`, is not two characters long, is `UN`,
or names an unknown id), then `faccept_call` writes nothing more, returns
failure, and the status it writes last has kind failed. -/
theorem C27_selection_failures_write_failed (env : Env) (qsys : uuconf_system)
    (qport : Option uuconf_port) (qdialer : Option uuconf_dialer) (ftcp_port : Bool)
    (st : AcceptSt)
    (hw : env.fconn_write st.w.nwrite = true)
    (hbad : (∃ t, (zget_uucp_cmd env.clock st.w.ticks true st.w.input).res = GetResult.null t) ∨
      ∃ y, (zget_uucp_cmd env.clock st.w.ticks true st.w.input).zstr = some y ∧
        ∀ c, spec_builtin c = true → y ≠ ['U'.toNat, c]) :
    (faccept_call_advertise env qsys qport qdialer ftcp_port st).1 = false ∧
    (faccept_call_advertise env qsys qport qdialer ftcp_port st).2.sstat.ttype =
      tstatus_type.STATUS_FAILED ∧
    ((faccept_call_advertise env qsys qport qdialer ftcp_port st).2.w.statuses.getLast?).map
      (fun s => s.ttype) = some tstatus_type.STATUS_FAILED ∧
    (faccept_call_advertise env qsys qport qdialer ftcp_port st).2.w.writes =
      st.w.writes ++ [fsend_uucp_cmd_bytes (faccept_call_zsend qsys qport qdialer ftcp_port)] ∧
    spec_builtin 'N'.toNat = false := by
  have h : ∃ st1 : AcceptSt,
      faccept_call_advertise env qsys qport qdialer ftcp_port st = AcceptSt.fail env qsys st1 ∧
      st1.w.writes =
        st.w.writes ++
          [fsend_uucp_cmd_bytes (faccept_call_zsend qsys qport qdialer ftcp_port)] := by
    rcases hbad with hnull | ⟨y, hline, hy⟩
    · exact faccept_call_advertise_no_line env qsys qport qdialer ftcp_port st hw hnull
    · exact faccept_call_advertise_refused env qsys qport qdialer ftcp_port st y hw hline hy
  obtain ⟨st1, he, hwr⟩ := h
  obtain ⟨f1, f2, f3, f4⟩ := AcceptSt.fail_outcome env qsys st1
  rw [he]
  exact ⟨f1, f2, f3, f4.trans hwr, by decide⟩

/-- An instance of C27: the selection line is `UN`. -/
theorem C27_selection_failures_write_failed_witness :
    (faccept_call_advertise {} {} none none false
        { w := { input := recv_lines [chars "UN"] } }).1 = false ∧
    ((faccept_call_advertise {} {} none none false
        { w := { input := recv_lines [chars "UN"] } }).2.w.statuses.getLast?).map
      (fun s => s.ttype) = some tstatus_type.STATUS_FAILED :=
  have h := C27_selection_failures_write_failed {} {} none none false
    { w := { input := recv_lines [chars "UN"] } } rfl
    (Or.inr ⟨chars "UN", by decide, by
      intro c hc h
      have e : c = 'N'.toNat := by
        have h1 : chars "UN" = ['U'.toNat, 'N'.toNat] := by decide
        rw [h1] at h
        injection h with _ h2
        injection h2 with h3 _
        exact h3.symm
      subst e
      revert hc
      decide⟩)
  ⟨h.1, h.2.2.1⟩

/-- A counterexample to C27 as it was worded: the answerer `bravo` accepts
the caller `foo`, writes `ROKN` and `Pgf`, and reads `UN`.  It returns
failure, and the status it writes last has kind failed, which is not
handshake-failed. -/
theorem C27_counterexample :
    (faccept_call example_plain_answerer (chars "ufoo") none
        { input := recv_lines [chars "Sfoo -N", chars "UN"] }).1 = false ∧
    (faccept_call example_plain_answerer (chars "ufoo") none
        { input := recv_lines [chars "Sfoo -N", chars "UN"] }).2.w.writes =
      [fsend_uucp_cmd_bytes (chars "Shere=bravo"), fsend_uucp_cmd_bytes (chars "ROKN"),
       fsend_uucp_cmd_bytes (chars "Pgf")] ∧
    ((faccept_call example_plain_answerer (chars "ufoo") none
        { input := recv_lines [chars "Sfoo -N", chars "UN"] }).2.w.statuses.map
        (fun s => s.ttype)) =
      [tstatus_type.STATUS_TALKING, tstatus_type.STATUS_FAILED] ∧
    tstatus_type.STATUS_FAILED ≠ tstatus_type.STATUS_HANDSHAKE_FAILED := by
  decide
/-! ## The hangup strings -/

theorem faccept_call_hangup_fst (env : Env) (qsys : uuconf_system) (st : AcceptSt) :
    (faccept_call_hangup env qsys st).1 = env.floop := rfl

theorem to_long_of_range (i : Int) (h1 : LONG_MIN ≤ i) (h2 : i ≤ LONG_MAX) : to_long i = i := by
  simp only [LONG_MIN, LONG_MAX, LONG_BITS] at h1 h2
  norm_num at h1 h2
  simp only [to_long, LONG_BITS]
  norm_num
  split <;> omega

/-- The retry test of `fcall` is the one of the specification when the sum
of the last time and the wait is a `long`. -/
theorem fcall_gate_iff (env : Env) (fforce : Bool) (sstat : sstatus) (w : World)
    (h1 : LONG_MIN ≤ sstat.ilast + sstat.cwait) (h2 : sstat.ilast + sstat.cwait ≤ LONG_MAX) :
    (fcall_gate env fforce sstat w).1 = true ↔
      spec_retry_refused fforce sstat (env.clock w.ticks) := by
  unfold fcall_gate spec_retry_refused fcall_retry_time_not_reached
  rw [to_long_of_range _ h1 h2]
  cases fforce with
  | true => simp
  | false =>
    by_cases hc : sstat.ttype = tstatus_type.STATUS_COMPLETE
    · simp [hc]
    · simp [hc, World.isysdep_time]

theorem fcall_gate_refused (env : Env) (fforce : Bool) (sstat : sstatus) (w : World)
    (h : (fcall_gate env fforce sstat w).1 = true) :
    (fcall_gate env fforce sstat w).2 = { w with ticks := w.ticks + 1 } := by
  unfold fcall_gate at h ⊢
  cases fforce with
  | true => simp at h
  | false =>
    by_cases hc : sstat.ttype = tstatus_type.STATUS_COMPLETE
    · simp [hc] at h
    · simp [hc, World.isysdep_time]

theorem fcall_gate_world (env : Env) (fforce : Bool) (sstat : sstatus) (w : World) :
    (fcall_gate env fforce sstat w).2.trace = w.trace ∧
    (fcall_gate env fforce sstat w).2.nstat = w.nstat ∧
    (fcall_gate env fforce sstat w).2.nwrite = w.nwrite := by
  unfold fcall_gate
  cases fforce with
  | true => simp
  | false =>
    by_cases hc : sstat.ttype = tstatus_type.STATUS_COMPLETE
    · simp [hc]
    · simp [hc, World.isysdep_time]

/-- C29. Retry gate: with the stored status `sstat` (the sum of its last
time and its wait being a `long`) and the time `now` that the clock shows,
`fcall` refuses the attempt at the gate exactly when `fforce` is not set,
the kind of the status is not complete and `now` is before the last time
plus the wait; it then returns failure having only read the clock and
logged the refusal (no write, no status), and else it goes on to the
attempt with nothing logged.  So a status of kind failed with wait 600 is
refused 599 seconds after the last time and not 600 or 601 seconds after it,
a status of kind complete is never refused, and neither is a forced call. -/
theorem C29_retry_gate (env : Env) (qorigsys : uuconf_system)
    (qalternates : List uuconf_system) (qport : Option uuconf_port)
    (fifwork fforce fdetach ftimewarn : Bool) (zlocked : List Nat) (w : World)
    (sstat : sstatus)
    (hst : env.fsysdep_get_status qorigsys.uuconf_zname = some sstat)
    (h1 : LONG_MIN ≤ sstat.ilast + sstat.cwait) (h2 : sstat.ilast + sstat.cwait ≤ LONG_MAX) :
    ((fcall_gate env fforce sstat w).1 = true ↔
      spec_retry_refused fforce sstat (env.clock w.ticks)) ∧
    (spec_retry_refused fforce sstat (env.clock w.ticks) →
      fcall env qorigsys qalternates qport fifwork fforce fdetach ftimewarn zlocked w =
        (false, { w with ticks := w.ticks + 1,
                         trace := w.trace ++ [Event.ulog "Retry time not reached"] })) ∧
    (¬ spec_retry_refused fforce sstat (env.clock w.ticks) →
      fcall env qorigsys qalternates qport fifwork fforce fdetach ftimewarn zlocked w =
        fcall_attempt env qorigsys qalternates qport fifwork fdetach ftimewarn zlocked sstat
          (fcall_gate env fforce sstat w).2 ∧
      (fcall_gate env fforce sstat w).2.trace = w.trace ∧
      (fcall_gate env fforce sstat w).2.nstat = w.nstat ∧
      (fcall_gate env fforce sstat w).2.nwrite = w.nwrite) ∧
    (fforce = false → sstat.ttype = tstatus_type.STATUS_FAILED → sstat.cwait = 600 →
      (env.clock w.ticks = sstat.ilast + 599 →
        spec_retry_refused fforce sstat (env.clock w.ticks)) ∧
      (env.clock w.ticks = sstat.ilast + 600 →
        ¬ spec_retry_refused fforce sstat (env.clock w.ticks)) ∧
      (env.clock w.ticks = sstat.ilast + 601 →
        ¬ spec_retry_refused fforce sstat (env.clock w.ticks))) ∧
    (sstat.ttype = tstatus_type.STATUS_COMPLETE →
      ¬ spec_retry_refused fforce sstat (env.clock w.ticks)) ∧
    (fforce = true → ¬ spec_retry_refused fforce sstat (env.clock w.ticks)) := by
  have hiff := fcall_gate_iff env fforce sstat w h1 h2
  refine ⟨hiff, ?_, ?_, ?_, ?_, ?_⟩
  · intro hr
    have hg := hiff.mpr hr
    unfold fcall
    simp only [hst, hg, if_true, fcall_gate_refused env fforce sstat w hg]
    rfl
  · intro hr
    have hg : (fcall_gate env fforce sstat w).1 = false := by
      cases hb : (fcall_gate env fforce sstat w).1 with
      | false => rfl
      | true => exact absurd (hiff.mp hb) hr
    refine ⟨?_, fcall_gate_world env fforce sstat w⟩
    unfold fcall
    simp only [hst, hg, Bool.false_eq_true, if_false]
  · intro hf ht hc
    unfold spec_retry_refused
    refine ⟨?_, ?_, ?_⟩
    · intro hn
      refine ⟨hf, by rw [ht]; decide, ?_⟩
      rw [hn, hc]
      omega
    · intro hn hr
      have := hr.2.2
      rw [hn, hc] at this
      omega
    · intro hn hr
      have := hr.2.2
      rw [hn, hc] at this
      omega
  · intro hc hr
    exact hr.2.1 hc
  · intro hf hr
    rw [hf] at hr
    exact absurd hr.1 (by decide)

/-- An instance of C29: a status of kind failed, last time 1000, one retry,
wait 600, at the time 1599. -/
theorem C29_retry_gate_witness :
    fcall { fsysdep_get_status := fun _ =>
              some { ttype := tstatus_type.STATUS_FAILED, ilast := 1000, cretries := 1,
                     cwait := 600 },
            clock := fun _ => 1599 } {} [] none false false false false [] {} =
      (false, { ticks := 1, trace := [Event.ulog "Retry time not reached"] }) :=
  (C29_retry_gate
    { fsysdep_get_status := fun _ =>
        some { ttype := tstatus_type.STATUS_FAILED, ilast := 1000, cretries := 1, cwait := 600 },
      clock := fun _ => 1599 } {} [] none false false false false [] {}
    { ttype := tstatus_type.STATUS_FAILED, ilast := 1000, cretries := 1, cwait := 600 }
    rfl (by decide) (by decide)).2.1 (by decide)
/-! ## The shuffle of `main` -/

/-- Exchanging two entries of a list gives a permutation of it. -/
theorem set_set_swap_perm (l : List (Option (List Nat))) (i j : Nat) (hi : i < l.length)
    (hj : j < l.length) :
    ((l.set i (l.get ⟨j, hj⟩)).set j (l.get ⟨i, hi⟩)).Perm l := by
  rw [List.perm_iff_count]
  intro a
  have hj1 : j < (l.set i (l.get ⟨j, hj⟩)).length := by simpa using hj
  simp only [List.count_eq_countP]
  rw [List.countP_set _ _ _ _ hj1, List.countP_set _ _ _ _ hi]
  have e : (l.set i (l.get ⟨j, hj⟩))[j] = l[j] := by
    rw [List.getElem_set]
    split
    · rfl
    · rfl
  rw [e]
  simp only [List.get_eq_getElem]
  have key : ∀ p : Option (List Nat) → Bool,
      List.countP p l - (if p l[i] = true then 1 else 0) + (if p l[j] = true then 1 else 0) -
        (if p l[j] = true then 1 else 0) + (if p l[i] = true then 1 else 0) =
      List.countP p l := by
    intro p
    have b1 := List.boole_getElem_le_countP p l i hi
    omega
  exact key _

/-- The loop of the shuffle, entered with an index inside the array,
returns a permutation of the array that leaves the entries above the index
alone, and uses no index above it. -/
theorem shuffle_loop_perm (env : Env) :
    ∀ (i k : Nat) (l : List (Option (List Nat))) (used : List Nat), i < l.length →
      ∃ l1 used1, shuffle_loop env i k l used = some (l1, used1) ∧ l1.Perm l ∧
        l1.drop (i + 1) = l.drop (i + 1) ∧ ∀ j ∈ used1, j ∈ used ∨ j ≤ i := by
  intro i
  induction i with
  | zero =>
    intro k l used _
    exact ⟨l, used, rfl, List.Perm.refl _, rfl, fun j hj => Or.inl hj⟩
  | succ i ih =>
    intro k l used hi
    have hu : env.rand k % (i + 1 + 1) < i + 1 + 1 := Nat.mod_lt _ (by omega)
    have hu1 : env.rand k % (i + 1 + 1) < l.length := by omega
    have g1 : l.get? (i + 1) = some (l.get ⟨i + 1, hi⟩) := List.get?_eq_get hi
    have g2 : l.get? (env.rand k % (i + 1 + 1)) = some (l.get ⟨env.rand k % (i + 1 + 1), hu1⟩) :=
      List.get?_eq_get hu1
    have hlen : i < ((l.set (i + 1) (l.get ⟨env.rand k % (i + 1 + 1), hu1⟩)).set
        (env.rand k % (i + 1 + 1)) (l.get ⟨i + 1, hi⟩)).length := by
      simp only [List.length_set]
      omega
    obtain ⟨l1, used1, h1, h2, h3, h4⟩ := ih (k + 1) _
      (used ++ [i + 1, env.rand k % (i + 1 + 1), i + 1, env.rand k % (i + 1 + 1)]) hlen
    refine ⟨l1, used1, ?_, ?_, ?_, ?_⟩
    · unfold shuffle_loop
      simp only [g1, g2]
      exact h1
    · exact h2.trans (set_set_swap_perm l (i + 1) _ hi hu1)
    · have h5 := congrArg (List.drop 1) h3
      simp only [List.drop_drop] at h5
      rw [h5, List.drop_set, List.drop_set]
      have c1 : env.rand k % (i + 1 + 1) < i + 1 + 1 := hu
      have c2 : i + 1 < i + 1 + 1 := by omega
      simp only [c1, c2, if_true]
    · intro j hj
      rcases h4 j hj with h | h
      · rcases List.mem_append.mp h with h | h
        · exact Or.inl h
        · right
          simp only [List.mem_cons, List.mem_singleton, List.not_mem_nil, or_false] at h
          omega
      · right
        omega

theorem map_some_filterMap_id (l : List (Option (List Nat))) (h : ∀ x ∈ l, x ≠ none) :
    (l.filterMap id).map some = l := by
  induction l with
  | nil => rfl
  | cons a l ih =>
    cases a with
    | none => exact absurd rfl (h none (List.mem_cons_self _ _))
    | some x =>
      simp only [List.filterMap_cons, id, List.map_cons]
      rw [ih (fun y hy => h y (List.mem_cons_of_mem _ hy))]

theorem takeWhile_isSome_names (names : List (List Nat)) :
    (names.map some ++ [none]).takeWhile (fun z => z.isSome) = names.map some := by
  rw [List.takeWhile_append_of_pos]
  · simp
  · intro a ha
    obtain ⟨x, _, hx⟩ := List.mem_map.mp ha
    rw [← hx]
    rfl

/-- C30. Random ordering is a permutation: for every list of names, stored
in `pznames` with a null entry after them, and every sequence of values of
`rand`, the shuffle of `main` runs through, uses only indices below the
number of names, and leaves the array holding a permutation of the names
(each as often as before) with the null entry still after them, so that the
loop over the array visits each name exactly as often as it occurred. -/
theorem C30_shuffle_is_permutation (env : Env) (names : List (List Nat)) :
    ∃ perm used,
      main_shuffle env (names.map some ++ [none]) = some (perm.map some ++ [none], used) ∧
      perm.Perm names ∧ (∀ a, perm.count a = names.count a) ∧
      (∀ j ∈ used, j < names.length) ∧
      main_visits (perm.map some ++ [none]) = perm := by
  have hv : ∀ perm : List (List Nat), main_visits (perm.map some ++ [none]) = perm := by
    intro perm
    unfold main_visits
    rw [takeWhile_isSome_names, List.filterMap_map]
    exact List.filterMap_some perm
  unfold main_shuffle
  simp only [takeWhile_isSome_names, List.length_map]
  rcases Nat.eq_zero_or_pos names.length with h0 | hpos
  · have hn : names = [] := List.length_eq_zero.mp h0
    subst hn
    exact ⟨[], [], rfl, List.Perm.refl _, fun _ => rfl, by simp, hv []⟩
  · have hi : names.length - 1 < (names.map some ++ [none]).length := by
      simp only [List.length_append, List.length_map, List.length_singleton]
      omega
    obtain ⟨l1, used1, h1, h2, h3, h4⟩ :=
      shuffle_loop_perm env (names.length - 1) 0 (names.map some ++ [none]) [] hi
    have hN : names.length - 1 + 1 = names.length := by omega
    rw [hN] at h3
    have hd : (names.map some ++ [none]).drop names.length = [none] := by
      rw [List.drop_append_of_le_length (by simp)]
      simp
    rw [hd] at h3
    have hl1 : l1 = l1.take names.length ++ [none] := by
      conv => lhs; rw [← List.take_append_drop names.length l1, h3]
    have hp : (l1.take names.length).Perm (names.map some) := by
      rw [hl1] at h2
      exact (List.perm_append_right_iff _).mp h2
    have hs : ∀ x ∈ l1.take names.length, x ≠ none := by
      intro x hx hnone
      have := hp.mem_iff.mp hx
      obtain ⟨y, _, hy⟩ := List.mem_map.mp this
      rw [hnone] at hy
      exact Option.noConfusion hy
    have hm := map_some_filterMap_id _ hs
    have hperm : ((l1.take names.length).filterMap id).Perm names := by
      have := hp.filterMap id
      rw [List.filterMap_map] at this
      exact this.trans (List.Perm.of_eq (List.filterMap_some names))
    refine ⟨(l1.take names.length).filterMap id, used1, ?_, hperm,
      fun a => hperm.countP_eq _, ?_, hv _⟩
    · rw [h1, hm, ← hl1]
    · intro j hj
      rcases h4 j hj with h | h
      · simp at h
      · omega

/-- An instance of C30: three names and the values `7 * k + 3` of `rand`. -/
theorem C30_shuffle_is_permutation_witness :
    ∃ perm used,
      main_shuffle { rand := fun k => 7 * k + 3 }
          ([chars "a", chars "b", chars "c"].map some ++ [none]) =
        some (perm.map some ++ [none], used) ∧
      perm.Perm [chars "a", chars "b", chars "c"] ∧
      (∀ a, perm.count a = [chars "a", chars "b", chars "c"].count a) ∧
      (∀ j ∈ used, j < [chars "a", chars "b", chars "c"].length) ∧
      main_visits (perm.map some ++ [none]) = perm :=
  C30_shuffle_is_permutation { rand := fun k => 7 * k + 3 } [chars "a", chars "b", chars "c"]
/-! ## The argument array of `uux` -/

/-- C39. The argument array of `uux` is overrun: for the arguments ` a b c
d e f g h i j k` the splitting loop makes eleven stores, and the eleventh
is `pzargs[10]` while the array has ten slots (the growth test `cargs >=
calloc_args + 1` is false for `cargs = 10`, `calloc_args = 10`); with
` a;b;c;d;e;f` the store outside the array is the second one of a pass.
The array only grows once `cargs` is 11, after the overrun. -/
theorem C39_eleventh_piece_outside_array :
    (uux_split (chars " a b c d e f g h i j k")).map (fun a => (a.stores, a.overrun)) =
      some ([(0, 10), (1, 10), (2, 10), (3, 10), (4, 10), (5, 10), (6, 10), (7, 10), (8, 10),
        (9, 10), (10, 10)], true) ∧
    (uux_split (chars " a;b;c;d;e;f")).map (fun a => (a.stores, a.overrun)) =
      some ([(0, 10), (1, 10), (2, 10), (3, 10), (4, 10), (5, 10), (6, 10), (7, 10), (8, 10),
        (9, 10), (10, 10)], true) ∧
    (uux_split (chars " a b c d e f g h i j k l")).map
        (fun a => (a.stores.drop 10, a.calloc_args)) =
      some ([(10, 10), (11, 20)], 20) ∧
    (uux_split (chars " a b c d e f g h i j")).map (fun a => (a.cargs, a.overrun)) =
      some (10, false) := by
  decide

/-! ## The exit status of `main` -/

/-- C34. The exit status is that of starting `uuxqt`: in master mode for a
named system, when `-q` is not given and no `SIGTERM` came, `main` passes
the result of `fsysdep_run` to `usysdep_exit`, whatever became of the call;
so when the system is already locked and `uuxqt` starts, the message `System
already locked` is logged and the exit status reports success.  With `-q`
the exit status is the result of the call. -/
theorem C34_exit_status_is_that_of_uuxqt (env : Env) (zsystem : List Nat)
    (qorigsys : uuconf_system) (qalternates : List uuconf_system) (qport : Option uuconf_port)
    (fforce fdetach ftimewarn : Bool) (w : World) :
    (main_system { env with SIGTERM := false } zsystem qorigsys qalternates qport fforce fdetach
        ftimewarn true w).1 = env.fsysdep_run ∧
    main_system { fsysdep_lock_system := fun _ => false, fsysdep_run := true } (chars "bravo")
        { uuconf_zname := chars "bravo" } [] none false true true true {} =
      (true, { trace := [Event.detach, Event.lock_system (chars "bravo") false,
                         Event.ulog "System already locked", Event.detach,
                         Event.uuxqt (some (chars "bravo")) true] }) ∧
    (main_system { fsysdep_lock_system := fun _ => false, fsysdep_run := true } (chars "bravo")
        { uuconf_zname := chars "bravo" } [] none false true true false {}).1 = false ∧
    (main_system
        { fsysdep_get_status := fun _ =>
            some { ttype := tstatus_type.STATUS_FAILED, ilast := 1000, cretries := 1,
                   cwait := 600 },
          clock := fun _ => 1599 } (chars "bravo")
        { uuconf_zname := chars "bravo" } [] none false true true true {}).1 = true := by
  refine ⟨?_, by decide, by decide, by decide⟩
  unfold main_system
  simp

/-! ## Ports that cannot be had -/

theorem iuport_lock_statuses (env : Env) (p : uuconf_port) (w : World) :
    (iuport_lock env p w).2.statuses = w.statuses ∧ (iuport_lock env p w).2.nstat = w.nstat ∧
    (iuport_lock env p w).1 = (env.fconn_init p && env.fconn_lock p) := by
  unfold iuport_lock
  by_cases h1 : env.fconn_init p = true <;> by_cases h2 : env.fconn_lock p = true <;>
    simp [h1, h2, World.statuses, World.emit, List.filterMap_append]

/-- The walk over the matching ports takes the first port that can be
initialised and locked, and writes no status. -/
theorem uuconf_find_port_walk_find (env : Env) :
    ∀ (ports : List uuconf_port) (w : World),
      (uuconf_find_port_walk env ports w).1 =
        ports.find? (fun p => env.fconn_init p && env.fconn_lock p) ∧
      (uuconf_find_port_walk env ports w).2.statuses = w.statuses ∧
      (uuconf_find_port_walk env ports w).2.nstat = w.nstat := by
  intro ports
  induction ports with
  | nil => intro w; exact ⟨rfl, rfl, rfl⟩
  | cons p rest ih =>
    intro w
    obtain ⟨h1, h2, h3⟩ := iuport_lock_statuses env p w
    unfold uuconf_find_port_walk
    simp only [List.find?_cons, h3]
    cases hb : (env.fconn_init p && env.fconn_lock p) with
    | true => simp [h1, h2]
    | false =>
      simp only [Bool.false_eq_true, if_false]
      obtain ⟨i1, i2, i3⟩ := ih (iuport_lock env p w).2
      exact ⟨i1, i2.trans h1, i3.trans h2⟩

/-- What `fconn_call` does when the port it is to use cannot be
initialised or locked. -/
theorem fconn_call_port_refused (env : Env) (qsys : uuconf_system)
    (qport : Option uuconf_port) (qstat : sstatus) (cretry : Int) (w : World) (p : uuconf_port)
    (hq : (match qport with
      | some p => some p
      | none => qsys.uuconf_qport) = some p)
    (hfail : env.fconn_init p = false ∨ env.fconn_lock p = false) :
    (fconn_call env qsys qport qstat cretry w).1 = false ∧
    (fconn_call env qsys qport qstat cretry w).2.pfcalled = false ∧
    (fconn_call env qsys qport qstat cretry w).2.qstat = qstat ∧
    (fconn_call env qsys qport qstat cretry w).2.w.statuses = w.statuses ∧
    (fconn_call env qsys qport qstat cretry w).2.w.nstat = w.nstat := by
  have hl : env.fconn_init p = true → env.fconn_lock p = false := by
    intro hi
    rcases hfail with h | h
    · rw [hi] at h; exact absurd h (by decide)
    · exact h
  unfold fconn_call
  cases qport with
  | some q =>
    simp only [Option.some.injEq] at hq
    subst hq
    by_cases hi : env.fconn_init q = true
    · simp [hi, hl hi, World.statuses, World.emit, World.ulog, List.filterMap_append]
    · simp [hi]
  | none =>
    simp only [] at hq
    simp only [hq]
    by_cases hi : env.fconn_init p = true
    · simp [hi, hl hi, World.statuses, World.emit, World.ulog, List.filterMap_append]
    · simp [hi]

/-- C32. Port lock contention leaves the status untouched: when
`fconn_call` cannot have the port it is given or the port of the system
(`fconn_init` or `fconn_lock` fails on it), or when the walk over the
matching ports ends without a port (there is none, or none can be
initialised and locked), it returns failure with `*pfcalled` false and the
status record as it was, and `fsysdep_set_status` is not called; the walk
itself goes on to the next matching port after a port that cannot be
locked and takes the first one that can. -/
theorem C32_port_contention_leaves_status (env : Env) (qsys : uuconf_system)
    (qport : Option uuconf_port) (qstat : sstatus) (cretry : Int) (w : World) :
    (∀ p, (qport = some p ∨ (qport = none ∧ qsys.uuconf_qport = some p)) →
      (env.fconn_init p = false ∨ env.fconn_lock p = false) →
      (fconn_call env qsys qport qstat cretry w).1 = false ∧
      (fconn_call env qsys qport qstat cretry w).2.pfcalled = false ∧
      (fconn_call env qsys qport qstat cretry w).2.qstat = qstat ∧
      (fconn_call env qsys qport qstat cretry w).2.w.statuses = w.statuses ∧
      (fconn_call env qsys qport qstat cretry w).2.w.nstat = w.nstat) ∧
    (qport = none → qsys.uuconf_qport = none →
      (∀ p ∈ env.matching_ports, env.fconn_init p = false ∨ env.fconn_lock p = false) →
      (fconn_call env qsys qport qstat cretry w).1 = false ∧
      (fconn_call env qsys qport qstat cretry w).2.pfcalled = false ∧
      (fconn_call env qsys qport qstat cretry w).2.qstat = qstat ∧
      (fconn_call env qsys qport qstat cretry w).2.w.statuses = w.statuses ∧
      (fconn_call env qsys qport qstat cretry w).2.w.nstat = w.nstat ∧
      (env.find_port_error = false →
        (fconn_call env qsys qport qstat cretry w).2.w.trace.getLast? =
          some (Event.ulog (if env.matching_ports.isEmpty then "No matching ports"
            else "All matching ports in use")))) ∧
    (∀ (p : uuconf_port) (rest : List uuconf_port) (w1 : World),
      (env.fconn_init p = false ∨ env.fconn_lock p = false) →
      uuconf_find_port_walk env (p :: rest) w1 =
        uuconf_find_port_walk env rest (iuport_lock env p w1).2) ∧
    (∀ (ports : List uuconf_port) (w1 : World),
      (uuconf_find_port_walk env ports w1).1 =
        ports.find? (fun p => env.fconn_init p && env.fconn_lock p)) := by
  refine ⟨?_, ?_, ?_, fun ports w1 => (uuconf_find_port_walk_find env ports w1).1⟩
  · intro p hp hfail
    refine fconn_call_port_refused env qsys qport qstat cretry w p ?_ hfail
    rcases hp with h | ⟨h1, h2⟩
    · subst h; rfl
    · subst h1; exact h2
  · intro h1 h2 hall
    obtain ⟨f1, f2, f3⟩ := uuconf_find_port_walk_find env env.matching_ports w
    have hnone : (uuconf_find_port_walk env env.matching_ports w).1 = none := by
      rw [f1, List.find?_eq_none]
      intro p hp
      rcases hall p hp with h | h <;> simp [h]
    have hst : ∀ s : String,
        ((uuconf_find_port_walk env env.matching_ports w).2.ulog s).statuses = w.statuses := by
      intro s
      rw [← f2]
      simp [World.statuses, World.ulog, List.filterMap_append]
    unfold fconn_call
    simp only [h1, h2, hnone]
    have hlast : ∀ (w1 : World) (s : String),
        (w1.ulog s).trace.getLast? = some (Event.ulog s) := by
      intro w1 s
      simp [World.ulog]
    by_cases he : env.find_port_error = true
    · simp only [he, if_true]
      exact ⟨trivial, trivial, trivial, hst _, f3, fun h => absurd h (by simp)⟩
    · by_cases hm : env.matching_ports.isEmpty = true
      · simp only [he, hm, if_true, if_false, Bool.false_eq_true]
        exact ⟨trivial, trivial, trivial, hst _, f3, fun _ => hlast _ _⟩
      · simp only [he, hm, if_false, Bool.false_eq_true]
        exact ⟨trivial, trivial, trivial, hst _, f3, fun _ => hlast _ _⟩
  · intro p rest w1 hfail
    have h3 := (iuport_lock_statuses env p w1).2.2
    have hb : (env.fconn_init p && env.fconn_lock p) = false := by
      rcases hfail with h | h <;> simp [h]
    conv => lhs; unfold uuconf_find_port_walk
    simp only [h3, hb, Bool.false_eq_true, if_false]

/-- An instance of C32: the port given is locked, and of two matching
ports neither can be locked. -/
theorem C32_port_contention_leaves_status_witness :
    (fconn_call { fconn_lock := fun _ => false } {} (some example_plain_port)
        { cretries := 3 } 0 {}).1 = false ∧
    (fconn_call { fconn_lock := fun _ => false } {} (some example_plain_port)
        { cretries := 3 } 0 {}).2.qstat = { cretries := 3 } ∧
    (fconn_call { fconn_lock := fun _ => false,
                  matching_ports := [example_plain_port, example_tcp_port] } {} none
        { cretries := 3 } 0 {}).2.w.statuses = [] :=
  ⟨((C32_port_contention_leaves_status { fconn_lock := fun _ => false } {}
      (some example_plain_port) { cretries := 3 } 0 {}).1 example_plain_port (Or.inl rfl)
      (Or.inr rfl)).1,
   ((C32_port_contention_leaves_status { fconn_lock := fun _ => false } {}
      (some example_plain_port) { cretries := 3 } 0 {}).1 example_plain_port (Or.inl rfl)
      (Or.inr rfl)).2.2.1,
   ((C32_port_contention_leaves_status
      { fconn_lock := fun _ => false,
        matching_ports := [example_plain_port, example_tcp_port] } {} none
      { cretries := 3 } 0 {}).2.1 rfl rfl (fun _ _ => Or.inr rfl)).2.2.2.1⟩
/-! ## The first line the caller reads -/

/-- What `fdo_call_shere` does with a line, whatever it is. -/
theorem fdo_call_shere_line (env : Env) (qsys : uuconf_system) (qport : Option uuconf_port)
    (qdialer : Option uuconf_dialer) (st : CallSt) (y : List Nat)
    (hline : (zget_uucp_cmd env.clock st.w.ticks true st.w.input).zstr = some y) :
    fdo_call_shere env qsys qport qdialer st =
      if strncmp y (chars "Shere") 5 ≠ 0 then
        (false, { st with w := (st.w.after_get env true).ulog "Bad initialization string" })
      else if cidx y 5 = '='.toNat then
        if fdo_call_icmp qsys (y.drop 6) ≠ 0 then
          (false, { st with w := (st.w.after_get env true).ulog "Called wrong system (%s)" })
        else fdo_call_ident env qsys qport qdialer { st with w := st.w.after_get env true }
      else fdo_call_ident env qsys qport qdialer { st with w := st.w.after_get env true } := by
  obtain ⟨zalc, hz⟩ := World.zget_uucp_cmd_line env st.w true _ hline
  unfold fdo_call_shere
  simp only [hz]

theorem strncmp_Shere (y : List Nat) :
    strncmp y (chars "Shere") 5 = 0 ↔ chars "Shere" <+: y := by
  rw [strncmp_eq_zero, List.prefix_iff_eq_take]
  have h1 : (chars "Shere").length = 5 := by decide
  have h2 : (chars "Shere").take 5 = chars "Shere" := by decide
  rw [h1, h2]
  exact eq_comm

/-- What `fdo_call_ident` does when the local name is found, the sequence
number is in order and the `S` line is written. -/
theorem fdo_call_ident_sent (env : Env) (qsys : uuconf_system) (qport : Option uuconf_port)
    (qdialer : Option uuconf_dialer) (st : CallSt) (L : List Nat)
    (hL : fdo_call_localname env qsys = Lookup.success L)
    (hseq : ¬ (qsys.uuconf_fsequence = true ∧ env.isysdep_get_sequence < 0))
    (hw : env.fconn_write st.w.nwrite = true) :
    fdo_call_ident env qsys qport qdialer st =
      fdo_call_response env qsys qport qdialer
        { st with
          zlocalname := some L
          w := (st.w.fsend_uucp_cmd env
            (fdo_call_zsend L qsys.uuconf_fsequence env.isysdep_get_sequence
              (fdo_call_bgrade env))).2 } := by
  unfold fdo_call_ident
  simp only [hL]
  have hs : (qsys.uuconf_fsequence && decide (env.isysdep_get_sequence < 0)) = false := by
    cases hq : qsys.uuconf_fsequence
    · rfl
    · simp only [Bool.true_and, decide_eq_false_iff_not]
      intro h
      exact hseq ⟨hq, h⟩
  simp [hs, World.fsend_uucp_cmd, hw]

/-- C38. Greeting without a name is not verified: once the login has
succeeded, `fdo_call` gives up on a first line that does not begin with
`Shere` (it logs `Bad initialization string`, writes nothing, leaves
`*pterr` at handshake-failed, and `fconn_call` records that kind); and for
a first line that begins with `Shere` and has no `=` as its sixth character
it compares nothing and goes on as after a name that matches: whatever the
system called is, it sends its `S` line and turns to the answer. -/
theorem C38_greeting_without_name (env : Env) (qsys : uuconf_system) (p : uuconf_port)
    (qdialer : Option uuconf_dialer) (qstat : sstatus) (cretry : Int) (w0 : World)
    (y : List Nat)
    (hopen : env.fconn_open = true) (hdial : env.fconn_dial = some qdialer)
    (hchat : env.fchat = true) (hstat : env.fsysdep_set_status w0.nstat = true)
    (hline : (zget_uucp_cmd env.clock (w0.ticks + 2) true w0.input).zstr = some y) :
    (¬ chars "Shere" <+: y →
      fdo_call env qsys (some p) qdialer (fconn_call_dialed qsys qstat w0) =
        (false, { fdo_call_talking env (fconn_call_dialed qsys qstat w0) qsys with
          w := ((fdo_call_talking env (fconn_call_dialed qsys qstat w0) qsys).w.after_get env
            true).ulog "Bad initialization string" }) ∧
      (fdo_call env qsys (some p) qdialer (fconn_call_dialed qsys qstat w0)).2.pterr =
        tstatus_type.STATUS_HANDSHAKE_FAILED ∧
      (fdo_call env qsys (some p) qdialer (fconn_call_dialed qsys qstat w0)).2.w.writes =
        w0.writes ∧
      (fconn_call_open env qsys p qstat cretry w0).1 = false ∧
      (fconn_call_open env qsys p qstat cretry w0).2.qstat.ttype =
        tstatus_type.STATUS_HANDSHAKE_FAILED) ∧
    (chars "Shere" <+: y → cidx y 5 ≠ '='.toNat →
      fdo_call env qsys (some p) qdialer (fconn_call_dialed qsys qstat w0) =
        fdo_call_ident env qsys (some p) qdialer
          { fdo_call_talking env (fconn_call_dialed qsys qstat w0) qsys with
            w := (fdo_call_talking env (fconn_call_dialed qsys qstat w0) qsys).w.after_get env
              true } ∧
      ∀ L, fdo_call_localname env qsys = Lookup.success L →
        ¬ (qsys.uuconf_fsequence = true ∧ env.isysdep_get_sequence < 0) →
        env.fconn_write w0.nwrite = true →
        fdo_call env qsys (some p) qdialer (fconn_call_dialed qsys qstat w0) =
          fdo_call_response env qsys (some p) qdialer
            (fdo_call_identified env (fconn_call_dialed qsys qstat w0) qsys L) ∧
        (fdo_call_identified env (fconn_call_dialed qsys qstat w0) qsys L).w.writes =
          w0.writes ++
            [fsend_uucp_cmd_bytes
              (fdo_call_zsend L qsys.uuconf_fsequence env.isysdep_get_sequence
                (fdo_call_bgrade env))]) := by
  have hst : (fconn_call_dialed qsys qstat w0).w.nstat = w0.nstat := rfl
  have h1 := fdo_call_logged_in env qsys (some p) qdialer (fconn_call_dialed qsys qstat w0)
    hchat (by rw [hst]; exact hstat)
  have h2 := fdo_call_shere_line env qsys (some p) qdialer
    (fdo_call_talking env (fconn_call_dialed qsys qstat w0) qsys) y hline
  have hwr : (fconn_call_dialed qsys qstat w0).w.writes = w0.writes := by
    simp [fconn_call_dialed, World.writes_emit, World.writes_ulog, Event.is_write]
  constructor
  · intro hno
    have hs : strncmp y (chars "Shere") 5 ≠ 0 := fun h => hno ((strncmp_Shere y).mp h)
    rw [if_pos hs] at h2
    have hdo := h1.trans h2
    obtain ⟨f1, f2, _, _⟩ := fconn_call_open_failed env qsys p qdialer qstat cretry w0 _
      hopen hdial hdo rfl
    refine ⟨hdo, by rw [hdo]; rfl, ?_, f1, by rw [f2]; rfl⟩
    rw [hdo]
    simp only [World.writes_ulog, World.writes_after_get]
    rw [← hwr]
    simp [fdo_call_talking, World.writes, List.filterMap_append]
  · intro hyes h6
    have hs : ¬ strncmp y (chars "Shere") 5 ≠ 0 := fun h => h ((strncmp_Shere y).mpr hyes)
    rw [if_neg hs, if_neg h6] at h2
    refine ⟨h1.trans h2, ?_⟩
    intro L hL hseq hw
    have hw1 : env.fconn_write ((fdo_call_talking env (fconn_call_dialed qsys qstat w0)
        qsys).w.after_get env true).nwrite = true := hw
    constructor
    · have e := fdo_call_ident_sent env qsys (some p) qdialer
        { fdo_call_talking env (fconn_call_dialed qsys qstat w0) qsys with
          w := (fdo_call_talking env (fconn_call_dialed qsys qstat w0) qsys).w.after_get env
            true } L hL hseq hw1
      rw [h1, h2]
      exact e.trans rfl
    · rw [← hwr]
      simp [fdo_call_identified, fdo_call_talking, World.writes, World.after_get,
        World.fsend_uucp_cmd, List.filterMap_append]

/-- An instance of C38: the bare line `Shere`, and the line `Hello`. -/
theorem C38_greeting_without_name_witness :
    (fconn_call_open example_caller { uuconf_zname := chars "bravo" } example_plain_port {} 0
        { input := recv_lines [chars "Hello"] }).2.qstat.ttype =
      tstatus_type.STATUS_HANDSHAKE_FAILED ∧
    fdo_call example_caller { uuconf_zname := chars "bravo" } (some example_plain_port) none
        (fconn_call_dialed { uuconf_zname := chars "bravo" } {}
          { input := recv_lines [chars "Shere"] }) =
      fdo_call_response example_caller { uuconf_zname := chars "bravo" }
        (some example_plain_port) none
        (fdo_call_identified example_caller
          (fconn_call_dialed { uuconf_zname := chars "bravo" } {}
            { input := recv_lines [chars "Shere"] })
          { uuconf_zname := chars "bravo" } (chars "foo")) :=
  ⟨((C38_greeting_without_name example_caller { uuconf_zname := chars "bravo" }
      example_plain_port none {} 0 { input := recv_lines [chars "Hello"] } (chars "Hello")
      rfl rfl rfl rfl (by decide)).1 (by decide)).2.2.2.2,
   (((C38_greeting_without_name example_caller { uuconf_zname := chars "bravo" }
      example_plain_port none {} 0 { input := recv_lines [chars "Shere"] } (chars "Shere")
      rfl rfl rfl rfl (by decide)).2 (by decide) (by decide)).2 (chars "foo") rfl (by decide)
      rfl).1⟩

/-! ## The time budget of the framer -/

/-- The waits the loop of the framer asks for: at its reading number `i`
the time left until `iendtime`, which is positive; and when the loop makes
one reading more than it asks for characters, that reading shows the end
time reached and the loop returns the null pointer. -/
theorem zget_loop_waits (clock : Nat → Int) (iendtime : Int) :
    ∀ (input : List Int) (tick : Nat) (st : Framer),
      (∀ i w, (zget_loop clock iendtime input tick st).waits[i]? = some w →
        w = iendtime - clock (tick + i) ∧ 0 < w) ∧
      ((zget_loop clock iendtime input tick st).ticks =
          tick + (zget_loop clock iendtime input tick st).waits.length ∨
        ((zget_loop clock iendtime input tick st).ticks =
          tick + (zget_loop clock iendtime input tick st).waits.length + 1 ∧
         (zget_loop clock iendtime input tick st).res = GetResult.null true)) := by
  intro input
  induction input with
  | nil =>
    intro tick st
    unfold zget_loop
    by_cases h : iendtime - clock tick > 0
    · simp only [h, if_true]
      refine ⟨?_, Or.inl rfl⟩
      intro i w hw
      cases i with
      | zero =>
        simp only [List.getElem?_cons_zero, Option.some.injEq] at hw
        subst hw
        exact ⟨rfl, h⟩
      | succ i => simp at hw
    · simp only [h, if_false]
      exact ⟨fun i w hw => by simp at hw, by simp⟩
  | cons b rest ih =>
    intro tick st
    have sing : iendtime - clock tick > 0 → ∀ (i : Nat) (w : Int),
        ([iendtime - clock tick] : List Int)[i]? = some w →
          w = iendtime - clock (tick + i) ∧ 0 < w := by
      intro h i w hw
      cases i with
      | zero =>
        simp only [List.getElem?_cons_zero, Option.some.injEq] at hw
        subst hw
        exact ⟨rfl, h⟩
      | succ i => simp at hw
    unfold zget_loop
    by_cases h : iendtime - clock tick > 0
    · simp only [h, if_true]
      by_cases hb : b < 0
      · simp only [hb, if_true]
        exact ⟨fun i w hw => sing h i w hw, Or.inl rfl⟩
      · simp only [hb, if_false]
        cases hs : zget_step st b.toNat with
        | cont st1 =>
          simp only []
          obtain ⟨i1, i2⟩ := ih (tick + 1) st1
          constructor
          · intro i w hw
            cases i with
            | zero =>
              simp only [GetOut.waited, List.getElem?_cons_zero, Option.some.injEq] at hw
              subst hw
              exact ⟨rfl, h⟩
            | succ i =>
              simp only [GetOut.waited, List.getElem?_cons_succ] at hw
              have := i1 i w hw
              rw [show tick + (i + 1) = tick + 1 + i by omega]
              exact this
          · simp only [GetOut.waited, List.length_cons]
            rcases i2 with h2 | ⟨h2, h3⟩
            · left; omega
            · right; exact ⟨by omega, h3⟩
        | ret zalc =>
          simp only []
          exact ⟨fun i w hw => sing h i w hw, Or.inl rfl⟩
        | memfault =>
          simp only []
          exact ⟨fun i w hw => sing h i w hw, Or.inl rfl⟩
    · simp only [h, if_false]
      exact ⟨fun i w hw => by simp at hw, by simp⟩

/-- C36. Framer time budget: with `t0` the time `zget_uucp_cmd` reads
first, its end time is `t0 + 120` when the line is required and `t0 + 10`
when it is not; each wait it passes to `breceive_char` is the end time minus
the time read just before, which is positive, and with a clock that never
goes back it is at most 120 (at most 10); and as soon as a reading of the
clock made by the function shows the end time reached, it returns the null
pointer, however many characters it has received. -/
theorem C36_framer_time_budget (clock : Nat → Int) (tick : Nat) (frequired : Bool)
    (input : List Int) (hmono : ∀ a b, a ≤ b → clock a ≤ clock b) :
    (∀ i w, (zget_uucp_cmd clock tick frequired input).waits[i]? = some w →
      w = clock tick + (if frequired then 120 else 10) - clock (tick + 1 + i) ∧
      0 < w ∧ w ≤ (if frequired then 120 else 10)) ∧
    (∀ j, tick + 1 + j < (zget_uucp_cmd clock tick frequired input).ticks →
      clock tick + (if frequired then 120 else 10) ≤ clock (tick + 1 + j) →
      (zget_uucp_cmd clock tick frequired input).res = GetResult.null true) := by
  have hD : (if frequired = true then CTIMEOUT else CSHORTTIMEOUT) =
      (if frequired = true then (120 : Int) else 10) := by
    cases frequired <;> rfl
  obtain ⟨h1, h2⟩ := zget_loop_waits clock
    (clock tick + (if frequired then CTIMEOUT else CSHORTTIMEOUT)) input (tick + 1)
    ⟨[], 0, SIZE_MAX⟩
  unfold zget_uucp_cmd
  simp only []
  rw [hD] at h1 h2 ⊢
  constructor
  · intro i w hw
    obtain ⟨e, hpos⟩ := h1 i w hw
    refine ⟨e, hpos, ?_⟩
    have := hmono tick (tick + 1 + i) (by omega)
    omega
  · intro j hj hend
    rcases h2 with h2 | ⟨h2, h3⟩
    · rw [h2] at hj
      have hlt : j < (zget_loop clock (clock tick + (if frequired = true then (120 : Int) else 10))
          input (tick + 1) ⟨[], 0, SIZE_MAX⟩).waits.length := by omega
      have hget := List.getElem?_eq_getElem hlt
      obtain ⟨e, hpos⟩ := h1 j _ hget
      omega
    · rw [h2] at hj
      rcases Nat.lt_or_ge j (zget_loop clock (clock tick + (if frequired = true then (120 : Int)
          else 10)) input (tick + 1) ⟨[], 0, SIZE_MAX⟩).waits.length with hlt | hge
      · have hget := List.getElem?_eq_getElem hlt
        obtain ⟨e, hpos⟩ := h1 j _ hget
        omega
      · exact h3

/-- An instance of C36: a clock that advances by 50 seconds at each
reading, and a peer that sends a line that does not end. -/
theorem C36_framer_time_budget_witness :
    (zget_uucp_cmd (fun k => 50 * k) 0 true (recv [DLE, 65, 66, 67, 68])).waits = [70, 20] ∧
    (zget_uucp_cmd (fun k => 50 * k) 0 true (recv [DLE, 65, 66, 67, 68])).res =
      GetResult.null true :=
  ⟨by decide,
   (C36_framer_time_budget (fun k => 50 * k) 0 true (recv [DLE, 65, 66, 67, 68])
      (fun a b h => by
        beta_reduce
        omega)).2 2 (by decide) (by decide)⟩
/-! ## The reader of typed lines -/

theorem zget_typed_body_plain (st : Framer) (c : Nat) (h : st.ok)
    (hc : c ≠ 0 ∧ c ≠ CR ∧ c ≠ LF) :
    ∃ st1, zget_typed_body st c = Step.cont st1 ∧ st1.ok ∧ st1.cgot = st.cgot + 1 ∧
      st1.zalc.take (st.cgot + 1) = st.zalc.take st.cgot ++ [some c] := by
  obtain ⟨g, hg, hlen, hgot, hlt, htake⟩ := zget_grow_ok st h
  obtain ⟨h2, h3, h4⟩ := hc
  have hlt2 : g.cgot < g.zalc.length := by omega
  refine ⟨{ g with zalc := g.zalc.set g.cgot (some c), cgot := g.cgot + 1 }, ?_, ?_, ?_, ?_⟩
  · simp [zget_typed_body, h2, h3, h4, hg, hlt2]
  · constructor
    · simp [hlen]
    · simp; omega
  · simp [hgot]
  · simp only
    rw [← hgot, List.take_succ, List.set_take, List.set_eq_of_length_le (by simp)]
    have hlt3 : st.cgot < g.zalc.length := by omega
    simp [hgot, htake, List.getElem?_set_self hlt3]

theorem zget_typed_body_closing (st : Framer) (c : Nat) (h : st.ok) (hc : closing c) :
    ∃ z, zget_typed_body st c = Step.ret z ∧
      z.take (st.cgot + 1) = st.zalc.take st.cgot ++ [some 0] := by
  obtain ⟨g, hg, hlen, hgot, hlt, htake⟩ := zget_grow_ok st h
  have hlt2 : g.cgot < g.zalc.length := by omega
  have hz : (if c = CR ∨ c = LF then 0 else c) = 0 := by
    rcases hc with h0 | h0 | h0 <;> simp [h0]
  refine ⟨g.zalc.set g.cgot (some 0), ?_, ?_⟩
  · simp [zget_typed_body, hg, hlt2, hz]
  · rw [← hgot, List.take_succ, List.set_take, List.set_eq_of_length_le (by simp)]
    have hlt3 : st.cgot < g.zalc.length := by omega
    simp [hgot, htake, List.getElem?_set_self hlt3]

/-- A timeout makes `zget_typed_line` wait again. -/
theorem zget_typed_loop_timeouts (signal : Nat → Bool) (hsig : ∀ k, signal k = false) :
    ∀ (g : Nat) (rest : List Int) (n : Nat) (st : Framer),
      zget_typed_loop signal (List.replicate g (-1) ++ rest) n st =
        zget_typed_loop signal rest (n + g) st := by
  intro g
  induction g with
  | zero => intro rest n st; rfl
  | succ g ih =>
    intro rest n st
    rw [List.replicate_succ, List.cons_append, zget_typed_loop]
    have h1 : ¬ ((-1 : Int) = -2 ∨ signal n = true) := by simp [hsig]
    simp only [h1, if_false, if_true]
    rw [ih, Nat.add_assoc, Nat.add_comm 1 g]

theorem zget_typed_loop_byte (signal : Nat → Bool) (hsig : ∀ k, signal k = false)
    (b : Nat) (rest : List Int) (n : Nat) (st : Framer) :
    zget_typed_loop signal (Int.ofNat b :: rest) n st =
      match zget_typed_body st b with
      | Step.cont st1 => zget_typed_loop signal rest (n + 1) st1
      | Step.ret zalc => some (TypedResult.line zalc, rest)
      | Step.memfault => some (TypedResult.memfault, rest) := by
  rw [zget_typed_loop]
  have h1 : ¬ (Int.ofNat b = -2 ∨ signal n = true) := by
    simp only [hsig, Bool.false_eq_true, or_false]
    intro h
    have : (0 : Int) ≤ Int.ofNat b := Int.ofNat_nonneg b
    omega
  have h2 : ¬ (Int.ofNat b = -1) := by
    intro h
    have : (0 : Int) ≤ Int.ofNat b := Int.ofNat_nonneg b
    omega
  have h3 : (Int.ofNat b).toNat = b := rfl
  simp only [h1, h2, if_false, h3]

theorem recv_slowly_append (gaps : Nat → Nat) :
    ∀ (ys zs : List Nat) (k : Nat),
      recv_slowly gaps k (ys ++ zs) =
        recv_slowly gaps k ys ++ recv_slowly gaps (k + ys.length) zs := by
  intro ys
  induction ys with
  | nil => intro zs k; rfl
  | cons y ys ih =>
    intro zs k
    have e := ih zs (k + 1)
    rw [show k + 1 + ys.length = k + (y :: ys).length by simp only [List.length_cons]; omega] at e
    show List.replicate (gaps k) (-1) ++ Int.ofNat y :: recv_slowly gaps (k + 1) (ys ++ zs) =
      (List.replicate (gaps k) (-1) ++ Int.ofNat y :: recv_slowly gaps (k + 1) ys) ++
        recv_slowly gaps (k + (y :: ys).length) zs
    rw [e, List.append_assoc, List.cons_append]

/-- Characters other than NUL, CR and LF are stored as they come, however
many timeouts come between them. -/
theorem zget_typed_loop_plain (signal : Nat → Bool) (hsig : ∀ k, signal k = false)
    (gaps : Nat → Nat) :
    ∀ (ys : List Nat) (k : Nat) (rest : List Int) (n : Nat) (st : Framer), st.ok →
      (∀ y ∈ ys, y ≠ 0 ∧ y ≠ CR ∧ y ≠ LF) →
      ∃ st1 n1, st1.ok ∧ st1.cgot = st.cgot + ys.length ∧
        st1.zalc.take st1.cgot = st.zalc.take st.cgot ++ ys.map some ∧
        zget_typed_loop signal (recv_slowly gaps k ys ++ rest) n st =
          zget_typed_loop signal rest n1 st1 := by
  intro ys
  induction ys with
  | nil =>
    intro k rest n st hok _
    exact ⟨st, n, hok, by simp, by simp, rfl⟩
  | cons y ys ih =>
    intro k rest n st hok hpl
    obtain ⟨s1, hb, hok1, hgot1, htake1⟩ := zget_typed_body_plain st y hok (hpl y (by simp))
    obtain ⟨s2, n2, hok2, hgot2, htake2, hloop⟩ :=
      ih (k + 1) rest (n + gaps k + 1) s1 hok1 (fun z hz => hpl z (by simp [hz]))
    refine ⟨s2, n2, hok2, ?_, ?_, ?_⟩
    · simp [hgot2, hgot1]; omega
    · rw [htake2, hgot1, htake1]; simp
    · simp only [recv_slowly, List.append_assoc, List.cons_append]
      rw [zget_typed_loop_timeouts signal hsig, zget_typed_loop_byte signal hsig, hb]
      exact hloop

/-- A run of `zget_typed_line` that returns the null pointer has met an
error of `breceive_char` or a signal. -/
theorem zget_typed_loop_null (signal : Nat → Bool) :
    ∀ (input : List Int) (n : Nat) (st : Framer) (rest : List Int),
      zget_typed_loop signal input n st = some (TypedResult.null, rest) →
      (-2 : Int) ∈ input ∨ ∃ k, signal k = true := by
  intro input
  induction input with
  | nil => intro n st rest h; simp [zget_typed_loop] at h
  | cons b input ih =>
    intro n st rest h
    rw [zget_typed_loop] at h
    by_cases h1 : b = -2 ∨ signal n = true
    · rcases h1 with h1 | h1
      · exact Or.inl (by simp [h1])
      · exact Or.inr ⟨n, h1⟩
    · simp only [h1, if_false] at h
      by_cases h2 : b = -1
      · simp only [h2, if_true] at h
        rcases ih _ _ _ h with h3 | h3
        · exact Or.inl (List.mem_cons_of_mem _ h3)
        · exact Or.inr h3
      · simp only [h2, if_false] at h
        cases hs : zget_typed_body st b.toNat with
        | cont st1 =>
          simp only [hs] at h
          rcases ih _ _ _ h with h3 | h3
          · exact Or.inl (List.mem_cons_of_mem _ h3)
          · exact Or.inr h3
        | ret zalc => simp [hs] at h
        | memfault => simp [hs] at h

/-- C35. Typed-line reader: for every sequence of characters none of which
is NUL, CR or LF, followed by one of these three, with any number of
timeouts before each character and no signal, `zget_typed_line` returns the
characters before the terminator exactly as they were received (a
character with the high bit set keeps it: there is no parity stripping
here) and reads nothing after the terminator; a timeout makes it call
`breceive_char` again, an error of `breceive_char` or a signal makes it
return the null pointer, and it returns the null pointer in no other case. -/
theorem C35_typed_line_as_received (signal : Nat → Bool) (gaps : Nat → Nat) (ys : List Nat)
    (t : Nat) (rest : List Int)
    (hsig : ∀ k, signal k = false) (hys : ∀ y ∈ ys, y ≠ 0 ∧ y ≠ CR ∧ y ≠ LF)
    (ht : t = 0 ∨ t = CR ∨ t = LF) :
    typed_zstr (zget_typed_line signal (recv_slowly gaps 0 (ys ++ [t]) ++ rest)) = some ys ∧
    (zget_typed_line signal (recv_slowly gaps 0 (ys ++ [t]) ++ rest)).map (fun r => r.2) =
      some rest ∧
    (∀ (sig : Nat → Bool) (more : List Int) (n : Nat) (st : Framer), sig n = false →
      zget_typed_loop sig ((-1) :: more) n st = zget_typed_loop sig more (n + 1) st) ∧
    (∀ (sig : Nat → Bool) (more : List Int) (n : Nat) (st : Framer),
      zget_typed_loop sig ((-2) :: more) n st = some (TypedResult.null, more)) ∧
    (∀ (sig : Nat → Bool) (b : Int) (more : List Int) (n : Nat) (st : Framer), sig n = true →
      zget_typed_loop sig (b :: more) n st = some (TypedResult.null, more)) ∧
    (∀ (sig : Nat → Bool) (input more : List Int),
      zget_typed_line sig input = some (TypedResult.null, more) →
      (-2 : Int) ∈ input ∨ ∃ k, sig k = true) := by
  have hok : Framer.ok ⟨[], 0, 0⟩ := ⟨rfl, Nat.le_refl _⟩
  obtain ⟨s1, n1, hok1, hgot1, htake1, hloop⟩ :=
    zget_typed_loop_plain signal hsig gaps ys 0
      (recv_slowly gaps (0 + ys.length) [t] ++ rest) 0 ⟨[], 0, 0⟩ hok hys
  obtain ⟨z, hz, hztake⟩ := zget_typed_body_closing s1 t hok1 ht
  have hrun : zget_typed_line signal (recv_slowly gaps 0 (ys ++ [t]) ++ rest) =
      some (TypedResult.line z, rest) := by
    unfold zget_typed_line
    rw [recv_slowly_append, List.append_assoc, hloop]
    simp only [recv_slowly, List.append_assoc, List.cons_append, List.nil_append]
    rw [zget_typed_loop_timeouts signal hsig, zget_typed_loop_byte signal hsig, hz]
  refine ⟨?_, by rw [hrun]; rfl, ?_, ?_, ?_, ?_⟩
  · rw [hrun]
    simp only [typed_zstr]
    apply cstr_of_take z (s1.cgot + 1) ys (fun y hy => (hys y hy).1)
    rw [hztake, htake1]
    simp
  · intro sig more n st hn
    rw [zget_typed_loop]
    simp [hn]
  · intro sig more n st
    rw [zget_typed_loop]
    simp
  · intro sig b more n st hn
    rw [zget_typed_loop]
    simp [hn]
  · intro sig input more h
    exact zget_typed_loop_null sig input 0 _ more h

/-- An instance of C35: the line `u`, 0x81 typed with a timeout before
every second character and ended by CR. -/
theorem C35_typed_line_as_received_witness :
    typed_zstr (zget_typed_line (fun _ => false)
      (recv_slowly (fun k => k % 2) 0 ([0x75, 0x81] ++ [CR]) ++ recv [0x41])) =
      some [0x75, 0x81] :=
  (C35_typed_line_as_received (fun _ => false) (fun k => k % 2) [0x75, 0x81] CR (recv [0x41])
    (fun _ => rfl) (by decide) (Or.inr (Or.inl rfl))).1

/-- A counterexample to C35 as it was worded: `zget_typed_line` delivers
the character 0x81 as 0x81, not as 0x81 & 0x7f = 0x01 as the line framer
does; and the character 0x8d, which the framer strips to CR and takes as the
end of the line, is an ordinary character of a typed line. -/
theorem C35_counterexample :
    typed_zstr (zget_typed_line (fun _ => false) (recv [0x81, CR])) = some [0x81] ∧
    (zget_uucp_cmd (fun _ => 0) 0 false (recv [DLE, 0x81, CR])).zstr = some [0x01] ∧
    strip_parity 0x81 = 0x01 ∧
    typed_zstr (zget_typed_line (fun _ => false) (recv [0x75, 0x8d, 0x75, CR])) =
      some [0x75, 0x8d, 0x75] ∧
    (zget_uucp_cmd (fun _ => 0) 0 false (recv [DLE, 0x75, 0x8d, 0x75, CR])).zstr =
      some [0x75] := by
  decide
/-! ## The option loop ends and stays inside the line -/

theorem spec_tokens_length_aux : ∀ (n : Nat) (z : List Nat), z.length ≤ n →
    (spec_tokens z).length ≤ z.length := by
  intro n
  induction n with
  | zero =>
    intro z hz
    have : z = [] := List.length_eq_zero.mp (by omega)
    subst this
    simp [spec_tokens]
  | succ n ih =>
    intro z hz
    cases z with
    | nil => simp [spec_tokens]
    | cons c z =>
      simp only [List.length_cons] at hz
      by_cases hc : opt_space c = true
      · have e : spec_tokens (c :: z) = spec_tokens z := by simp [spec_tokens, hc]
        rw [e]
        have := ih z (by omega)
        simp only [List.length_cons]
        omega
      · have hc0 : opt_space c = false := by simpa using hc
        rw [spec_tokens_cons c hc0 z]
        have hl : (z.dropWhile (fun c => !isspace (BUCHAR c))).length ≤ z.length :=
          (List.dropWhile_sublist _).length_le
        have := ih (z.dropWhile (fun c => !isspace (BUCHAR c))) (by omega)
        simp only [List.length_cons]
        omega

/-- There are at most as many tokens as characters. -/
theorem spec_tokens_length (z : List Nat) : (spec_tokens z).length ≤ z.length :=
  spec_tokens_length_aux z.length z (Nat.le_refl _)

/-- The option loop of `faccept_call` needs one pass for each token: it
ends within any number of passes above the number of tokens. -/
theorem faccept_call_args_fuel (env : Env) (qsys : uuconf_system) :
    ∀ (fuel : Nat) (z : List Nat) (st : AcceptSt), (spec_tokens z).length < fuel →
      faccept_call_args env qsys fuel (z.dropWhile (fun c => isspace (BUCHAR c))) st =
        some (args_tokens env qsys (spec_tokens z) st) := by
  intro fuel
  induction fuel with
  | zero => intro z st h; omega
  | succ fuel ih =>
    intro z st hlen
    rw [← spec_tokens_dropWhile z] at hlen ⊢
    cases hz : z.dropWhile (fun c => isspace (BUCHAR c)) with
    | nil => simp [faccept_call_args, spec_tokens, args_tokens]
    | cons c z1 =>
      rw [hz] at hlen
      have hc : opt_space c = false := by
        have h := List.head?_dropWhile_not (fun c => isspace (BUCHAR c)) z
        rw [hz] at h
        simpa [opt_space] using h
      have hc1 : (!isspace (BUCHAR c)) = true := by
        have : isspace (BUCHAR c) = false := hc
        simp [this]
      have hsplit : c :: z1 = (c :: z1.takeWhile (fun c => !isspace (BUCHAR c))) ++
          z1.dropWhile (fun c => !isspace (BUCHAR c)) := by
        simp [List.takeWhile_append_dropWhile]
      have hV : faccept_call_arg env qsys (c :: z1) st =
          faccept_call_arg env qsys
            (arg_view (c :: z1.takeWhile (fun c => !isspace (BUCHAR c)))
              ((spec_tokens (z1.dropWhile (fun c => !isspace (BUCHAR c)))).headD [])) st := by
        rw [← faccept_call_arg_view env qsys _ _ (Token_takeWhile c hc z1) (Rest_dropWhile z1) st,
          ← hsplit]
      have hnext : (c :: z1).dropWhile (fun c => !isspace (BUCHAR c)) =
          z1.dropWhile (fun c => !isspace (BUCHAR c)) :=
        List.dropWhile_cons_of_pos (p := fun c => !isspace (BUCHAR c)) (a := c) hc1
      rw [spec_tokens_cons c hc z1] at hlen
      have hl : (spec_tokens (z1.dropWhile (fun c => !isspace (BUCHAR c)))).length < fuel := by
        simp only [List.length_cons] at hlen
        omega
      rw [spec_tokens_cons c hc z1, faccept_call_args, args_tokens]
      simp only [hV, hnext, List.cons_ne_nil, if_false]
      cases faccept_call_arg env qsys
          (arg_view (c :: z1.takeWhile (fun c => !isspace (BUCHAR c)))
            ((spec_tokens (z1.dropWhile (fun c => !isspace (BUCHAR c)))).headD [])) st with
      | rejected st1 => rfl
      | next frecognized st1 =>
        simp only []
        exact ih _ _ hl

theorem faccept_call_cursor_next_cons (c : Nat) (z1 : List Nat)
    (hc : opt_space c = false) :
    faccept_call_cursor_next (c :: z1) =
      (z1.dropWhile (fun c => !isspace (BUCHAR c))).dropWhile (fun c => isspace (BUCHAR c)) := by
  have hc1 : (!isspace (BUCHAR c)) = true := by
    have : isspace (BUCHAR c) = false := hc
    simp [this]
  unfold faccept_call_cursor_next
  rw [List.dropWhile_cons_of_pos (p := fun c => !isspace (BUCHAR c)) (a := c) hc1]

/-- The passes of the option loop start at the tokens of the option
string, one pass for each token. -/
theorem faccept_call_cursors_length :
    ∀ (fuel : Nat) (z : List Nat), (spec_tokens z).length ≤ fuel →
      (faccept_call_cursors fuel (z.dropWhile (fun c => isspace (BUCHAR c)))).length =
        (spec_tokens z).length := by
  intro fuel
  induction fuel with
  | zero =>
    intro z h
    have : (spec_tokens z).length = 0 := by omega
    simp [faccept_call_cursors, this]
  | succ fuel ih =>
    intro z hlen
    rw [← spec_tokens_dropWhile z] at hlen ⊢
    cases hz : z.dropWhile (fun c => isspace (BUCHAR c)) with
    | nil => simp [faccept_call_cursors, spec_tokens]
    | cons c z1 =>
      rw [hz] at hlen
      have hc : opt_space c = false := by
        have h := List.head?_dropWhile_not (fun c => isspace (BUCHAR c)) z
        rw [hz] at h
        simpa [opt_space] using h
      rw [spec_tokens_cons c hc z1] at hlen ⊢
      simp only [List.length_cons] at hlen
      rw [faccept_call_cursors]
      simp only [List.cons_ne_nil, if_false, List.length_cons]
      rw [faccept_call_cursor_next_cons c z1 hc, ih _ (by omega)]

/-- Every pass of the option loop starts inside the string it was entered
with, at a character that is not white space. -/
theorem faccept_call_cursors_mem :
    ∀ (fuel : Nat) (c0 : List Nat), (∀ a, c0.head? = some a → opt_space a = false) →
      ∀ c ∈ faccept_call_cursors fuel c0,
        c <:+ c0 ∧ ∃ a t, c = a :: t ∧ opt_space a = false := by
  intro fuel
  induction fuel with
  | zero => intro c0 _ c hc; simp [faccept_call_cursors] at hc
  | succ fuel ih =>
    intro c0 h0 c hc
    rw [faccept_call_cursors] at hc
    cases c0 with
    | nil => simp at hc
    | cons a t =>
      simp only [List.cons_ne_nil, if_false, List.mem_cons] at hc
      have ha : opt_space a = false := h0 a rfl
      rcases hc with hc | hc
      · rw [hc]
        exact ⟨List.suffix_refl _, a, t, rfl, ha⟩
      · have hnx : ∀ b, (faccept_call_cursor_next (a :: t)).head? = some b →
            opt_space b = false := by
          intro b hb
          unfold faccept_call_cursor_next at hb
          have h := List.head?_dropWhile_not (fun c => isspace (BUCHAR c))
            ((a :: t).dropWhile (fun c => !isspace (BUCHAR c)))
          rw [hb] at h
          simpa [opt_space] using h
        obtain ⟨h1, h2⟩ := ih _ hnx c hc
        refine ⟨h1.trans ?_, h2⟩
        unfold faccept_call_cursor_next
        exact (List.dropWhile_suffix _).trans (List.dropWhile_suffix _)

theorem cidx_pos (z : List Nat) (i : Nat) (h : cidx z i ≠ 0) : i < z.length := by
  by_contra hn
  apply h
  unfold cidx
  rw [List.getD_eq_getElem?_getD, List.getElem?_eq_none (by omega)]
  rfl

/-- The indices a pass of the option loop reads lie at or before the NUL
that ends the string. -/
theorem faccept_call_pass_reads_le (fsequence : Bool) (c : List Nat) :
    ∀ i ∈ faccept_call_pass_reads fsequence c, i ≤ c.length := by
  intro i hi
  unfold faccept_call_pass_reads at hi
  simp only [List.cons_append, List.mem_cons, List.mem_append, List.mem_range,
    List.mem_map] at hi
  rcases hi with hi | (hi | hi) | hi
  · omega
  · by_cases h0 : cidx c 0 = '-'.toNat
    · have l0 : 0 < c.length := cidx_pos c 0 (by rw [h0]; decide)
      rw [if_pos h0] at hi
      have two : ∀ a : Nat, a ≠ 0 → cidx c 1 = a → 2 ≤ c.length := by
        intro a ha h1
        have := cidx_pos c 1 (by rw [h1]; exact ha)
        omega
      rcases List.mem_cons.mp hi with hi | hi
      · omega
      · by_cases hx : cidx c 1 = 'x'.toNat
        · rw [if_pos hx] at hi
          have := two _ (by decide) hx
          simp at hi
          omega
        · rw [if_neg hx] at hi
          by_cases hQ : cidx c 1 = 'Q'.toNat
          · rw [if_pos hQ] at hi
            have := two _ (by decide) hQ
            cases fsequence <;> simp at hi
            omega
          · rw [if_neg hQ] at hi
            by_cases hp : cidx c 1 = 'p'.toNat
            · rw [if_pos hp] at hi
              have := two _ (by decide) hp
              simp at hi
              omega
            · rw [if_neg hp] at hi
              by_cases hv : cidx c 1 = 'v'.toNat
              · rw [if_pos hv] at hi
                have := two _ (by decide) hv
                rcases List.mem_cons.mp hi with hi | hi
                · omega
                · by_cases hg : strncmp (c.drop 1) (chars "vgrade=") 7 = 0
                  · rw [if_pos hg] at hi
                    have hv := vgrade_prefix (c.drop 1)
                    have hpre := hv.mpr hg
                    rw [List.isPrefixOf_iff_prefix] at hpre
                    have hlen := hpre.length_le
                    have h7 : (chars "vgrade=").length = 7 := by decide
                    rw [h7, List.length_drop] at hlen
                    simp at hi
                    omega
                  · rw [if_neg hg] at hi
                    simp at hi
              · rw [if_neg hv] at hi
                by_cases hU : cidx c 1 = 'U'.toNat
                · rw [if_pos hU] at hi
                  have := two _ (by decide) hU
                  simp at hi
                  omega
                · rw [if_neg hU] at hi
                  simp at hi
    · rw [if_neg h0] at hi
      simp at hi
  · have := (List.takeWhile_sublist (fun c => !isspace (BUCHAR c)) (l := c)).length_le
    omega
  · obtain ⟨j, hj, hji⟩ := hi
    have h1 := (List.takeWhile_sublist (fun c => !isspace (BUCHAR c)) (l := c)).length_le
    have h2 := (List.takeWhile_sublist (fun c => isspace (BUCHAR c))
      (l := c.drop (c.takeWhile (fun c => !isspace (BUCHAR c))).length)).length_le
    rw [List.length_drop] at h2
    omega

/-- The option loop of `faccept_call` ends on the string `z` it reads (the
characters from `zspace + 1` to the next NUL): the passes of the loop start
at the tokens of `z`, one pass for each, so there are at most as many as
there are characters, and the loop returns within any bound above that
number; each pass starts inside `z` at a character that is neither NUL nor
white space, leaves the cursor at least one character further on, and reads
`zspace[i]` (or hands `zspace + i` to `strtol` or `strncmp`) only for `i` up
to the place of that NUL. -/
theorem faccept_call_args_terminates (env : Env) (qsys : uuconf_system) (z : List Nat)
    (st : AcceptSt) (h0 : ∀ c ∈ z, c ≠ 0) :
    (∀ fuel, (faccept_call_cursors (z.length + 1)
        (z.dropWhile (fun c => isspace (BUCHAR c)))).length < fuel →
      faccept_call_args env qsys fuel (z.dropWhile (fun c => isspace (BUCHAR c))) st =
        some (args_tokens env qsys (spec_tokens z) st)) ∧
    (faccept_call_cursors (z.length + 1) (z.dropWhile (fun c => isspace (BUCHAR c)))).length =
      (spec_tokens z).length ∧
    (faccept_call_cursors (z.length + 1) (z.dropWhile (fun c => isspace (BUCHAR c)))).length ≤
      z.length ∧
    (∀ c ∈ faccept_call_cursors (z.length + 1) (z.dropWhile (fun c => isspace (BUCHAR c))),
      c <:+ z ∧
      (∃ a t, c = a :: t ∧ a ≠ 0 ∧ isspace (BUCHAR a) = false) ∧
      faccept_call_cursor_next c <:+ c ∧
      (faccept_call_cursor_next c).length < c.length ∧
      ∀ i ∈ faccept_call_pass_reads qsys.uuconf_fsequence c, i ≤ c.length) ∧
    (∀ (fuel : Nat) (c : List Nat) (st1 : AcceptSt), c ≠ [] →
      faccept_call_args env qsys (fuel + 1) c st1 =
        match faccept_call_arg env qsys c st1 with
        | ArgResult.rejected st2 => some (false, st2)
        | ArgResult.next frecognized st2 =>
          faccept_call_args env qsys fuel (faccept_call_cursor_next c)
            (if !frecognized then { st2 with w := st2.w.ulog "Unrecognized argument %s" }
             else st2)) := by
  have hlen := faccept_call_cursors_length (z.length + 1) z
    (Nat.le_succ_of_le (spec_tokens_length z))
  refine ⟨?_, hlen, by rw [hlen]; exact spec_tokens_length z, ?_, ?_⟩
  · intro fuel hf
    rw [hlen] at hf
    exact faccept_call_args_fuel env qsys fuel z st hf
  · intro c hc
    have hhead : ∀ a, (z.dropWhile (fun c => isspace (BUCHAR c))).head? = some a →
        opt_space a = false := by
      intro a ha
      have h := List.head?_dropWhile_not (fun c => isspace (BUCHAR c)) z
      rw [ha] at h
      simpa [opt_space] using h
    obtain ⟨h1, a, t, h2, h3⟩ := faccept_call_cursors_mem _ _ hhead c hc
    have hsuf : c <:+ z := h1.trans (List.dropWhile_suffix _)
    have hnext : faccept_call_cursor_next c <:+ t := by
      rw [h2, faccept_call_cursor_next_cons a t h3]
      exact (List.dropWhile_suffix _).trans (List.dropWhile_suffix _)
    refine ⟨hsuf, ⟨a, t, h2, ?_, h3⟩, ?_, ?_, faccept_call_pass_reads_le _ c⟩
    · exact h0 a (hsuf.subset (by rw [h2]; exact List.mem_cons_self _ _))
    · rw [h2] at hnext ⊢
      exact hnext.trans (List.suffix_cons a t)
    · have := hnext.length_le
      rw [h2, List.length_cons]
      rw [h2] at this
      omega
  · intro fuel c st1 hc
    rw [faccept_call_args]
    simp only [hc, if_false]
    all_goals (cases faccept_call_arg env qsys c st1 <;> rfl)

/-- C40. The option loop reads a freed buffer, evaluated at the caller line
`Sfb -Q8` for the system `foobarbaz`, known also as `fb`.  The line fills
the indices 0 to 6 of its buffer and its NUL is at index 7; `zspace` is
index 3.  `faccept_call` frees the buffer and `zbufcpy` copies the name
`foobarbaz` and a NUL into its indices 0 to 9 before the loop starts, so the
loop starts at index 4 on the string `arbaz`: its one pass starts at a
character that is not of the caller's options, and reads the indices 4 to 9,
of which 8 and 9 lie beyond the NUL that ended the caller's line. -/
theorem C40_option_loop_reads_freed_buffer :
    (zget_uucp_cmd (example_alias_answerer true).clock 0 true
        (recv_lines [chars "Sfb -Q8"])).res = GetResult.line (example_line (chars "Sfb -Q8")) ∧
    (example_line (chars "Sfb -Q8")).indexOf (some 0) = 7 ∧
    example_zspace (chars "Sfb -Q8") =
      some { zstr := (example_line (chars "Sfb -Q8")).set 3 (some 0), i := 3 } ∧
    (example_alias_answerer true).zbufcpy_freed
        ((example_line (chars "Sfb -Q8")).set 3 (some 0)) (example_alias_system true).uuconf_zname =
      some (example_line (chars "foobarbaz")) ∧
    (example_zspace (chars "Sfb -Q8")).bind
        (faccept_call_zspace (example_alias_answerer true) (example_alias_system true)) =
      some (chars "arbaz") ∧
    faccept_call_cursors ((chars "arbaz").length + 1) (chars "arbaz") = [chars "arbaz"] ∧
    (faccept_call_pass_reads true (chars "arbaz")).map (fun i => 3 + 1 + i) =
      [4, 4, 5, 6, 7, 8, 9, 9] ∧
    ¬ (∀ i ∈ (faccept_call_pass_reads true (chars "arbaz")).map (fun i => 3 + 1 + i),
        i ≤ (example_line (chars "Sfb -Q8")).indexOf (some 0)) := by
  decide
/-! ## The wrong time to call -/

/-- The loop of `fcall` passes over alternates that cannot be called, that
their time restriction rejects or that have no work, and only remembers
whether one of them could be called at all. -/
theorem fcall_alternates_passed_over (env : Env) (qport : Option uuconf_port)
    (fifwork fdetach : Bool) (zlocked : List Nat)
    (hsig : ∀ k, env.FGOT_SIGNAL k = false) (l : List uuconf_system) :
    ∀ (pre : List uuconf_system) (k : Nat) (st : FcallSt),
      (∀ q ∈ pre, spec_passed_over env fifwork q = true) →
      fcall_alternates env qport fifwork fdetach zlocked (pre ++ l) k st =
        fcall_alternates env qport fifwork fdetach zlocked l (k + pre.length)
          { st with fnevertime := st.fnevertime && !pre.any spec_callable } := by
  intro pre
  induction pre with
  | nil =>
    intro k st _
    cases st
    simp
  | cons q pre ih =>
    intro k st hall
    have hq := hall q (List.mem_cons_self _ _)
    have hrest : ∀ q ∈ pre, spec_passed_over env fifwork q = true :=
      fun x hx => hall x (List.mem_cons_of_mem _ hx)
    have hk : k + (q :: pre).length = k + 1 + pre.length := by
      simp only [List.length_cons]; omega
    rw [List.cons_append, fcall_alternates, hk]
    simp only [hsig, Bool.false_eq_true, if_false]
    by_cases hc : spec_callable q = true
    · have hc1 : (!q.uuconf_fcall || !q.uuconf_qtimegrade) = false := by
        unfold spec_callable at hc
        cases h1 : q.uuconf_fcall <;> cases h2 : q.uuconf_qtimegrade <;> simp_all
      simp only [hc1, Bool.false_eq_true, if_false]
      have hany : ((q :: pre).any spec_callable) = true := by simp [hc]
      cases ht : env.ftimespan_match_timegrade q with
      | none =>
        simp only []
        rw [ih _ _ hrest]
        simp [hany]
      | some cretry =>
        simp only []
        have hnw : spec_no_work env fifwork q = true := by
          unfold spec_passed_over at hq
          simp only [hc, spec_time_rejected, ht] at hq
          simpa using hq
        unfold spec_no_work at hnw
        simp only [Bool.and_eq_true, decide_eq_true_eq] at hnw
        obtain ⟨⟨_, hw⟩, hf⟩ := hnw
        subst hw
        rw [hf]
        simp only [Bool.not_false, Bool.and_self, if_true]
        rw [ih _ _ hrest]
        simp [hany]
    · have hc0 : spec_callable q = false := by simpa using hc
      have hc1 : (!q.uuconf_fcall || !q.uuconf_qtimegrade) = true := by
        unfold spec_callable at hc0
        cases h1 : q.uuconf_fcall <;> cases h2 : q.uuconf_qtimegrade <;> simp_all
      simp only [hc1, if_true]
      rw [ih _ _ hrest]
      simp [hc0]

/-- Once the loop of `fcall` has cleared `fbadtime` the flag stays
cleared. -/
theorem fcall_alternates_fbadtime (env : Env) (qport : Option uuconf_port)
    (fifwork fdetach : Bool) (zlocked : List Nat) :
    ∀ (l : List uuconf_system) (k : Nat) (st : FcallSt), st.fbadtime = false →
      (fcall_alternates env qport fifwork fdetach zlocked l k st).2.fbadtime = false := by
  intro l
  induction l with
  | nil => intro k st h; simpa [fcall_alternates] using h
  | cons q rest ih =>
    intro k st h
    rw [fcall_alternates]
    split
    · exact h
    · split
      · exact ih _ _ h
      · split
        · exact ih _ _ h
        · split
          · exact h
          · split
            · exact ih _ _ h
            · simp only []
              split
              · rfl
              · split
                · rfl
                · split
                  · split
                    · rfl
                    · exact ih _ _ rfl
                  · exact ih _ _ rfl

/-- An alternate that is not passed over ends the loop of `fcall` or
clears `fbadtime`. -/
theorem fcall_alternates_called (env : Env) (qport : Option uuconf_port)
    (fifwork fdetach : Bool) (zlocked : List Nat)
    (hsig : ∀ k, env.FGOT_SIGNAL k = false) (q : uuconf_system)
    (rest : List uuconf_system) (k : Nat) (st : FcallSt)
    (hq : spec_passed_over env fifwork q = false) :
    (fcall_alternates env qport fifwork fdetach zlocked (q :: rest) k st).1 ≠ none ∨
      (fcall_alternates env qport fifwork fdetach zlocked (q :: rest) k st).2.fbadtime =
        false := by
  unfold spec_passed_over at hq
  simp only [Bool.or_eq_false_iff, Bool.not_eq_false_eq_eq_true] at hq
  obtain ⟨⟨hc, ht⟩, hnw⟩ := hq
  have hc1 : (!q.uuconf_fcall || !q.uuconf_qtimegrade) = false := by
    unfold spec_callable at hc
    cases h1 : q.uuconf_fcall <;> cases h2 : q.uuconf_qtimegrade <;> simp_all
  rw [fcall_alternates]
  simp only [hsig, Bool.false_eq_true, if_false, hc1]
  cases hm : env.ftimespan_match_timegrade q with
  | none => simp [spec_time_rejected, hm] at ht
  | some cretry =>
    simp only []
    cases hf : env.fqueue q with
    | none => left; simp
    | some fany =>
      simp only []
      have hw : (fifwork && !fany) = false := by
        unfold spec_no_work at hnw
        rw [hm, hf] at hnw
        cases fifwork <;> cases fany <;> simp_all
      simp only [hw, Bool.false_eq_true, if_false]
      split
      · left; simp
      · split
        · left; simp
        · split
          · split
            · left; simp
            · right; exact fcall_alternates_fbadtime _ _ _ _ _ _ _ _ rfl
          · right; exact fcall_alternates_fbadtime _ _ _ _ _ _ _ _ rfl

/-- C31, amended. The wrong-time status of `fcall`, when no signal
arrives.  If the loop passes over every alternate (it cannot be called, or
its time restriction rejects the call, or a call is wanted only for work
and the spool has none for it), `fcall` returns FALSE and, with time
warnings enabled, logs "Wrong time to call"; it then writes the status
with kind wrong_time, the time of the attempt, a wait of 0 and the retry
count unchanged exactly when some alternate can be called, and writes
nothing otherwise; without time warnings it writes and logs nothing.  An
alternate that the time restriction allowed and that was skipped for want
of work counts as passed over, so the status is written in that case too.
If some alternate is not passed over, `fcall` adds nothing after the loop:
the loop is left by a return or with `fbadtime` cleared. -/
theorem C31_wrong_time_status (env : Env) (qorigsys : uuconf_system)
    (qalternates : List uuconf_system) (qport : Option uuconf_port)
    (fifwork fdetach ftimewarn : Bool) (zlocked : List Nat) (sstat : sstatus) (w : World)
    (hsig : ∀ k, env.FGOT_SIGNAL k = false) :
    ((∀ q ∈ qorigsys :: qalternates, spec_passed_over env fifwork q = true) →
      fcall_attempt env qorigsys qalternates qport fifwork fdetach ftimewarn zlocked sstat w =
        (false,
          if ftimewarn then
            if (qorigsys :: qalternates).any spec_callable then
              (((w.ulog "Wrong time to call").isysdep_time env).2.fsysdep_set_status env
                qorigsys { sstat with ttype := tstatus_type.STATUS_WRONG_TIME,
                                      ilast := env.clock w.ticks, cwait := 0 }).2
            else w.ulog "Wrong time to call"
          else w)) ∧
    (∀ (pre rest : List uuconf_system) (q : uuconf_system),
      qorigsys :: qalternates = pre ++ q :: rest →
      (∀ x ∈ pre, spec_passed_over env fifwork x = true) →
      spec_passed_over env fifwork q = false →
      ((fcall_alternates env qport fifwork fdetach zlocked (qorigsys :: qalternates) 0
          { sstat := sstat, w := w }).1 ≠ none ∨
        (fcall_alternates env qport fifwork fdetach zlocked (qorigsys :: qalternates) 0
          { sstat := sstat, w := w }).2.fbadtime = false) ∧
      fcall_attempt env qorigsys qalternates qport fifwork fdetach ftimewarn zlocked sstat w =
        ((fcall_alternates env qport fifwork fdetach zlocked (qorigsys :: qalternates) 0
            { sstat := sstat, w := w }).1.getD false,
          (fcall_alternates env qport fifwork fdetach zlocked (qorigsys :: qalternates) 0
            { sstat := sstat, w := w }).2.w)) := by
  constructor
  · intro hall
    have h := fcall_alternates_passed_over env qport fifwork fdetach zlocked hsig []
      (qorigsys :: qalternates) 0 { sstat := sstat, w := w } hall
    rw [List.append_nil] at h
    rw [fcall_attempt]
    simp only [h]
    simp only [fcall_alternates, Bool.true_and]
    cases ftimewarn
    · simp
    · cases hany : (qorigsys :: qalternates).any spec_callable
      · simp
      · simp [World.isysdep_time, World.ulog]
  · intro pre rest q hsplit hpre hq
    have h := fcall_alternates_passed_over env qport fifwork fdetach zlocked hsig (q :: rest)
      pre 0 { sstat := sstat, w := w } hpre
    have key := fcall_alternates_called env qport fifwork fdetach zlocked hsig q rest
      (0 + pre.length)
      { ({ sstat := sstat, w := w } : FcallSt) with
        fnevertime := ({ sstat := sstat, w := w } : FcallSt).fnevertime &&
          !pre.any spec_callable } hq
    rw [← h, ← hsplit] at key
    refine ⟨key, ?_⟩
    unfold fcall_attempt
    rcases key with key | key
    · cases hr : (fcall_alternates env qport fifwork fdetach zlocked (qorigsys :: qalternates)
          0 { sstat := sstat, w := w }).1 with
      | none => exact absurd hr key
      | some b => simp [hr]
    · cases hr : (fcall_alternates env qport fifwork fdetach zlocked (qorigsys :: qalternates)
          0 { sstat := sstat, w := w }).1 with
      | none => simp [hr, key]
      | some b => simp [hr]

/-- An instance of C31: a system whose time restriction rejects the call. -/
theorem C31_wrong_time_status_witness :
    fcall_attempt { ftimespan_match_timegrade := fun _ => none } {} [] none false false true
        [] { cretries := 3 } {} =
      (false,
        { ticks := 1, nstat := 1,
          trace := [Event.ulog "Wrong time to call",
            Event.set_status []
              { ttype := tstatus_type.STATUS_WRONG_TIME, cretries := 3,
                ilast := 0, cwait := 0 }] }) :=
  ((C31_wrong_time_status { ftimespan_match_timegrade := fun _ => none } {} [] none false
      false true [] { cretries := 3 } {} (fun _ => rfl)).1 (by decide)).trans (by decide)

/-- A counterexample to C31 as it was worded: the wrong-time status is
written although the time restriction allowed the call; the only alternate
was skipped because the spool had no work for it. -/
theorem C31_counterexample :
    spec_time_rejected { fqueue := fun _ => some false } {} = false ∧
    spec_no_work { fqueue := fun _ => some false } true {} = true ∧
    fcall_attempt { fqueue := fun _ => some false } {} [] none true false true [] {} {} =
      (false,
        { ticks := 1, nstat := 1,
          trace := [Event.ulog "Wrong time to call",
            Event.set_status []
              { ttype := tstatus_type.STATUS_WRONG_TIME, cretries := 0,
                ilast := 0, cwait := 0 }] }) := by
  decide
/-! ## The statuses written during a session -/

@[simp]
theorem World.statuses_ulog (w : World) (s : String) : (w.ulog s).statuses = w.statuses := by
  simp [World.statuses, World.ulog, List.filterMap_append]

@[simp]
theorem World.floops_ulog (w : World) (s : String) : (w.ulog s).floops = w.floops := by
  simp [World.floops, World.ulog, List.filterMap_append]

@[simp]
theorem World.statuses_emit (w : World) (e : Event) :
    (w.emit e).statuses =
      w.statuses ++ (match e with | Event.set_status _ s => [s] | _ => []) := by
  simp only [World.statuses, World.emit, List.filterMap_append]
  cases e <;> rfl

@[simp]
theorem World.floops_emit (w : World) (e : Event) :
    (w.emit e).floops = w.floops ++ (match e with | Event.floop ok => [ok] | _ => []) := by
  simp only [World.floops, World.emit, List.filterMap_append]
  cases e <;> rfl

@[simp]
theorem World.statuses_isysdep_time (env : Env) (w : World) :
    (w.isysdep_time env).2.statuses = w.statuses := rfl

@[simp]
theorem World.floops_isysdep_time (env : Env) (w : World) :
    (w.isysdep_time env).2.floops = w.floops := rfl

@[simp]
theorem World.statuses_fsend_uucp_cmd (env : Env) (w : World) (z : List Nat) :
    (w.fsend_uucp_cmd env z).2.statuses = w.statuses := by
  simp [World.statuses, World.fsend_uucp_cmd, List.filterMap_append]

@[simp]
theorem World.floops_fsend_uucp_cmd (env : Env) (w : World) (z : List Nat) :
    (w.fsend_uucp_cmd env z).2.floops = w.floops := by
  simp [World.floops, World.fsend_uucp_cmd, List.filterMap_append]

@[simp]
theorem World.statuses_fsysdep_set_status (env : Env) (w : World) (q : uuconf_system)
    (s : sstatus) : (w.fsysdep_set_status env q s).2.statuses = w.statuses ++ [s] := by
  simp [World.statuses, World.fsysdep_set_status, List.filterMap_append]

@[simp]
theorem World.floops_fsysdep_set_status (env : Env) (w : World) (q : uuconf_system)
    (s : sstatus) : (w.fsysdep_set_status env q s).2.floops = w.floops := by
  simp [World.floops, World.fsysdep_set_status, List.filterMap_append]

@[simp]
theorem World.statuses_zget_uucp_cmd (env : Env) (w : World) (f : Bool) :
    (w.zget_uucp_cmd env f).2.statuses = w.statuses := by
  unfold World.zget_uucp_cmd
  simp only []
  split
  · split <;> rfl
  · split
    · exact World.statuses_ulog _ _
    · rfl
  · rfl

@[simp]
theorem World.floops_zget_uucp_cmd (env : Env) (w : World) (f : Bool) :
    (w.zget_uucp_cmd env f).2.floops = w.floops := by
  unfold World.zget_uucp_cmd
  simp only []
  split
  · split <;> rfl
  · split
    · exact World.floops_ulog _ _
    · rfl
  · rfl

/-- A line delivered by `zget_uucp_cmd` leaves the world defined as it
was. -/
theorem World.zget_uucp_cmd_undefined (env : Env) (w : World) (f : Bool) :
    (w.zget_uucp_cmd env f).1 = Got.undefined →
      (w.zget_uucp_cmd env f).2.undefined = true := by
  unfold World.zget_uucp_cmd
  simp only []
  split
  · split
    · intro h; cases h
    · intro _; rfl
  · intro h; cases h
  · intro _; rfl

@[simp]
theorem World.ticks_emit (w : World) (e : Event) : (w.emit e).ticks = w.ticks := rfl

@[simp]
theorem World.ticks_ulog (w : World) (s : String) : (w.ulog s).ticks = w.ticks := rfl

@[simp]
theorem World.ticks_isysdep_time (env : Env) (w : World) :
    (w.isysdep_time env).2.ticks = w.ticks + 1 := rfl

@[simp]
theorem World.ticks_fsysdep_set_status (env : Env) (w : World) (q : uuconf_system)
    (s : sstatus) : (w.fsysdep_set_status env q s).2.ticks = w.ticks := rfl

@[simp]
theorem World.isysdep_time_fst (env : Env) (w : World) :
    (w.isysdep_time env).1 = env.clock w.ticks := rfl
/-! ## The stages of `fdo_call` and the status file -/

/-- A stage that fails without touching the status, `*pterr`, `*pfcalled`
or the transfer loop. -/
theorem CallSt.outcome_fail (st st1 : CallSt) (hq : st1.qstat = st.qstat)
    (hp : st1.pterr = st.pterr) (hc : st1.pfcalled = st.pfcalled)
    (hs : st1.w.statuses = st.w.statuses) (hf : st1.w.floops = st.w.floops) :
    CallSt.outcome st (false, st1) := by
  unfold CallSt.outcome
  simp only [Bool.false_eq_true, if_false]
  exact ⟨hc, hq, hs, Or.inl ⟨hp, hf⟩⟩

/-- The outcome of a stage does not depend on what the state holds beside
the status, `*pterr`, `*pfcalled`, the statuses written and the results of
the transfer loop. -/
theorem CallSt.outcome_of (st : CallSt) {st1 : CallSt} {r : Bool × CallSt}
    (h : CallSt.outcome st1 r) (hq : st1.qstat = st.qstat)
    (hp : st1.pterr = st.pterr) (hc : st1.pfcalled = st.pfcalled)
    (hs : st1.w.statuses = st.w.statuses) (hf : st1.w.floops = st.w.floops) :
    CallSt.outcome st r := by
  unfold CallSt.outcome at h ⊢
  rw [hq, hp, hc, hs, hf] at h
  exact h

theorem fdo_call_hangup_statuses (env : Env) (w : World) (z : List Nat) (b : Bool) :
    ((if ((w.fsend_uucp_cmd env z).1 &&
          (if (w.fsend_uucp_cmd env z).1 = true then
              (w.fsend_uucp_cmd env z).2.fsend_uucp_cmd env z
            else (false, (w.fsend_uucp_cmd env z).2)).1 && b) = true
      then ((if (w.fsend_uucp_cmd env z).1 = true then
              (w.fsend_uucp_cmd env z).2.fsend_uucp_cmd env z
            else (false, (w.fsend_uucp_cmd env z).2)).2.zget_uucp_cmd env false).2
      else (if (w.fsend_uucp_cmd env z).1 = true then
              (w.fsend_uucp_cmd env z).2.fsend_uucp_cmd env z
            else (false, (w.fsend_uucp_cmd env z).2)).2).statuses = w.statuses) ∧
    ((if ((w.fsend_uucp_cmd env z).1 &&
          (if (w.fsend_uucp_cmd env z).1 = true then
              (w.fsend_uucp_cmd env z).2.fsend_uucp_cmd env z
            else (false, (w.fsend_uucp_cmd env z).2)).1 && b) = true
      then ((if (w.fsend_uucp_cmd env z).1 = true then
              (w.fsend_uucp_cmd env z).2.fsend_uucp_cmd env z
            else (false, (w.fsend_uucp_cmd env z).2)).2.zget_uucp_cmd env false).2
      else (if (w.fsend_uucp_cmd env z).1 = true then
              (w.fsend_uucp_cmd env z).2.fsend_uucp_cmd env z
            else (false, (w.fsend_uucp_cmd env z).2)).2).floops = w.floops) := by
  split_ifs <;> simp

theorem fdo_call_hangup_outcome (env : Env) (qsys : uuconf_system) (st : CallSt) :
    CallSt.outcome st (fdo_call_hangup env qsys st) := by
  have hs := fdo_call_hangup_statuses env (st.w.emit (Event.floop env.floop)) (chars "OOOOOO")
    (env.floop && env.fdebug_handshake)
  simp only [← Bool.and_assoc] at hs
  unfold fdo_call_hangup CallSt.outcome
  cases hfl : env.floop
  · rw [hfl] at hs
    simp only [Bool.false_eq_true, if_false, World.statuses_ulog, World.floops_ulog,
      World.statuses_isysdep_time, World.floops_isysdep_time, hs.1, hs.2,
      World.statuses_emit, World.floops_emit, List.append_nil, true_and, and_self]
    right; trivial
  · rw [hfl] at hs
    simp only [if_true, World.statuses_ulog, World.floops_ulog,
      World.statuses_isysdep_time, World.floops_isysdep_time, hs.1, hs.2,
      World.statuses_emit, World.floops_emit, List.append_nil, true_and, and_self,
      World.statuses_fsysdep_set_status]

theorem fdo_call_start_outcome (env : Env) (qsys : uuconf_system) (p : sprotocol)
    (st : CallSt) : CallSt.outcome st (fdo_call_start env qsys p st) := by
  unfold fdo_call_start
  simp only []
  split
  · exact CallSt.outcome_fail _ _ rfl rfl rfl (by simp) (by simp)
  · exact CallSt.outcome_of st (fdo_call_hangup_outcome env qsys _)
      rfl rfl rfl (by simp) (by simp)

theorem fdo_call_protocol_outcome (env : Env) (qsys : uuconf_system)
    (qport : Option uuconf_port) (qdialer : Option uuconf_dialer) (st : CallSt) :
    CallSt.outcome st (fdo_call_protocol env qsys qport qdialer st) := by
  unfold fdo_call_protocol
  simp only []
  split
  · exact CallSt.outcome_fail _ _ rfl rfl rfl (by simp) (by simp)
  · exact CallSt.outcome_fail _ _ rfl rfl rfl (by simp) (by simp)
  · split
    · exact CallSt.outcome_fail _ _ rfl rfl rfl (by simp) (by simp)
    · split
      · exact CallSt.outcome_fail _ _ rfl rfl rfl (by simp) (by simp)
      · split
        · exact CallSt.outcome_fail _ _ rfl rfl rfl (by simp) (by simp)
        · exact CallSt.outcome_of st (fdo_call_start_outcome env qsys _ _)
            rfl rfl rfl (by simp) (by simp)

theorem fdo_call_response_outcome (env : Env) (qsys : uuconf_system)
    (qport : Option uuconf_port) (qdialer : Option uuconf_dialer) (st : CallSt) :
    CallSt.outcome st (fdo_call_response env qsys qport qdialer st) := by
  unfold fdo_call_response
  simp only []
  split
  · exact CallSt.outcome_fail _ _ rfl rfl rfl (by simp) (by simp)
  · exact CallSt.outcome_fail _ _ rfl rfl rfl (by simp) (by simp)
  · split
    · exact CallSt.outcome_fail _ _ rfl rfl rfl (by simp) (by simp)
    · split
      · exact CallSt.outcome_of st (fdo_call_protocol_outcome env qsys qport qdialer _)
          rfl rfl rfl (by simp) (by simp)
      · split
        · exact CallSt.outcome_of st (fdo_call_protocol_outcome env qsys qport qdialer _)
            rfl rfl rfl (by simp) (by simp)
        · split
          · unfold CallSt.outcome
            simp
          · exact CallSt.outcome_fail _ _ rfl rfl rfl (by simp) (by simp)

theorem fdo_call_ident_outcome (env : Env) (qsys : uuconf_system)
    (qport : Option uuconf_port) (qdialer : Option uuconf_dialer) (st : CallSt) :
    CallSt.outcome st (fdo_call_ident env qsys qport qdialer st) := by
  unfold fdo_call_ident
  split
  · exact CallSt.outcome_fail _ _ rfl rfl rfl rfl rfl
  · exact CallSt.outcome_fail _ _ rfl rfl rfl (by simp) (by simp)
  · simp only []
    split
    · exact CallSt.outcome_fail _ _ rfl rfl rfl rfl rfl
    · split
      · exact CallSt.outcome_fail _ _ rfl rfl rfl (by simp) (by simp)
      · exact CallSt.outcome_of st (fdo_call_response_outcome env qsys qport qdialer _)
          rfl rfl rfl (by simp) (by simp)

theorem fdo_call_shere_outcome (env : Env) (qsys : uuconf_system)
    (qport : Option uuconf_port) (qdialer : Option uuconf_dialer) (st : CallSt) :
    CallSt.outcome st (fdo_call_shere env qsys qport qdialer st) := by
  unfold fdo_call_shere
  simp only []
  split
  · exact CallSt.outcome_fail _ _ rfl rfl rfl (by simp) (by simp)
  · exact CallSt.outcome_fail _ _ rfl rfl rfl (by simp) (by simp)
  · split
    · exact CallSt.outcome_fail _ _ rfl rfl rfl (by simp) (by simp)
    · split
      · split
        · exact CallSt.outcome_fail _ _ rfl rfl rfl (by simp) (by simp)
        · exact CallSt.outcome_of st (fdo_call_ident_outcome env qsys qport qdialer _)
            rfl rfl rfl (by simp) (by simp)
      · exact CallSt.outcome_of st (fdo_call_ident_outcome env qsys qport qdialer _)
          rfl rfl rfl (by simp) (by simp)
/-! ## The stages of `faccept_call` and the status file -/

/-- The outcome of a stage of `faccept_call` does not depend on what the
state holds beside the status record and the statuses written. -/
theorem AcceptSt.outcome_after (st : AcceptSt) {st1 : AcceptSt} {r : Bool × AcceptSt}
    (h : AcceptSt.outcome st1 r) (hq : st1.sstat = st.sstat)
    (hs : st1.w.statuses = st.w.statuses) : AcceptSt.outcome st r := by
  unfold AcceptSt.outcome at h ⊢
  rw [hq, hs] at h
  exact h

theorem AcceptSt.fail_statuses (env : Env) (qsys : uuconf_system) (st st1 : AcceptSt)
    (hq : st1.sstat = st.sstat) (hs : st1.w.statuses = st.w.statuses) :
    AcceptSt.outcome st (AcceptSt.fail env qsys st1) := by
  unfold AcceptSt.outcome AcceptSt.fail
  intro _
  simp [hq, hs]

theorem AcceptSt.fail_now_statuses (env : Env) (qsys : uuconf_system) (st st1 : AcceptSt)
    (hq : st1.sstat = st.sstat) (hs : st1.w.statuses = st.w.statuses) :
    AcceptSt.outcome st (AcceptSt.fail_now env qsys st1) := by
  unfold AcceptSt.outcome AcceptSt.fail_now
  intro _
  simp [hq, hs]

theorem faccept_call_hangup_outcome (env : Env) (qsys : uuconf_system) (st : AcceptSt) :
    AcceptSt.outcome st (faccept_call_hangup env qsys st) := by
  have hs := fdo_call_hangup_statuses env (st.w.emit (Event.floop env.floop))
    (chars "OOOOOOO") (env.floop && env.fdebug_handshake)
  simp only [← Bool.and_assoc] at hs
  unfold faccept_call_hangup AcceptSt.outcome
  intro _
  simp only [World.statuses_ulog, World.statuses_isysdep_time, hs.1,
    World.statuses_emit, List.append_nil, true_and, and_self,
    World.statuses_fsysdep_set_status]

theorem faccept_call_start_outcome (env : Env) (qsys : uuconf_system) (p : sprotocol)
    (st : AcceptSt) : AcceptSt.outcome st (faccept_call_start env qsys p st) := by
  unfold faccept_call_start
  split
  · exact AcceptSt.fail_now_statuses env qsys st st rfl rfl
  · simp only []
    split
    · exact AcceptSt.fail_now_statuses env qsys st _ rfl (by simp)
    · exact AcceptSt.outcome_after st (faccept_call_hangup_outcome env qsys _) rfl (by simp)

theorem faccept_call_advertise_outcome (env : Env) (qsys : uuconf_system)
    (qport : Option uuconf_port) (qdialer : Option uuconf_dialer) (ftcp_port : Bool)
    (st : AcceptSt) :
    AcceptSt.outcome st (faccept_call_advertise env qsys qport qdialer ftcp_port st) := by
  unfold faccept_call_advertise
  simp only []
  split
  · exact AcceptSt.fail_statuses env qsys st _ rfl (by simp)
  · split
    · exact AcceptSt.fail_statuses env qsys st _ rfl (by simp)
    · rename_i hg
      intro hu
      have := World.zget_uucp_cmd_undefined env _ _ hg
      simp only [] at hu
      rw [this] at hu
      cases hu
    · split
      · exact AcceptSt.fail_statuses env qsys st _ rfl (by simp)
      · split
        · exact AcceptSt.fail_statuses env qsys st _ rfl (by simp)
        · split
          · exact AcceptSt.fail_statuses env qsys st _ rfl (by simp)
          · exact AcceptSt.outcome_after st (faccept_call_start_outcome env qsys _ _) rfl
              (by simp)

theorem faccept_call_protocol_outcome (env : Env) (qsys : uuconf_system)
    (qport : Option uuconf_port) (qdialer : Option uuconf_dialer) (ftcp_port : Bool)
    (st : AcceptSt) :
    AcceptSt.outcome st (faccept_call_protocol env qsys qport qdialer ftcp_port st) := by
  unfold faccept_call_protocol
  simp only []
  generalize (if st.fnew = true then chars "ROKN" else chars "ROK") = z
  split
  · exact AcceptSt.fail_statuses env qsys st _ rfl (by simp)
  · exact AcceptSt.outcome_after st (faccept_call_advertise_outcome env qsys qport qdialer
      ftcp_port _) rfl (by simp)

/-- The block of `case 'x'` writes no status. -/
theorem faccept_call_debug_statuses (env : Env) (qsys : uuconf_system) (n : Int)
    (st : AcceptSt) :
    (faccept_call_debug env qsys n st).w.statuses = st.w.statuses ∧
    (faccept_call_debug env qsys n st).sstat = st.sstat := by
  unfold faccept_call_debug
  split
  · exact ⟨rfl, rfl⟩
  · split
    · exact ⟨rfl, rfl⟩
    · split
      · exact ⟨World.statuses_ulog _ _, rfl⟩
      · exact ⟨rfl, rfl⟩

/-- The two ways the treatment of one argument ends: the call goes on in a
state with the same statuses written and the same status record, or the
argument is a sequence number that is refused. -/
theorem faccept_call_arg_cases (env : Env) (qsys : uuconf_system) (z : List Nat)
    (st : AcceptSt) (Q : ArgResult → Prop)
    (h1 : ∀ (b : Bool) (st0 : AcceptSt), st0.w.statuses = st.w.statuses →
      st0.sstat = st.sstat → Q (ArgResult.next b st0))
    (h2 : Q (ArgResult.rejected
      (AcceptSt.fail env qsys
        { st with w := (World.ulog (st.w.fsend_uucp_cmd env (chars "RBADSEQ")).2
            "Out of sequence call rejected") }).2)) :
    Q (faccept_call_arg env qsys z st) := by
  unfold faccept_call_arg
  split_ifs
  all_goals first
    | exact h1 _ _ rfl rfl
    | exact h2
    | exact h1 _ _ (faccept_call_debug_statuses env qsys _ st).1
        (faccept_call_debug_statuses env qsys _ st).2

/-- One argument of the caller leaves the status alone, unless it is a
sequence number that is refused. -/
theorem faccept_call_arg_outcome (env : Env) (qsys : uuconf_system) (z : List Nat)
    (st : AcceptSt) :
    (∀ f st1, faccept_call_arg env qsys z st = ArgResult.next f st1 →
      st1.w.statuses = st.w.statuses ∧ st1.sstat = st.sstat) ∧
    (∀ st1, faccept_call_arg env qsys z st = ArgResult.rejected st1 →
      AcceptSt.outcome st (false, st1)) := by
  apply faccept_call_arg_cases env qsys z st
    (fun r => (∀ f st1, r = ArgResult.next f st1 →
        st1.w.statuses = st.w.statuses ∧ st1.sstat = st.sstat) ∧
      (∀ st1, r = ArgResult.rejected st1 → AcceptSt.outcome st (false, st1)))
  · intro b st0 hw hq
    constructor
    · intro f st1 h
      cases h
      exact ⟨hw, hq⟩
    · intro st1 h
      cases h
  · constructor
    · intro f st1 h
      cases h
    · intro st1 h
      cases h
      exact AcceptSt.fail_statuses env qsys st _ rfl (by simp)

theorem faccept_call_args_outcome (env : Env) (qsys : uuconf_system) :
    ∀ (fuel : Nat) (z : List Nat) (st : AcceptSt) (b : Bool) (st2 : AcceptSt),
      faccept_call_args env qsys fuel z st = some (b, st2) →
      (b = true ∧ st2.w.statuses = st.w.statuses ∧ st2.sstat = st.sstat) ∨
      (b = false ∧ AcceptSt.outcome st (false, st2)) := by
  intro fuel
  induction fuel with
  | zero => intro z st b st2 h; simp [faccept_call_args] at h
  | succ fuel ih =>
    intro z st b st2 h
    rw [faccept_call_args] at h
    split_ifs at h with hz
    · simp only [Option.some.injEq, Prod.mk.injEq] at h
      obtain ⟨h1, h2⟩ := h
      subst h1 h2
      exact Or.inl ⟨rfl, rfl, rfl⟩
    · obtain ⟨hn, hr⟩ := faccept_call_arg_outcome env qsys z st
      cases ha : faccept_call_arg env qsys z st with
      | rejected st1 =>
        rw [ha] at h
        simp only [Option.some.injEq, Prod.mk.injEq] at h
        obtain ⟨h1, h2⟩ := h
        subst h1 h2
        exact Or.inr ⟨rfl, hr _ ha⟩
      | next f st1 =>
        rw [ha] at h
        simp only [] at h
        obtain ⟨hw, hq⟩ := hn f st1 ha
        have hst : (if (!f) = true then
              { st1 with w := st1.w.ulog "Unrecognized argument %s" } else st1).w.statuses =
            st.w.statuses ∧
            (if (!f) = true then
              { st1 with w := st1.w.ulog "Unrecognized argument %s" } else st1).sstat =
            st.sstat := by
          cases f <;> simp [hw, hq, World.statuses_ulog]
        rcases ih _ _ _ _ h with ⟨h1, h2, h3⟩ | ⟨h1, h2⟩
        · exact Or.inl ⟨h1, h2.trans hst.1, h3.trans hst.2⟩
        · exact Or.inr ⟨h1, AcceptSt.outcome_after st h2 hst.2 hst.1⟩

theorem faccept_call_options_outcome (env : Env) (qsys : uuconf_system)
    (qport : Option uuconf_port) (qdialer : Option uuconf_dialer) (ftcp_port : Bool)
    (zspace : Option (List Nat)) (st : AcceptSt) :
    AcceptSt.outcome st
      (faccept_call_options env qsys qport qdialer ftcp_port zspace st) := by
  unfold faccept_call_options
  split
  · split
    · exact AcceptSt.fail_statuses env qsys st _ rfl (by simp)
    · exact faccept_call_protocol_outcome env qsys qport qdialer ftcp_port st
  · simp only []
    split
    · intro hu
      cases hu
    · rename_i st2 h
      rcases faccept_call_args_outcome env qsys _ _ _ _ _ h with ⟨h1, _⟩ | ⟨_, h2⟩
      · cases h1
      · exact h2
    · rename_i st2 h
      rcases faccept_call_args_outcome env qsys _ _ _ _ _ h with ⟨_, h2, h3⟩ | ⟨h1, _⟩
      · exact AcceptSt.outcome_after st
          (faccept_call_protocol_outcome env qsys qport qdialer ftcp_port st2) h3 h2
      · cases h1
/-! ## The two writes of a session -/

theorem fdo_call_hangup_faulted (env : Env) (qsys : uuconf_system) (st : CallSt) :
    (fdo_call_hangup env qsys st).2.faulted = st.faulted := by
  unfold fdo_call_hangup
  simp only []
  split <;> rfl

theorem fdo_call_start_faulted (env : Env) (qsys : uuconf_system) (p : sprotocol)
    (st : CallSt) : (fdo_call_start env qsys p st).2.faulted = st.faulted := by
  unfold fdo_call_start
  simp only []
  split
  · rfl
  · rw [fdo_call_hangup_faulted]

theorem fdo_call_protocol_faulted (env : Env) (qsys : uuconf_system)
    (qport : Option uuconf_port) (qdialer : Option uuconf_dialer) (st : CallSt)
    (h : (fdo_call_protocol env qsys qport qdialer st).2.faulted = true) :
    st.faulted = true ∨ (fdo_call_protocol env qsys qport qdialer st).2.w.undefined = true := by
  revert h
  unfold fdo_call_protocol
  simp only []
  split
  · intro h; exact Or.inl h
  · rename_i heq
    intro _
    exact Or.inr (World.zget_uucp_cmd_undefined env st.w true heq)
  · split
    · intro h; exact Or.inl h
    · split
      · intro h; exact Or.inl h
      · split
        · intro h; exact Or.inl h
        · intro h
          rw [fdo_call_start_faulted] at h
          exact Or.inl h

theorem fdo_call_response_faulted (env : Env) (qsys : uuconf_system)
    (qport : Option uuconf_port) (qdialer : Option uuconf_dialer) (st : CallSt)
    (h : (fdo_call_response env qsys qport qdialer st).2.faulted = true) :
    st.faulted = true ∨ (fdo_call_response env qsys qport qdialer st).2.w.undefined = true := by
  revert h
  unfold fdo_call_response
  simp only []
  split
  · intro h; exact Or.inl h
  · rename_i heq
    intro _
    exact Or.inr (World.zget_uucp_cmd_undefined env st.w true heq)
  · split
    · intro h; exact Or.inl h
    · split
      · intro h; exact fdo_call_protocol_faulted env qsys qport qdialer _ h
      · split
        · intro h; exact fdo_call_protocol_faulted env qsys qport qdialer _ h
        · split
          · intro h; exact Or.inl h
          · intro h; exact Or.inl h

theorem fdo_call_ident_faulted (env : Env) (qsys : uuconf_system)
    (qport : Option uuconf_port) (qdialer : Option uuconf_dialer) (st : CallSt)
    (h : (fdo_call_ident env qsys qport qdialer st).2.faulted = true) :
    st.faulted = true ∨ (fdo_call_ident env qsys qport qdialer st).2.w.undefined = true := by
  revert h
  unfold fdo_call_ident
  split
  · intro h; exact Or.inl h
  · intro h; exact Or.inl h
  · simp only []
    split
    · intro h; exact Or.inl h
    · split
      · intro h; exact Or.inl h
      · intro h; exact fdo_call_response_faulted env qsys qport qdialer _ h

theorem fdo_call_shere_faulted (env : Env) (qsys : uuconf_system)
    (qport : Option uuconf_port) (qdialer : Option uuconf_dialer) (st : CallSt)
    (h : (fdo_call_shere env qsys qport qdialer st).2.faulted = true) :
    st.faulted = true ∨ (fdo_call_shere env qsys qport qdialer st).2.w.undefined = true := by
  revert h
  unfold fdo_call_shere
  simp only []
  split
  · intro h; exact Or.inl h
  · rename_i heq
    intro _
    exact Or.inr (World.zget_uucp_cmd_undefined env st.w true heq)
  · split
    · intro h; exact Or.inl h
    · split
      · split
        · intro h; exact Or.inl h
        · intro h; exact fdo_call_ident_faulted env qsys qport qdialer _ h
      · intro h; exact fdo_call_ident_faulted env qsys qport qdialer _ h

/-- A call of `fdo_call` in which the framer faults leaves the mark of
undefined behaviour. -/
theorem fdo_call_faulted (env : Env) (qsys : uuconf_system)
    (qport : Option uuconf_port) (qdialer : Option uuconf_dialer) (st : CallSt)
    (h : (fdo_call env qsys qport qdialer st).2.faulted = true) :
    st.faulted = true ∨ (fdo_call env qsys qport qdialer st).2.w.undefined = true := by
  revert h
  unfold fdo_call
  simp only []
  split
  · intro h; exact Or.inl h
  · split
    · intro h; exact Or.inl h
    · intro h; exact fdo_call_shere_faulted env qsys qport qdialer _ h

/-- A run of `fconn_call_open` that stays within defined behaviour is one
in which the framer did not fault in `fdo_call`. -/
theorem fconn_call_open_defined (env : Env) (qsys : uuconf_system) (p : uuconf_port)
    (qdialer : Option uuconf_dialer) (qstat : sstatus) (cretry : Int) (w : World)
    (hopen : env.fconn_open = true) (hdial : env.fconn_dial = some qdialer)
    (hdef : (fconn_call_open env qsys p qstat cretry w).2.w.undefined = false) :
    (fdo_call env qsys (some p) qdialer (fconn_call_dialed qsys qstat w)).2.faulted = false := by
  cases hf : (fdo_call env qsys (some p) qdialer (fconn_call_dialed qsys qstat w)).2.faulted
  · rfl
  · exfalso
    unfold fconn_call_open at hdef
    simp only [hopen, hdial, hf, Bool.not_true, Bool.false_eq_true, if_false, if_true] at hdef
    rcases fdo_call_faulted env qsys (some p) qdialer _ hf with h | h
    · cases h
    · rw [hdef] at h
      cases h

/-- What `fconn_call_open` makes of the result of `fdo_call` once the port
is open and the system dialed, when the framer did not fault. -/
theorem fconn_call_open_dialed (env : Env) (qsys : uuconf_system) (p : uuconf_port)
    (qdialer : Option uuconf_dialer) (qstat : sstatus) (cretry : Int) (w : World)
    (b : Bool) (st1 : CallSt)
    (hopen : env.fconn_open = true) (hdial : env.fconn_dial = some qdialer)
    (hdo : fdo_call env qsys (some p) qdialer (fconn_call_dialed qsys qstat w) = (b, st1))
    (hf : st1.faulted = false) :
    fconn_call_open env qsys p qstat cretry w =
      if b = true then
        (true, { st1 with w := (st1.w.emit (Event.conn_close true)).emit Event.conn_unlock })
      else
        (false,
          { st1 with
            qstat :=
              { ttype := st1.pterr, cretries := to_int (st1.qstat.cretries + 1),
                ilast := env.clock st1.w.ticks,
                cwait := if cretry = 0 then env.CRETRY_WAIT (to_int (st1.qstat.cretries + 1))
                  else to_int (cretry * 60) }
            w := ((((st1.w.emit (Event.conn_close false)).isysdep_time env).2.fsysdep_set_status
              env qsys
              { ttype := st1.pterr, cretries := to_int (st1.qstat.cretries + 1),
                ilast := env.clock st1.w.ticks,
                cwait := if cretry = 0 then env.CRETRY_WAIT (to_int (st1.qstat.cretries + 1))
                  else to_int (cretry * 60) }).2.emit Event.conn_unlock) }) := by
  unfold fconn_call_open
  simp only [hopen, hdial, hdo, hf]
  cases b <;> simp [World.emit, World.isysdep_time, World.fsysdep_set_status]

/-- The call of `fdo_call` when the chat succeeds and the talking status
cannot be written. -/
theorem fdo_call_talking_unwritten (env : Env) (qsys : uuconf_system)
    (qport : Option uuconf_port) (qdialer : Option uuconf_dialer) (st : CallSt)
    (hchat : env.fchat = true) (hstat : env.fsysdep_set_status st.w.nstat = false) :
    fdo_call env qsys qport qdialer st =
      (false,
        { st with
          pterr := tstatus_type.STATUS_LOGIN_FAILED
          qstat := { ttype := tstatus_type.STATUS_TALKING, ilast := env.clock st.w.ticks,
                     cretries := 0, cwait := 0 }
          w := ((st.w.isysdep_time env).2.fsysdep_set_status env qsys
            { ttype := tstatus_type.STATUS_TALKING, ilast := env.clock st.w.ticks,
              cretries := 0, cwait := 0 }).2 }) := by
  unfold fdo_call
  simp [hchat, hstat, World.isysdep_time, World.fsysdep_set_status]

theorem fdo_call_talking_statuses (env : Env) (qsys : uuconf_system) (qstat : sstatus)
    (w : World) :
    (fdo_call_talking env (fconn_call_dialed qsys qstat w) qsys).w.statuses =
      w.statuses ++ [{ ttype := tstatus_type.STATUS_TALKING, ilast := env.clock w.ticks,
                       cretries := 0, cwait := 0 }] ∧
    (fdo_call_talking env (fconn_call_dialed qsys qstat w) qsys).w.floops = w.floops ∧
    (fdo_call_talking env (fconn_call_dialed qsys qstat w) qsys).qstat =
      { ttype := tstatus_type.STATUS_TALKING, ilast := env.clock w.ticks,
        cretries := 0, cwait := 0 } ∧
    (fdo_call_talking env (fconn_call_dialed qsys qstat w) qsys).pterr =
      tstatus_type.STATUS_HANDSHAKE_FAILED := by
  simp [fdo_call_talking, fconn_call_dialed, World.statuses, World.floops, World.emit,
    World.ulog, List.filterMap_append]

/-- The status `fconn_call_open` writes after a failure of `fdo_call`, in
terms of what `fdo_call` left behind. -/
theorem fconn_call_open_dialed_failed (env : Env) (qsys : uuconf_system) (p : uuconf_port)
    (qdialer : Option uuconf_dialer) (qstat : sstatus) (cretry : Int) (w : World)
    (st1 : CallSt)
    (hopen : env.fconn_open = true) (hdial : env.fconn_dial = some qdialer)
    (hdo : fdo_call env qsys (some p) qdialer (fconn_call_dialed qsys qstat w) =
      (false, st1))
    (hf : st1.faulted = false) :
    (fconn_call_open env qsys p qstat cretry w).2.qstat =
      { ttype := st1.pterr, cretries := to_int (st1.qstat.cretries + 1),
        ilast := env.clock st1.w.ticks,
        cwait := if cretry = 0 then env.CRETRY_WAIT (to_int (st1.qstat.cretries + 1))
          else to_int (cretry * 60) } ∧
    (fconn_call_open env qsys p qstat cretry w).2.w.statuses =
      st1.w.statuses ++ [(fconn_call_open env qsys p qstat cretry w).2.qstat] ∧
    (fconn_call_open env qsys p qstat cretry w).2.w.floops = st1.w.floops ∧
    (fconn_call_open env qsys p qstat cretry w).2.w.ticks = st1.w.ticks + 1 := by
  rw [fconn_call_open_dialed env qsys p qdialer qstat cretry w false st1 hopen hdial hdo hf]
  simp

/-- C37. Failure bookkeeping: whenever `fconn_call` fails once it has a
port, in a run that stays within defined behaviour and in which the `int`
arithmetic of `qstat->cretries++` and `cretry * 60` does not overflow, the
status it writes last and leaves in `*qstat` has the time of the attempt
(the last reading of the clock), a retry count one above the count of the
status record at that point, and a wait of 60 times the retry interval of
the matched time span when that is not zero and the default back-off
`CRETRY_WAIT` for the new count otherwise.  The kind is port failed when
the open fails, dial failed when dialing fails and login failed when the
login chat fails, each with a count one above the count `fcall` read; after
a chat that succeeds the count is 1, and the kind is handshake failed when
`floop` was not called, failed when `floop` was called and failed, and
login failed when the talking status could not be written. -/
theorem C37_failure_bookkeeping (env : Env) (qsys : uuconf_system) (p : uuconf_port)
    (qstat : sstatus) (cretry : Int) (w : World)
    (hfail : (fconn_call_open env qsys p qstat cretry w).1 = false)
    (hdef : (fconn_call_open env qsys p qstat cretry w).2.w.undefined = false)
    (hlo : INT_MIN ≤ qstat.cretries) (hhi : qstat.cretries < INT_MAX)
    (hwlo : INT_MIN ≤ cretry * 60) (hwhi : cretry * 60 ≤ INT_MAX) :
    (fconn_call_open env qsys p qstat cretry w).2.w.statuses.getLast? =
      some (fconn_call_open env qsys p qstat cretry w).2.qstat ∧
    0 < (fconn_call_open env qsys p qstat cretry w).2.w.ticks ∧
    (fconn_call_open env qsys p qstat cretry w).2.qstat.ilast =
      env.clock ((fconn_call_open env qsys p qstat cretry w).2.w.ticks - 1) ∧
    (fconn_call_open env qsys p qstat cretry w).2.qstat.cwait =
      (if cretry = 0 then
        env.CRETRY_WAIT (fconn_call_open env qsys p qstat cretry w).2.qstat.cretries
       else cretry * 60) ∧
    (env.fconn_open = false →
      (fconn_call_open env qsys p qstat cretry w).2.qstat.ttype =
        tstatus_type.STATUS_PORT_FAILED ∧
      (fconn_call_open env qsys p qstat cretry w).2.qstat.cretries = qstat.cretries + 1) ∧
    (env.fconn_open = true → env.fconn_dial = none →
      (fconn_call_open env qsys p qstat cretry w).2.qstat.ttype =
        tstatus_type.STATUS_DIAL_FAILED ∧
      (fconn_call_open env qsys p qstat cretry w).2.qstat.cretries = qstat.cretries + 1) ∧
    (env.fconn_open = true → env.fconn_dial ≠ none → env.fchat = false →
      (fconn_call_open env qsys p qstat cretry w).2.qstat.ttype =
        tstatus_type.STATUS_LOGIN_FAILED ∧
      (fconn_call_open env qsys p qstat cretry w).2.qstat.cretries = qstat.cretries + 1) ∧
    (env.fconn_open = true → env.fconn_dial ≠ none → env.fchat = true →
      (fconn_call_open env qsys p qstat cretry w).2.qstat.cretries = 1 ∧
      (env.fsysdep_set_status w.nstat = false →
        (fconn_call_open env qsys p qstat cretry w).2.qstat.ttype =
          tstatus_type.STATUS_LOGIN_FAILED) ∧
      (env.fsysdep_set_status w.nstat = true →
        ((fconn_call_open env qsys p qstat cretry w).2.qstat.ttype =
            tstatus_type.STATUS_HANDSHAKE_FAILED ∧
          (fconn_call_open env qsys p qstat cretry w).2.w.floops = w.floops) ∨
        ((fconn_call_open env qsys p qstat cretry w).2.qstat.ttype =
            tstatus_type.STATUS_FAILED ∧
          (fconn_call_open env qsys p qstat cretry w).2.w.floops = w.floops ++ [false]))) := by
  have hc : to_int (qstat.cretries + 1) = qstat.cretries + 1 :=
    to_int_of_range _ (by omega) (by omega)
  have hwt : to_int (cretry * 60) = cretry * 60 := to_int_of_range _ hwlo hwhi
  cases hopen : env.fconn_open
  · unfold fconn_call_open
    simp [hopen, hc, hwt]
  · cases hdial : env.fconn_dial with
    | none =>
      unfold fconn_call_open
      simp [hopen, hdial, hc, hwt]
    | some d =>
      have hf0 := fconn_call_open_defined env qsys p d qstat cretry w hopen hdial hdef
      cases hdo : fdo_call env qsys (some p) d (fconn_call_dialed qsys qstat w) with
      | mk b st1 =>
        have hf : st1.faulted = false := by rw [hdo] at hf0; exact hf0
        cases b
        · obtain ⟨h1, h2, h3, h4⟩ :=
            fconn_call_open_dialed_failed env qsys p d qstat cretry w st1 hopen hdial hdo hf
          refine ⟨by rw [h2]; simp, by omega, by rw [h4, h1]; rfl, by rw [h1, hwt], by simp,
            by simp, ?_, ?_⟩
          · intro _ _ hchat
            have e : fdo_call env qsys (some p) d (fconn_call_dialed qsys qstat w) =
                (false, { fconn_call_dialed qsys qstat w with
                  pterr := tstatus_type.STATUS_LOGIN_FAILED }) := by
              unfold fdo_call
              simp [hchat]
            rw [hdo] at e
            cases e
            rw [h1]
            exact ⟨rfl, hc⟩
          · intro _ _ hchat
            cases hstat : env.fsysdep_set_status w.nstat
            · have e := fdo_call_talking_unwritten env qsys (some p) d
                (fconn_call_dialed qsys qstat w) hchat hstat
              rw [hdo] at e
              cases e
              rw [h1]
              simp
            · have e := fdo_call_logged_in env qsys (some p) d
                (fconn_call_dialed qsys qstat w) hchat hstat
              have o := fdo_call_shere_outcome env qsys (some p) d
                (fdo_call_talking env (fconn_call_dialed qsys qstat w) qsys)
              rw [← e, hdo] at o
              obtain ⟨t1, t2, t3, t4⟩ := fdo_call_talking_statuses env qsys qstat w
              unfold CallSt.outcome at o
              simp only [Bool.false_eq_true, if_false] at o
              obtain ⟨_, o1, _, o3⟩ := o
              rw [h1, h3, o1, t3]
              refine ⟨by simp, by simp, fun _ => ?_⟩
              rcases o3 with ⟨o4, o5⟩ | ⟨o4, o5⟩
              · exact Or.inl ⟨o4.trans t4, o5.trans t2⟩
              · exact Or.inr ⟨o4, by rw [o5, t2]⟩
        · rw [fconn_call_open_dialed env qsys p d qstat cretry w true st1 hopen hdial hdo hf]
            at hfail
          simp at hfail

/-- An instance of C37: a call on which nothing arrives fails after the
login, with a count of 1 and a wait of 60 times the retry interval. -/
theorem C37_failure_bookkeeping_witness :
    (fconn_call_open {} {} {} { cretries := 3 } 5 {}).1 = false ∧
    (fconn_call_open {} {} {} { cretries := 3 } 5 {}).2.qstat =
      { ttype := tstatus_type.STATUS_HANDSHAKE_FAILED, cretries := 1, ilast := 0,
        cwait := 300 } ∧
    (fconn_call_open {} {} {} { cretries := 3 } 5 {}).2.qstat.cwait =
      (if (5 : Int) = 0 then
        ({} : Env).CRETRY_WAIT (fconn_call_open {} {} {} { cretries := 3 } 5 {}).2.qstat.cretries
       else 5 * 60) :=
  ⟨by decide, by decide,
    (C37_failure_bookkeeping {} {} {} { cretries := 3 } 5 {} (by decide) (by decide) (by decide)
      (by decide) (by decide) (by decide)).2.2.2.1⟩
theorem faccept_call_talking_statuses (env : Env) (qsys : uuconf_system) (st : AcceptSt) :
    (faccept_call_talking env qsys st).w.statuses =
      st.w.statuses ++ [{ ttype := tstatus_type.STATUS_TALKING, cretries := 0,
                          ilast := env.clock st.w.ticks, cwait := 0 }] ∧
    (faccept_call_talking env qsys st).sstat =
      { ttype := tstatus_type.STATUS_TALKING, cretries := 0,
        ilast := env.clock st.w.ticks, cwait := 0 } := by
  simp [faccept_call_talking, World.statuses, List.filterMap_append]

/-- C33, amended. The status file during a session that stays within
defined behaviour.  A caller session that passes the login chat writes the
status exactly twice: first with kind talking, a count of 0 and a wait of
0, then with a final kind, which is complete exactly when the call succeeds
and else failed or handshake failed, except that it is login failed when
the first write itself fails.  An answerer session that has the lock of the
system (and is not to call back) writes the status exactly twice: first
with kind talking, a count of 0 and a wait of 0, then with kind complete
when it returns TRUE and failed when it returns FALSE. -/
theorem C33_status_written_twice (env : Env) (qsys : uuconf_system) (p : uuconf_port)
    (qdialer : Option uuconf_dialer) (qstat : sstatus) (cretry : Int) (w : World)
    (envA : Env) (qsysA : uuconf_system) (qportA : Option uuconf_port)
    (qdialerA : Option uuconf_dialer) (ftcp_port : Bool) (zspace : Option LinePtr)
    (st : AcceptSt) :
    (env.fconn_open = true → env.fconn_dial = some qdialer → env.fchat = true →
      (fconn_call_open env qsys p qstat cretry w).2.w.undefined = false →
      (fconn_call_open env qsys p qstat cretry w).2.w.statuses =
        w.statuses ++
          [{ ttype := tstatus_type.STATUS_TALKING, ilast := env.clock w.ticks,
             cretries := 0, cwait := 0 },
           (fconn_call_open env qsys p qstat cretry w).2.qstat] ∧
      (env.fsysdep_set_status w.nstat = true →
        ((fconn_call_open env qsys p qstat cretry w).1 = true ∧
          (fconn_call_open env qsys p qstat cretry w).2.qstat.ttype =
            tstatus_type.STATUS_COMPLETE) ∨
        ((fconn_call_open env qsys p qstat cretry w).1 = false ∧
          ((fconn_call_open env qsys p qstat cretry w).2.qstat.ttype =
              tstatus_type.STATUS_FAILED ∨
            (fconn_call_open env qsys p qstat cretry w).2.qstat.ttype =
              tstatus_type.STATUS_HANDSHAKE_FAILED))) ∧
      (env.fsysdep_set_status w.nstat = false →
        (fconn_call_open env qsys p qstat cretry w).1 = false ∧
        (fconn_call_open env qsys p qstat cretry w).2.qstat.ttype =
          tstatus_type.STATUS_LOGIN_FAILED)) ∧
    (qsysA.uuconf_fcallback = false → envA.fsysdep_lock_system qsysA.uuconf_zname = true →
      (faccept_call_known envA qsysA qportA qdialerA ftcp_port zspace st).2.w.undefined =
        false →
      (faccept_call_known envA qsysA qportA qdialerA ftcp_port zspace st).2.w.statuses =
        st.w.statuses ++
          [{ ttype := tstatus_type.STATUS_TALKING, cretries := 0,
             ilast := envA.clock st.w.ticks, cwait := 0 },
           (faccept_call_known envA qsysA qportA qdialerA ftcp_port zspace st).2.sstat] ∧
      (faccept_call_known envA qsysA qportA qdialerA ftcp_port zspace st).2.sstat.ttype =
        (if (faccept_call_known envA qsysA qportA qdialerA ftcp_port zspace st).1 = true
         then tstatus_type.STATUS_COMPLETE else tstatus_type.STATUS_FAILED)) := by
  constructor
  · intro hopen hdial hchat hdef
    have hf0 := fconn_call_open_defined env qsys p qdialer qstat cretry w hopen hdial hdef
    obtain ⟨t1, t2, t3, t4⟩ := fdo_call_talking_statuses env qsys qstat w
    cases hdo : fdo_call env qsys (some p) qdialer (fconn_call_dialed qsys qstat w) with
    | mk b st1 =>
      have hf : st1.faulted = false := by rw [hdo] at hf0; exact hf0
      cases hstat : env.fsysdep_set_status w.nstat
      · have e := fdo_call_talking_unwritten env qsys (some p) qdialer
          (fconn_call_dialed qsys qstat w) hchat hstat
        rw [hdo] at e
        cases e
        obtain ⟨h1, h2, _, _⟩ := fconn_call_open_dialed_failed env qsys p qdialer qstat
          cretry w _ hopen hdial hdo hf
        refine ⟨?_, by simp, fun _ => ⟨?_, ?_⟩⟩
        · rw [h2]
          simp [fconn_call_dialed]
        · rw [fconn_call_open_dialed env qsys p qdialer qstat cretry w false _ hopen hdial hdo
            hf]
          rfl
        · rw [h1]
      · have e := fdo_call_logged_in env qsys (some p) qdialer
          (fconn_call_dialed qsys qstat w) hchat hstat
        have o := fdo_call_shere_outcome env qsys (some p) qdialer
          (fdo_call_talking env (fconn_call_dialed qsys qstat w) qsys)
        rw [← e, hdo] at o
        unfold CallSt.outcome at o
        cases b
        · simp only [Bool.false_eq_true, if_false] at o
          obtain ⟨_, o1, o2, o3⟩ := o
          obtain ⟨h1, h2, _, _⟩ := fconn_call_open_dialed_failed env qsys p qdialer qstat
            cretry w _ hopen hdial hdo hf
          refine ⟨?_, fun _ => Or.inr ⟨?_, ?_⟩, by simp⟩
          · rw [h2, o2, t1]
            simp
          · rw [fconn_call_open_dialed env qsys p qdialer qstat cretry w false _ hopen hdial
              hdo hf]
            rfl
          · rw [h1]
            rcases o3 with ⟨o4, _⟩ | ⟨o4, _⟩
            · exact Or.inr (o4.trans t4)
            · exact Or.inl o4
        · simp only [if_true] at o
          obtain ⟨_, o1, o2, _⟩ := o
          rw [fconn_call_open_dialed env qsys p qdialer qstat cretry w true _ hopen hdial hdo
            hf]
          simp only [if_true]
          refine ⟨?_, fun _ => Or.inl ⟨trivial, o2⟩, by simp⟩
          simp [o1, t1]
  · intro hcb hlock hdef
    obtain ⟨t1, _⟩ := faccept_call_talking_statuses envA qsysA st
    have hopt : ∀ zs : Option (List Nat),
        faccept_call_known envA qsysA qportA qdialerA ftcp_port zspace st =
          faccept_call_options envA qsysA qportA qdialerA ftcp_port zs
            (faccept_call_talking envA qsysA st) →
        (faccept_call_known envA qsysA qportA qdialerA ftcp_port zspace st).2.w.statuses =
          st.w.statuses ++
            [{ ttype := tstatus_type.STATUS_TALKING, cretries := 0,
               ilast := envA.clock st.w.ticks, cwait := 0 },
             (faccept_call_known envA qsysA qportA qdialerA ftcp_port zspace st).2.sstat] ∧
        (faccept_call_known envA qsysA qportA qdialerA ftcp_port zspace st).2.sstat.ttype =
          (if (faccept_call_known envA qsysA qportA qdialerA ftcp_port zspace st).1 = true
           then tstatus_type.STATUS_COMPLETE else tstatus_type.STATUS_FAILED) := by
      intro zs hk
      rw [hk] at hdef ⊢
      obtain ⟨h1, h2, _, _⟩ := faccept_call_options_outcome envA qsysA qportA qdialerA
        ftcp_port zs (faccept_call_talking envA qsysA st) hdef
      refine ⟨?_, h2⟩
      rw [h1, t1]
      simp
    cases zspace with
    | none =>
      exact hopt none (faccept_call_known_none envA qsysA qportA qdialerA ftcp_port st hcb hlock)
    | some ptr =>
      cases hread : faccept_call_zspace envA qsysA ptr with
      | none =>
        rw [faccept_call_known_unread envA qsysA qportA qdialerA ftcp_port ptr st hcb hlock
          hread] at hdef
        cases hdef
      | some z =>
        exact hopt (some z)
          (faccept_call_known_some envA qsysA qportA qdialerA ftcp_port ptr z st hcb hlock hread)

/-- An instance of C33: a caller that is answered `ROKN` and `Pt`, and an
answerer whose caller sent the options `-N -pA` and chooses the protocol
`t`. -/
theorem C33_status_written_twice_witness :
    (fconn_call_open example_caller { uuconf_zname := chars "bravo" } example_plain_port {} 0
        { input := recv_lines [chars "Shere=bravo", chars "ROKN", chars "Pt"] }).2.w.statuses =
      ([] : List sstatus) ++
        [{ ttype := tstatus_type.STATUS_TALKING, ilast := example_caller.clock 0,
           cretries := 0, cwait := 0 },
         (fconn_call_open example_caller { uuconf_zname := chars "bravo" } example_plain_port
            {} 0
            { input := recv_lines [chars "Shere=bravo", chars "ROKN", chars "Pt"] }).2.qstat] ∧
    (faccept_call_known example_plain_answerer { uuconf_zname := chars "foo" } none none false
        (example_zspace (chars "Sfoo -N -pA"))
        { w := { input := recv_lines [chars "Ut"] } }).2.w.statuses =
      ([] : List sstatus) ++
        [{ ttype := tstatus_type.STATUS_TALKING, cretries := 0,
           ilast := example_plain_answerer.clock 0, cwait := 0 },
         (faccept_call_known example_plain_answerer { uuconf_zname := chars "foo" } none none
            false (example_zspace (chars "Sfoo -N -pA"))
            { w := { input := recv_lines [chars "Ut"] } }).2.sstat] :=
  ⟨((C33_status_written_twice example_caller { uuconf_zname := chars "bravo" }
      example_plain_port none {} 0
      { input := recv_lines [chars "Shere=bravo", chars "ROKN", chars "Pt"] }
      example_plain_answerer { uuconf_zname := chars "foo" } none none false
      (example_zspace (chars "Sfoo -N -pA"))
      { w := { input := recv_lines [chars "Ut"] } }).1 (by decide) (by decide) (by decide)
      (by decide)).1,
   ((C33_status_written_twice example_caller { uuconf_zname := chars "bravo" }
      example_plain_port none {} 0
      { input := recv_lines [chars "Shere=bravo", chars "ROKN", chars "Pt"] }
      example_plain_answerer { uuconf_zname := chars "foo" } none none false
      (example_zspace (chars "Sfoo -N -pA"))
      { w := { input := recv_lines [chars "Ut"] } }).2 (by decide) (by decide) (by decide)).1⟩

/-- A counterexample to C33 as it was worded: a caller session that passes
the login chat and whose second write has none of the kinds complete,
failed and handshake failed; the write of the talking status fails, and
the status written after it has kind login failed. -/
theorem C33_counterexample :
    ({ fsysdep_set_status := fun _ => false } : Env).fconn_open = true ∧
    ({ fsysdep_set_status := fun _ => false } : Env).fconn_dial = some none ∧
    ({ fsysdep_set_status := fun _ => false } : Env).fchat = true ∧
    (fconn_call_open { fsysdep_set_status := fun _ => false } {} {} {} 0 {}).2.w.statuses.map
        (fun s => s.ttype) =
      [tstatus_type.STATUS_TALKING, tstatus_type.STATUS_LOGIN_FAILED] ∧
    (fconn_call { fsysdep_set_status := fun _ => false } {} (some {}) {} 0 {}).2.w.statuses.map
        (fun s => s.ttype) =
      [tstatus_type.STATUS_TALKING, tstatus_type.STATUS_LOGIN_FAILED] := by
  decide
end Uucico
